import Mathlib

/-!
# Address matching service: a shallow embedding of `address_matcher.c`

C strings are modelled as lists of characters (`CStr`): a NUL-terminated byte
string is the list of its bytes before the terminator, each byte read as the
character with that code.  A fixed-size `char` array of size `n` therefore holds
a list of at most `n - 1` characters.

A finite double is modelled as the rational number that it denotes.  The
strategies compare and store the scores of `score_components`, whose arithmetic
is exact; `score_components_double` is the same function with every product and
sum rounded to a double, for the statements about the value of the score itself.
NaN and the infinities have no counterpart: only `atof` on the reply of the
oracle can bring them in, and the parameter `atof` stands for the conversion of
the texts that it reads as a finite number.
-/

namespace AMS

/-- A C string: the characters before the terminating NUL. -/
abbrev CStr := List Char

/-! ## Limits from `address_matcher.h` and `address_matcher.c` -/

def AMS_MAX_ID_LENGTH : Nat := 64
def AMS_MAX_FIELD_LENGTH : Nat := 128
def AMS_MAX_STATE_LENGTH : Nat := 16
def AMS_MAX_POSTAL_LENGTH : Nat := 32
def AMS_MAX_DIRECTION_LENGTH : Nat := 16
def AMS_MAX_SUFFIX_LENGTH : Nat := 32
def AMS_MAX_CANONICAL_LENGTH : Nat := 256
def AMS_MAX_LINE_LENGTH : Nat := 512
def AMS_MAX_REASON_LENGTH : Nat := 128
def AMS_MAX_STRATEGY_LENGTH : Nat := 32
def AMS_MAX_DIAGNOSTIC_LENGTH : Nat := 64
def MATCHER_MAX_CANDIDATES : Nat := 16
def MATCHER_MAX_BREAKDOWN_ENTRIES : Nat := 8
def AMS_MAX_TOKENS : Nat := 64

/-- The record `AddressComponents` of the header. -/
structure AddressComponents where
  street_number : CStr
  street_direction : CStr
  street_name : CStr
  street_suffix : CStr
  unit : CStr
  city : CStr
  state : CStr
  postal_code : CStr
  canonical_key : CStr
  deriving DecidableEq, Repr

/-! ## Character classes of `<ctype.h>` in the C locale -/

/-- C `isdigit`. -/
def isdigit (c : Char) : Bool := decide (48 ≤ c.toNat) && decide (c.toNat ≤ 57)

/-- C `isspace`: space, and the control characters tab to carriage return. -/
def isspace (c : Char) : Bool :=
  decide (c.toNat = 32) || (decide (9 ≤ c.toNat) && decide (c.toNat ≤ 13))

/-- C `toupper`: the letters a to z move to A to Z, every other byte is kept. -/
def toupper (c : Char) : Char :=
  if 97 ≤ c.toNat ∧ c.toNat ≤ 122 then Char.ofNat (c.toNat - 32) else c

/-! ## String helpers -/

/-- Function `copy_field(dest, dest_size, src)`: the value left in `dest`, for `dest_size > 0`. -/
def copy_field (dest_size : Nat) (src : CStr) : CStr := src.take (dest_size - 1)

/-- Function `uppercase_inplace`. -/
def uppercase_inplace (value : CStr) : CStr := value.map toupper

/-- Function `trim_whitespace`: `start` skips leading white space, `end` backs over trailing
white space, and the characters in between are kept. -/
def trim_whitespace (value : CStr) : CStr :=
  ((value.dropWhile isspace).reverse.dropWhile isspace).reverse

/-- C `strncat(dest, src, n)`: at most `n` characters of `src` are appended. -/
def strncat (dest src : CStr) (n : Nat) : CStr := dest ++ src.take n

/-- C `strstr(hay, needle)`: the offset of the first occurrence of `needle`, if there is one. -/
def strstr : CStr → CStr → Option Nat
  | [], needle => if needle.isEmpty then some 0 else none
  | c :: t, needle =>
    if needle.isPrefixOf (c :: t) then some 0
    else match strstr t needle with
      | some k => some (k + 1)
      | none => none

/-! ## Lookup tables -/

/-- Table `STATE_CODES`. -/
def STATE_CODES : List CStr :=
  ["AL", "AK", "AZ", "AR", "CA", "CO", "CT", "DE", "FL", "GA", "HI", "ID", "IL", "IN", "IA", "KS",
   "KY", "LA", "ME", "MD", "MA", "MI", "MN", "MS", "MO", "MT", "NE", "NV", "NH", "NJ", "NM", "NY",
   "NC", "ND", "OH", "OK", "OR", "PA", "RI", "SC", "SD", "TN", "TX", "UT", "VT", "VA", "WA", "WV",
   "WI", "WY", "DC"].map String.toList

/-- Table `EXPANSIONS`: pairs of needle and replacement. -/
def EXPANSIONS : List (CStr × CStr) :=
  [(" ST ", " STREET "), (" ST.", " STREET"), (" AVE ", " AVENUE "),
   (" AVE.", " AVENUE"), (" RD ", " ROAD "), (" RD.", " ROAD"),
   (" BLVD ", " BOULEVARD "), (" BLVD.", " BOULEVARD"), (" DR ", " DRIVE "),
   (" DR.", " DRIVE"), (" LN ", " LANE "), (" LN.", " LANE"),
   (" CT ", " COURT "), (" CT.", " COURT"), (" PKY ", " PARKWAY "),
   (" PKWY ", " PARKWAY "), (" HWY ", " HIGHWAY "), (" HWY.", " HIGHWAY"),
   (" PL ", " PLACE "), (" PL.", " PLACE"), (" SQ ", " SQUARE "),
   (" SQ.", " SQUARE"), (" CIR ", " CIRCLE "), (" CIR.", " CIRCLE"),
   (" TER ", " TERRACE "), (" TER.", " TERRACE"), (" APT ", " APARTMENT "),
   (" APT.", " APARTMENT"), (" STE ", " SUITE "), (" STE.", " SUITE"),
   (" N ", " NORTH "), (" S ", " SOUTH "), (" E ", " EAST "),
   (" W ", " WEST "), (" NE ", " NORTHEAST "), (" NW ", " NORTHWEST "),
   (" SE ", " SOUTHEAST "), (" SW ", " SOUTHWEST ")].map
    (fun p => (p.1.toList, p.2.toList))

/-- Table `NUMBERED_STREETS`: pairs of needle and replacement. -/
def NUMBERED_STREETS : List (CStr × CStr) :=
  [(" 1ST ", " FIRST "), (" 2ND ", " SECOND "), (" 3RD ", " THIRD "),
   (" 4TH ", " FOURTH "), (" 5TH ", " FIFTH "), (" 6TH ", " SIXTH "),
   (" 7TH ", " SEVENTH "), (" 8TH ", " EIGHTH "), (" 9TH ", " NINTH "),
   (" 10TH ", " TENTH "), (" 11TH ", " ELEVENTH "), (" 12TH ", " TWELFTH "),
   (" 13TH ", " THIRTEENTH "), (" 14TH ", " FOURTEENTH "), (" 15TH ", " FIFTEENTH "),
   (" 16TH ", " SIXTEENTH "), (" 17TH ", " SEVENTEENTH "), (" 18TH ", " EIGHTEENTH "),
   (" 19TH ", " NINETEENTH "), (" 20TH ", " TWENTIETH "), (" 21ST ", " TWENTY-FIRST "),
   (" 22ND ", " TWENTY-SECOND "),
   (" 23RD ", " TWENTY-THIRD "),
   (" 24TH ", " TWENTY-FOURTH "),
   (" 25TH ", " TWENTY-FIFTH "),
   (" 26TH ", " TWENTY-SIXTH "),
   (" 27TH ", " TWENTY-SEVENTH "),
   (" 28TH ", " TWENTY-EIGHTH "),
   (" 29TH ", " TWENTY-NINTH "),
   (" 30TH ", " THIRTIETH "),
   (" 31ST ", " THIRTY-FIRST "),
   (" 32ND ", " THIRTY-SECOND "),
   (" 33RD ", " THIRTY-THIRD "),
   (" 34TH ", " THIRTY-FOURTH "),
   (" 35TH ", " THIRTY-FIFTH "),
   (" 36TH ", " THIRTY-SIXTH "),
   (" 37TH ", " THIRTY-SEVENTH "),
   (" 38TH ", " THIRTY-EIGHTH "),
   (" 39TH ", " THIRTY-NINTH "),
   (" 40TH ", " FORTIETH "),
   (" 41ST ", " FORTY-FIRST "),
   (" 42ND ", " FORTY-SECOND "),
   (" 43RD ", " FORTY-THIRD "),
   (" 44TH ", " FORTY-FOURTH "),
   (" 45TH ", " FORTY-FIFTH "),
   (" 46TH ", " FORTY-SIXTH "),
   (" 47TH ", " FORTY-SEVENTH "),
   (" 48TH ", " FORTY-EIGHTH "),
   (" 49TH ", " FORTY-NINTH "),
   (" 50TH ", " FIFTIETH ")].map
    (fun p => (p.1.toList, p.2.toList))

/-- Table `DIRECTIONAL_MAP`: pairs of token and canonical code. -/
def DIRECTIONAL_MAP : List (CStr × CStr) :=
  [("N", "N"), ("NORTH", "N"), ("S", "S"), ("SOUTH", "S"),
   ("E", "E"), ("EAST", "E"), ("W", "W"), ("WEST", "W"),
   ("NE", "NE"), ("NORTHEAST", "NE"), ("NW", "NW"), ("NORTHWEST", "NW"),
   ("SE", "SE"), ("SOUTHEAST", "SE"), ("SW", "SW"), ("SOUTHWEST", "SW")].map
    (fun p => (p.1.toList, p.2.toList))

/-- Table `PRIMARY_SUFFIXES`. -/
def PRIMARY_SUFFIXES : List CStr :=
  ["ALLEY", "ALLY", "AVENUE", "AVE", "BEND", "BLVD", "BOULEVARD", "CIRCLE",
   "CIR", "COURT", "CT", "DRIVE", "DR", "FREEWAY", "FWY", "HIGHWAY",
   "HWY", "LANE", "LN", "LOOP", "PARKWAY", "PKWY", "PLACE", "PL",
   "ROAD", "RD", "STREET", "ST", "TERRACE", "TER", "TRAIL", "TRL",
   "WAY"].map String.toList

/-- Table `UNIT_TOKENS`. -/
def UNIT_TOKENS : List CStr :=
  ["APT", "APARTMENT", "UNIT", "STE", "SUITE", "#", "RM",
   "ROOM", "FLOOR", "FL", "LEVEL", "BLDG", "BUILDING"].map String.toList

/-- Table `WEIGHTS`, as the decimal numbers of the source; `WEIGHTS_double` holds the doubles
that are stored for them. -/
def WEIGHTS : List ℚ := [35 / 100, 25 / 100, 5 / 100, 5 / 100, 15 / 100, 5 / 100, 10 / 100]

/-! ## Token classifiers and normalisers -/

/-- Function `is_zip_code`: digits, and dashes only from index 5 on, with at least five digits.
The helper walks the token with the index `i` and the digit count. -/
def is_zip_code_loop : CStr → Nat → Nat → Bool
  | [], _, digits => decide (5 ≤ digits)
  | c :: t, i, digits =>
    if isdigit c then is_zip_code_loop t (i + 1) (digits + 1)
    else if c = '-' ∧ 5 ≤ i then is_zip_code_loop t (i + 1) digits
    else false

/-- Function `is_zip_code`. -/
def is_zip_code (token : CStr) : Bool :=
  if token.isEmpty then false else is_zip_code_loop token 0 0

/-- The loop of `canonicalize_zip`: `filtered` is what has been written so far (so that
`write_index` is its length); the loop stops when the 31 character room is used up. -/
def canonicalize_zip_loop : CStr → CStr → CStr
  | [], filtered => filtered
  | c :: t, filtered =>
    if filtered.length < AMS_MAX_POSTAL_LENGTH - 1 then
      if isdigit c then canonicalize_zip_loop t (filtered ++ [c])
      else if c = '-' ∧ 5 ≤ filtered.length then canonicalize_zip_loop t (filtered ++ [c])
      else canonicalize_zip_loop t filtered
    else filtered

/-- Function `canonicalize_zip`. -/
def canonicalize_zip (postal : CStr) : CStr :=
  copy_field AMS_MAX_POSTAL_LENGTH (canonicalize_zip_loop postal [])

/-- Function `normalize_direction`: the canonical code of a directional word, and the token
itself when the token is not in the table. -/
def normalize_direction (token : CStr) : CStr :=
  match DIRECTIONAL_MAP.find? (fun m => token = m.1) with
  | some m => m.2
  | none => token

/-- Function `normalize_state`: the table entry when the (upper-cased, 15 character) token is
a two-letter code of the table, and otherwise the static `fallback` buffer, which holds the
first two characters of the upper-cased token. -/
def normalize_state (token : CStr) : CStr :=
  let upper := uppercase_inplace (copy_field AMS_MAX_STATE_LENGTH token)
  match (if upper.length = 2 then STATE_CODES.find? (fun s => upper = s) else none) with
  | some code => code
  | none =>
    let fallback := copy_field AMS_MAX_STATE_LENGTH upper
    if 2 < fallback.length then fallback.take 2 else fallback

/-- Function `is_primary_suffix`. -/
def is_primary_suffix (token : CStr) : Bool := PRIMARY_SUFFIXES.any (fun s => token = s)

/-- Function `is_unit_token`. -/
def is_unit_token (token : CStr) : Bool := UNIT_TOKENS.any (fun s => token = s)

/-- Function `is_unit_followup`.  Reading `token[0]` of an empty string gives the NUL byte,
which is neither `#` nor a digit. -/
def is_unit_followup (token : CStr) : Bool :=
  if token.head? = some '#' then true
  else if (token.head?.map isdigit).getD false then true
  else if token.length ≤ 3 then true
  else false

/-- Function `normalize_ordinal_token`: with `offset = length - 2`, the last two characters are
cut off when the first character and the one before the offset are digits and the last two are
one of ST, ND, RD, TH. -/
def normalize_ordinal_token (token : CStr) : CStr :=
  let length := token.length
  if length < 3 then token
  else
    let offset := length - 2
    if (token.head?.map isdigit).getD false ∧ ((token.get? (offset - 1)).map isdigit).getD false then
      if (token.get? offset = some 'S' ∧ token.get? (offset + 1) = some 'T') ∨
         (token.get? offset = some 'N' ∧ token.get? (offset + 1) = some 'D') ∨
         (token.get? offset = some 'R' ∧ token.get? (offset + 1) = some 'D') ∨
         (token.get? offset = some 'T' ∧ token.get? (offset + 1) = some 'H') then
        token.take offset
      else token
    else token

/-- Function `extract_house_number`: on success the pair of the number written to
`number_out` and the remainder left in `token`; `none` stands for the return value 0. -/
def extract_house_number (token : CStr) (number_size : Nat) : Option (CStr × CStr) :=
  if token.isEmpty then none
  else
    let run := token.takeWhile (fun c => isdigit c || c = '-')
    let idx := run.length
    if idx = 0 then none
    else
      let copy_length := if idx < number_size then idx else number_size - 1
      let number_out := token.take copy_length
      let rest := (token.drop idx).dropWhile (fun c => c = '-')
      some (number_out, rest)

/-! ## Canonical key -/

/-- Function `clear_address_components`: every field zeroed. -/
def clear_address_components : AddressComponents :=
  { street_number := [], street_direction := [], street_name := [], street_suffix := [],
    unit := [], city := [], state := [], postal_code := [], canonical_key := [] }

/-- The loop of `compute_canonical_key` over `parts`, with the loop index `i` and the key
written so far: a separator goes in front of every part but the first when there is room for
it, and `strncat` appends what fits of a non-empty part. -/
def compute_canonical_key_loop : List CStr → Nat → CStr → CStr
  | [], _, key => key
  | part :: rest, i, key =>
    let key1 :=
      if 0 < i ∧ key.length + 1 < AMS_MAX_CANONICAL_LENGTH then key ++ ['|'] else key
    let key2 :=
      if part ≠ [] then strncat key1 part (AMS_MAX_CANONICAL_LENGTH - key1.length - 1) else key1
    compute_canonical_key_loop rest (i + 1) key2

/-- The array `parts` of `compute_canonical_key`. -/
def canonical_parts (c : AddressComponents) : List CStr :=
  [c.street_number, c.street_direction, c.street_name, c.street_suffix, c.city, c.state,
   c.postal_code]

/-- Function `compute_canonical_key`. -/
def compute_canonical_key (components : AddressComponents) : AddressComponents :=
  if components.street_number = [] ∨ components.street_name = [] then
    { components with canonical_key := [] }
  else
    { components with
      canonical_key := compute_canonical_key_loop (canonical_parts components) 0 [] }

/-! ## Text expansion -/

/-- The `while (pos)` loop of `expand_address_text` for one needle.  The buffer is
`done ++ rest`, where `rest` is the part `strstr` still searches.  A replacement that would
not fit in the 512 byte buffer ends the loop.  Every round removes at least the needle from
`rest`, so a fuel of the length of `rest` is never used up. -/
def replace_loop (needle replacement : CStr) : Nat → CStr → CStr → CStr
  | 0, done, rest => done ++ rest
  | fuel + 1, done, rest =>
    match strstr rest needle with
    | none => done ++ rest
    | some k =>
      if needle.length < replacement.length ∧
          AMS_MAX_LINE_LENGTH - 1 ≤
            (done ++ rest).length + (replacement.length - needle.length) then
        done ++ rest
      else
        replace_loop needle replacement fuel (done ++ rest.take k ++ replacement)
          (rest.drop (k + needle.length))

/-- One pass of the `for` loops of `expand_address_text`: every entry of the table is applied
to the buffer in turn. -/
def apply_replacements (table : List (CStr × CStr)) (buffer : CStr) : CStr :=
  table.foldl (fun buf r => replace_loop r.1 r.2 (buf.length + 1) [] buf) buffer

/-- Function `expand_address_text` with `dest_size = 512`: the source is wrapped in spaces
(`snprintf` keeps 511 characters), upper-cased, and rewritten with the two tables. -/
def expand_address_text (source : CStr) : CStr :=
  let buffer := uppercase_inplace (copy_field AMS_MAX_LINE_LENGTH ([' '] ++ source ++ [' ']))
  let buffer := apply_replacements EXPANSIONS buffer
  let buffer := apply_replacements NUMBERED_STREETS buffer
  copy_field AMS_MAX_LINE_LENGTH buffer

/-! ## Tokens -/

/-- One slot of the arrays `tokens` and `active` of `parse_address`. -/
structure Token where
  text : CStr
  active : Bool
  deriving DecidableEq, Repr

/-- All the tokens that successive calls of `strtok(buffer, delims)` return: the maximal runs
of characters that are not delimiters.  `cur` is the run being read. -/
def strtok_all (delims : CStr) : CStr → CStr → List CStr
  | [], cur => if cur.isEmpty then [] else [cur]
  | c :: t, cur =>
    if delims.contains c then
      if cur.isEmpty then strtok_all delims t [] else cur :: strtok_all delims t []
    else strtok_all delims t (cur ++ [c])

/-- The token loop of `parse_address`: each `strtok` token is trimmed and, when something is
left, stored (cut to 127 characters) and marked active; the loop ends at 64 tokens. -/
def collect_tokens : List CStr → List Token → List Token
  | [], acc => acc
  | token :: rest, acc =>
    if acc.length < AMS_MAX_TOKENS then
      let token := trim_whitespace token
      if token ≠ [] then
        collect_tokens rest (acc ++ [{ text := copy_field AMS_MAX_FIELD_LENGTH token, active := true }])
      else collect_tokens rest acc
    else acc

/-- The token array that `parse_address` builds from its input. -/
def tokenize (input : CStr) : List Token :=
  let expanded := expand_address_text input
  let buffer := uppercase_inplace (copy_field AMS_MAX_LINE_LENGTH expanded)
  collect_tokens (strtok_all [' ', ','] buffer []) []

/-- Index of the first active token that satisfies `p` (a left-to-right scan). -/
def scan_left (p : CStr → Bool) : List Token → Option Nat
  | [] => none
  | t :: ts =>
    if t.active && p t.text then some 0
    else match scan_left p ts with
      | some k => some (k + 1)
      | none => none

/-- Index of the last active token that satisfies `p` (a right-to-left scan). -/
def scan_right (p : CStr → Bool) : List Token → Option Nat
  | [] => none
  | t :: ts =>
    match scan_right p ts with
    | some k => some (k + 1)
    | none => if t.active && p t.text then some 0 else none

/-- Apply `f` to the token at index `idx`. -/
def modify_at (f : Token → Token) : Nat → List Token → List Token
  | _, [] => []
  | 0, t :: ts => f t :: ts
  | n + 1, t :: ts => t :: modify_at f n ts

/-- The assignment `active[idx] = 0`. -/
def deactivate (idx : Nat) (toks : List Token) : List Token :=
  modify_at (fun t => { t with active := false }) idx toks

/-- The text `tokens[idx]` (empty outside the array). -/
def token_text (toks : List Token) (idx : Nat) : CStr :=
  match toks.get? idx with
  | some t => t.text
  | none => []

/-! ## The extraction steps of `parse_address`

Each step takes the token array and gives back the field it fills together with the array
after the step. -/

/-- Postal code step: the rightmost active token that is a ZIP code is copied to
`postal_code`, canonicalised and deactivated. -/
def postal_step (toks : List Token) : CStr × List Token :=
  match scan_right is_zip_code toks with
  | some idx =>
    (canonicalize_zip (copy_field AMS_MAX_POSTAL_LENGTH (token_text toks idx)),
      deactivate idx toks)
  | none => ([], toks)

/-- State step: the rightmost active token for which `normalize_state` returns a non-empty
string gives the state and is deactivated. -/
def state_step (toks : List Token) : CStr × List Token :=
  match scan_right (fun t => !(normalize_state t).isEmpty) toks with
  | some idx =>
    (copy_field AMS_MAX_STATE_LENGTH (normalize_state (token_text toks idx)),
      deactivate idx toks)
  | none => ([], toks)

/-- The loop that gathers the unit, started at the unit token: `toks` is the array from the
loop index on and `unit` the text written so far.  Each round appends the token (as far as
the 128 byte field allows) and a space, deactivates the token, and goes on only while the
next token is active and a unit follow-up. -/
def unit_loop : List Token → CStr → CStr × List Token
  | [], unit => (unit, [])
  | t :: rest, unit =>
    if !t.active then (unit, t :: rest)
    else
      let unit1 := unit ++ copy_field (AMS_MAX_FIELD_LENGTH - unit.length) t.text
      let unit2 := if unit1.length + 1 < AMS_MAX_FIELD_LENGTH then unit1 ++ [' '] else unit1
      let t1 : Token := { t with active := false }
      match rest with
      | [] => (unit2, [t1])
      | n :: more =>
        if !n.active || !is_unit_followup n.text then (unit2, t1 :: n :: more)
        else
          let r := unit_loop (n :: more) unit2
          (r.1, t1 :: r.2)

/-- Unit step: the first active token that is a unit designator or starts with `#` begins the
unit; the gathered text is trimmed and upper-cased. -/
def unit_step (toks : List Token) : CStr × List Token :=
  match scan_left (fun t => is_unit_token t || t.head? = some '#') toks with
  | some unit_index =>
    let r := unit_loop (toks.drop unit_index) []
    (uppercase_inplace (trim_whitespace r.1), toks.take unit_index ++ r.2)
  | none => ([], toks)

/-- House number step: the first active token on which `extract_house_number` succeeds gives
the number; the token keeps its remainder, and is deactivated when nothing remains. -/
def number_step (toks : List Token) : CStr × List Token :=
  match scan_left (fun t => (extract_house_number t AMS_MAX_FIELD_LENGTH).isSome) toks with
  | some idx =>
    match extract_house_number (token_text toks idx) AMS_MAX_FIELD_LENGTH with
    | some (number, rest) =>
      if rest.isEmpty then
        (number, modify_at (fun _ => { text := rest, active := false }) idx toks)
      else
        (number,
          modify_at (fun t => { t with text := copy_field AMS_MAX_FIELD_LENGTH rest }) idx toks)
    | none => ([], toks)
  | none => ([], toks)

/-- Directional step: only the first active token is looked at; when `normalize_direction`
returns a non-empty string for it, that string is stored and the token deactivated. -/
def direction_step (toks : List Token) : CStr × List Token :=
  match scan_left (fun _ => true) toks with
  | some idx =>
    let direction := normalize_direction (token_text toks idx)
    if !direction.isEmpty then
      (copy_field AMS_MAX_DIRECTION_LENGTH direction, deactivate idx toks)
    else ([], toks)
  | none => ([], toks)

/-- Suffix step: the first active token that is a primary suffix is stored and deactivated;
its index is `suffix_index` (`none` for the value -1). -/
def suffix_step (toks : List Token) : CStr × Option Nat × List Token :=
  match scan_left is_primary_suffix toks with
  | some idx =>
    (copy_field AMS_MAX_SUFFIX_LENGTH (token_text toks idx), some idx, deactivate idx toks)
  | none => ([], none, toks)

/-- The final loop of `parse_address`: active tokens after the suffix index are joined into
`city_buffer`, the others, after `normalize_ordinal_token`, into `street_buffer`.  The result
is the pair of `street_buffer` and `city_buffer`. -/
def partition_loop (suffix_index : Option Nat) : List Token → Nat → CStr → CStr → CStr × CStr
  | [], _, street_buffer, city_buffer => (street_buffer, city_buffer)
  | t :: rest, idx, street_buffer, city_buffer =>
    if !t.active then partition_loop suffix_index rest (idx + 1) street_buffer city_buffer
    else if (match suffix_index with
             | some s => decide (s < idx)
             | none => false) then
      let city1 :=
        if city_buffer ≠ [] then
          strncat city_buffer [' '] (AMS_MAX_FIELD_LENGTH - city_buffer.length - 1)
        else city_buffer
      let city2 := strncat city1 t.text (AMS_MAX_FIELD_LENGTH - city1.length - 1)
      partition_loop suffix_index rest (idx + 1) street_buffer city2
    else
      let normalized := normalize_ordinal_token (copy_field AMS_MAX_FIELD_LENGTH t.text)
      let street1 :=
        if street_buffer ≠ [] then
          strncat street_buffer [' '] (AMS_MAX_FIELD_LENGTH - street_buffer.length - 1)
        else street_buffer
      let street2 := strncat street1 normalized (AMS_MAX_FIELD_LENGTH - street1.length - 1)
      partition_loop suffix_index rest (idx + 1) street2 city_buffer

/-- The body of `parse_address` once the token array is built and not empty. -/
def parse_tokens (toks : List Token) : AddressComponents :=
  let postal := postal_step toks
  let state := state_step postal.2
  let unit := unit_step state.2
  let number := number_step unit.2
  let direction := direction_step number.2
  let suffix := suffix_step direction.2
  let buffers := partition_loop suffix.2.1 suffix.2.2 0 [] []
  compute_canonical_key
    { street_number := number.1
      street_direction := direction.1
      street_name := uppercase_inplace (copy_field AMS_MAX_FIELD_LENGTH buffers.1)
      street_suffix := suffix.1
      unit := unit.1
      city := uppercase_inplace (copy_field AMS_MAX_FIELD_LENGTH buffers.2)
      state := state.1
      postal_code := postal.1
      canonical_key := [] }

/-- Function `parse_address` for a non-NULL `input` and `out`: the return value and the
record left in `out`. -/
def parse_address (input : CStr) : Int × AddressComponents :=
  if input.isEmpty then (-1, clear_address_components)
  else
    let toks := tokenize input
    if toks.length = 0 then (-1, clear_address_components)
    else (0, parse_tokens toks)

/-! ## Similarity primitives -/

/-- The inner `for j` loop of `levenshtein_distance` for the character `x = left[i - 1]`:
the argument lists are `right` from index `j - 1` on and `prev` from index `j - 1` on, and
`before` is `curr[j - 1]`; the result is `curr` from index `j` on. -/
def levenshtein_row (x : Char) : CStr → List Nat → Nat → List Nat
  | y :: ys, p0 :: p1 :: ps, before =>
    let cost := if x = y then 0 else 1
    let deletion := p1 + 1
    let insertion := before + 1
    let substitution := p0 + cost
    let minimum := if deletion < insertion then deletion else insertion
    let minimum := if substitution < minimum then substitution else minimum
    minimum :: levenshtein_row x ys (p1 :: ps) minimum
  | _, _, _ => []

/-- The outer `for i` loop of `levenshtein_distance`: `left` from index `i - 1` on, the index
`i`, and the row `prev`; the result is the last row computed. -/
def levenshtein_rows (right : CStr) : CStr → Nat → List Nat → List Nat
  | [], _, prev => prev
  | x :: xs, i, prev =>
    levenshtein_rows right xs (i + 1) (i :: levenshtein_row x right prev i)

/-- Function `levenshtein_distance`.  `rows_allocated` tells whether both `malloc` calls for
the work rows succeed.  The `int` entries are natural numbers here: they never exceed the
longer length. -/
def levenshtein_distance (rows_allocated : Bool) (left right : CStr) : Nat :=
  let len_left := left.length
  let len_right := right.length
  if len_left = 0 then len_right
  else if len_right = 0 then len_left
  else if !rows_allocated then (if len_left > len_right then len_left else len_right)
  else
    let prev := List.range (len_right + 1)
    ((levenshtein_rows right left 1 prev).get? len_right).getD 0

/-- Function `similarity_ratio` (arguments not NULL). -/
def similarity_ratio (rows_allocated : Bool) (left right : CStr) : ℚ :=
  if left.isEmpty ∨ right.isEmpty then 0
  else if left = right then 1
  else
    let distance := levenshtein_distance rows_allocated left right
    let max_len := if left.length > right.length then left.length else right.length
    if max_len = 0 then 0
    else
      let ratio : ℚ := 1 - (distance : ℚ) / (max_len : ℚ)
      if ratio < 0 then 0 else if ratio > 1 then 1 else ratio

/-! ## Component scorer -/

/-- The record `ScoreComparison`. -/
structure ScoreComparison where
  key : CStr
  value : CStr
  weight : ℚ
  deriving DecidableEq

/-- The record `ScoreBreakdown`; `comparison_count` is the length of `comparisons`. -/
structure ScoreBreakdown where
  score : ℚ
  comparisons : List ScoreComparison
  deriving DecidableEq

/-- Function `add_breakdown_entry`. -/
def add_breakdown_entry (breakdown : ScoreBreakdown) (key left right : CStr) (weight : ℚ) :
    ScoreBreakdown :=
  if MATCHER_MAX_BREAKDOWN_ENTRIES ≤ breakdown.comparisons.length then breakdown
  else
    let left_safe := copy_field AMS_MAX_FIELD_LENGTH left
    let right_safe := copy_field AMS_MAX_FIELD_LENGTH right
    let remaining := AMS_MAX_FIELD_LENGTH - 1
    let combined := left_safe.take remaining
    let remaining := remaining - combined.length
    let combined := if 0 < remaining then combined ++ ['|'] else combined
    let remaining := if 0 < remaining then remaining - 1 else remaining
    let combined := combined ++ right_safe.take remaining
    { breakdown with
      comparisons := breakdown.comparisons ++
        [{ key := copy_field AMS_MAX_FIELD_LENGTH key
           value := copy_field AMS_MAX_FIELD_LENGTH combined
           weight := weight }] }

/-- The entry `WEIGHTS[i]`. -/
def weight_at (i : Nat) : ℚ := WEIGHTS.getD i 0

/-- The signal of an exact comparison: 1 when both strings are present and equal, else 0. -/
def exact_match (left right : CStr) : ℚ :=
  if ¬ left.isEmpty ∧ ¬ right.isEmpty then (if left = right then 1 else 0) else 0

/-- Function `score_components` (arguments not NULL), the score accumulated in exact
arithmetic; see `score_components_double` for the sum as the doubles give it. -/
def score_components (rows_allocated : Bool) (left right : AddressComponents)
    (require_zip : Bool) : ScoreBreakdown :=
  let breakdown : ScoreBreakdown := { score := 0, comparisons := [] }
  let score : ℚ := 0
  let number_match := exact_match left.street_number right.street_number
  let score := score + weight_at 0 * number_match
  let breakdown := add_breakdown_entry breakdown "street_number".toList
    left.street_number right.street_number (weight_at 0)
  let name_similarity := similarity_ratio rows_allocated left.street_name right.street_name
  let score := score + weight_at 1 * name_similarity
  let breakdown := add_breakdown_entry breakdown "street_name".toList
    left.street_name right.street_name (weight_at 1)
  let left_dir := normalize_direction left.street_direction
  let right_dir := normalize_direction right.street_direction
  let dir_match := exact_match left_dir right_dir
  let score := score + weight_at 2 * dir_match
  let breakdown := add_breakdown_entry breakdown "directional".toList
    left_dir right_dir (weight_at 2)
  let suffix_match := exact_match left.street_suffix right.street_suffix
  let score := score + weight_at 3 * suffix_match
  let breakdown := add_breakdown_entry breakdown "suffix".toList
    left.street_suffix right.street_suffix (weight_at 3)
  let city_similarity := similarity_ratio rows_allocated left.city right.city
  let score := score + weight_at 4 * city_similarity
  let breakdown := add_breakdown_entry breakdown "city".toList left.city right.city (weight_at 4)
  let state_match := exact_match left.state right.state
  let score := score + weight_at 5 * state_match
  let breakdown := add_breakdown_entry breakdown "state".toList left.state right.state
    (weight_at 5)
  let left_zip := canonicalize_zip (copy_field AMS_MAX_POSTAL_LENGTH left.postal_code)
  let right_zip := canonicalize_zip (copy_field AMS_MAX_POSTAL_LENGTH right.postal_code)
  let zip_match := exact_match left_zip right_zip
  let zip_match :=
    if require_zip ∧ ¬ left_zip.isEmpty ∧ right_zip.isEmpty then 0 else zip_match
  let score := score + weight_at 6 * zip_match
  let breakdown := add_breakdown_entry breakdown "postal_code".toList left_zip right_zip
    (weight_at 6)
  { breakdown with score := score }

/-! ## The scorer in double arithmetic

A finite `double` is the rational number that it denotes.  An arithmetic operation gives the
exact result rounded to the nearest double, a tie going to the double whose significand is
even (IEEE 754 binary64 in the default rounding mode, each operation rounded on its own).
The rounding below is the one of the normal range, magnitudes from `2 ^ -1022` up to the
largest double; every product and sum in `score_components` lies in it or is zero. -/

/-- The integer nearest to `x`, a tie going to the even neighbour. -/
def round_half_even (x : ℚ) : Int :=
  let low : Int := Rat.floor x
  let part : ℚ := x - low
  if part < 1 / 2 then low
  else if 1 / 2 < part then low + 1
  else if low % 2 = 0 then low else low + 1

/-- A positive rational scaled by powers of two into the interval from 1 up to 2: the scaled
value and the exponent of the power of two taken out.  The fuel bounds the number of
halvings and doublings. -/
def scale_binary : Nat → ℚ → Int → ℚ × Int
  | 0, a, e => (a, e)
  | fuel + 1, a, e =>
    if 2 ≤ a then scale_binary fuel (a / 2) (e + 1)
    else if a < 1 then scale_binary fuel (a * 2) (e - 1)
    else (a, e)

/-- The double nearest to the rational `x`: the significand is rounded to 53 bits, a tie
going to the even significand. -/
def round_double (x : ℚ) : ℚ :=
  if x = 0 then 0
  else
    let scaled := scale_binary 2200 |x| 0
    let significand : Int := round_half_even (scaled.1 * 2 ^ 52)
    let unit : ℚ :=
      if 0 ≤ scaled.2 then (2 : ℚ) ^ scaled.2.toNat / 2 ^ 52
      else 1 / (2 ^ (-scaled.2).toNat * 2 ^ 52)
    if x < 0 then -(significand * unit) else significand * unit

/-- The sum of two doubles. -/
def double_add (a b : ℚ) : ℚ := round_double (a + b)

/-- The difference of two doubles. -/
def double_sub (a b : ℚ) : ℚ := round_double (a - b)

/-- The product of two doubles. -/
def double_mul (a b : ℚ) : ℚ := round_double (a * b)

/-- The quotient of two doubles, the divisor not zero. -/
def double_div (a b : ℚ) : ℚ := round_double (a / b)

/-- Table `WEIGHTS` as it is stored: each decimal literal is the double nearest to it. -/
def WEIGHTS_double : List ℚ := WEIGHTS.map round_double

/-- The entry `WEIGHTS[i]` as a double. -/
def weight_at_double (i : Nat) : ℚ := WEIGHTS_double.getD i 0

/-- Function `similarity_ratio` (arguments not NULL) in double arithmetic. -/
def similarity_ratio_double (rows_allocated : Bool) (left right : CStr) : ℚ :=
  if left.isEmpty ∨ right.isEmpty then 0
  else if left = right then 1
  else
    let distance := levenshtein_distance rows_allocated left right
    let max_len := if left.length > right.length then left.length else right.length
    if max_len = 0 then 0
    else
      let ratio : ℚ := double_sub 1 (double_div (distance : ℚ) (max_len : ℚ))
      if ratio < 0 then 0 else if ratio > 1 then 1 else ratio

/-- Function `score_components` (arguments not NULL) in double arithmetic: every
`score += WEIGHTS[i] * signal` is a product and a sum of doubles. -/
def score_components_double (rows_allocated : Bool) (left right : AddressComponents)
    (require_zip : Bool) : ScoreBreakdown :=
  let breakdown : ScoreBreakdown := { score := 0, comparisons := [] }
  let score : ℚ := 0
  let number_match := exact_match left.street_number right.street_number
  let score := double_add score (double_mul (weight_at_double 0) number_match)
  let breakdown := add_breakdown_entry breakdown "street_number".toList
    left.street_number right.street_number (weight_at_double 0)
  let name_similarity :=
    similarity_ratio_double rows_allocated left.street_name right.street_name
  let score := double_add score (double_mul (weight_at_double 1) name_similarity)
  let breakdown := add_breakdown_entry breakdown "street_name".toList
    left.street_name right.street_name (weight_at_double 1)
  let left_dir := normalize_direction left.street_direction
  let right_dir := normalize_direction right.street_direction
  let dir_match := exact_match left_dir right_dir
  let score := double_add score (double_mul (weight_at_double 2) dir_match)
  let breakdown := add_breakdown_entry breakdown "directional".toList
    left_dir right_dir (weight_at_double 2)
  let suffix_match := exact_match left.street_suffix right.street_suffix
  let score := double_add score (double_mul (weight_at_double 3) suffix_match)
  let breakdown := add_breakdown_entry breakdown "suffix".toList
    left.street_suffix right.street_suffix (weight_at_double 3)
  let city_similarity := similarity_ratio_double rows_allocated left.city right.city
  let score := double_add score (double_mul (weight_at_double 4) city_similarity)
  let breakdown := add_breakdown_entry breakdown "city".toList left.city right.city
    (weight_at_double 4)
  let state_match := exact_match left.state right.state
  let score := double_add score (double_mul (weight_at_double 5) state_match)
  let breakdown := add_breakdown_entry breakdown "state".toList left.state right.state
    (weight_at_double 5)
  let left_zip := canonicalize_zip (copy_field AMS_MAX_POSTAL_LENGTH left.postal_code)
  let right_zip := canonicalize_zip (copy_field AMS_MAX_POSTAL_LENGTH right.postal_code)
  let zip_match := exact_match left_zip right_zip
  let zip_match :=
    if require_zip ∧ ¬ left_zip.isEmpty ∧ right_zip.isEmpty then 0 else zip_match
  let score := double_add score (double_mul (weight_at_double 6) zip_match)
  let breakdown := add_breakdown_entry breakdown "postal_code".toList left_zip right_zip
    (weight_at_double 6)
  { breakdown with score := score }

/-! ## Location catalog -/

/-- The record `LocationRecord`. -/
structure LocationRecord where
  location_id : CStr
  street : CStr
  city : CStr
  state : CStr
  postal_code : CStr
  components : AddressComponents
  deriving DecidableEq

/-- The store `LocationStore`: `count` is the length of `items`. -/
abbrev LocationStore := List LocationRecord

/-- The body of the row loop of `location_store_load`: the record built from one row of
`(location_id, street, city, state, postal_code)`, none of them NULL. -/
def load_record (location_id street city state postal_code : CStr) : LocationRecord :=
  let street := uppercase_inplace (copy_field AMS_MAX_FIELD_LENGTH street)
  let city := uppercase_inplace (copy_field AMS_MAX_FIELD_LENGTH city)
  let state := uppercase_inplace (copy_field AMS_MAX_STATE_LENGTH state)
  let postal_code :=
    canonicalize_zip (uppercase_inplace (copy_field AMS_MAX_POSTAL_LENGTH postal_code))
  let composite :=
    copy_field AMS_MAX_LINE_LENGTH
      (street ++ [',', ' '] ++ city ++ [',', ' '] ++ state ++ [' '] ++ postal_code)
  { location_id := copy_field AMS_MAX_ID_LENGTH location_id
    street := street
    city := city
    state := state
    postal_code := postal_code
    components := (parse_address composite).2 }

/-- Function `location_store_load` on the rows that the query returns, appended to `store`
(the connection and the growth of the array are assumed to succeed). -/
def location_store_load (store : LocationStore)
    (rows : List (CStr × CStr × CStr × CStr × CStr)) : LocationStore :=
  store ++ rows.map (fun r => load_record r.1 r.2.1 r.2.2.1 r.2.2.2.1 r.2.2.2.2)

/-! ## Candidates -/

/-- The record `MatchCandidate`; the pointer `location` is modelled by the record it points
to, and `confidence` is a finite double. -/
structure MatchCandidate where
  location : LocationRecord
  confidence : ℚ
  strategy : CStr
  reason : CStr
  breakdown : ScoreBreakdown
  deriving DecidableEq

/-- The record `MatchResult`; `count` is the length of `items`. -/
structure MatchResult where
  items : List MatchCandidate
  has_best_candidate : Bool
  best_index : Nat
  selected_strategy : CStr
  selected_confidence : CStr
  record_components : AddressComponents
  raw_address : CStr
  deriving DecidableEq

/-- The record `MatcherConfig`. -/
structure MatcherConfig where
  structured_min_confidence : ℚ
  fuzzy_min_confidence : ℚ
  llm_min_confidence : ℚ
  max_candidates : Nat
  llm_enabled : Bool
  llm_command : CStr
  deriving DecidableEq

/-- Function `match_result_init`. -/
def match_result_init : MatchResult :=
  { items := [], has_best_candidate := false, best_index := 0, selected_strategy := [],
    selected_confidence := [], record_components := clear_address_components,
    raw_address := [] }

/-- C `strcmp` on byte strings, by sign: negative, zero or positive. -/
def strcmp : CStr → CStr → Int
  | [], [] => 0
  | [], _ :: _ => -1
  | _ :: _, [] => 1
  | a :: as, b :: bs =>
    if a.toNat < b.toNat then -1 else if b.toNat < a.toNat then 1 else strcmp as bs

/-- Function `compare_candidates`, on candidates whose confidences are finite. -/
def compare_candidates (left right : MatchCandidate) : Int :=
  if left.confidence < right.confidence then 1
  else if left.confidence > right.confidence then -1
  else strcmp left.location.location_id right.location.location_id

/-- The first loop of `add_candidate`: index of the first item with the given id. -/
def find_existing (items : List MatchCandidate) (location_id : CStr) : Option Nat :=
  items.findIdx? (fun c => strcmp c.location.location_id location_id = 0)

/-- The last loop of `add_candidate`: starting from `(SIZE_MAX, 1.1)`, the index and value of
the lowest confidence; an item takes over only when strictly lower than the value held.
`idx` is the index of the head of the list. -/
def find_lowest : List MatchCandidate → Nat → Option Nat × ℚ → Option Nat × ℚ
  | [], _, acc => acc
  | c :: cs, idx, acc =>
    if c.confidence < acc.2 then find_lowest cs (idx + 1) (some idx, c.confidence)
    else find_lowest cs (idx + 1) acc

/-- Replace the item at index `idx`. -/
def set_item (items : List MatchCandidate) (idx : Nat) (c : MatchCandidate) :
    List MatchCandidate :=
  items.set idx c

/-- Function `add_candidate` with `strategy`, `reason` and `breakdown` not NULL. -/
def add_candidate (result : MatchResult) (location : LocationRecord) (confidence : ℚ)
    (strategy reason : CStr) (breakdown : ScoreBreakdown) (max_candidates : Nat) :
    MatchResult :=
  let incoming : MatchCandidate :=
    { location := location
      confidence := confidence
      strategy := copy_field AMS_MAX_STRATEGY_LENGTH strategy
      reason := copy_field AMS_MAX_REASON_LENGTH reason
      breakdown := breakdown }
  match find_existing result.items location.location_id with
  | some existing_index =>
    match result.items.get? existing_index with
    | some old =>
      if confidence > old.confidence then
        { result with
          items := set_item result.items existing_index
            { incoming with location := old.location } }
      else result
    | none => result
  | none =>
    if result.items.length < max_candidates ∧ result.items.length < MATCHER_MAX_CANDIDATES then
      { result with items := result.items ++ [incoming] }
    else
      match find_lowest result.items 0 (none, 11 / 10) with
      | (some lowest_index, lowest_confidence) =>
        if confidence > lowest_confidence then
          { result with items := set_item result.items lowest_index incoming }
        else result
      | (none, _) => result

/-! ## Configuration -/

/-- One threshold of `matcher_config_init`: the override is taken when the variable is set,
not empty, and its value lies strictly between 0 and 1. -/
def threshold_from_env (atof : CStr → ℚ) (default : ℚ) (env : Option CStr) : ℚ :=
  match env with
  | some text =>
    if text.isEmpty then default
    else if 0 < atof text ∧ atof text < 1 then atof text else default
  | none => default

/-- Function `matcher_config_init`.  The environment is the function `getenv`; the C library
conversions `atof` and `atoi` are parameters. -/
def matcher_config_init (getenv : CStr → Option CStr) (atof : CStr → ℚ) (atoi : CStr → Int) :
    MatcherConfig :=
  let max_candidates : Nat :=
    match getenv "AMS_MAX_CANDIDATES".toList with
    | some text =>
      if text.isEmpty then 5
      else if 0 < atoi text ∧ atoi text ≤ (MATCHER_MAX_CANDIDATES : Int) then (atoi text).toNat
      else 5
    | none => 5
  let command : Option CStr :=
    match getenv "AMS_LLM_COMMAND".toList with
    | some text => if text.isEmpty then none else some text
    | none => none
  { structured_min_confidence :=
      threshold_from_env atof (65 / 100) (getenv "AMS_STRUCTURED_THRESHOLD".toList)
    fuzzy_min_confidence :=
      threshold_from_env atof (55 / 100) (getenv "AMS_FUZZY_THRESHOLD".toList)
    llm_min_confidence :=
      threshold_from_env atof (70 / 100) (getenv "AMS_LLM_THRESHOLD".toList)
    max_candidates := max_candidates
    llm_enabled := command.isSome
    llm_command :=
      match command with
      | some text => copy_field AMS_MAX_FIELD_LENGTH text
      | none => [] }

/-- The configuration that `matcher_config_init` gives when no variable is set. -/
def default_config : MatcherConfig :=
  matcher_config_init (fun _ => none) (fun _ => 0) (fun _ => 0)

/-! ## Strategies -/

/-- Function `strategy_canonical`. -/
def strategy_canonical (rows_allocated : Bool) (query : AddressComponents)
    (store : LocationStore) (config : MatcherConfig) (result : MatchResult) : MatchResult :=
  if query.canonical_key.isEmpty then result
  else
    store.foldl
      (fun result location =>
        if location.components.canonical_key.isEmpty then result
        else if strcmp query.canonical_key location.components.canonical_key ≠ 0 then result
        else
          let breakdown := score_components rows_allocated query location.components true
          let confidence : ℚ := if breakdown.score ≥ 9 / 10 then 1 else breakdown.score
          add_candidate result location confidence "canonical".toList
            "canonical_key_match".toList breakdown config.max_candidates)
      result

/-- Function `strategy_structured`. -/
def strategy_structured (rows_allocated : Bool) (query : AddressComponents)
    (store : LocationStore) (config : MatcherConfig) (result : MatchResult) : MatchResult :=
  store.foldl
    (fun result location =>
      let breakdown := score_components rows_allocated query location.components false
      if breakdown.score ≥ config.structured_min_confidence then
        add_candidate result location breakdown.score "structured".toList
          "weighted_component_score".toList breakdown config.max_candidates
      else result)
    result

/-- The value `fuzzy_score` that `strategy_fuzzy` computes for one catalog record. -/
def fuzzy_score (rows_allocated : Bool) (query : AddressComponents)
    (location : LocationRecord) : ℚ :=
  let structured := score_components rows_allocated query location.components false
  let name_similarity :=
    similarity_ratio rows_allocated query.street_name location.components.street_name
  let city_similarity := similarity_ratio rows_allocated query.city location.components.city
  let postal_similarity : ℚ :=
    if ¬ query.postal_code.isEmpty ∧ ¬ location.components.postal_code.isEmpty then
      similarity_ratio rows_allocated query.postal_code location.components.postal_code
    else 0
  let fuzzy_score : ℚ :=
    6 / 10 * structured.score + 25 / 100 * name_similarity + 15 / 100 * city_similarity
  let fuzzy_score := if postal_similarity > 8 / 10 then fuzzy_score + 5 / 100 else fuzzy_score
  if fuzzy_score > 1 then 1 else fuzzy_score

/-- Function `strategy_fuzzy`. -/
def strategy_fuzzy (rows_allocated : Bool) (query : AddressComponents)
    (store : LocationStore) (config : MatcherConfig) (result : MatchResult) : MatchResult :=
  store.foldl
    (fun result location =>
      let structured := score_components rows_allocated query location.components false
      let score := fuzzy_score rows_allocated query location
      if score ≥ config.fuzzy_min_confidence then
        add_candidate result location score "fuzzy".toList
          "approximate_text_similarity".toList structured config.max_candidates
      else result)
    result

/-- Function `find_location_by_id`. -/
def find_location_by_id (store : LocationStore) (location_id : CStr) : Option LocationRecord :=
  store.find? (fun r => strcmp r.location_id location_id = 0)

/-- The token loop of `strategy_llm` over the reply: the last `location_id=` and the last
`confidence=` token win. -/
def parse_reply (atof : CStr → ℚ) (tokens : List CStr) : CStr × ℚ :=
  tokens.foldl
    (fun acc token =>
      if "location_id=".toList.isPrefixOf token then
        (copy_field AMS_MAX_ID_LENGTH (token.drop 12), acc.2)
      else if "confidence=".toList.isPrefixOf token then (acc.1, atof (token.drop 11))
      else acc)
    ([], 0)

/-- Function `strategy_llm`.  The external command is modelled by its effect: `reply` is the
line that `fgets` reads from the command (`none` when the temporary file, the process or the
line cannot be had); `atof` is the C library conversion, on the texts that it reads as a
finite number. -/
def strategy_llm (rows_allocated : Bool) (atof : CStr → ℚ) (reply : Option CStr)
    (store : LocationStore) (config : MatcherConfig) (result : MatchResult) : MatchResult :=
  if !config.llm_enabled || config.llm_command.isEmpty then result
  else if result.items.length = 0 then result
  else
    match reply with
    | none => result
    | some line =>
      let response := trim_whitespace line
      if response.isEmpty then result
      else
        let parsed := parse_reply atof (strtok_all [' '] response [])
        if parsed.1.isEmpty ∨ parsed.2 ≤ 0 then result
        else if parsed.2 < config.llm_min_confidence then result
        else
          match find_location_by_id store parsed.1 with
          | none => result
          | some location =>
            let breakdown :=
              score_components rows_allocated result.record_components location.components false
            add_candidate result location parsed.2 "llm".toList "llm_ranked".toList breakdown
              config.max_candidates

/-! ## Selection -/

/-- C `printf` with the format `%.<decimals>f` on a rational: the value is rounded to the
nearest multiple of `10 ^ -decimals`, a tie going to the even neighbour. -/
def format_fixed (decimals : Nat) (x : ℚ) : CStr :=
  let scaled : ℚ := |x| * (10 : ℚ) ^ decimals
  let low : Int := Rat.floor scaled
  let part : ℚ := scaled - low
  let rounded : Int :=
    if part < 1 / 2 then low
    else if 1 / 2 < part then low + 1
    else if low % 2 = 0 then low else low + 1
  let n := rounded.toNat
  let digits := Nat.toDigits 10 (n % 10 ^ decimals)
  (if x < 0 then ['-'] else []) ++ Nat.toDigits 10 (n / 10 ^ decimals) ++
    (if decimals = 0 then []
     else ['.'] ++ List.replicate (decimals - digits.length) '0' ++ digits)

/-- C `qsort` with `compare_candidates`, as an insertion sort. -/
def qsort_candidates (items : List MatchCandidate) : List MatchCandidate :=
  items.insertionSort (fun a b => compare_candidates a b ≤ 0)

/-- Function `match_record` for a non-NULL `raw_address`, `store`, `config` and `result`.
See `strategy_llm` for `atof` and `reply`. -/
def match_record (rows_allocated : Bool) (atof : CStr → ℚ) (reply : Option CStr)
    (raw_address : CStr) (store : LocationStore) (config : MatcherConfig) : MatchResult :=
  let result : MatchResult :=
    { match_result_init with raw_address := copy_field AMS_MAX_LINE_LENGTH raw_address }
  let parsed := parse_address raw_address
  let result := { result with record_components := parsed.2 }
  if parsed.1 ≠ 0 then
    { result with
      selected_strategy := copy_field AMS_MAX_STRATEGY_LENGTH "none".toList
      selected_confidence := copy_field AMS_MAX_DIAGNOSTIC_LENGTH (format_fixed 2 0) }
  else
    let result := strategy_canonical rows_allocated result.record_components store config result
    let result := strategy_structured rows_allocated result.record_components store config result
    let result := strategy_fuzzy rows_allocated result.record_components store config result
    let result := strategy_llm rows_allocated atof reply store config result
    let result :=
      if 1 < result.items.length then { result with items := qsort_candidates result.items }
      else result
    match result.items.head? with
    | some best =>
      { result with
        has_best_candidate := true
        best_index := 0
        selected_strategy := copy_field AMS_MAX_STRATEGY_LENGTH best.strategy
        selected_confidence :=
          copy_field AMS_MAX_DIAGNOSTIC_LENGTH (format_fixed 3 best.confidence) }
    | none =>
      { result with
        selected_strategy := copy_field AMS_MAX_STRATEGY_LENGTH "none".toList
        selected_confidence := copy_field AMS_MAX_DIAGNOSTIC_LENGTH (format_fixed 2 0) }

/-! ## JSON output of `main.c` -/

/-- The double quote, byte 34. -/
def DOUBLE_QUOTE : Char := Char.ofNat 34

/-- The backslash, byte 92. -/
def BACKSLASH : Char := Char.ofNat 92

/-- The line feed, byte 10. -/
def LINE_FEED : Char := Char.ofNat 10

/-- The carriage return, byte 13. -/
def CARRIAGE_RETURN : Char := Char.ofNat 13

/-- The horizontal tab, byte 9. -/
def HORIZONTAL_TAB : Char := Char.ofNat 9

/-- The `for` loop of `json_escape` in `main.c`: the argument list is `src` from index `i`
on, `out` is `dest[0 .. offset)`, so `offset` is `out.length`.  A `break` and the failing
loop condition both return `out`. -/
def json_escape_loop (dest_size : Nat) : CStr → CStr → CStr
  | [], out => out
  | c :: rest, out =>
    if ¬(out.length + 1 < dest_size) then out
    else if c = DOUBLE_QUOTE ∨ c = BACKSLASH then
      if out.length + 2 ≥ dest_size then out
      else json_escape_loop dest_size rest (out ++ [BACKSLASH, c])
    else if c = LINE_FEED then
      if out.length + 2 ≥ dest_size then out
      else json_escape_loop dest_size rest (out ++ [BACKSLASH, 'n'])
    else if c = CARRIAGE_RETURN then
      if out.length + 2 ≥ dest_size then out
      else json_escape_loop dest_size rest (out ++ [BACKSLASH, 'r'])
    else if c = HORIZONTAL_TAB then
      if out.length + 2 ≥ dest_size then out
      else json_escape_loop dest_size rest (out ++ [BACKSLASH, 't'])
    else if c.toNat < 0x20 then json_escape_loop dest_size rest out
    else json_escape_loop dest_size rest (out ++ [c])

/-- Function `json_escape` of `main.c` for a non-NULL `dest`: the string left in `dest`,
whose content on entry is the argument `dest`.  With `dest_size = 0` nothing is written. -/
def json_escape (dest : CStr) (dest_size : Nat) (src : CStr) : CStr :=
  if dest_size = 0 then dest
  else json_escape_loop dest_size src []

/-! ## Calls of the aggregator -/

/-- The arguments of one call of `add_candidate`, apart from the result and the capacity. -/
structure Offer where
  location : LocationRecord
  confidence : ℚ
  strategy : CStr
  reason : CStr
  breakdown : ScoreBreakdown

/-- A sequence of calls of `add_candidate` with the same capacity, in order. -/
def offer_all (max_candidates : Nat) (offers : List Offer) (result : MatchResult) :
    MatchResult :=
  offers.foldl
    (fun r o =>
      add_candidate r o.location o.confidence o.strategy o.reason o.breakdown max_candidates)
    result

/-- What `strategy_canonical` passes to `add_candidate` for a record that it admits. -/
def canonical_offer (rows_allocated : Bool) (query : AddressComponents)
    (location : LocationRecord) : Offer :=
  { location := location
    confidence :=
      if (score_components rows_allocated query location.components true).score ≥ 9 / 10 then 1
      else (score_components rows_allocated query location.components true).score
    strategy := "canonical".toList
    reason := "canonical_key_match".toList
    breakdown := score_components rows_allocated query location.components true }

/-- What `strategy_structured` passes to `add_candidate` for a record that it admits. -/
def structured_offer (rows_allocated : Bool) (query : AddressComponents)
    (location : LocationRecord) : Offer :=
  { location := location
    confidence := (score_components rows_allocated query location.components false).score
    strategy := "structured".toList
    reason := "weighted_component_score".toList
    breakdown := score_components rows_allocated query location.components false }

/-- What `strategy_fuzzy` passes to `add_candidate` for a record that it admits. -/
def fuzzy_offer (rows_allocated : Bool) (query : AddressComponents)
    (location : LocationRecord) : Offer :=
  { location := location
    confidence := fuzzy_score rows_allocated query location
    strategy := "fuzzy".toList
    reason := "approximate_text_similarity".toList
    breakdown := score_components rows_allocated query location.components false }

/-- The result that `match_record` holds after its last strategy, before sorting and
selection, when the address parses. -/
def aggregate_candidates (rows_allocated : Bool) (atof : CStr → ℚ) (reply : Option CStr)
    (raw_address : CStr) (store : LocationStore) (config : MatcherConfig) : MatchResult :=
  let result : MatchResult :=
    { match_result_init with
      raw_address := copy_field AMS_MAX_LINE_LENGTH raw_address
      record_components := (parse_address raw_address).2 }
  let result := strategy_canonical rows_allocated result.record_components store config result
  let result := strategy_structured rows_allocated result.record_components store config result
  let result := strategy_fuzzy rows_allocated result.record_components store config result
  strategy_llm rows_allocated atof reply store config result

/-- The end of `match_record`: the candidates are sorted when there are at least two, and the
best one is selected. -/
def select_best (result : MatchResult) : MatchResult :=
  let result :=
    if 1 < result.items.length then { result with items := qsort_candidates result.items }
    else result
  match result.items.head? with
  | some best =>
    { result with
      has_best_candidate := true
      best_index := 0
      selected_strategy := copy_field AMS_MAX_STRATEGY_LENGTH best.strategy
      selected_confidence :=
        copy_field AMS_MAX_DIAGNOSTIC_LENGTH (format_fixed 3 best.confidence) }
  | none =>
    { result with
      selected_strategy := copy_field AMS_MAX_STRATEGY_LENGTH "none".toList
      selected_confidence := copy_field AMS_MAX_DIAGNOSTIC_LENGTH (format_fixed 2 0) }

/-- The candidate that `add_candidate` builds from the arguments of one call. -/
def candidate_of (o : Offer) : MatchCandidate :=
  { location := o.location
    confidence := o.confidence
    strategy := copy_field AMS_MAX_STRATEGY_LENGTH o.strategy
    reason := copy_field AMS_MAX_REASON_LENGTH o.reason
    breakdown := o.breakdown }

/-! ## Sample inputs -/

/-- The configuration that `matcher_config_init` gives when only `AMS_LLM_COMMAND` is set, to
the command `oracle`. -/
def oracle_config : MatcherConfig :=
  matcher_config_init
    (fun name => if name = "AMS_LLM_COMMAND".toList then some "oracle".toList else none)
    (fun _ => 0) (fun _ => 0)

/-- A catalog of one record, LOC42 at 12 N 1st St, Denver, CO 80202. -/
def denver_catalog : LocationStore :=
  location_store_load []
    [("LOC42".toList, "12 N 1st St".toList, "Denver".toList, "CO".toList, "80202".toList)]

/-- The result that `match_record` holds for the address `12 N 1st St Denver CO 80202` and
the catalog `denver_catalog` when the oracle strategy is entered (the oracle has not
answered). -/
def denver_result : MatchResult :=
  aggregate_candidates true (fun _ => 0) none "12 N 1st St Denver CO 80202".toList
    denver_catalog oracle_config

/-- A catalog of one record, LOC42 at 123 Main Street, Springfield, IL 62701. -/
def springfield_catalog : LocationStore :=
  location_store_load []
    [("LOC42".toList, "123 Main Street".toList, "Springfield".toList, "IL".toList,
      "62701".toList)]

/-- The result that `match_record` holds for the address `123 Maine St, Springfield, IL 62701`
and the catalog `springfield_catalog` when the oracle strategy is entered. -/
def maine_result : MatchResult :=
  aggregate_candidates true (fun _ => 0) none "123 Maine St, Springfield, IL 62701".toList
    springfield_catalog oracle_config

/-- A catalog record with the given id and no address. -/
def bare_location (location_id : CStr) : LocationRecord :=
  { location_id := location_id, street := [], city := [], state := [], postal_code := [],
    components := clear_address_components }

/-- A call of `add_candidate` for the record `bare_location location_id` with the given
confidence and strategy. -/
def bare_offer (location_id : CStr) (confidence : ℚ) (strategy : CStr) : Offer :=
  { location := bare_location location_id, confidence := confidence, strategy := strategy,
    reason := [], breakdown := { score := 0, comparisons := [] } }

/-- The configuration that `matcher_config_init` gives when only `AMS_MAX_CANDIDATES` is set,
to 1. -/
def single_config : MatcherConfig :=
  matcher_config_init
    (fun name => if name = "AMS_MAX_CANDIDATES".toList then some "1".toList else none)
    (fun _ => 0) (fun _ => 1)

/-- A catalog of two records with the same address 12 N 1st St, Denver, CO 80202: LOC1
before LOC2. -/
def twin_catalog : LocationStore :=
  location_store_load []
    [("LOC1".toList, "12 N 1st St".toList, "Denver".toList, "CO".toList, "80202".toList),
     ("LOC2".toList, "12 N 1st St".toList, "Denver".toList, "CO".toList, "80202".toList)]

/-- Four calls of `add_candidate`: LOC1 with 0.5, LOC2 with 0.7, LOC3 with 0.6 and LOC1
again with 0.9. -/
def ranked_offers : List Offer :=
  [bare_offer "LOC1".toList (1 / 2) "structured".toList,
   bare_offer "LOC2".toList (7 / 10) "structured".toList,
   bare_offer "LOC3".toList (6 / 10) "fuzzy".toList,
   bare_offer "LOC1".toList (9 / 10) "fuzzy".toList]

/-- A result that holds LOC1 and LOC2, both with the confidence 0.5. -/
def tied_result : MatchResult :=
  { match_result_init with
    items :=
      [candidate_of (bare_offer "LOC1".toList (1 / 2) "fuzzy".toList),
       candidate_of (bare_offer "LOC2".toList (1 / 2) "fuzzy".toList)] }

/-- A catalog of two records in Denver, CO 80202: LOC1 at 12 N 1st St before LOC2 at
12 N Elm St. -/
def elm_catalog : LocationStore :=
  location_store_load []
    [("LOC1".toList, "12 N 1st St".toList, "Denver".toList, "CO".toList, "80202".toList),
     ("LOC2".toList, "12 N Elm St".toList, "Denver".toList, "CO".toList, "80202".toList)]

/-! ## Definitions that follow the words of the specification

They are compared with the definitions taken from the source in the theorems below. -/

/-- The state step as the specification words it: the rightmost active token that is one of
the 51 valid two-letter codes is the state and is consumed; without such a token the state
stays empty and no token is consumed. -/
def claimed_state_step (toks : List Token) : CStr × List Token :=
  match scan_right (fun t => STATE_CODES.contains t) toks with
  | some idx => (token_text toks idx, deactivate idx toks)
  | none => ([], toks)

/-- The rule of the specification for one threshold of `matcher_config_init`: the default is
kept when the override is absent, empty, or has a value that is not strictly between 0 and 1,
and the value of a non-empty override is adopted when it is strictly between 0 and 1. -/
def ThresholdRule (atof : CStr → ℚ) (default : ℚ) (env : Option CStr) (value : ℚ) : Prop :=
  (env = none → value = default) ∧
  (env = some [] → value = default) ∧
  (∀ text, env = some text → ¬ (0 < atof text ∧ atof text < 1) → value = default) ∧
  (∀ text, env = some text → text ≠ [] → 0 < atof text → atof text < 1 → value = atof text)

/-- One edit of a string: a single character is inserted, deleted or substituted. -/
inductive EditStep : CStr → CStr → Prop
  | insert (l r : CStr) (c : Char) : EditStep (l ++ r) (l ++ c :: r)
  | delete (l r : CStr) (c : Char) : EditStep (l ++ c :: r) (l ++ r)
  | substitute (l r : CStr) (c d : Char) : EditStep (l ++ c :: r) (l ++ d :: r)

/-- The string `a` is transformed into `b` by exactly `n` successive edits. -/
inductive Edits : CStr → CStr → Nat → Prop
  | done (a : CStr) : Edits a a 0
  | step {a b c : CStr} {n : Nat} : EditStep a b → Edits b c n → Edits a c (n + 1)

/-- The escaping of one byte in the words of the specification: a backslash before the
double quote and the backslash, the two-character forms of line feed, carriage return and
tab, nothing for every other byte below 0x20, and the byte itself otherwise. -/
def escape_char (c : Char) : CStr :=
  if c = DOUBLE_QUOTE ∨ c = BACKSLASH then [BACKSLASH, c]
  else if c = LINE_FEED then [BACKSLASH, 'n']
  else if c = CARRIAGE_RETURN then [BACKSLASH, 'r']
  else if c = HORIZONTAL_TAB then [BACKSLASH, 't']
  else if c.toNat < 0x20 then []
  else [c]

/-- The reference escaping of a string: the escapings of its bytes, one after the other. -/
def reference_escape : CStr → CStr
  | [] => []
  | c :: rest => escape_char c ++ reference_escape rest

/-! ## Auxiliary definitions used in the proofs -/

/-- The textbook recurrence of the edit distance, on the first characters of both strings. -/
def lev : CStr → CStr → Nat
  | [], ys => ys.length
  | x :: xs, [] => xs.length + 1
  | x :: xs, y :: ys =>
    min (min (lev xs (y :: ys) + 1) (lev (x :: xs) ys + 1))
      (lev xs ys + (if x = y then 0 else 1))
termination_by xs ys => xs.length + ys.length

/-- The row of the distance table for the (reversed) prefix `p` of the left string: the
distances from `p` to `q`, to `q` with one more character of `ys` in front, and so on. -/
def table_row (p : CStr) : CStr → CStr → List Nat
  | q, [] => [lev p q]
  | q, y :: ys => lev p q :: table_row p (y :: q) ys

/-- A string that `uppercase_inplace` leaves as it is. -/
def IsUpper (s : CStr) : Prop := ∀ c ∈ s, toupper c = c

/-- The property of every slot of the token array: the text is not empty and upper-cased. -/
def Token.Good (t : Token) : Prop := t.text ≠ [] ∧ IsUpper t.text

/-- The shape of a canonical postal code: digits and dashes, no dash before index 5. -/
def ZipShape (s : CStr) : Prop :=
  (∀ c ∈ s, isdigit c = true ∨ c = '-') ∧ (∀ i, s.get? i = some '-' → 5 ≤ i)

/-- A string without a lowercase ASCII letter. -/
def NoLowercase (s : CStr) : Prop := ∀ c ∈ s, ¬ (97 ≤ c.toNat ∧ c.toNat ≤ 122)

/-- The property that every slot of the token array keeps through the extraction steps: an
active token has text, and the text is upper-cased. -/
def Token.Kept (t : Token) : Prop := (t.active = true → t.text ≠ []) ∧ IsUpper t.text

/-- The texts of the tokens that the final loop of `parse_address` sends to the street
buffer: the active tokens that do not lie behind the suffix index.  `idx` is the index of the
head of the list. -/
def street_words (suffix_index : Option Nat) : List Token → Nat → List CStr
  | [], _ => []
  | t :: rest, idx =>
    if !t.active then street_words suffix_index rest (idx + 1)
    else if (match suffix_index with
             | some s => decide (s < idx)
             | none => false) then street_words suffix_index rest (idx + 1)
    else t.text :: street_words suffix_index rest (idx + 1)

/-- One round of the final loop of `parse_address` on the street buffer: a space when the
buffer is not empty, then the word, both through `strncat` with the room left of 128 bytes. -/
def append_word (street_buffer word : CStr) : CStr :=
  let street1 :=
    if street_buffer ≠ [] then
      strncat street_buffer [' '] (AMS_MAX_FIELD_LENGTH - street_buffer.length - 1)
    else street_buffer
  strncat street1 word (AMS_MAX_FIELD_LENGTH - street1.length - 1)

/-- The invariant of the aggregator with the given capacity after the calls `seen`: the ids
are distinct and every confidence is below 1.1, the value from which the search for the
lowest slot starts; every stored candidate carries the greatest
confidence seen for its id; every id that was seen and is not stored was seen with
confidences that no stored candidate is below; and while there is room every id seen is
stored. -/
def KeepsBest (capacity : Nat) (seen : List Offer) (items : List MatchCandidate) : Prop :=
  (items.map (fun c => c.location.location_id)).Nodup ∧
  (∀ c ∈ items, c.confidence < 11 / 10) ∧
  (∀ c ∈ items, ∀ o ∈ seen, o.location.location_id = c.location.location_id →
    o.confidence ≤ c.confidence) ∧
  (∀ c ∈ items, ∃ o ∈ seen, o.location.location_id = c.location.location_id ∧
    o.confidence = c.confidence) ∧
  (∀ o ∈ seen, (∀ c ∈ items, c.location.location_id ≠ o.location.location_id) →
    ∀ c ∈ items, o.confidence ≤ c.confidence) ∧
  (items.length < capacity →
    ∀ o ∈ seen, ∃ c ∈ items, c.location.location_id = o.location.location_id)

/-- What one call of `add_candidate` does to the slot of the id `location_id` while there is
room: a call for another id leaves it, a call for this id fills an empty slot and overwrites
a filled one only with a strictly greater confidence. -/
def merge_step (location_id : CStr) (slot : Option MatchCandidate) (o : Offer) :
    Option MatchCandidate :=
  if o.location.location_id = location_id then
    match slot with
    | none => some (candidate_of o)
    | some c =>
      if o.confidence > c.confidence then some { candidate_of o with location := c.location }
      else some c
  else slot

/-- The test of `strategy_canonical` on one record. -/
def admits_canonical (query : AddressComponents) (location : LocationRecord) : Bool :=
  !query.canonical_key.isEmpty &&
    decide (location.components.canonical_key = query.canonical_key)

/-- The test of `strategy_structured` on one record. -/
def admits_structured (rows_allocated : Bool) (query : AddressComponents)
    (config : MatcherConfig) (location : LocationRecord) : Bool :=
  decide (config.structured_min_confidence ≤
    (score_components rows_allocated query location.components false).score)

/-- The test of `strategy_fuzzy` on one record. -/
def admits_fuzzy (rows_allocated : Bool) (query : AddressComponents)
    (config : MatcherConfig) (location : LocationRecord) : Bool :=
  decide (config.fuzzy_min_confidence ≤ fuzzy_score rows_allocated query location)

/-- A record that at least one of the three catalog strategies offers to the aggregator. -/
def admitted (rows_allocated : Bool) (query : AddressComponents) (config : MatcherConfig)
    (location : LocationRecord) : Bool :=
  admits_canonical query location || admits_structured rows_allocated query config location ||
    admits_fuzzy rows_allocated query config location

/-- The calls of `add_candidate` that the three catalog strategies make, in order. -/
def strategy_offers (rows_allocated : Bool) (query : AddressComponents)
    (config : MatcherConfig) (store : LocationStore) : List Offer :=
  (store.filter (admits_canonical query)).map (canonical_offer rows_allocated query) ++
  (store.filter (admits_structured rows_allocated query config)).map
    (structured_offer rows_allocated query) ++
  (store.filter (admits_fuzzy rows_allocated query config)).map
    (fuzzy_offer rows_allocated query)

/-- The candidate that the calls of the three catalog strategies for one record leave when
the record is never displaced: the first call fills the slot, a later one overwrites it only
with a strictly greater confidence. -/
def record_slot (rows_allocated : Bool) (query : AddressComponents) (config : MatcherConfig)
    (location : LocationRecord) : Option MatchCandidate :=
  (strategy_offers rows_allocated query config [location]).foldl
    (merge_step location.location_id) none

/-- The best confidence of a record: the greatest confidence with which a catalog strategy
offers it, and 0 for a record that no strategy admits. -/
def best_confidence (rows_allocated : Bool) (query : AddressComponents)
    (config : MatcherConfig) (location : LocationRecord) : ℚ :=
  match record_slot rows_allocated query config location with
  | some c => c.confidence
  | none => 0

/-- No tie at the capacity boundary: every admitted record of the catalog either has at most
`capacity` admitted records with a best confidence at least its own, itself included, or at
least `capacity` admitted records with a strictly greater best confidence. -/
def BoundaryClear (capacity : Nat) (rows_allocated : Bool) (query : AddressComponents)
    (config : MatcherConfig) (store : LocationStore) : Prop :=
  ∀ a ∈ store, admitted rows_allocated query config a = true →
    (store.filter (fun b => admitted rows_allocated query config b &&
      decide (best_confidence rows_allocated query config a ≤
        best_confidence rows_allocated query config b))).length ≤ capacity ∨
    capacity ≤ (store.filter (fun b => admitted rows_allocated query config b &&
      decide (best_confidence rows_allocated query config a <
        best_confidence rows_allocated query config b))).length

/-! # Theorems -/

/-! ## The fuel of the replacement loop -/

/-- The fuel of `replace_loop` does not matter once it exceeds the length of the part still
to be searched: the loop always ends by itself. -/
theorem replace_loop_fuel (needle replacement : CStr) (hn : needle ≠ []) :
    ∀ (f1 f2 : Nat) (done rest : CStr), rest.length < f1 → rest.length < f2 →
      replace_loop needle replacement f1 done rest =
        replace_loop needle replacement f2 done rest := by
  intro f1
  induction f1 with
  | zero => intro f2 done rest h1 _; omega
  | succ f1 ih =>
    intro f2 done rest h1 h2
    cases f2 with
    | zero => omega
    | succ f2 =>
      unfold replace_loop
      cases rest with
      | nil =>
        have : strstr [] needle = none := by
          unfold strstr
          cases needle with
          | nil => exact absurd rfl hn
          | cons a t => rfl
        rw [this]
      | cons c t =>
        cases hs : strstr (c :: t) needle with
        | none => rfl
        | some k =>
          simp only
          split
          · rfl
          · apply ih
            · rw [List.length_drop]
              have : 0 < needle.length := List.length_pos.2 hn
              simp only [List.length_cons] at h1 ⊢
              omega
            · rw [List.length_drop]
              have : 0 < needle.length := List.length_pos.2 hn
              simp only [List.length_cons] at h2 ⊢
              omega

/-- No needle of the two tables is empty, so the fuel that `apply_replacements` passes is
never used up. -/
theorem table_needles_ne_nil : ∀ r ∈ EXPANSIONS ++ NUMBERED_STREETS, r.1 ≠ [] := by
  decide

/-! ## Concrete parses -/

/-- C1, as stated: the parse of the Miami address would have street name FIRST and suffix
AVENUE.  It does not. -/
theorem parse_miami_not_first_avenue :
    ¬ ((parse_address "601 NE 1 AVE, Miami, FL 33132".toList).1 = 0 ∧
      (parse_address "601 NE 1 AVE, Miami, FL 33132".toList).2.street_number = "601".toList ∧
      (parse_address "601 NE 1 AVE, Miami, FL 33132".toList).2.street_direction = "NE".toList ∧
      (parse_address "601 NE 1 AVE, Miami, FL 33132".toList).2.street_name = "FIRST".toList ∧
      (parse_address "601 NE 1 AVE, Miami, FL 33132".toList).2.street_suffix = "AVENUE".toList ∧
      (parse_address "601 NE 1 AVE, Miami, FL 33132".toList).2.city = "MIAMI".toList ∧
      (parse_address "601 NE 1 AVE, Miami, FL 33132".toList).2.state = "FL".toList ∧
      (parse_address "601 NE 1 AVE, Miami, FL 33132".toList).2.postal_code = "33132".toList) := by
  decide!

/-- C1, amended: `parse_address` on the Miami address succeeds with number 601, direction NE,
street name 1, suffix AVE, city MIAMI, state FL and postal code 33132 (no unit, and the key
joined from these).  The bare ordinal `1` is not in the table of numbered streets, and `AVE`
followed by a comma is not a needle of the expansion table. -/
theorem parse_miami :
    parse_address "601 NE 1 AVE, Miami, FL 33132".toList =
      (0, { street_number := "601".toList, street_direction := "NE".toList,
            street_name := "1".toList, street_suffix := "AVE".toList, unit := [],
            city := "MIAMI".toList, state := "FL".toList, postal_code := "33132".toList,
            canonical_key := "601|NE|1|AVE|MIAMI|FL|33132".toList }) := by
  decide!

/-- C2, on the code: with the one-record catalog loaded from 123 Main Street, Springfield,
IL 62701, the default configuration and no oracle, `match_record` on the same address parses
the query with an empty canonical key and returns one candidate whose strategy is
`structured` with confidence 3/4, not `canonical` with confidence 1. -/
theorem match_main_street_is_structured :
    (match_record true (fun _ => 0) none "123 Main Street, Springfield, IL 62701".toList
        (location_store_load []
          [("LOC1".toList, "123 Main Street".toList, "Springfield".toList, "IL".toList,
            "62701".toList)])
        default_config).record_components.canonical_key = [] ∧
    (match_record true (fun _ => 0) none "123 Main Street, Springfield, IL 62701".toList
        (location_store_load []
          [("LOC1".toList, "123 Main Street".toList, "Springfield".toList, "IL".toList,
            "62701".toList)])
        default_config).items.map (fun c => (c.location.location_id, c.strategy, c.confidence)) =
      [("LOC1".toList, "structured".toList, 3 / 4)] ∧
    (match_record true (fun _ => 0) none "123 Main Street, Springfield, IL 62701".toList
        (location_store_load []
          [("LOC1".toList, "123 Main Street".toList, "Springfield".toList, "IL".toList,
            "62701".toList)])
        default_config).selected_strategy = "structured".toList ∧
    (match_record true (fun _ => 0) none "123 Main Street, Springfield, IL 62701".toList
        (location_store_load []
          [("LOC1".toList, "123 Main Street".toList, "Springfield".toList, "IL".toList,
            "62701".toList)])
        default_config).selected_confidence = "0.750".toList := by
  decide!

/-- C3, on the code: `parse_address` succeeds on 123 Main Street, Springfield, IL 62701 and
leaves the word MAIN in `street_direction`, which is neither empty nor one of the eight
directional codes; the street name is left empty. -/
theorem parse_main_street_direction :
    (parse_address "123 Main Street, Springfield, IL 62701".toList).1 = 0 ∧
    (parse_address "123 Main Street, Springfield, IL 62701".toList).2.street_direction =
      "MAIN".toList ∧
    (parse_address "123 Main Street, Springfield, IL 62701".toList).2.street_direction ∉
      [[], "N".toList, "S".toList, "E".toList, "W".toList, "NE".toList, "NW".toList,
        "SE".toList, "SW".toList] ∧
    (parse_address "123 Main Street, Springfield, IL 62701".toList).2.street_name = [] := by
  decide!

/-! ## Tokens are non-empty and upper-cased -/

theorem toupper_idem (c : Char) : toupper (toupper c) = toupper c := by
  have key : ∀ n : Nat, 97 ≤ n → n ≤ 122 → (Char.ofNat (n - 32)).toNat = n - 32 := by
    intro n h1 h2
    interval_cases n <;> rfl
  unfold toupper
  by_cases h : 97 ≤ c.toNat ∧ c.toNat ≤ 122
  · rw [if_pos h, key _ h.1 h.2, if_neg (by omega)]
  · rw [if_neg h, if_neg h]

theorem isUpper_uppercase (s : CStr) : IsUpper (uppercase_inplace s) := by
  intro c hc
  obtain ⟨d, -, rfl⟩ := List.mem_map.1 hc
  exact toupper_idem d

theorem uppercase_of_isUpper {s : CStr} (h : IsUpper s) : uppercase_inplace s = s := by
  unfold uppercase_inplace
  conv_rhs => rw [← List.map_id s]
  exact List.map_congr_left (fun c hc => h c hc)

theorem IsUpper.of_subset {s t : CStr} (h : IsUpper t) (hs : ∀ c ∈ s, c ∈ t) : IsUpper s :=
  fun c hc => h c (hs c hc)

theorem mem_trim_whitespace {s : CStr} {c : Char} (h : c ∈ trim_whitespace s) : c ∈ s := by
  unfold trim_whitespace at h
  have h1 := List.mem_reverse.1 h
  have h2 := (List.dropWhile_sublist _).subset h1
  have h3 := List.mem_reverse.1 h2
  exact (List.dropWhile_sublist _).subset h3

theorem mem_strtok_all (delims : CStr) :
    ∀ (s cur tok : CStr), tok ∈ strtok_all delims s cur → ∀ c ∈ tok, c ∈ cur ∨ c ∈ s := by
  intro s
  induction s with
  | nil =>
    intro cur tok h c hc
    unfold strtok_all at h
    split at h
    · simp at h
    · simp at h; subst h; exact Or.inl hc
  | cons a t ih =>
    intro cur tok h c hc
    unfold strtok_all at h
    split at h
    · split at h
      · rcases ih [] tok h c hc with h1 | h1
        · simp at h1
        · exact Or.inr (List.mem_cons_of_mem _ h1)
      · rcases List.mem_cons.1 h with h1 | h1
        · subst h1; exact Or.inl hc
        · rcases ih [] tok h1 c hc with h2 | h2
          · simp at h2
          · exact Or.inr (List.mem_cons_of_mem _ h2)
    · rcases ih (cur ++ [a]) tok h c hc with h1 | h1
      · rcases List.mem_append.1 h1 with h2 | h2
        · exact Or.inl h2
        · simp at h2; subst h2; exact Or.inr (List.mem_cons_self _ _)
      · exact Or.inr (List.mem_cons_of_mem _ h1)

theorem collect_tokens_good :
    ∀ (raw : List CStr) (acc : List Token), (∀ r ∈ raw, IsUpper r) → (∀ t ∈ acc, t.Good) →
      ∀ t ∈ collect_tokens raw acc, t.Good := by
  intro raw
  induction raw with
  | nil => intro acc _ hacc t ht; unfold collect_tokens at ht; exact hacc t ht
  | cons r rest ih =>
    intro acc hraw hacc t ht
    unfold collect_tokens at ht
    have hrest : ∀ r ∈ rest, IsUpper r := fun x hx => hraw x (List.mem_cons_of_mem _ hx)
    split at ht
    · simp only at ht
      split at ht
      · rename_i hne
        refine ih _ hrest ?_ t ht
        intro u hu
        rcases List.mem_append.1 hu with h1 | h1
        · exact hacc u h1
        · simp at h1
          subst h1
          constructor
          · show copy_field AMS_MAX_FIELD_LENGTH (trim_whitespace r) ≠ []
            unfold copy_field AMS_MAX_FIELD_LENGTH
            intro h0
            rcases List.take_eq_nil_iff.1 h0 with h2 | h2
            · omega
            · exact hne h2
          · show IsUpper (copy_field AMS_MAX_FIELD_LENGTH (trim_whitespace r))
            refine (hraw r (List.mem_cons_self _ _)).of_subset ?_
            intro c hc
            exact mem_trim_whitespace ((List.take_sublist _ _).subset hc)
      · exact ih _ hrest hacc t ht
    · exact hacc t ht

theorem tokenize_good (input : CStr) : ∀ t ∈ tokenize input, t.Good := by
  unfold tokenize
  refine collect_tokens_good _ _ ?_ (by simp)
  intro r hr c hc
  rcases mem_strtok_all _ _ _ _ hr c hc with h | h
  · simp at h
  · exact isUpper_uppercase _ c h

theorem modify_at_good (f : Token → Token) (hf : ∀ t, t.Good → (f t).Good) :
    ∀ (idx : Nat) (toks : List Token), (∀ t ∈ toks, t.Good) →
      ∀ t ∈ modify_at f idx toks, t.Good := by
  intro idx toks
  induction toks generalizing idx with
  | nil => intro _ t ht; simp [modify_at] at ht
  | cons a rest ih =>
    intro h t ht
    cases idx with
    | zero =>
      simp only [modify_at] at ht
      rcases List.mem_cons.1 ht with h1 | h1
      · subst h1; exact hf a (h a (List.mem_cons_self _ _))
      · exact h t (List.mem_cons_of_mem _ h1)
    | succ n =>
      simp only [modify_at] at ht
      rcases List.mem_cons.1 ht with h1 | h1
      · subst h1; exact h _ (List.mem_cons_self _ _)
      · exact ih n (fun u hu => h u (List.mem_cons_of_mem _ hu)) t h1

theorem deactivate_good (idx : Nat) (toks : List Token) (h : ∀ t ∈ toks, t.Good) :
    ∀ t ∈ deactivate idx toks, t.Good :=
  modify_at_good (fun t => { t with active := false }) (fun _ ht => ht) idx toks h

theorem postal_step_good (toks : List Token) (h : ∀ t ∈ toks, t.Good) :
    ∀ t ∈ (postal_step toks).2, t.Good := by
  unfold postal_step
  split
  · exact deactivate_good _ _ h
  · exact h

/-- On an upper-cased token `normalize_state` returns its first two characters. -/
theorem normalize_state_of_isUpper {t : CStr} (h : IsUpper t) : normalize_state t = t.take 2 := by
  have hup : uppercase_inplace (copy_field AMS_MAX_STATE_LENGTH t) = t.take 15 :=
    uppercase_of_isUpper (h.of_subset (fun c hc => (List.take_sublist _ _).subset hc))
  unfold normalize_state
  simp only [hup]
  split
  · rename_i code hcode
    split at hcode
    · rename_i hlen
      have hfound := List.find?_some hcode
      simp only [decide_eq_true_eq] at hfound
      rw [← hfound]
      have : t.length = 2 := by
        rw [List.length_take] at hlen
        omega
      rw [List.take_of_length_le (by omega), List.take_of_length_le (by omega)]
    · cases hcode
  · simp only [copy_field, AMS_MAX_STATE_LENGTH, List.take_take, List.length_take]
    split
    · simp [List.take_take]
    · rename_i hlen
      have : t.length ≤ 2 := by omega
      rw [List.take_of_length_le (by omega), List.take_of_length_le (by omega)]

theorem scan_right_congr (p q : CStr → Bool) :
    ∀ toks : List Token, (∀ t ∈ toks, p t.text = q t.text) →
      scan_right p toks = scan_right q toks := by
  intro toks
  induction toks with
  | nil => intro _; rfl
  | cons a rest ih =>
    intro h
    unfold scan_right
    rw [ih (fun t ht => h t (List.mem_cons_of_mem _ ht)), h a (List.mem_cons_self _ _)]

theorem scan_right_lt (p : CStr → Bool) :
    ∀ (toks : List Token) (idx : Nat), scan_right p toks = some idx → idx < toks.length := by
  intro toks
  induction toks with
  | nil => intro idx h; simp [scan_right] at h
  | cons a rest ih =>
    intro idx h
    unfold scan_right at h
    split at h
    · rename_i k hk
      cases h
      have := ih k hk
      simp only [List.length_cons]
      omega
    · split at h
      · cases h; simp
      · cases h

theorem token_text_good (toks : List Token) (h : ∀ t ∈ toks, t.Good) (idx : Nat)
    (hidx : idx < toks.length) : (token_text toks idx) ≠ [] ∧ IsUpper (token_text toks idx) := by
  unfold token_text
  rw [List.get?_eq_get hidx]
  exact h _ (List.get_mem _ _ _)

/-- The state step on good tokens: the rightmost active token is consumed whatever it is, and
the state is its first two characters. -/
theorem state_step_of_good (toks : List Token) (h : ∀ t ∈ toks, t.Good) :
    (∀ idx, scan_right (fun _ => true) toks = some idx →
      state_step toks = ((token_text toks idx).take 2, deactivate idx toks)) ∧
    (scan_right (fun _ => true) toks = none → state_step toks = ([], toks)) := by
  have hscan : scan_right (fun t => !(normalize_state t).isEmpty) toks =
      scan_right (fun _ => true) toks := by
    apply scan_right_congr
    intro t ht
    have hg := h t ht
    rw [normalize_state_of_isUpper hg.2]
    cases htx : t.text with
    | nil => exact absurd htx hg.1
    | cons a r => rfl
  constructor
  · intro idx hidx
    unfold state_step
    rw [hscan, hidx]
    simp only
    have hg := token_text_good toks h idx (scan_right_lt _ _ _ hidx)
    rw [normalize_state_of_isUpper hg.2]
    simp [copy_field, AMS_MAX_STATE_LENGTH, List.take_take]
  · intro hnone
    unfold state_step
    rw [hscan, hnone]

theorem tokenize_nil : tokenize [] = [] := by decide!

theorem compute_canonical_key_fields (c : AddressComponents) :
    (compute_canonical_key c).street_number = c.street_number ∧
    (compute_canonical_key c).street_direction = c.street_direction ∧
    (compute_canonical_key c).street_name = c.street_name ∧
    (compute_canonical_key c).street_suffix = c.street_suffix ∧
    (compute_canonical_key c).unit = c.unit ∧
    (compute_canonical_key c).city = c.city ∧
    (compute_canonical_key c).state = c.state ∧
    (compute_canonical_key c).postal_code = c.postal_code := by
  unfold compute_canonical_key
  split <;> exact ⟨rfl, rfl, rfl, rfl, rfl, rfl, rfl, rfl⟩

/-- What `parse_address` returns, by cases on the token array. -/
theorem parse_address_eq (input : CStr) :
    (tokenize input = [] ∧ parse_address input = (-1, clear_address_components)) ∨
    (tokenize input ≠ [] ∧ parse_address input = (0, parse_tokens (tokenize input))) := by
  unfold parse_address
  split
  · rename_i hempty
    have : input = [] := by simpa using hempty
    subst this
    exact Or.inl ⟨tokenize_nil, rfl⟩
  · simp only
    split
    · rename_i hlen
      exact Or.inl ⟨List.length_eq_zero.1 hlen, rfl⟩
    · rename_i hlen
      exact Or.inr ⟨fun h => hlen (by rw [h]; rfl), rfl⟩

theorem parse_tokens_state (toks : List Token) :
    (parse_tokens toks).state = (state_step (postal_step toks).2).1 := by
  unfold parse_tokens
  exact (compute_canonical_key_fields _).2.2.2.2.2.2.1

theorem parse_address_state (input : CStr) :
    (parse_address input).2.state = (state_step (postal_step (tokenize input)).2).1 := by
  rcases parse_address_eq input with ⟨h1, h2⟩ | ⟨-, h2⟩
  · rw [h2, h1]
    simp [postal_step, state_step, scan_right, clear_address_components]
  · rw [h2]
    show (parse_tokens (tokenize input)).state = _
    exact parse_tokens_state _

/-- C4, as stated, fails: on 742 Evergreen Terrace, Springfield no active token is a valid
state code, so the state step as the specification words it leaves the state empty, while
`parse_address` stores SP. -/
theorem parse_springfield_state :
    (parse_address "742 Evergreen Terrace, Springfield".toList).1 = 0 ∧
    (claimed_state_step
      (postal_step (tokenize "742 Evergreen Terrace, Springfield".toList)).2).1 = [] ∧
    (parse_address "742 Evergreen Terrace, Springfield".toList).2.state = "SP".toList ∧
    (parse_address "742 Evergreen Terrace, Springfield".toList).2.state ≠
      (claimed_state_step
        (postal_step (tokenize "742 Evergreen Terrace, Springfield".toList)).2).1 := by
  decide!

/-- C4, amended: on every input on which `parse_address` succeeds, the state is the result of
the state step on the tokens left by the postal step; that step takes the rightmost token that
is still active, whether or not it is a valid state code, stores its first two characters (the
whole token when it is shorter) and consumes it; the state stays empty, with no token
consumed, only when no token is active any more. -/
theorem state_is_rightmost_token (input : CStr) (h : (parse_address input).1 = 0) :
    (parse_address input).2.state = (state_step (postal_step (tokenize input)).2).1 ∧
    (∀ idx, scan_right (fun _ => true) (postal_step (tokenize input)).2 = some idx →
      state_step (postal_step (tokenize input)).2 =
        ((token_text (postal_step (tokenize input)).2 idx).take 2,
          deactivate idx (postal_step (tokenize input)).2)) ∧
    (scan_right (fun _ => true) (postal_step (tokenize input)).2 = none →
      state_step (postal_step (tokenize input)).2 =
        ([], (postal_step (tokenize input)).2)) := by
  have _ := h
  have hgood := postal_step_good _ (tokenize_good input)
  exact ⟨parse_address_state input, (state_step_of_good _ hgood).1,
    (state_step_of_good _ hgood).2⟩

/-- Witness of `state_is_rightmost_token` on 742 Evergreen Terrace, Springfield: the token
SPRINGFIELD at index 3 is consumed and gives the state SP. -/
theorem state_is_rightmost_token_witness :
    (parse_address "742 Evergreen Terrace, Springfield".toList).1 = 0 ∧
    (parse_address "742 Evergreen Terrace, Springfield".toList).2.state =
      (state_step (postal_step (tokenize "742 Evergreen Terrace, Springfield".toList)).2).1 ∧
    state_step (postal_step (tokenize "742 Evergreen Terrace, Springfield".toList)).2 =
      ((token_text (postal_step (tokenize "742 Evergreen Terrace, Springfield".toList)).2 3).take 2,
        deactivate 3 (postal_step (tokenize "742 Evergreen Terrace, Springfield".toList)).2) :=
  ⟨by decide!,
    (state_is_rightmost_token "742 Evergreen Terrace, Springfield".toList (by decide!)).1,
    (state_is_rightmost_token "742 Evergreen Terrace, Springfield".toList (by decide!)).2.1 3
      (by decide!)⟩

/-! ## Postal code -/

theorem zipShape_nil : ZipShape [] := by
  constructor
  · intro c hc; cases hc
  · intro i h; simp at h

theorem zipShape_append_digit {s : CStr} {c : Char} (h : ZipShape s) (hc : isdigit c = true) :
    ZipShape (s ++ [c]) := by
  constructor
  · intro d hd
    rcases List.mem_append.1 hd with h1 | h1
    · exact h.1 d h1
    · simp at h1; subst h1; exact Or.inl hc
  · intro i hi
    by_cases hlt : i < s.length
    · rw [List.get?_eq_getElem?, List.getElem?_append_left hlt, ← List.get?_eq_getElem?] at hi
      exact h.2 i hi
    · have hge : s.length ≤ i := Nat.le_of_not_lt hlt
      rw [List.get?_eq_getElem?, List.getElem?_append_right hge] at hi
      have : i - s.length = 0 := by
        by_contra hne
        have : (i - s.length) = (i - s.length - 1) + 1 := by omega
        rw [this] at hi
        simp at hi
      rw [this] at hi
      simp at hi
      subst hi
      exact absurd hc (by decide)

theorem zipShape_append_dash {s : CStr} (h : ZipShape s) (hlen : 5 ≤ s.length) :
    ZipShape (s ++ ['-']) := by
  constructor
  · intro d hd
    rcases List.mem_append.1 hd with h1 | h1
    · exact h.1 d h1
    · simp at h1; exact Or.inr h1
  · intro i hi
    by_cases hlt : i < s.length
    · rw [List.get?_eq_getElem?, List.getElem?_append_left hlt, ← List.get?_eq_getElem?] at hi
      exact h.2 i hi
    · omega

theorem zipShape_take {s : CStr} (h : ZipShape s) (n : Nat) : ZipShape (s.take n) := by
  constructor
  · intro c hc
    exact h.1 c ((List.take_sublist _ _).subset hc)
  · intro i hi
    rw [List.get?_eq_getElem?, List.getElem?_take] at hi
    split at hi
    · exact h.2 i (by rw [List.get?_eq_getElem?]; exact hi)
    · cases hi

theorem zipShape_loop : ∀ (t filtered : CStr), ZipShape filtered →
    ZipShape (canonicalize_zip_loop t filtered) := by
  intro t
  induction t with
  | nil => intro filtered h; simpa [canonicalize_zip_loop] using h
  | cons c t ih =>
    intro filtered h
    unfold canonicalize_zip_loop
    split
    · split
      · rename_i hd
        exact ih _ (zipShape_append_digit h hd)
      · split
        · rename_i hdash
          rw [hdash.1]
          exact ih _ (zipShape_append_dash h hdash.2)
        · exact ih _ h
    · exact h

theorem zipShape_canonicalize_zip (postal : CStr) : ZipShape (canonicalize_zip postal) := by
  unfold canonicalize_zip copy_field
  exact zipShape_take (zipShape_loop _ _ zipShape_nil) _

theorem parse_address_postal (input : CStr) :
    (parse_address input).2.postal_code = (postal_step (tokenize input)).1 := by
  rcases parse_address_eq input with ⟨h1, h2⟩ | ⟨-, h2⟩
  · rw [h2, h1]
    simp [postal_step, scan_right, clear_address_components]
  · rw [h2]
    show (parse_tokens (tokenize input)).postal_code = _
    unfold parse_tokens
    rw [(compute_canonical_key_fields _).2.2.2.2.2.2.2]

theorem zipShape_postal_step (toks : List Token) : ZipShape (postal_step toks).1 := by
  unfold postal_step
  split
  · exact zipShape_canonicalize_zip _
  · exact zipShape_nil

/-- C5, as stated, fails: the postal code of a successful parse can hold two dashes. -/
theorem parse_postal_two_dashes :
    (parse_address "1 MAIN ST 12345--6789".toList).1 = 0 ∧
    (parse_address "1 MAIN ST 12345--6789".toList).2.postal_code = "12345--6789".toList ∧
    ¬ ((parse_address "1 MAIN ST 12345--6789".toList).2.postal_code.count '-' ≤ 1) := by
  decide!

/-- C5, amended: on every input on which `parse_address` succeeds, the postal code consists
only of digits and dashes (possibly several), every dash stands at index 5 or later, and so
each of the first five characters is a digit. -/
theorem postal_code_shape (input : CStr) (h : (parse_address input).1 = 0) :
    (∀ c ∈ (parse_address input).2.postal_code, isdigit c = true ∨ c = '-') ∧
    (∀ i, (parse_address input).2.postal_code.get? i = some '-' → 5 ≤ i) ∧
    (∀ i c, i < 5 → (parse_address input).2.postal_code.get? i = some c → isdigit c = true) := by
  have _ := h
  have hz : ZipShape (parse_address input).2.postal_code := by
    rw [parse_address_postal]
    exact zipShape_postal_step _
  refine ⟨hz.1, hz.2, ?_⟩
  intro i c hi hc
  rcases hz.1 c (List.get?_mem hc) with h1 | h1
  · exact h1
  · subst h1
    have := hz.2 i hc
    omega

/-- Witness of `postal_code_shape` on an address with a ZIP+4 code. -/
theorem postal_code_shape_witness :
    (parse_address "12 N 1st St, Denver CO 80202-1234".toList).1 = 0 ∧
    (∀ c ∈ (parse_address "12 N 1st St, Denver CO 80202-1234".toList).2.postal_code,
      isdigit c = true ∨ c = '-') ∧
    (∀ i, (parse_address "12 N 1st St, Denver CO 80202-1234".toList).2.postal_code.get? i =
      some '-' → 5 ≤ i) ∧
    (∀ i c, i < 5 →
      (parse_address "12 N 1st St, Denver CO 80202-1234".toList).2.postal_code.get? i = some c →
      isdigit c = true) :=
  ⟨by decide!, postal_code_shape "12 N 1st St, Denver CO 80202-1234".toList (by decide!)⟩

/-! ## Canonical key -/

theorem take_append_take_left (a b r : CStr) (n : Nat) :
    (a ++ b.take (n - a.length) ++ r).take n = (a ++ b ++ r).take n := by
  rw [List.append_assoc, List.append_assoc, List.take_append_eq_append_take,
    @List.take_append_eq_append_take _ a]
  congr 1
  rw [List.take_append_eq_append_take, @List.take_append_eq_append_take _ b,
    List.take_take, Nat.min_self, List.length_take]
  by_cases hb : b.length ≤ n - a.length
  · rw [Nat.min_eq_right hb]
  · have hb2 : n - a.length ≤ b.length := by omega
    rw [Nat.min_eq_left hb2, Nat.sub_self, List.take_zero,
      Nat.sub_eq_zero_of_le hb2, List.take_zero]

/-- The loop of `compute_canonical_key` after its first round: every further part goes in
behind a separator, and the whole is cut to 255 characters. -/
theorem compute_canonical_key_loop_succ :
    ∀ (parts : List CStr) (i : Nat) (key : CStr), 0 < i → key.length ≤ 255 →
      compute_canonical_key_loop parts i key =
        (key ++ (parts.map (fun p => '|' :: p)).flatten).take 255 := by
  intro parts
  induction parts with
  | nil =>
    intro i key _ hk
    simp [compute_canonical_key_loop, List.take_of_length_le hk]
  | cons p rest ih =>
    intro i key hi hk
    unfold compute_canonical_key_loop
    simp only [AMS_MAX_CANONICAL_LENGTH, strncat, List.map_cons, List.flatten_cons]
    have hifp : ∀ k : CStr, (if p ≠ [] then k ++ p.take (256 - k.length - 1) else k) =
        k ++ p.take (255 - k.length) := by
      intro k
      by_cases hp : p = []
      · subst hp; simp
      · rw [if_pos hp]
        have : 256 - k.length - 1 = 255 - k.length := by omega
        rw [this]
    rw [hifp]
    by_cases hfull : key.length + 1 < 256
    · rw [if_pos ⟨hi, hfull⟩]
      rw [ih (i + 1) _ (Nat.succ_pos _) (by
        rw [List.length_append, List.length_take, List.length_append, List.length_singleton]
        omega)]
      rw [take_append_take_left]
      simp [List.append_assoc]
    · rw [if_neg (fun h => hfull h.2)]
      have hk2 : key.length = 255 := by omega
      rw [hk2, Nat.sub_self, List.take_zero, List.append_nil,
        ih (i + 1) key (Nat.succ_pos _) hk]
      rw [List.take_append_eq_append_take, @List.take_append_eq_append_take _ key,
        hk2, Nat.sub_self, List.take_zero, List.take_zero]

theorem compute_canonical_key_loop_parts (c : AddressComponents) :
    compute_canonical_key_loop (canonical_parts c) 0 [] =
      (List.intercalate ['|'] (canonical_parts c)).take 255 := by
  unfold canonical_parts compute_canonical_key_loop
  simp only [AMS_MAX_CANONICAL_LENGTH, strncat, Nat.lt_irrefl, false_and, if_false,
    List.nil_append, List.length_nil]
  have hifp : (if c.street_number ≠ [] then c.street_number.take (256 - 0 - 1) else []) =
      c.street_number.take 255 := by
    by_cases hp : c.street_number = []
    · rw [hp]; simp
    · rw [if_pos hp]
  rw [hifp, compute_canonical_key_loop_succ _ 1 _ Nat.one_pos (by
    rw [List.length_take]; omega)]
  have h := take_append_take_left [] c.street_number
    ((([c.street_direction, c.street_name, c.street_suffix, c.city, c.state,
      c.postal_code] : List CStr).map (fun p => '|' :: p)).flatten) 255
  simp only [List.nil_append, List.length_nil, Nat.sub_zero] at h
  rw [h]
  simp [List.intercalate, List.intersperse, List.flatten]

theorem canonical_parts_compute (c : AddressComponents) :
    canonical_parts (compute_canonical_key c) = canonical_parts c := by
  have h := compute_canonical_key_fields c
  unfold canonical_parts
  rw [h.1, h.2.1, h.2.2.1, h.2.2.2.1, h.2.2.2.2.2.1, h.2.2.2.2.2.2.1, h.2.2.2.2.2.2.2]

/-- The key that `compute_canonical_key` leaves, in closed form. -/
theorem compute_canonical_key_eq (c : AddressComponents) :
    compute_canonical_key c =
      { c with
        canonical_key :=
          if c.street_number = [] ∨ c.street_name = [] then []
          else (List.intercalate ['|'] (canonical_parts c)).take 255 } := by
  unfold compute_canonical_key
  split
  · rfl
  · rw [compute_canonical_key_loop_parts]

theorem intercalate_parts_ne_nil (c : AddressComponents) (h : c.street_number ≠ []) :
    (List.intercalate ['|'] (canonical_parts c)).take 255 ≠ [] := by
  intro h0
  rcases List.take_eq_nil_iff.1 h0 with h1 | h1
  · omega
  · have : c.street_number = [] := by
      simp [canonical_parts, List.intercalate, List.intersperse, List.flatten] at h1
    exact h this

/-- After `compute_canonical_key` the key is the closed form of the fields of the result. -/
theorem canonical_key_of_result (c : AddressComponents) :
    (compute_canonical_key c).canonical_key =
      (if (compute_canonical_key c).street_number = [] ∨
          (compute_canonical_key c).street_name = [] then []
       else (List.intercalate ['|'] (canonical_parts (compute_canonical_key c))).take 255) := by
  rw [canonical_parts_compute, (compute_canonical_key_fields c).1,
    (compute_canonical_key_fields c).2.2.1]
  conv_lhs => rw [compute_canonical_key_eq]

theorem parse_tokens_eq (toks : List Token) :
    ∃ c, parse_tokens toks = compute_canonical_key c := by
  unfold parse_tokens
  exact ⟨_, rfl⟩

theorem parse_address_key (input : CStr) (h : (parse_address input).1 = 0) :
    (parse_address input).2.canonical_key =
      (if (parse_address input).2.street_number = [] ∨
          (parse_address input).2.street_name = [] then []
       else (List.intercalate ['|'] (canonical_parts (parse_address input).2)).take 255) := by
  rcases parse_address_eq input with ⟨-, h2⟩ | ⟨-, h2⟩
  · rw [h2] at h; cases h
  · rw [h2]
    show (parse_tokens (tokenize input)).canonical_key = _
    obtain ⟨c, hc⟩ := parse_tokens_eq (tokenize input)
    rw [hc]
    exact canonical_key_of_result c

/-- C6: `compute_canonical_key` changes the key only, to the empty string when the street
number or the street name is empty and otherwise to the seven parts joined by `|` and cut to
255 characters; hence after a successful parse the key is non-empty exactly when the street
number and the street name both are. -/
theorem canonical_key_spec (c : AddressComponents) (input : CStr) :
    compute_canonical_key c =
      { c with
        canonical_key :=
          if c.street_number = [] ∨ c.street_name = [] then []
          else (List.intercalate ['|']
            [c.street_number, c.street_direction, c.street_name, c.street_suffix, c.city,
              c.state, c.postal_code]).take 255 } ∧
    ((parse_address input).1 = 0 →
      ((parse_address input).2.canonical_key ≠ [] ↔
        ((parse_address input).2.street_number ≠ [] ∧
          (parse_address input).2.street_name ≠ []))) := by
  refine ⟨compute_canonical_key_eq c, fun h => ?_⟩
  rw [parse_address_key input h]
  by_cases hn : (parse_address input).2.street_number = [] ∨
      (parse_address input).2.street_name = []
  · rw [if_pos hn]
    constructor
    · intro h0; exact absurd rfl h0
    · intro h1
      rcases hn with hn | hn
      · exact absurd hn h1.1
      · exact absurd hn h1.2
  · rw [if_neg hn]
    have hn' := not_or.1 hn
    exact ⟨fun _ => hn', fun _ => intercalate_parts_ne_nil _ hn'.1⟩

/-- Witness of `canonical_key_spec`: the key of the Denver address. -/
theorem canonical_key_spec_witness :
    (parse_address "12 N 1st St, Denver CO 80202-1234".toList).1 = 0 ∧
    ((parse_address "12 N 1st St, Denver CO 80202-1234".toList).2.canonical_key ≠ [] ↔
      ((parse_address "12 N 1st St, Denver CO 80202-1234".toList).2.street_number ≠ [] ∧
        (parse_address "12 N 1st St, Denver CO 80202-1234".toList).2.street_name ≠ [])) :=
  ⟨by decide!,
    (canonical_key_spec clear_address_components
      "12 N 1st St, Denver CO 80202-1234".toList).2 (by decide!)⟩

/-- Two strings free of the separator that are followed by a separator and agree as a whole
agree part by part. -/
theorem append_sep_inj (sep : Char) :
    ∀ (a b r s : CStr), sep ∉ a → sep ∉ b → a ++ sep :: r = b ++ sep :: s → a = b ∧ r = s := by
  intro a
  induction a with
  | nil =>
    intro b r s _ hb h
    cases b with
    | nil => simp at h; exact ⟨rfl, h⟩
    | cons y b =>
      simp at h
      exact absurd (h.1 ▸ List.mem_cons_self _ _) hb
  | cons x a ih =>
    intro b r s ha hb h
    cases b with
    | nil =>
      simp at h
      exact absurd (h.1 ▸ List.mem_cons_self _ _) ha
    | cons y b =>
      simp only [List.cons_append, List.cons.injEq] at h
      obtain ⟨h1, h2⟩ :=
        ih b r s (fun hm => ha (List.mem_cons_of_mem _ hm))
          (fun hm => hb (List.mem_cons_of_mem _ hm)) h.2
      exact ⟨by rw [h.1, h1], h2⟩

/-- Joining seven separator-free parts is one-to-one. -/
theorem intercalate_parts_inj (c d : AddressComponents)
    (hc : ∀ p ∈ canonical_parts c, '|' ∉ p) (hd : ∀ p ∈ canonical_parts d, '|' ∉ p)
    (h : List.intercalate ['|'] (canonical_parts c) = List.intercalate ['|'] (canonical_parts d)) :
    canonical_parts c = canonical_parts d := by
  simp only [canonical_parts, List.mem_cons, List.mem_singleton, forall_eq_or_imp, forall_eq,
    List.not_mem_nil, false_implies, implies_true, and_true] at hc hd
  simp only [canonical_parts, List.intercalate, List.intersperse, List.flatten,
    List.append_nil, List.singleton_append] at h
  obtain ⟨c1, c2, c3, c4, c5, c6, c7⟩ := hc
  obtain ⟨d1, d2, d3, d4, d5, d6, d7⟩ := hd
  obtain ⟨e1, h⟩ := append_sep_inj '|' _ _ _ _ c1 d1 h
  obtain ⟨e2, h⟩ := append_sep_inj '|' _ _ _ _ c2 d2 h
  obtain ⟨e3, h⟩ := append_sep_inj '|' _ _ _ _ c3 d3 h
  obtain ⟨e4, h⟩ := append_sep_inj '|' _ _ _ _ c4 d4 h
  obtain ⟨e5, h⟩ := append_sep_inj '|' _ _ _ _ c5 d5 h
  obtain ⟨e6, h⟩ := append_sep_inj '|' _ _ _ _ c6 d6 h
  unfold canonical_parts
  rw [e1, e2, e3, e4, e5, e6, h]

/-- C7, as stated, fails: the two inputs parse successfully with a street number and a street
name, and get the same canonical key, but differ in street name, suffix and city. -/
theorem canonical_key_not_injective :
    ¬ (((parse_address "1 N A STREET | FL 12345".toList).1 = 0 ∧
        (parse_address "1 N A|STREET FL 12345".toList).1 = 0 ∧
        (parse_address "1 N A STREET | FL 12345".toList).2.street_number ≠ [] ∧
        (parse_address "1 N A STREET | FL 12345".toList).2.street_name ≠ [] ∧
        (parse_address "1 N A|STREET FL 12345".toList).2.street_number ≠ [] ∧
        (parse_address "1 N A|STREET FL 12345".toList).2.street_name ≠ [] ∧
        (parse_address "1 N A STREET | FL 12345".toList).2.canonical_key =
          (parse_address "1 N A|STREET FL 12345".toList).2.canonical_key) →
      canonical_parts (parse_address "1 N A STREET | FL 12345".toList).2 =
        canonical_parts (parse_address "1 N A|STREET FL 12345".toList).2) := by
  decide!

/-- C7, amended: for two successful parses that both have a street number and a street name,
whose seven key fields hold no `|` character and whose joined fields fit the 255 characters of
the key, equal canonical keys imply equal (street_number, street_direction, street_name,
street_suffix, city, state, postal_code). -/
theorem canonical_key_injective (a b : CStr)
    (ha : (parse_address a).1 = 0) (hb : (parse_address b).1 = 0)
    (hna : (parse_address a).2.street_number ≠ [] ∧ (parse_address a).2.street_name ≠ [])
    (hnb : (parse_address b).2.street_number ≠ [] ∧ (parse_address b).2.street_name ≠ [])
    (hsa : ∀ p ∈ canonical_parts (parse_address a).2, '|' ∉ p)
    (hsb : ∀ p ∈ canonical_parts (parse_address b).2, '|' ∉ p)
    (hla : (List.intercalate ['|'] (canonical_parts (parse_address a).2)).length ≤ 255)
    (hlb : (List.intercalate ['|'] (canonical_parts (parse_address b).2)).length ≤ 255)
    (hkey : (parse_address a).2.canonical_key = (parse_address b).2.canonical_key) :
    canonical_parts (parse_address a).2 = canonical_parts (parse_address b).2 := by
  rw [parse_address_key a ha, parse_address_key b hb,
    if_neg (not_or.2 ⟨hna.1, hna.2⟩), if_neg (not_or.2 ⟨hnb.1, hnb.2⟩),
    List.take_of_length_le hla, List.take_of_length_le hlb] at hkey
  exact intercalate_parts_inj _ _ hsa hsb hkey

theorem parse_denver_plain :
    parse_address "12 N 1st St Denver CO 80202".toList =
      (0, { street_number := "12".toList, street_direction := "N".toList,
            street_name := "FIRST".toList, street_suffix := "STREET".toList, unit := [],
            city := "DENVER".toList, state := "CO".toList, postal_code := "80202".toList,
            canonical_key := "12|N|FIRST|STREET|DENVER|CO|80202".toList }) := by
  decide!

theorem parse_denver_spaced :
    parse_address "12 n  1ST st Denver, co, 80202".toList =
      (0, { street_number := "12".toList, street_direction := "N".toList,
            street_name := "FIRST".toList, street_suffix := "STREET".toList, unit := [],
            city := "DENVER".toList, state := "CO".toList, postal_code := "80202".toList,
            canonical_key := "12|N|FIRST|STREET|DENVER|CO|80202".toList }) := by
  decide!

/-- Witness of `canonical_key_injective`: the same address in two spellings. -/
theorem canonical_key_injective_witness :
    canonical_parts (parse_address "12 N 1st St Denver CO 80202".toList).2 =
      canonical_parts (parse_address "12 n  1ST st Denver, co, 80202".toList).2 :=
  canonical_key_injective "12 N 1st St Denver CO 80202".toList
    "12 n  1ST st Denver, co, 80202".toList
    (by rw [parse_denver_plain]) (by rw [parse_denver_spaced])
    (by rw [parse_denver_plain]; decide) (by rw [parse_denver_spaced]; decide)
    (by rw [parse_denver_plain]; decide) (by rw [parse_denver_spaced]; decide)
    (by rw [parse_denver_plain]; decide) (by rw [parse_denver_spaced]; decide)
    (by rw [parse_denver_plain, parse_denver_spaced])

/-! ## Failure of `parse_address` -/

/-- C8: `parse_address` returns -1 exactly when the input is empty or gives no token, leaves
every field of the record empty whenever it returns -1, and returns 0 on every input that
gives at least one token. -/
theorem parse_address_fails_iff (input : CStr) :
    ((parse_address input).1 = -1 ↔ (input = [] ∨ tokenize input = [])) ∧
    ((parse_address input).1 = -1 →
      (parse_address input).2 =
        { street_number := [], street_direction := [], street_name := [], street_suffix := [],
          unit := [], city := [], state := [], postal_code := [], canonical_key := [] }) ∧
    (tokenize input ≠ [] → (parse_address input).1 = 0) := by
  rcases parse_address_eq input with ⟨h1, h2⟩ | ⟨h1, h2⟩
  · rw [h2]
    exact ⟨⟨fun _ => Or.inr h1, fun _ => rfl⟩, fun _ => rfl, fun h => absurd h1 h⟩
  · rw [h2]
    refine ⟨⟨fun h => (by cases h), fun h => ?_⟩, fun h => (by cases h), fun _ => rfl⟩
    rcases h with h | h
    · subst h; exact absurd tokenize_nil h1
    · exact absurd h h1

/-- Witness of `parse_address_fails_iff`: an input of separators fails with a cleared
record, and the Miami address has tokens and succeeds. -/
theorem parse_address_fails_iff_witness :
    (parse_address " , ".toList).1 = -1 ∧
    (parse_address " , ".toList).2 =
      { street_number := [], street_direction := [], street_name := [], street_suffix := [],
        unit := [], city := [], state := [], postal_code := [], canonical_key := [] } ∧
    (parse_address "601 NE 1 AVE, Miami, FL 33132".toList).1 = 0 :=
  ⟨(parse_address_fails_iff " , ".toList).1.2 (Or.inr (by decide!)),
    (parse_address_fails_iff " , ".toList).2.1
      ((parse_address_fails_iff " , ".toList).1.2 (Or.inr (by decide!))),
    (parse_address_fails_iff "601 NE 1 AVE, Miami, FL 33132".toList).2.2 (by decide!)⟩

/-! ## Edit distance -/

theorem lev_nil_left (ys : CStr) : lev [] ys = ys.length := by
  unfold lev; rfl

theorem lev_nil_right (xs : CStr) : lev xs [] = xs.length := by
  cases xs with
  | nil => unfold lev; rfl
  | cons x xs => unfold lev; rfl

theorem lev_cons_cons (x y : Char) (xs ys : CStr) :
    lev (x :: xs) (y :: ys) =
      min (min (lev xs (y :: ys) + 1) (lev (x :: xs) ys + 1))
        (lev xs ys + (if x = y then 0 else 1)) := by
  conv_lhs => unfold lev

theorem lev_self (a : CStr) : lev a a = 0 := by
  induction a with
  | nil => exact lev_nil_left []
  | cons x a ih =>
    rw [lev_cons_cons, ih, if_pos rfl]
    simp

/-- Dropping the first character of the left string costs at most one edit. -/
theorem lev_cons_left_le (c : Char) (r x : CStr) : lev (c :: r) x ≤ lev r x + 1 := by
  cases x with
  | nil => rw [lev_nil_right, lev_nil_right]; simp
  | cons y ys =>
    rw [lev_cons_cons]
    exact le_trans (min_le_left _ _) (min_le_left _ _)

theorem lev_cons_right_le (y : Char) (a x : CStr) : lev a (y :: x) ≤ lev a x + 1 := by
  cases a with
  | nil => rw [lev_nil_left, lev_nil_left]; simp
  | cons c r =>
    rw [lev_cons_cons]
    exact le_trans (min_le_left _ _) (min_le_right _ _)

theorem le_min3_succ {L A B C : Nat} (h1 : L ≤ A + 1) (h2 : L ≤ B + 1) (h3 : L ≤ C + 1) :
    L ≤ min (min A B) C + 1 := by
  rcases min_choice (min A B) C with h | h
  · rw [h]
    rcases min_choice A B with h' | h'
    · rw [h']; exact h1
    · rw [h']; exact h2
  · rw [h]; exact h3

theorem cost_le_one (x y : Char) : (if x = y then 0 else 1 : Nat) ≤ 1 := by
  split <;> omega

theorem lev_le_cons_left (c : Char) (r : CStr) : ∀ x : CStr, lev r x ≤ lev (c :: r) x + 1 := by
  intro x
  induction x with
  | nil => rw [lev_nil_right, lev_nil_right]; simp only [List.length_cons]; omega
  | cons y ys ih =>
    rw [lev_cons_cons]
    have h1 := lev_cons_right_le y r ys
    exact le_min3_succ (by omega) (by omega) (by omega)

theorem lev_subst_le (c d : Char) (r : CStr) :
    ∀ x : CStr, lev (c :: r) x ≤ lev (d :: r) x + 1 := by
  intro x
  induction x with
  | nil =>
    rw [lev_nil_right, lev_nil_right]
    simp
  | cons y ys ih =>
    rw [lev_cons_cons d y]
    have h1 : lev (c :: r) (y :: ys) ≤ lev r (y :: ys) + 1 := lev_cons_left_le c r (y :: ys)
    have h2 : lev (c :: r) (y :: ys) ≤ lev (c :: r) ys + 1 := lev_cons_right_le y (c :: r) ys
    have h3 : lev (c :: r) (y :: ys) ≤ lev r ys + 1 := by
      rw [lev_cons_cons]
      have := cost_le_one c y
      exact le_trans (min_le_right _ _) (by omega)
    exact le_min3_succ (by omega) (by omega) (by omega)

theorem lev_lift (e : Char) (a b : CStr) (h : ∀ x, lev a x ≤ lev b x + 1) :
    ∀ x : CStr, lev (e :: a) x ≤ lev (e :: b) x + 1 := by
  intro x
  induction x with
  | nil =>
    have := h []
    rw [lev_nil_right, lev_nil_right] at this
    rw [lev_nil_right, lev_nil_right]
    simp only [List.length_cons]
    omega
  | cons y ys ih =>
    rw [lev_cons_cons e y b]
    have h1 : lev (e :: a) (y :: ys) ≤ lev a (y :: ys) + 1 := lev_cons_left_le e a (y :: ys)
    have h2 : lev (e :: a) (y :: ys) ≤ lev (e :: a) ys + 1 := lev_cons_right_le y (e :: a) ys
    have h3 : lev (e :: a) (y :: ys) ≤ lev a ys + (if e = y then 0 else 1) := by
      rw [lev_cons_cons]
      exact min_le_right _ _
    have h4 := h (y :: ys)
    have h5 := h ys
    exact le_min3_succ (by omega) (by omega) (by omega)

/-- One edit of the left string changes the distance by at most one. -/
theorem lev_le_of_step {a b : CStr} (h : EditStep a b) : ∀ x, lev a x ≤ lev b x + 1 := by
  cases h with
  | insert l r c =>
    induction l with
    | nil => exact lev_le_cons_left c r
    | cons e l ih => exact lev_lift e _ _ ih
  | delete l r c =>
    induction l with
    | nil => exact lev_cons_left_le c r
    | cons e l ih => exact lev_lift e _ _ ih
  | substitute l r c d =>
    induction l with
    | nil => exact lev_subst_le c d r
    | cons e l ih => exact lev_lift e _ _ ih

/-- No sequence of edits is shorter than the recurrence. -/
theorem lev_le_of_edits {a b : CStr} {n : Nat} (h : Edits a b n) : lev a b ≤ n := by
  induction h with
  | done a => rw [lev_self]
  | @step a b c n hs _ ih =>
    have := lev_le_of_step hs c
    omega

theorem editStep_cons (e : Char) {a b : CStr} (h : EditStep a b) :
    EditStep (e :: a) (e :: b) := by
  cases h with
  | insert l r c => exact EditStep.insert (e :: l) r c
  | delete l r c => exact EditStep.delete (e :: l) r c
  | substitute l r c d => exact EditStep.substitute (e :: l) r c d

theorem edits_cons (e : Char) {a b : CStr} {n : Nat} (h : Edits a b n) :
    Edits (e :: a) (e :: b) n := by
  induction h with
  | done a => exact Edits.done _
  | step hs _ ih => exact Edits.step (editStep_cons e hs) ih

theorem edits_insert_all (ys : CStr) : Edits [] ys ys.length := by
  induction ys with
  | nil => exact Edits.done _
  | cons y ys ih => exact Edits.step (EditStep.insert [] [] y) (edits_cons y ih)

theorem edits_delete_all (xs : CStr) : Edits xs [] xs.length := by
  induction xs with
  | nil => exact Edits.done _
  | cons x xs ih => exact Edits.step (EditStep.delete [] xs x) ih

/-- The recurrence is reached by a sequence of edits. -/
theorem edits_lev : ∀ (n : Nat) (a b : CStr), a.length + b.length = n → Edits a b (lev a b) := by
  intro n
  induction n using Nat.strong_induction_on with
  | _ n ih =>
    intro a b hn
    cases a with
    | nil => rw [lev_nil_left]; exact edits_insert_all b
    | cons x xs =>
      cases b with
      | nil => rw [lev_nil_right]; exact edits_delete_all _
      | cons y ys =>
        simp only [List.length_cons] at hn
        have e1 : Edits (x :: xs) (y :: ys) (lev xs (y :: ys) + 1) :=
          Edits.step (EditStep.delete [] xs x)
            (ih (xs.length + (ys.length + 1)) (by omega) xs (y :: ys) rfl)
        have e2 : Edits (x :: xs) (y :: ys) (lev (x :: xs) ys + 1) :=
          Edits.step (EditStep.insert [] (x :: xs) y)
            (edits_cons y (ih ((xs.length + 1) + ys.length) (by omega) (x :: xs) ys rfl))
        have e3 : Edits (x :: xs) (y :: ys) (lev xs ys + (if x = y then 0 else 1)) := by
          have e := ih (xs.length + ys.length) (by omega) xs ys rfl
          by_cases hxy : x = y
          · rw [if_pos hxy, hxy]; exact edits_cons y e
          · rw [if_neg hxy]
            exact Edits.step (EditStep.substitute [] xs x y) (edits_cons y e)
        rw [lev_cons_cons]
        rcases min_choice (min (lev xs (y :: ys) + 1) (lev (x :: xs) ys + 1))
          (lev xs ys + (if x = y then 0 else 1)) with h | h
        · rw [h]
          rcases min_choice (lev xs (y :: ys) + 1) (lev (x :: xs) ys + 1) with h' | h'
          · rw [h']; exact e1
          · rw [h']; exact e2
        · rw [h]; exact e3

theorem editStep_reverse {a b : CStr} (h : EditStep a b) : EditStep a.reverse b.reverse := by
  cases h with
  | insert l r c =>
    rw [List.reverse_append, List.reverse_append, List.reverse_cons, List.append_assoc]
    exact EditStep.insert r.reverse l.reverse c
  | delete l r c =>
    rw [List.reverse_append, List.reverse_append, List.reverse_cons, List.append_assoc]
    exact EditStep.delete r.reverse l.reverse c
  | substitute l r c d =>
    rw [List.reverse_append, List.reverse_append, List.reverse_cons, List.reverse_cons,
      List.append_assoc, List.append_assoc]
    exact EditStep.substitute r.reverse l.reverse c d

theorem edits_reverse {a b : CStr} {n : Nat} (h : Edits a b n) :
    Edits a.reverse b.reverse n := by
  induction h with
  | done a => exact Edits.done _
  | step hs _ ih => exact Edits.step (editStep_reverse hs) ih

/-! ## The two-row computation -/

theorem table_row_head (p q ys : CStr) : ∃ tl, table_row p q ys = lev p q :: tl := by
  cases ys with
  | nil => exact ⟨[], rfl⟩
  | cons y ys => exact ⟨table_row p (y :: q) ys, rfl⟩

theorem table_row_tail (p q ys : CStr) :
    lev p q :: (table_row p q ys).tail = table_row p q ys := by
  obtain ⟨tl, h⟩ := table_row_head p q ys
  rw [h]; rfl

theorem min3_code (d i s : Nat) :
    (if s < (if d < i then d else i) then s else (if d < i then d else i)) =
      min (min d i) s := by
  simp only [Nat.min_def]
  split_ifs <;> omega

/-- One pass of the inner loop turns the row of the prefix `p` into the row of `x :: p`. -/
theorem levenshtein_row_table (x : Char) (p : CStr) :
    ∀ (ys q : CStr),
      levenshtein_row x ys (table_row p q ys) (lev (x :: p) q) =
        (table_row (x :: p) q ys).tail := by
  intro ys
  induction ys with
  | nil => intro q; rfl
  | cons y ys ih =>
    intro q
    obtain ⟨tl, htl⟩ := table_row_head p (y :: q) ys
    have hrow : table_row p q (y :: ys) = lev p q :: lev p (y :: q) :: tl := by
      show lev p q :: table_row p (y :: q) ys = _
      rw [htl]
    rw [hrow]
    unfold levenshtein_row
    simp only [min3_code]
    rw [← lev_cons_cons, ← htl, ih (y :: q), table_row_tail]
    rfl

theorem levenshtein_rows_table (right : CStr) :
    ∀ (xs p : CStr),
      levenshtein_rows right xs (p.length + 1) (table_row p [] right) =
        table_row (xs.reverse ++ p) [] right := by
  intro xs
  induction xs with
  | nil => intro p; rfl
  | cons x xs ih =>
    intro p
    unfold levenshtein_rows
    have hrow := levenshtein_row_table x p right []
    rw [lev_nil_right, List.length_cons] at hrow
    rw [hrow]
    have htail := table_row_tail (x :: p) [] right
    rw [lev_nil_right, List.length_cons] at htail
    rw [htail]
    have := ih (x :: p)
    rw [List.length_cons] at this
    rw [this, List.reverse_cons, List.append_assoc]
    rfl

theorem table_row_nil (ys : CStr) :
    ∀ q : CStr, table_row [] q ys = List.range' q.length (ys.length + 1) := by
  induction ys with
  | nil => intro q; simp [table_row, lev_nil_left]
  | cons y ys ih =>
    intro q
    show lev [] q :: table_row [] (y :: q) ys = _
    rw [ih, lev_nil_left, List.length_cons, List.length_cons]
    rfl

theorem table_row_last (p : CStr) (ys : CStr) :
    ∀ q : CStr, (table_row p q ys).get? ys.length = some (lev p (ys.reverse ++ q)) := by
  induction ys with
  | nil => intro q; rfl
  | cons y ys ih =>
    intro q
    show (lev p q :: table_row p (y :: q) ys).get? (ys.length + 1) = _
    rw [List.get?_cons_succ, ih, List.reverse_cons, List.append_assoc]
    rfl

/-- The two-row computation gives the recurrence, read from the ends of the strings. -/
theorem levenshtein_distance_eq_lev (a b : CStr) :
    levenshtein_distance true a b = lev a.reverse b.reverse := by
  unfold levenshtein_distance
  simp only
  split
  · rename_i h
    rw [List.length_eq_zero.1 h, List.reverse_nil, lev_nil_left, List.length_reverse]
  · split
    · rename_i h
      rw [List.length_eq_zero.1 h, List.reverse_nil, lev_nil_right, List.length_reverse]
    · simp only [Bool.not_true, Bool.false_eq_true, if_false]
      have h0 : List.range (b.length + 1) = table_row [] [] b := by
        rw [table_row_nil, List.range_eq_range']
        rfl
      have := levenshtein_rows_table b a []
      simp only [List.length_nil, Nat.zero_add, List.append_nil] at this
      rw [h0, this, table_row_last, List.append_nil]
      rfl

theorem lev_symm : ∀ (n : Nat) (a b : CStr), a.length + b.length = n → lev a b = lev b a := by
  intro n
  induction n using Nat.strong_induction_on with
  | _ n ih =>
    intro a b hn
    cases a with
    | nil => rw [lev_nil_left, lev_nil_right]
    | cons x xs =>
      cases b with
      | nil => rw [lev_nil_left, lev_nil_right]
      | cons y ys =>
        simp only [List.length_cons] at hn
        rw [lev_cons_cons, lev_cons_cons,
          ih (xs.length + (ys.length + 1)) (by omega) xs (y :: ys) rfl,
          ih ((xs.length + 1) + ys.length) (by omega) (x :: xs) ys rfl,
          ih (xs.length + ys.length) (by omega) xs ys rfl,
          min_comm (lev (y :: ys) xs + 1)]
        by_cases hxy : x = y
        · rw [if_pos hxy, if_pos hxy.symm]
        · rw [if_neg hxy, if_neg (fun h => hxy h.symm)]

theorem levenshtein_distance_comm (m : Bool) (a b : CStr) :
    levenshtein_distance m a b = levenshtein_distance m b a := by
  cases m with
  | true =>
    rw [levenshtein_distance_eq_lev, levenshtein_distance_eq_lev]
    exact lev_symm _ _ _ rfl
  | false =>
    unfold levenshtein_distance
    simp only [Bool.not_false, if_true]
    split_ifs <;> omega

/-- C9: with the two work rows allocated, `levenshtein_distance a b` is the least number of
single-character insertions, deletions and substitutions that transform `a` into `b`: some
sequence of that many edits does it, and no sequence of edits is shorter. -/
theorem levenshtein_distance_is_edit_distance (a b : CStr) :
    Edits a b (levenshtein_distance true a b) ∧
    ∀ n, Edits a b n → levenshtein_distance true a b ≤ n := by
  rw [levenshtein_distance_eq_lev]
  constructor
  · have h := edits_reverse (edits_lev _ a.reverse b.reverse rfl)
    rwa [List.reverse_reverse, List.reverse_reverse] at h
  · intro n h
    exact lev_le_of_edits (edits_reverse h)

/-- Witness of `levenshtein_distance_is_edit_distance`: three edits turn kitten into sitting,
so the distance is at most 3. -/
theorem levenshtein_distance_is_edit_distance_witness :
    Edits ['k', 'i', 't', 't', 'e', 'n'] ['s', 'i', 't', 't', 'i', 'n', 'g'] 3 ∧
    levenshtein_distance true ['k', 'i', 't', 't', 'e', 'n']
      ['s', 'i', 't', 't', 'i', 'n', 'g'] ≤ 3 :=
  ⟨Edits.step (EditStep.substitute [] ['i', 't', 't', 'e', 'n'] 'k' 's')
      (Edits.step (EditStep.substitute ['s', 'i', 't', 't'] ['n'] 'e' 'i')
        (Edits.step (EditStep.insert ['s', 'i', 't', 't', 'i', 'n'] [] 'g') (Edits.done _))),
    (levenshtein_distance_is_edit_distance ['k', 'i', 't', 't', 'e', 'n']
      ['s', 'i', 't', 't', 'i', 'n', 'g']).2 3
      (Edits.step (EditStep.substitute [] ['i', 't', 't', 'e', 'n'] 'k' 's')
        (Edits.step (EditStep.substitute ['s', 'i', 't', 't'] ['n'] 'e' 'i')
          (Edits.step (EditStep.insert ['s', 'i', 't', 't', 'i', 'n'] [] 'g')
            (Edits.done _))))⟩

/-- C10: `similarity_ratio` is symmetric, whether or not the work rows of the distance can be
allocated. -/
theorem similarity_ratio_symm (rows_allocated : Bool) (a b : CStr) :
    similarity_ratio rows_allocated a b = similarity_ratio rows_allocated b a := by
  have hmax : (if a.length > b.length then a.length else b.length) =
      (if b.length > a.length then b.length else a.length) := by
    split_ifs <;> omega
  have hor : (a.isEmpty = true ∨ b.isEmpty = true) ↔ (b.isEmpty = true ∨ a.isEmpty = true) :=
    or_comm
  have heq : a = b ↔ b = a := eq_comm
  unfold similarity_ratio
  rw [levenshtein_distance_comm rows_allocated a b]
  simp only [hmax, hor, heq]

/-! ## Similarity ratio -/

theorem lev_le_max : ∀ a b : CStr, lev a b ≤ max a.length b.length := by
  intro a
  induction a with
  | nil => intro b; rw [lev_nil_left]; exact le_max_right _ _
  | cons x xs ih =>
    intro b
    cases b with
    | nil => rw [lev_nil_right]; exact le_max_left _ _
    | cons y ys =>
      rw [lev_cons_cons]
      have h1 := ih ys
      have h2 := cost_le_one x y
      have h3 : lev xs ys + (if x = y then 0 else 1) ≤ max (xs.length + 1) (ys.length + 1) := by
        rw [Nat.succ_max_succ]
        omega
      exact le_trans (min_le_right _ _) h3

theorem levenshtein_distance_le_max (m : Bool) (a b : CStr) :
    levenshtein_distance m a b ≤ max a.length b.length := by
  cases m with
  | true =>
    rw [levenshtein_distance_eq_lev]
    have := lev_le_max a.reverse b.reverse
    rwa [List.length_reverse, List.length_reverse] at this
  | false =>
    unfold levenshtein_distance
    simp only [Bool.not_false, if_true]
    split_ifs <;> omega

theorem max_len_eq (a b : CStr) :
    (if a.length > b.length then a.length else b.length) = max a.length b.length := by
  split_ifs <;> omega

/-- The unclamped ratio lies between 0 and 1. -/
theorem ratio_bounds (m : Bool) (a b : CStr) (ha : a ≠ []) :
    0 ≤ 1 - (levenshtein_distance m a b : ℚ) / (max a.length b.length : ℕ) ∧
    1 - (levenshtein_distance m a b : ℚ) / (max a.length b.length : ℕ) ≤ 1 := by
  have hpos : 0 < max a.length b.length :=
    lt_of_lt_of_le (List.length_pos.2 ha) (le_max_left _ _)
  have hposq : (0 : ℚ) < ((max a.length b.length : ℕ) : ℚ) := by exact_mod_cast hpos
  have hle : (levenshtein_distance m a b : ℚ) ≤ ((max a.length b.length : ℕ) : ℚ) := by
    exact_mod_cast levenshtein_distance_le_max m a b
  have h0 : (0 : ℚ) ≤ (levenshtein_distance m a b : ℚ) := by exact_mod_cast Nat.zero_le _
  have h1 : (levenshtein_distance m a b : ℚ) / ((max a.length b.length : ℕ) : ℚ) ≤ 1 :=
    (div_le_one hposq).2 hle
  have h2 : 0 ≤ (levenshtein_distance m a b : ℚ) / ((max a.length b.length : ℕ) : ℚ) :=
    div_nonneg h0 (le_of_lt hposq)
  constructor <;> linarith

theorem similarity_ratio_of_empty (m : Bool) (a b : CStr) (h : a = [] ∨ b = []) :
    similarity_ratio m a b = 0 := by
  unfold similarity_ratio
  rw [if_pos]
  rcases h with h | h
  · left; rw [h]; rfl
  · right; rw [h]; rfl

theorem similarity_ratio_self (m : Bool) (a : CStr) (h : a ≠ []) :
    similarity_ratio m a a = 1 := by
  unfold similarity_ratio
  have hne : ¬ (a.isEmpty = true ∨ a.isEmpty = true) := by
    simp [List.isEmpty_iff, h]
  rw [if_neg hne, if_pos rfl]

theorem similarity_ratio_of_ne (m : Bool) (a b : CStr) (ha : a ≠ []) (hb : b ≠ [])
    (hab : a ≠ b) :
    similarity_ratio m a b =
      1 - (levenshtein_distance m a b : ℚ) / (max a.length b.length : ℕ) := by
  have hb0 := ratio_bounds m a b ha
  unfold similarity_ratio
  have hne : ¬ (a.isEmpty = true ∨ b.isEmpty = true) := by
    simp [List.isEmpty_iff, ha, hb]
  have hpos : max a.length b.length ≠ 0 := by
    have := List.length_pos.2 ha
    have := le_max_left a.length b.length
    omega
  rw [if_neg hne, if_neg hab]
  simp only [max_len_eq]
  rw [if_neg hpos, if_neg (not_lt.2 hb0.1), if_neg (not_lt.2 hb0.2)]

theorem similarity_ratio_bounds (m : Bool) (a b : CStr) :
    0 ≤ similarity_ratio m a b ∧ similarity_ratio m a b ≤ 1 := by
  by_cases h : a = [] ∨ b = []
  · rw [similarity_ratio_of_empty m a b h]; exact ⟨le_refl _, zero_le_one⟩
  · have hn := not_or.1 h
    by_cases hab : a = b
    · rw [← hab, similarity_ratio_self m a hn.1]; exact ⟨zero_le_one, le_refl _⟩
    · rw [similarity_ratio_of_ne m a b hn.1 hn.2 hab]
      exact ratio_bounds m a b hn.1

/-- C11: `similarity_ratio a b` is 0 when a string is empty, 1 when the strings are equal and
not empty, and otherwise exactly 1 minus the distance over the longer length, without any
effect of the final clamp; it always lies between 0 and 1; and with the work rows allocated
the ratio of MAIN and MAINE is 4/5. -/
theorem similarity_ratio_spec (m : Bool) (a b : CStr) :
    (a = [] ∨ b = [] → similarity_ratio m a b = 0) ∧
    (a ≠ [] → a = b → similarity_ratio m a b = 1) ∧
    (a ≠ [] → b ≠ [] → a ≠ b →
      similarity_ratio m a b =
        1 - (levenshtein_distance m a b : ℚ) / (max a.length b.length : ℕ)) ∧
    0 ≤ similarity_ratio m a b ∧ similarity_ratio m a b ≤ 1 ∧
    similarity_ratio true "MAIN".toList "MAINE".toList = 4 / 5 := by
  refine ⟨similarity_ratio_of_empty m a b, ?_, similarity_ratio_of_ne m a b,
    (similarity_ratio_bounds m a b).1, (similarity_ratio_bounds m a b).2, by decide!⟩
  intro ha hab
  rw [← hab]
  exact similarity_ratio_self m a ha

/-- Witness of `similarity_ratio_spec`: MAIN against MAINE is one edit over five characters,
and an empty string gives 0. -/
theorem similarity_ratio_spec_witness :
    similarity_ratio true "MAIN".toList "MAINE".toList =
      1 - (levenshtein_distance true "MAIN".toList "MAINE".toList : ℚ) /
        (max "MAIN".toList.length "MAINE".toList.length : ℕ) ∧
    similarity_ratio true [] "MAINE".toList = 0 ∧
    similarity_ratio true "MAIN".toList "MAIN".toList = 1 :=
  ⟨(similarity_ratio_spec true "MAIN".toList "MAINE".toList).2.2.1 (by decide) (by decide)
      (by decide),
    (similarity_ratio_spec true [] "MAINE".toList).1 (Or.inl rfl),
    (similarity_ratio_spec true "MAIN".toList "MAIN".toList).2.1 (by decide) rfl⟩

/-! ## Component scorer -/

theorem add_breakdown_entry_score (b : ScoreBreakdown) (key left right : CStr) (w : ℚ) :
    (add_breakdown_entry b key left right w).score = b.score := by
  unfold add_breakdown_entry
  split <;> rfl

/-- The score of `score_components` as the weighted sum of its seven signals. -/
theorem score_components_score (m : Bool) (l r : AddressComponents) (z : Bool) :
    (score_components m l r z).score =
      35 / 100 * exact_match l.street_number r.street_number +
      25 / 100 * similarity_ratio m l.street_name r.street_name +
      5 / 100 * exact_match (normalize_direction l.street_direction)
        (normalize_direction r.street_direction) +
      5 / 100 * exact_match l.street_suffix r.street_suffix +
      15 / 100 * similarity_ratio m l.city r.city +
      5 / 100 * exact_match l.state r.state +
      10 / 100 *
        (if z = true ∧
            ¬ (canonicalize_zip (copy_field AMS_MAX_POSTAL_LENGTH l.postal_code)).isEmpty = true ∧
            (canonicalize_zip (copy_field AMS_MAX_POSTAL_LENGTH r.postal_code)).isEmpty = true
          then 0
          else exact_match (canonicalize_zip (copy_field AMS_MAX_POSTAL_LENGTH l.postal_code))
            (canonicalize_zip (copy_field AMS_MAX_POSTAL_LENGTH r.postal_code))) := by
  unfold score_components
  simp only [weight_at, WEIGHTS, List.getD_cons_zero, List.getD_cons_succ, zero_add]

theorem exact_match_self (x : CStr) : exact_match x x = if x ≠ [] then 1 else 0 := by
  unfold exact_match
  cases x with
  | nil => simp
  | cons a t => simp

theorem exact_match_bounds (x y : CStr) : 0 ≤ exact_match x y ∧ exact_match x y ≤ 1 := by
  unfold exact_match
  split_ifs <;> norm_num

theorem exact_match_eq (x y : CStr) :
    exact_match x y = if x ≠ [] ∧ y ≠ [] ∧ x = y then 1 else 0 := by
  unfold exact_match
  cases x <;> cases y <;> simp

/-- The test on `require_zip` never changes the postal signal: with an empty right code the
exact comparison is 0 already. -/
theorem zip_signal_eq (z : Bool) (lz rz : CStr) :
    (if z = true ∧ ¬ lz.isEmpty = true ∧ rz.isEmpty = true then 0 else exact_match lz rz) =
      exact_match lz rz := by
  split
  · rename_i h
    have : rz = [] := by simpa using h.2.2
    rw [this, exact_match_eq]
    simp
  · rfl

theorem similarity_ratio_self_eq (m : Bool) (x : CStr) :
    similarity_ratio m x x = if x ≠ [] then 1 else 0 := by
  by_cases h : x = []
  · rw [if_neg (not_not.2 h), similarity_ratio_of_empty m x x (Or.inl h)]
  · rw [if_pos h, similarity_ratio_self m x h]

theorem normalize_direction_eq_nil (d : CStr) : normalize_direction d = [] ↔ d = [] := by
  have hall : ∀ e ∈ DIRECTIONAL_MAP, e.1 ≠ [] ∧ e.2 ≠ [] := by decide
  unfold normalize_direction
  split
  · rename_i e he
    have hmem := List.mem_of_find?_eq_some he
    have hfound := List.find?_some he
    simp only [decide_eq_true_eq] at hfound
    constructor
    · intro h; exact absurd h (hall e hmem).2
    · intro h; rw [h] at hfound; exact absurd hfound.symm (hall e hmem).1
  · exact Iff.rfl

theorem canonicalize_zip_loop_ne_nil :
    ∀ (t f : CStr), f ≠ [] → canonicalize_zip_loop t f ≠ [] := by
  intro t
  induction t with
  | nil => intro f hf; simpa [canonicalize_zip_loop] using hf
  | cons c t ih =>
    intro f hf
    unfold canonicalize_zip_loop
    have happ : ∀ x : Char, f ++ [x] ≠ [] := by intro x; simp
    split_ifs
    · exact ih _ (happ c)
    · exact ih _ (happ c)
    · exact ih _ hf
    · exact hf

/-- A non-empty string of the shape of a postal code keeps its first digit in the canonical
form. -/
theorem canonicalize_zip_ne_nil_of_shape (p : CStr) (hs : ZipShape p) (hp : p ≠ []) :
    canonicalize_zip (copy_field AMS_MAX_POSTAL_LENGTH p) ≠ [] := by
  cases p with
  | nil => exact absurd rfl hp
  | cons c t =>
    have hc : isdigit c = true := by
      rcases hs.1 c (List.mem_cons_self _ _) with h | h
      · exact h
      · have := hs.2 0 (by rw [h]; rfl)
        omega
    unfold canonicalize_zip copy_field AMS_MAX_POSTAL_LENGTH
    simp only [Nat.add_one_sub_one, Nat.reduceSub, List.take_succ_cons]
    unfold canonicalize_zip_loop
    simp only [AMS_MAX_POSTAL_LENGTH, List.length_nil, Nat.reduceSub, Nat.zero_lt_succ,
      if_true, hc, List.nil_append]
    intro h
    rcases List.take_eq_nil_iff.1 h with h1 | h1
    · omega
    · exact canonicalize_zip_loop_ne_nil _ _ (by simp) h1

theorem canonicalize_zip_nil : canonicalize_zip (copy_field AMS_MAX_POSTAL_LENGTH []) = [] := by
  decide

/-! ## Postal signal -/

theorem isdigit_dash : isdigit '-' = false := by decide

/-- On a string that fits the filter buffer, the loop of `canonicalize_zip` keeps every
digit. -/
theorem canonicalize_zip_loop_digits :
    ∀ (t f : CStr), f.length + t.length ≤ 31 →
      (canonicalize_zip_loop t f).filter isdigit = f.filter isdigit ++ t.filter isdigit ∧
      (canonicalize_zip_loop t f).length ≤ f.length + t.length := by
  intro t
  induction t with
  | nil => intro f _; simp [canonicalize_zip_loop]
  | cons c t ih =>
    intro f hlen
    simp only [List.length_cons] at hlen
    unfold canonicalize_zip_loop
    have hroom : f.length < AMS_MAX_POSTAL_LENGTH - 1 := by
      simp only [AMS_MAX_POSTAL_LENGTH]; omega
    rw [if_pos hroom]
    have hlen2 : (f ++ [c]).length + t.length ≤ 31 := by
      rw [List.length_append, List.length_singleton]; omega
    by_cases hd : isdigit c = true
    · rw [if_pos hd]
      obtain ⟨h1, h2⟩ := ih (f ++ [c]) hlen2
      rw [h1, List.filter_append, List.filter_cons_of_pos hd]
      refine ⟨by simp [hd], ?_⟩
      rw [List.length_append, List.length_singleton] at h2
      simp only [List.length_cons]; omega
    · rw [if_neg hd]
      have hfc : (c :: t).filter isdigit = t.filter isdigit := by
        rw [List.filter_cons_of_neg hd]
      split
      · obtain ⟨h1, h2⟩ := ih (f ++ [c]) hlen2
        rw [h1, List.filter_append, hfc]
        refine ⟨by simp [hd], ?_⟩
        rw [List.length_append, List.length_singleton] at h2
        simp only [List.length_cons]; omega
      · obtain ⟨h1, h2⟩ := ih f (by omega)
        rw [h1, hfc]
        refine ⟨rfl, ?_⟩
        simp only [List.length_cons]; omega

/-- The canonical form of a postal field has the digits of the field. -/
theorem canonicalize_zip_digits (p : CStr) :
    (canonicalize_zip (copy_field AMS_MAX_POSTAL_LENGTH p)).filter isdigit =
      (copy_field AMS_MAX_POSTAL_LENGTH p).filter isdigit := by
  have hlen : (copy_field AMS_MAX_POSTAL_LENGTH p).length ≤ 31 := by
    unfold copy_field AMS_MAX_POSTAL_LENGTH
    rw [List.length_take]; omega
  obtain ⟨h1, h2⟩ := canonicalize_zip_loop_digits (copy_field AMS_MAX_POSTAL_LENGTH p) []
    (by simpa using hlen)
  unfold canonicalize_zip
  have h3 : (canonicalize_zip_loop (copy_field AMS_MAX_POSTAL_LENGTH p) []).length ≤
      AMS_MAX_POSTAL_LENGTH - 1 := by
    simp only [List.length_nil, Nat.zero_add] at h2
    exact le_trans h2 hlen
  conv_lhs => rw [copy_field, List.take_of_length_le h3]
  simpa using h1

/-- The score with and without the postal codes. -/
theorem score_components_postal (m : Bool) (l r : AddressComponents) (z : Bool) :
    (score_components m l r z).score =
      (score_components m { l with postal_code := [] } { r with postal_code := [] } z).score +
      10 / 100 * exact_match (canonicalize_zip (copy_field AMS_MAX_POSTAL_LENGTH l.postal_code))
        (canonicalize_zip (copy_field AMS_MAX_POSTAL_LENGTH r.postal_code)) := by
  rw [score_components_score, score_components_score, zip_signal_eq, zip_signal_eq]
  simp only [canonicalize_zip_nil, exact_match_eq]
  simp

/-- C14, as stated, fails: 33132-1234 and 331321234 hold the same non-empty digit sequence,
but the postal field contributes nothing: the score of two records that hold only these
postal codes is 0. -/
theorem postal_signal_keeps_dash :
    "33132-1234".toList.filter isdigit = "331321234".toList.filter isdigit ∧
    "33132-1234".toList.filter isdigit ≠ [] ∧
    (score_components true
      { street_number := [], street_direction := [], street_name := [], street_suffix := [],
        unit := [], city := [], state := [], postal_code := "33132-1234".toList,
        canonical_key := [] }
      { street_number := [], street_direction := [], street_name := [], street_suffix := [],
        unit := [], city := [], state := [], postal_code := "331321234".toList,
        canonical_key := [] } false).score = 0 := by
  decide!

/-- C14, amended: the postal signal compares the canonical forms of the two postal codes,
which keep the digits and every dash that follows five kept characters.  The postal field
adds its weight 0.10 to the score exactly when both canonical forms are non-empty and equal,
and adds nothing otherwise; in particular it adds nothing when the digit sequences differ or
one code is empty. -/
theorem postal_signal_spec (m : Bool) (l r : AddressComponents) (z : Bool) :
    (canonicalize_zip (copy_field AMS_MAX_POSTAL_LENGTH l.postal_code) ≠ [] →
      canonicalize_zip (copy_field AMS_MAX_POSTAL_LENGTH l.postal_code) =
        canonicalize_zip (copy_field AMS_MAX_POSTAL_LENGTH r.postal_code) →
      (score_components m l r z).score =
        (score_components m { l with postal_code := [] } { r with postal_code := [] } z).score +
          10 / 100) ∧
    ((canonicalize_zip (copy_field AMS_MAX_POSTAL_LENGTH l.postal_code) = [] ∨
        canonicalize_zip (copy_field AMS_MAX_POSTAL_LENGTH r.postal_code) = [] ∨
        canonicalize_zip (copy_field AMS_MAX_POSTAL_LENGTH l.postal_code) ≠
          canonicalize_zip (copy_field AMS_MAX_POSTAL_LENGTH r.postal_code)) →
      (score_components m l r z).score =
        (score_components m { l with postal_code := [] } { r with postal_code := [] } z).score) ∧
    ((copy_field AMS_MAX_POSTAL_LENGTH l.postal_code).filter isdigit ≠
        (copy_field AMS_MAX_POSTAL_LENGTH r.postal_code).filter isdigit →
      (score_components m l r z).score =
        (score_components m { l with postal_code := [] } { r with postal_code := [] } z).score) ∧
    ((l.postal_code = [] ∨ r.postal_code = []) →
      (score_components m l r z).score =
        (score_components m { l with postal_code := [] } { r with postal_code := [] } z).score) := by
  have hzero : ∀ h : (canonicalize_zip (copy_field AMS_MAX_POSTAL_LENGTH l.postal_code) = [] ∨
        canonicalize_zip (copy_field AMS_MAX_POSTAL_LENGTH r.postal_code) = [] ∨
        canonicalize_zip (copy_field AMS_MAX_POSTAL_LENGTH l.postal_code) ≠
          canonicalize_zip (copy_field AMS_MAX_POSTAL_LENGTH r.postal_code)),
      (score_components m l r z).score =
        (score_components m { l with postal_code := [] } { r with postal_code := [] } z).score := by
    intro h
    rw [score_components_postal, exact_match_eq, if_neg, mul_zero, add_zero]
    rintro ⟨h1, h2, h3⟩
    rcases h with h | h | h
    · exact h1 h
    · exact h2 h
    · exact h h3
  refine ⟨?_, hzero, ?_, ?_⟩
  · intro h1 h2
    rw [score_components_postal, exact_match_eq, if_pos ⟨h1, h2 ▸ h1, h2⟩, mul_one]
  · intro hd
    apply hzero
    right; right
    intro heq
    apply hd
    rw [← canonicalize_zip_digits l.postal_code, ← canonicalize_zip_digits r.postal_code, heq]
  · intro he
    apply hzero
    rcases he with he | he
    · left; rw [he]; exact canonicalize_zip_nil
    · right; left; rw [he]; exact canonicalize_zip_nil

/-- Witness of `postal_signal_spec`: two records that hold only the postal code 33132-1234
score 0.10, and against the code 331321234 the score is that of the empty records. -/
theorem postal_signal_spec_witness :
    (score_components true
      { street_number := [], street_direction := [], street_name := [], street_suffix := [],
        unit := [], city := [], state := [], postal_code := "33132-1234".toList,
        canonical_key := [] }
      { street_number := [], street_direction := [], street_name := [], street_suffix := [],
        unit := [], city := [], state := [], postal_code := "33132-1234".toList,
        canonical_key := [] } false).score =
      (score_components true
        { street_number := [], street_direction := [], street_name := [], street_suffix := [],
          unit := [], city := [], state := [], postal_code := [], canonical_key := [] }
        { street_number := [], street_direction := [], street_name := [], street_suffix := [],
          unit := [], city := [], state := [], postal_code := [], canonical_key := [] }
        false).score + 10 / 100 ∧
    (score_components true
      { street_number := [], street_direction := [], street_name := [], street_suffix := [],
        unit := [], city := [], state := [], postal_code := "33132-1234".toList,
        canonical_key := [] }
      { street_number := [], street_direction := [], street_name := [], street_suffix := [],
        unit := [], city := [], state := [], postal_code := "331321234".toList,
        canonical_key := [] } false).score =
      (score_components true
        { street_number := [], street_direction := [], street_name := [], street_suffix := [],
          unit := [], city := [], state := [], postal_code := [], canonical_key := [] }
        { street_number := [], street_direction := [], street_name := [], street_suffix := [],
          unit := [], city := [], state := [], postal_code := [], canonical_key := [] }
        false).score :=
  ⟨(postal_signal_spec true
      { street_number := [], street_direction := [], street_name := [], street_suffix := [],
        unit := [], city := [], state := [], postal_code := "33132-1234".toList,
        canonical_key := [] }
      { street_number := [], street_direction := [], street_name := [], street_suffix := [],
        unit := [], city := [], state := [], postal_code := "33132-1234".toList,
        canonical_key := [] } false).1 (by decide) (by decide),
    (postal_signal_spec true
      { street_number := [], street_direction := [], street_name := [], street_suffix := [],
        unit := [], city := [], state := [], postal_code := "33132-1234".toList,
        canonical_key := [] }
      { street_number := [], street_direction := [], street_name := [], street_suffix := [],
        unit := [], city := [], state := [], postal_code := "331321234".toList,
        canonical_key := [] } false).2.1 (Or.inr (Or.inr (by decide)))⟩

/-! ## String comparison -/

theorem char_toNat_inj {a b : Char} (h : a.toNat = b.toNat) : a = b := by
  apply Char.ext
  apply UInt32.ext
  exact h

theorem strcmp_eq_zero : ∀ a b : CStr, strcmp a b = 0 ↔ a = b := by
  intro a
  induction a with
  | nil =>
    intro b
    cases b with
    | nil => simp [strcmp]
    | cons y ys => simp [strcmp]
  | cons x xs ih =>
    intro b
    cases b with
    | nil => simp [strcmp]
    | cons y ys =>
      unfold strcmp
      split_ifs with h1 h2
      · constructor
        · intro h; cases h
        · intro h; cases h; omega
      · constructor
        · intro h; cases h
        · intro h; cases h; omega
      · have hxy : x = y := char_toNat_inj (by omega)
        rw [ih ys, hxy]
        simp

theorem strcmp_self (a : CStr) : strcmp a a = 0 := (strcmp_eq_zero a a).2 rfl

theorem strcmp_antisymm : ∀ a b : CStr, strcmp b a = - strcmp a b := by
  intro a
  induction a with
  | nil =>
    intro b
    cases b with
    | nil => simp [strcmp]
    | cons y ys => simp [strcmp]
  | cons x xs ih =>
    intro b
    cases b with
    | nil => simp [strcmp]
    | cons y ys =>
      unfold strcmp
      split_ifs <;> first | omega | rfl | exact ih ys

theorem strcmp_lt_trans : ∀ a b c : CStr, strcmp a b < 0 → strcmp b c < 0 → strcmp a c < 0 := by
  intro a
  induction a with
  | nil =>
    intro b c h1 h2
    cases b with
    | nil => simp [strcmp] at h1
    | cons y ys =>
      cases c with
      | nil => simp [strcmp] at h2
      | cons z zs => simp [strcmp]
  | cons x xs ih =>
    intro b c h1 h2
    cases b with
    | nil => simp [strcmp] at h1
    | cons y ys =>
      cases c with
      | nil => simp [strcmp] at h2
      | cons z zs =>
        unfold strcmp at h1 h2 ⊢
        split_ifs at h1 h2 ⊢ <;> first | omega | exact ih ys zs h1 h2

theorem strcmp_le_trans (a b c : CStr) (h1 : strcmp a b ≤ 0) (h2 : strcmp b c ≤ 0) :
    strcmp a c ≤ 0 := by
  rcases lt_or_eq_of_le h1 with h | h
  · rcases lt_or_eq_of_le h2 with h' | h'
    · exact le_of_lt (strcmp_lt_trans a b c h h')
    · rw [← (strcmp_eq_zero b c).1 h']; exact h1
  · rw [(strcmp_eq_zero a b).1 h]; exact h2

theorem strcmp_total (a b : CStr) : strcmp a b ≤ 0 ∨ strcmp b a ≤ 0 := by
  rw [strcmp_antisymm a b]
  omega

/-! ## The aggregator -/

theorem find_existing_some {items : List MatchCandidate} {id : CStr} {idx : Nat}
    (h : find_existing items id = some idx) :
    ∃ old, items.get? idx = some old ∧ old.location.location_id = id ∧
      ∀ j c, j < idx → items.get? j = some c → c.location.location_id ≠ id := by
  unfold find_existing at h
  obtain ⟨hlt, hp, hfirst⟩ := List.findIdx?_eq_some_iff_getElem.1 h
  refine ⟨items[idx], by rw [List.get?_eq_getElem?, List.getElem?_eq_getElem hlt], ?_, ?_⟩
  · simp only [decide_eq_true_eq] at hp
    exact (strcmp_eq_zero _ _).1 hp
  · intro j c hj hc hid
    have hjl : j < items.length := lt_trans hj hlt
    rw [List.get?_eq_getElem?, List.getElem?_eq_getElem hjl] at hc
    cases hc
    apply hfirst j hj
    simp only [decide_eq_true_eq]
    exact (strcmp_eq_zero _ _).2 hid

theorem find_existing_none {items : List MatchCandidate} {id : CStr}
    (h : find_existing items id = none) :
    ∀ c ∈ items, c.location.location_id ≠ id := by
  unfold find_existing at h
  intro c hc hid
  have := List.findIdx?_eq_none_iff.1 h c hc
  simp only [decide_eq_false_iff_not] at this
  exact this ((strcmp_eq_zero _ _).2 hid)

theorem find_existing_of_mem {items : List MatchCandidate} {id : CStr}
    (h : ∃ c ∈ items, c.location.location_id = id) :
    ∃ idx, find_existing items id = some idx := by
  cases hf : find_existing items id with
  | some idx => exact ⟨idx, rfl⟩
  | none =>
    obtain ⟨c, hc, hid⟩ := h
    exact absurd hid (find_existing_none hf c hc)

/-- The candidate that `add_candidate` builds from its arguments. -/
theorem add_candidate_fields (result : MatchResult) (location : LocationRecord) (confidence : ℚ)
    (strategy reason : CStr) (breakdown : ScoreBreakdown) (max_candidates : Nat) :
    add_candidate result location confidence strategy reason breakdown max_candidates =
      { result with
        items :=
          (add_candidate result location confidence strategy reason breakdown
            max_candidates).items } := by
  unfold add_candidate
  simp only
  split
  · split
    · split <;> rfl
    · rfl
  · split
    · rfl
    · split
      · split <;> rfl
      · rfl

/-- The three ways in which `add_candidate` changes the items, and the way in which it leaves
them alone. -/
theorem add_candidate_items (result : MatchResult) (location : LocationRecord) (confidence : ℚ)
    (strategy reason : CStr) (breakdown : ScoreBreakdown) (max_candidates : Nat) :
    (add_candidate result location confidence strategy reason breakdown max_candidates).items =
        result.items ∨
    (∃ idx old, result.items.get? idx = some old ∧
      old.location.location_id = location.location_id ∧ old.confidence < confidence ∧
      (add_candidate result location confidence strategy reason breakdown max_candidates).items =
        result.items.set idx
          { location := old.location, confidence := confidence,
            strategy := copy_field AMS_MAX_STRATEGY_LENGTH strategy,
            reason := copy_field AMS_MAX_REASON_LENGTH reason, breakdown := breakdown }) ∨
    ((∀ c ∈ result.items, c.location.location_id ≠ location.location_id) ∧
      result.items.length < max_candidates ∧ result.items.length < MATCHER_MAX_CANDIDATES ∧
      (add_candidate result location confidence strategy reason breakdown max_candidates).items =
        result.items ++
          [{ location := location, confidence := confidence,
             strategy := copy_field AMS_MAX_STRATEGY_LENGTH strategy,
             reason := copy_field AMS_MAX_REASON_LENGTH reason, breakdown := breakdown }]) ∨
    ((∀ c ∈ result.items, c.location.location_id ≠ location.location_id) ∧
      ¬ (result.items.length < max_candidates ∧
        result.items.length < MATCHER_MAX_CANDIDATES) ∧
      ∃ idx, (find_lowest result.items 0 (none, 11 / 10)).1 = some idx ∧
        (find_lowest result.items 0 (none, 11 / 10)).2 < confidence ∧
        (add_candidate result location confidence strategy reason breakdown
          max_candidates).items =
          result.items.set idx
            { location := location, confidence := confidence,
              strategy := copy_field AMS_MAX_STRATEGY_LENGTH strategy,
              reason := copy_field AMS_MAX_REASON_LENGTH reason, breakdown := breakdown }) := by
  unfold add_candidate
  simp only
  cases hf : find_existing result.items location.location_id with
  | some idx =>
    obtain ⟨old, hold, hid, -⟩ := find_existing_some hf
    simp only [hold]
    split
    · rename_i hgt
      right; left
      exact ⟨idx, old, hold, hid, hgt, rfl⟩
    · left; rfl
  | none =>
    have hnone := find_existing_none hf
    simp only
    split
    · rename_i hroom
      right; right; left
      exact ⟨hnone, hroom.1, hroom.2, rfl⟩
    · rename_i hroom
      split
      · rename_i lowest_index lowest_confidence hlow
        split
        · rename_i hgt
          right; right; right
          refine ⟨hnone, hroom, lowest_index, ?_, ?_, rfl⟩
          · rw [hlow]
          · rw [hlow]; exact hgt
        · left; rfl
      · left; rfl

theorem add_candidate_length_le (result : MatchResult) (location : LocationRecord)
    (confidence : ℚ) (strategy reason : CStr) (breakdown : ScoreBreakdown)
    (max_candidates : Nat)
    (h : result.items.length ≤ min max_candidates MATCHER_MAX_CANDIDATES) :
    (add_candidate result location confidence strategy reason breakdown
      max_candidates).items.length ≤ min max_candidates MATCHER_MAX_CANDIDATES := by
  rcases add_candidate_items result location confidence strategy reason breakdown
    max_candidates with h1 | ⟨_, _, _, _, _, h1⟩ | ⟨_, h2, h3, h1⟩ | ⟨_, _, _, _, _, h1⟩
  · rw [h1]; exact h
  · rw [h1, List.length_set]; exact h
  · rw [h1, List.length_append, List.length_singleton]
    exact le_min h2 h3
  · rw [h1, List.length_set]; exact h

theorem add_candidate_nodup (result : MatchResult) (location : LocationRecord)
    (confidence : ℚ) (strategy reason : CStr) (breakdown : ScoreBreakdown)
    (max_candidates : Nat)
    (h : (result.items.map (fun c => c.location.location_id)).Nodup) :
    ((add_candidate result location confidence strategy reason breakdown
      max_candidates).items.map (fun c => c.location.location_id)).Nodup := by
  rcases add_candidate_items result location confidence strategy reason breakdown
    max_candidates with h1 | ⟨idx, old, hold, hid, _, h1⟩ | ⟨hnew, _, _, h1⟩ |
    ⟨hnew, _, idx, _, _, h1⟩
  · rw [h1]; exact h
  · rw [h1, List.map_set]
    have hsame : (result.items.map (fun c => c.location.location_id)).set idx
        old.location.location_id = result.items.map (fun c => c.location.location_id) := by
      apply List.ext_getElem?
      intro j
      rw [List.getElem?_set]
      split
      · rename_i hij
        subst hij
        rw [List.getElem?_map]
        rw [List.get?_eq_getElem?] at hold
        rw [hold]
        simp only [List.length_map, Option.map_some']
        split
        · rfl
        · rename_i hlt
          have := List.getElem?_eq_some_iff.1 hold
          obtain ⟨hl, _⟩ := this
          exact absurd hl hlt
      · rfl
    rw [hsame]
    exact h
  · rw [h1, List.map_append, List.map_singleton]
    refine List.Nodup.append h (List.nodup_singleton _) ?_
    intro x hx hx'
    rw [List.mem_singleton] at hx'
    subst hx'
    obtain ⟨c, hc, hcid⟩ := List.mem_map.1 hx
    exact hnew c hc hcid
  · rw [h1, List.map_set]
    refine List.Nodup.set h ?_
    intro hx
    obtain ⟨c, hc, hcid⟩ := List.mem_map.1 hx
    exact hnew c hc hcid

/-- A property that every call of `add_candidate` keeps is kept by a sequence of calls. -/
theorem offer_all_preserves (P : MatchResult → Prop) (max_candidates : Nat)
    (hP : ∀ r loc conf s rs bd, P r → P (add_candidate r loc conf s rs bd max_candidates)) :
    ∀ (offers : List Offer) (result : MatchResult), P result →
      P (offer_all max_candidates offers result) := by
  intro offers
  induction offers with
  | nil => intro result h; exact h
  | cons o rest ih =>
    intro result h
    exact ih _ (hP _ _ _ _ _ _ h)

theorem offer_all_length_le (max_candidates : Nat) (offers : List Offer) :
    (offer_all max_candidates offers match_result_init).items.length ≤
      min max_candidates MATCHER_MAX_CANDIDATES :=
  offer_all_preserves
    (fun r => r.items.length ≤ min max_candidates MATCHER_MAX_CANDIDATES) max_candidates
    (fun r loc conf s rs bd h => add_candidate_length_le r loc conf s rs bd max_candidates h)
    offers match_result_init (Nat.zero_le _)

theorem offer_all_nodup (max_candidates : Nat) (offers : List Offer) :
    ((offer_all max_candidates offers match_result_init).items.map
      (fun c => c.location.location_id)).Nodup :=
  offer_all_preserves
    (fun r => (r.items.map (fun c => c.location.location_id)).Nodup) max_candidates
    (fun r loc conf s rs bd h => add_candidate_nodup r loc conf s rs bd max_candidates h)
    offers match_result_init List.nodup_nil

/-! ## Strategies and the aggregator -/

theorem foldl_preserves {α : Type} (P : MatchResult → Prop) (body : MatchResult → α → MatchResult)
    (h : ∀ r a, P r → P (body r a)) :
    ∀ (l : List α) (result : MatchResult), P result → P (l.foldl body result) := by
  intro l
  induction l with
  | nil => intro result hr; exact hr
  | cons a rest ih => intro result hr; exact ih _ (h _ _ hr)

theorem strategy_canonical_preserves (P : MatchResult → Prop) (config : MatcherConfig)
    (hP : ∀ r loc conf s rs bd, P r →
      P (add_candidate r loc conf s rs bd config.max_candidates))
    (m : Bool) (query : AddressComponents) (store : LocationStore) (result : MatchResult)
    (h : P result) : P (strategy_canonical m query store config result) := by
  unfold strategy_canonical
  split
  · exact h
  · refine foldl_preserves P _ ?_ store result h
    intro r a hr
    simp only
    split_ifs <;> first | exact hr | exact hP _ _ _ _ _ _ hr

theorem strategy_structured_preserves (P : MatchResult → Prop) (config : MatcherConfig)
    (hP : ∀ r loc conf s rs bd, P r →
      P (add_candidate r loc conf s rs bd config.max_candidates))
    (m : Bool) (query : AddressComponents) (store : LocationStore) (result : MatchResult)
    (h : P result) : P (strategy_structured m query store config result) := by
  unfold strategy_structured
  refine foldl_preserves P _ ?_ store result h
  intro r a hr
  simp only
  split_ifs <;> first | exact hr | exact hP _ _ _ _ _ _ hr

theorem strategy_fuzzy_preserves (P : MatchResult → Prop) (config : MatcherConfig)
    (hP : ∀ r loc conf s rs bd, P r →
      P (add_candidate r loc conf s rs bd config.max_candidates))
    (m : Bool) (query : AddressComponents) (store : LocationStore) (result : MatchResult)
    (h : P result) : P (strategy_fuzzy m query store config result) := by
  unfold strategy_fuzzy
  refine foldl_preserves P _ ?_ store result h
  intro r a hr
  simp only
  split_ifs <;> first | exact hr | exact hP _ _ _ _ _ _ hr

theorem strategy_llm_preserves (P : MatchResult → Prop) (config : MatcherConfig)
    (hP : ∀ r loc conf s rs bd, P r →
      P (add_candidate r loc conf s rs bd config.max_candidates))
    (m : Bool) (atof : CStr → ℚ) (reply : Option CStr) (store : LocationStore)
    (result : MatchResult) (h : P result) :
    P (strategy_llm m atof reply store config result) := by
  unfold strategy_llm
  split_ifs
  · exact h
  · exact h
  · split
    · exact h
    · simp only
      split_ifs
      · exact h
      · exact h
      · exact h
      · split
        · exact h
        · exact hP _ _ _ _ _ _ h

/-- A property of the empty result that every call of `add_candidate` keeps holds of the
result after the last strategy. -/
theorem aggregate_candidates_preserves (P : MatchResult → Prop) (config : MatcherConfig)
    (hP : ∀ r loc conf s rs bd, P r →
      P (add_candidate r loc conf s rs bd config.max_candidates))
    (m : Bool) (atof : CStr → ℚ) (reply : Option CStr) (raw : CStr) (store : LocationStore)
    (h : ∀ r : MatchResult, r.items = [] → P r) :
    P (aggregate_candidates m atof reply raw store config) := by
  unfold aggregate_candidates
  simp only
  apply strategy_llm_preserves P config hP
  apply strategy_fuzzy_preserves P config hP
  apply strategy_structured_preserves P config hP
  apply strategy_canonical_preserves P config hP
  exact h _ rfl

/-- The items of `match_record`: none when the address does not parse, and otherwise the
items held after the last strategy, sorted when there are at least two. -/
theorem match_record_items (m : Bool) (atof : CStr → ℚ) (reply : Option CStr) (raw : CStr)
    (store : LocationStore) (config : MatcherConfig) :
    ((parse_address raw).1 ≠ 0 → (match_record m atof reply raw store config).items = []) ∧
    ((parse_address raw).1 = 0 →
      (match_record m atof reply raw store config).items =
        if 1 < (aggregate_candidates m atof reply raw store config).items.length then
          qsort_candidates (aggregate_candidates m atof reply raw store config).items
        else (aggregate_candidates m atof reply raw store config).items) := by
  constructor
  · intro h
    unfold match_record
    simp only [h, ne_eq, not_false_eq_true, if_true]
    rfl
  · intro h
    unfold match_record aggregate_candidates
    simp only [h, ne_eq, not_true_eq_false, if_false]
    split <;> split <;> rfl

/-! ## Order of the candidates -/

theorem compare_candidates_le (a b : MatchCandidate) :
    compare_candidates a b ≤ 0 ↔
      (b.confidence < a.confidence ∨
        (a.confidence = b.confidence ∧
          strcmp a.location.location_id b.location.location_id ≤ 0)) := by
  unfold compare_candidates
  split_ifs with h1 h2
  · constructor
    · intro h; omega
    · rintro (h | ⟨h, _⟩)
      · exact absurd h1 (not_lt.2 (le_of_lt h))
      · rw [h] at h1; exact absurd h1 (lt_irrefl _)
  · constructor
    · intro _; exact Or.inl h2
    · intro _; omega
  · have heq : a.confidence = b.confidence :=
      le_antisymm (not_lt.1 h2) (not_lt.1 h1)
    constructor
    · intro h; exact Or.inr ⟨heq, h⟩
    · rintro (h | ⟨_, h⟩)
      · rw [heq] at h; exact absurd h (lt_irrefl _)
      · exact h

theorem compare_candidates_total (a b : MatchCandidate) :
    compare_candidates a b ≤ 0 ∨ compare_candidates b a ≤ 0 := by
  rw [compare_candidates_le, compare_candidates_le]
  rcases lt_trichotomy a.confidence b.confidence with h | h | h
  · exact Or.inr (Or.inl h)
  · rcases strcmp_total a.location.location_id b.location.location_id with h' | h'
    · exact Or.inl (Or.inr ⟨h, h'⟩)
    · exact Or.inr (Or.inr ⟨h.symm, h'⟩)
  · exact Or.inl (Or.inl h)

theorem compare_candidates_trans (a b c : MatchCandidate)
    (h1 : compare_candidates a b ≤ 0) (h2 : compare_candidates b c ≤ 0) :
    compare_candidates a c ≤ 0 := by
  rw [compare_candidates_le] at h1 h2 ⊢
  rcases h1 with h1 | ⟨h1, h1'⟩
  · rcases h2 with h2 | ⟨h2, _⟩
    · exact Or.inl (lt_trans h2 h1)
    · exact Or.inl (h2 ▸ h1)
  · rcases h2 with h2 | ⟨h2, h2'⟩
    · exact Or.inl (h1 ▸ h2)
    · exact Or.inr ⟨h1.trans h2, strcmp_le_trans _ _ _ h1' h2'⟩

/-- The sort of `match_record` leaves the candidates in the order of `compare_candidates`. -/
theorem qsort_candidates_sorted (items : List MatchCandidate) :
    (qsort_candidates items).Pairwise (fun a b => compare_candidates a b ≤ 0) := by
  haveI : IsTotal MatchCandidate (fun a b => compare_candidates a b ≤ 0) :=
    ⟨compare_candidates_total⟩
  haveI : IsTrans MatchCandidate (fun a b => compare_candidates a b ≤ 0) :=
    ⟨compare_candidates_trans⟩
  exact List.sorted_insertionSort (fun a b => compare_candidates a b ≤ 0) items

theorem qsort_candidates_perm (items : List MatchCandidate) :
    (qsort_candidates items).Perm items :=
  List.perm_insertionSort _ items

/-- A list in the order of `compare_candidates` whose location ids are distinct is ranked:
confidence never increases, and between neighbours of equal confidence the location id
increases. -/
theorem ranked_of_sorted (items : List MatchCandidate)
    (hs : items.Pairwise (fun a b => compare_candidates a b ≤ 0))
    (hn : (items.map (fun c => c.location.location_id)).Nodup) :
    items.Pairwise (fun a b => b.confidence ≤ a.confidence) ∧
    items.Chain' (fun a b => a.confidence = b.confidence →
      strcmp a.location.location_id b.location.location_id < 0) := by
  have hn' : items.Pairwise (fun a b => a.location.location_id ≠ b.location.location_id) := by
    unfold List.Nodup at hn
    rwa [List.pairwise_map] at hn
  constructor
  · refine hs.imp ?_
    intro a b h
    rcases (compare_candidates_le a b).1 h with h | ⟨h, _⟩
    · exact le_of_lt h
    · exact le_of_eq h.symm
  · refine List.Pairwise.chain' ?_
    refine (hs.and hn').imp ?_
    rintro a b ⟨h, hne⟩ heq
    rcases (compare_candidates_le a b).1 h with h | ⟨_, h⟩
    · rw [heq] at h; exact absurd h (lt_irrefl _)
    · rcases lt_or_eq_of_le h with h | h
      · exact h
      · exact absurd ((strcmp_eq_zero _ _).1 h) hne

theorem pairwise_of_length_le_one {α : Type} (R : α → α → Prop) (l : List α)
    (h : ¬ 1 < l.length) : l.Pairwise R := by
  cases l with
  | nil => exact List.Pairwise.nil
  | cons a t =>
    cases t with
    | nil => exact List.pairwise_singleton _ _
    | cons b t => simp at h

/-- C15: starting from the empty result, after any sequence of `add_candidate` calls with the
capacity `max_candidates` the number of stored candidates is at most the smaller of
`max_candidates` and 16; the same bound, with the capacity of the configuration, holds in
every result of `match_record`. -/
theorem aggregator_capacity (max_candidates : Nat) (offers : List Offer) (m : Bool)
    (atof : CStr → ℚ) (reply : Option CStr) (raw : CStr) (store : LocationStore)
    (config : MatcherConfig) :
    (offer_all max_candidates offers match_result_init).items.length ≤
      min max_candidates MATCHER_MAX_CANDIDATES ∧
    (match_record m atof reply raw store config).items.length ≤
      min config.max_candidates MATCHER_MAX_CANDIDATES := by
  refine ⟨offer_all_length_le max_candidates offers, ?_⟩
  by_cases hp : (parse_address raw).1 = 0
  · rw [(match_record_items m atof reply raw store config).2 hp]
    have hagg := aggregate_candidates_preserves
      (fun r => r.items.length ≤ min config.max_candidates MATCHER_MAX_CANDIDATES) config
      (fun r loc conf s rs bd h =>
        add_candidate_length_le r loc conf s rs bd config.max_candidates h)
      m atof reply raw store (fun r hr => by show r.items.length ≤ _; rw [hr]; exact Nat.zero_le _)
    split
    · rw [(qsort_candidates_perm _).length_eq]; exact hagg
    · exact hagg
  · rw [(match_record_items m atof reply raw store config).1 hp]
    exact Nat.zero_le _

theorem match_record_nodup (m : Bool) (atof : CStr → ℚ) (reply : Option CStr) (raw : CStr)
    (store : LocationStore) (config : MatcherConfig) :
    ((match_record m atof reply raw store config).items.map
      (fun c => c.location.location_id)).Nodup := by
  by_cases hp : (parse_address raw).1 = 0
  · rw [(match_record_items m atof reply raw store config).2 hp]
    have hagg := aggregate_candidates_preserves
      (fun r => (r.items.map (fun c => c.location.location_id)).Nodup) config
      (fun r loc conf s rs bd h =>
        add_candidate_nodup r loc conf s rs bd config.max_candidates h)
      m atof reply raw store (fun r hr => by show (r.items.map _).Nodup; rw [hr]; exact List.nodup_nil)
    split
    · exact (((qsort_candidates_perm _).map _).nodup_iff).2 hagg
    · exact hagg
  · rw [(match_record_items m atof reply raw store config).1 hp]
    exact List.nodup_nil

/-- C16: starting from the empty result, after any sequence of `add_candidate` calls the
location ids of the stored candidates are pairwise distinct, whichever of the three branches
(upgrade, append, replace the minimum) the calls take; so are they in every result of
`match_record`. -/
theorem aggregator_distinct_ids (max_candidates : Nat) (offers : List Offer) (m : Bool)
    (atof : CStr → ℚ) (reply : Option CStr) (raw : CStr) (store : LocationStore)
    (config : MatcherConfig) :
    ((offer_all max_candidates offers match_result_init).items.map
      (fun c => c.location.location_id)).Nodup ∧
    ((match_record m atof reply raw store config).items.map
      (fun c => c.location.location_id)).Nodup :=
  ⟨offer_all_nodup max_candidates offers, match_record_nodup m atof reply raw store config⟩

/-! ## A call for a stored location -/

theorem getElem?_set_other {α : Type} (l : List α) (i j : Nat) (a : α) (h : j ≠ i) :
    (l.set i a).get? j = l.get? j := by
  rw [List.get?_eq_getElem?, List.get?_eq_getElem?, List.getElem?_set_ne (Ne.symm h)]

/-- C18: when `add_candidate` is called for a location id that is already stored, the slot
concerned is the first one with that id.  If the incoming confidence is strictly greater than
the stored one, the confidence, strategy, reason and breakdown of that slot are replaced by the
incoming ones (strategy and reason as far as the fields of 32 and 128 bytes hold them, so
unchanged when they fit) and its location is kept; otherwise the result is left as it is.  In
both cases the count and every other slot are unchanged and the confidence stored in the slot
does not decrease. -/
theorem add_candidate_existing (result : MatchResult) (location : LocationRecord)
    (confidence : ℚ) (strategy reason : CStr) (breakdown : ScoreBreakdown)
    (max_candidates : Nat)
    (h : ∃ c ∈ result.items, c.location.location_id = location.location_id) :
    ∃ idx old, result.items.get? idx = some old ∧
      old.location.location_id = location.location_id ∧
      (∀ j c, j < idx → result.items.get? j = some c →
        c.location.location_id ≠ location.location_id) ∧
      (old.confidence < confidence →
        add_candidate result location confidence strategy reason breakdown max_candidates =
          { result with
            items := result.items.set idx
              { location := old.location, confidence := confidence,
                strategy := copy_field AMS_MAX_STRATEGY_LENGTH strategy,
                reason := copy_field AMS_MAX_REASON_LENGTH reason,
                breakdown := breakdown } }) ∧
      (old.confidence < confidence → strategy.length < AMS_MAX_STRATEGY_LENGTH →
        reason.length < AMS_MAX_REASON_LENGTH →
        (add_candidate result location confidence strategy reason breakdown
          max_candidates).items.get? idx =
          some { location := old.location, confidence := confidence, strategy := strategy,
                 reason := reason, breakdown := breakdown }) ∧
      (¬ old.confidence < confidence →
        add_candidate result location confidence strategy reason breakdown max_candidates =
          result) ∧
      (add_candidate result location confidence strategy reason breakdown
        max_candidates).items.length = result.items.length ∧
      (∀ j, j ≠ idx →
        (add_candidate result location confidence strategy reason breakdown
          max_candidates).items.get? j = result.items.get? j) ∧
      (∃ now, (add_candidate result location confidence strategy reason breakdown
          max_candidates).items.get? idx = some now ∧
        now.location = old.location ∧ old.confidence ≤ now.confidence) := by
  obtain ⟨idx, hidx⟩ := find_existing_of_mem h
  obtain ⟨old, hold, hid, hfirst⟩ := find_existing_some hidx
  have hlt : idx < result.items.length := by
    rw [List.get?_eq_getElem?] at hold
    exact (List.getElem?_eq_some_iff.1 hold).1
  have hup : old.confidence < confidence →
      add_candidate result location confidence strategy reason breakdown max_candidates =
        { result with
          items := result.items.set idx
            { location := old.location, confidence := confidence,
              strategy := copy_field AMS_MAX_STRATEGY_LENGTH strategy,
              reason := copy_field AMS_MAX_REASON_LENGTH reason,
              breakdown := breakdown } } := by
    intro hgt
    unfold add_candidate
    simp only [hidx, hold]
    rw [if_pos hgt]
    rfl
  have hkeep : ¬ old.confidence < confidence →
      add_candidate result location confidence strategy reason breakdown max_candidates =
        result := by
    intro hle
    unfold add_candidate
    simp only [hidx, hold]
    rw [if_neg hle]
  have hget : ∀ c : MatchCandidate, (result.items.set idx c).get? idx = some c := by
    intro c
    rw [List.get?_eq_getElem?, List.getElem?_set_self hlt]
  refine ⟨idx, old, hold, hid, hfirst, hup, ?_, hkeep, ?_, ?_, ?_⟩
  · intro hgt hs hr
    rw [hup hgt]
    simp only [hget]
    have h1 : copy_field AMS_MAX_STRATEGY_LENGTH strategy = strategy := by
      unfold copy_field
      exact List.take_of_length_le (by omega)
    have h2 : copy_field AMS_MAX_REASON_LENGTH reason = reason := by
      unfold copy_field
      exact List.take_of_length_le (by omega)
    rw [h1, h2]
  · by_cases hgt : old.confidence < confidence
    · rw [hup hgt]; exact List.length_set _ _ _
    · rw [hkeep hgt]
  · intro j hj
    by_cases hgt : old.confidence < confidence
    · rw [hup hgt]; exact getElem?_set_other _ _ _ _ hj
    · rw [hkeep hgt]
  · by_cases hgt : old.confidence < confidence
    · rw [hup hgt]
      exact ⟨_, hget _, rfl, le_of_lt hgt⟩
    · rw [hkeep hgt]
      exact ⟨old, hold, rfl, le_refl _⟩

/-- Witness of `add_candidate_existing`: a result holds LOC1 with confidence 1/2; a call for
LOC1 with confidence 3/4 leaves one candidate. -/
theorem add_candidate_existing_witness :
    (add_candidate
      { match_result_init with
        items :=
          [{ location :=
               { location_id := "LOC1".toList, street := [], city := [], state := [],
                 postal_code := [], components := clear_address_components },
             confidence := 1 / 2, strategy := "fuzzy".toList,
             reason := "approximate_text_similarity".toList,
             breakdown := { score := 0, comparisons := [] } }] }
      { location_id := "LOC1".toList, street := [], city := [], state := [],
        postal_code := [], components := clear_address_components }
      (3 / 4) "structured".toList "weighted_component_score".toList
      { score := 0, comparisons := [] } 5).items.length = 1 := by
  obtain ⟨_, _, _, _, _, _, _, _, hlen, _, _⟩ :=
    add_candidate_existing
      { match_result_init with
        items :=
          [{ location :=
               { location_id := "LOC1".toList, street := [], city := [], state := [],
                 postal_code := [], components := clear_address_components },
             confidence := 1 / 2, strategy := "fuzzy".toList,
             reason := "approximate_text_similarity".toList,
             breakdown := { score := 0, comparisons := [] } }] }
      { location_id := "LOC1".toList, street := [], city := [], state := [],
        postal_code := [], components := clear_address_components }
      (3 / 4) "structured".toList "weighted_component_score".toList
      { score := 0, comparisons := [] } 5
      ⟨_, List.mem_singleton.2 rfl, rfl⟩
  exact hlen

/-! ## What the strategies offer -/

/-- A loop over the catalog that calls `add_candidate` for the records that pass a test is
the sequence of calls for the records that pass, in catalog order. -/
theorem foldl_offers (body : MatchResult → LocationRecord → MatchResult)
    (p : LocationRecord → Bool) (f : LocationRecord → Offer) (max_candidates : Nat)
    (hbody : ∀ r loc, body r loc =
      if p loc = true then
        add_candidate r (f loc).location (f loc).confidence (f loc).strategy (f loc).reason
          (f loc).breakdown max_candidates
      else r) :
    ∀ (store : LocationStore) (result : MatchResult),
      store.foldl body result = offer_all max_candidates ((store.filter p).map f) result := by
  intro store
  induction store with
  | nil => intro result; rfl
  | cons loc rest ih =>
    intro result
    rw [List.foldl_cons, ih, hbody]
    by_cases hp : p loc = true
    · rw [if_pos hp, List.filter_cons_of_pos hp]
      rfl
    · rw [if_neg hp, List.filter_cons_of_neg hp]

/-- C19: `strategy_canonical` leaves the result alone when the canonical key of the query is
empty; otherwise it calls `add_candidate`, in catalog order, for exactly the records whose
canonical key equals that of the query, each with the strategy `canonical`, the reason
`canonical_key_match`, the breakdown of `score_components` with `require_zip` set, and the
confidence 1 when that score is at least 0.9 and the score itself otherwise; no threshold of
the configuration is applied. -/
theorem strategy_canonical_offers (m : Bool) (query : AddressComponents)
    (store : LocationStore) (config : MatcherConfig) (result : MatchResult)
    (location : LocationRecord) :
    strategy_canonical m query store config result =
      (if query.canonical_key = [] then result
       else
        offer_all config.max_candidates
          ((store.filter
            (fun r => decide (r.components.canonical_key = query.canonical_key))).map
            (canonical_offer m query))
          result) ∧
    (canonical_offer m query location).location = location ∧
    (canonical_offer m query location).strategy = "canonical".toList ∧
    (canonical_offer m query location).reason = "canonical_key_match".toList ∧
    (canonical_offer m query location).breakdown =
      score_components m query location.components true ∧
    (canonical_offer m query location).confidence =
      (if (score_components m query location.components true).score ≥ 9 / 10 then 1
       else (score_components m query location.components true).score) := by
  refine ⟨?_, rfl, rfl, rfl, rfl, rfl⟩
  unfold strategy_canonical
  by_cases hq : query.canonical_key = []
  · rw [if_pos hq, if_pos (by rw [hq]; rfl)]
  · rw [if_neg hq, if_neg (by simpa [List.isEmpty_iff] using hq)]
    apply foldl_offers
    intro r loc
    simp only [canonical_offer, decide_eq_true_eq]
    by_cases hk : loc.components.canonical_key = query.canonical_key
    · have h1 : ¬ loc.components.canonical_key.isEmpty = true := by
        rw [hk]; simpa [List.isEmpty_iff] using hq
      have h2 : ¬ strcmp query.canonical_key loc.components.canonical_key ≠ 0 := by
        rw [hk]; exact not_not.2 (strcmp_self _)
      rw [if_neg h1, if_neg h2, if_pos hk]
    · rw [if_neg hk]
      by_cases h1 : loc.components.canonical_key.isEmpty = true
      · rw [if_pos h1]
      · rw [if_neg h1, if_pos]
        intro h0
        exact hk ((strcmp_eq_zero _ _).1 h0).symm

/-- C20: `strategy_structured` calls `add_candidate`, in catalog order, for exactly the
records whose score under `score_components` without `require_zip` is at least
`structured_min_confidence`, each with that score as confidence, the strategy `structured`,
the reason `weighted_component_score` and that breakdown; a record that scores below the
threshold is never offered. -/
theorem strategy_structured_offers (m : Bool) (query : AddressComponents)
    (store : LocationStore) (config : MatcherConfig) (result : MatchResult)
    (location : LocationRecord) :
    strategy_structured m query store config result =
      offer_all config.max_candidates
        ((store.filter
          (fun r => decide (config.structured_min_confidence ≤
            (score_components m query r.components false).score))).map
          (structured_offer m query))
        result ∧
    (structured_offer m query location).location = location ∧
    (structured_offer m query location).strategy = "structured".toList ∧
    (structured_offer m query location).reason = "weighted_component_score".toList ∧
    (structured_offer m query location).breakdown =
      score_components m query location.components false ∧
    (structured_offer m query location).confidence =
      (score_components m query location.components false).score := by
  refine ⟨?_, rfl, rfl, rfl, rfl, rfl⟩
  unfold strategy_structured
  apply foldl_offers
  intro r loc
  simp only [structured_offer, decide_eq_true_eq, ge_iff_le]

/-! ## Thresholds of the configuration -/

theorem threshold_from_env_rule (atof : CStr → ℚ) (default : ℚ) (env : Option CStr) :
    ThresholdRule atof default env (threshold_from_env atof default env) := by
  unfold ThresholdRule threshold_from_env
  refine ⟨?_, ?_, ?_, ?_⟩
  · intro h; rw [h]
  · intro h; rw [h]; rfl
  · intro text h hn
    rw [h]
    simp only
    split_ifs <;> rfl
  · intro text h hne h0 h1
    rw [h]
    have he : ¬ text.isEmpty = true := by simpa [List.isEmpty_iff] using hne
    simp only
    rw [if_neg he, if_pos ⟨h0, h1⟩]

/-- C29: each of the three thresholds of `matcher_config_init` follows the rule of the
specification for its own environment variable and default (0.65, 0.55, 0.70): the default
is kept when the variable is absent, empty, or has a value that is not strictly between 0 and
1, and the value is adopted when it is strictly between 0 and 1; a threshold does not change
when the other variables of the environment change. -/
theorem matcher_config_init_thresholds (getenv : CStr → Option CStr) (atof : CStr → ℚ)
    (atoi : CStr → Int) :
    ThresholdRule atof (65 / 100) (getenv "AMS_STRUCTURED_THRESHOLD".toList)
      (matcher_config_init getenv atof atoi).structured_min_confidence ∧
    ThresholdRule atof (55 / 100) (getenv "AMS_FUZZY_THRESHOLD".toList)
      (matcher_config_init getenv atof atoi).fuzzy_min_confidence ∧
    ThresholdRule atof (70 / 100) (getenv "AMS_LLM_THRESHOLD".toList)
      (matcher_config_init getenv atof atoi).llm_min_confidence ∧
    (∀ other : CStr → Option CStr,
      (other "AMS_STRUCTURED_THRESHOLD".toList = getenv "AMS_STRUCTURED_THRESHOLD".toList →
        (matcher_config_init other atof atoi).structured_min_confidence =
          (matcher_config_init getenv atof atoi).structured_min_confidence) ∧
      (other "AMS_FUZZY_THRESHOLD".toList = getenv "AMS_FUZZY_THRESHOLD".toList →
        (matcher_config_init other atof atoi).fuzzy_min_confidence =
          (matcher_config_init getenv atof atoi).fuzzy_min_confidence) ∧
      (other "AMS_LLM_THRESHOLD".toList = getenv "AMS_LLM_THRESHOLD".toList →
        (matcher_config_init other atof atoi).llm_min_confidence =
          (matcher_config_init getenv atof atoi).llm_min_confidence)) := by
  refine ⟨threshold_from_env_rule _ _ _, threshold_from_env_rule _ _ _,
    threshold_from_env_rule _ _ _, ?_⟩
  intro other
  refine ⟨?_, ?_, ?_⟩ <;> intro h <;> simp only [matcher_config_init, h]

/-- Witness of `matcher_config_init_thresholds`: an environment that sets the structured threshold to 1.5 (kept out), the fuzzy
threshold to 0.4 (adopted) and leaves the oracle threshold unset. -/
theorem matcher_config_init_thresholds_witness :
    (matcher_config_init
      (fun name =>
        if name = "AMS_STRUCTURED_THRESHOLD".toList then some "1.5".toList
        else if name = "AMS_FUZZY_THRESHOLD".toList then some "0.4".toList else none)
      (fun text => if text = "1.5".toList then 3 / 2 else if text = "0.4".toList then 2 / 5 else 0)
      (fun _ => 0)).structured_min_confidence = 65 / 100 ∧
    (matcher_config_init
      (fun name =>
        if name = "AMS_STRUCTURED_THRESHOLD".toList then some "1.5".toList
        else if name = "AMS_FUZZY_THRESHOLD".toList then some "0.4".toList else none)
      (fun text => if text = "1.5".toList then 3 / 2 else if text = "0.4".toList then 2 / 5 else 0)
      (fun _ => 0)).fuzzy_min_confidence = 2 / 5 ∧
    (matcher_config_init
      (fun name =>
        if name = "AMS_STRUCTURED_THRESHOLD".toList then some "1.5".toList
        else if name = "AMS_FUZZY_THRESHOLD".toList then some "0.4".toList else none)
      (fun text => if text = "1.5".toList then 3 / 2 else if text = "0.4".toList then 2 / 5 else 0)
      (fun _ => 0)).llm_min_confidence = 70 / 100 :=
  ⟨(matcher_config_init_thresholds _ _ _).1.2.2.1 "1.5".toList (by decide!) (by decide!),
   (matcher_config_init_thresholds _ _ _).2.1.2.2.2 "0.4".toList (by decide!) (by decide!)
     (by decide!) (by decide!),
   (matcher_config_init_thresholds _ _ _).2.2.1.1 (by decide!)⟩

/-! ## An address that does not parse -/

theorem format_fixed_zero : format_fixed 2 0 = "0.00".toList := by decide!

/-- The result of `match_record` for an address that does not parse. -/
theorem match_record_of_failure (m : Bool) (atof : CStr → ℚ) (reply : Option CStr) (raw : CStr)
    (store : LocationStore) (config : MatcherConfig) (h : (parse_address raw).1 ≠ 0) :
    match_record m atof reply raw store config =
      { items := [], has_best_candidate := false, best_index := 0,
        selected_strategy := "none".toList, selected_confidence := "0.00".toList,
        record_components := clear_address_components,
        raw_address := copy_field AMS_MAX_LINE_LENGTH raw } := by
  have hc : (parse_address raw).2 = clear_address_components := by
    rcases parse_address_eq raw with ⟨_, h2⟩ | ⟨_, h2⟩
    · rw [h2]
    · rw [h2] at h; exact absurd rfl h
  unfold match_record
  simp only [h, ne_eq, not_false_eq_true, if_true, hc, format_fixed_zero]
  rfl

/-- C22: when `parse_address` fails on the raw address, the result of `match_record` has no
candidate, `has_best_candidate` is 0, `selected_strategy` is `none` and `selected_confidence`
is `0.00`, the parsed record is the cleared one, and the result is the same for every
catalog, configuration and oracle reply: no strategy has a say. -/
theorem match_record_parse_failure (m : Bool) (atof : CStr → ℚ) (reply : Option CStr)
    (raw : CStr) (store : LocationStore) (config : MatcherConfig)
    (h : (parse_address raw).1 ≠ 0) :
    (match_record m atof reply raw store config).items = [] ∧
    (match_record m atof reply raw store config).has_best_candidate = false ∧
    (match_record m atof reply raw store config).selected_strategy = "none".toList ∧
    (match_record m atof reply raw store config).selected_confidence = "0.00".toList ∧
    (match_record m atof reply raw store config).record_components = clear_address_components ∧
    (∀ (m2 : Bool) (atof2 : CStr → ℚ) (reply2 : Option CStr) (store2 : LocationStore)
        (config2 : MatcherConfig),
      match_record m2 atof2 reply2 raw store2 config2 =
        match_record m atof reply raw store config) := by
  refine ⟨?_, ?_, ?_, ?_, ?_, ?_⟩
  · rw [match_record_of_failure m atof reply raw store config h]
  · rw [match_record_of_failure m atof reply raw store config h]
  · rw [match_record_of_failure m atof reply raw store config h]
  · rw [match_record_of_failure m atof reply raw store config h]
  · rw [match_record_of_failure m atof reply raw store config h]
  · intro m2 atof2 reply2 store2 config2
    rw [match_record_of_failure m atof reply raw store config h,
      match_record_of_failure m2 atof2 reply2 raw store2 config2 h]

theorem parse_blank_fails : (parse_address " , ".toList).1 ≠ 0 := by decide!

/-- Witness of `match_record_parse_failure`: the address ` , `, which has no token, and the
empty address, with the Denver catalog and an oracle that answers. -/
theorem match_record_parse_failure_witness :
    (match_record true (fun _ => 1) (some "location_id=LOC42 confidence=1".toList) " , ".toList
      denver_catalog oracle_config).items = [] ∧
    (match_record true (fun _ => 1) (some "location_id=LOC42 confidence=1".toList) " , ".toList
      denver_catalog oracle_config).selected_strategy = "none".toList ∧
    (match_record true (fun _ => 1) (some "location_id=LOC42 confidence=1".toList) " , ".toList
      denver_catalog oracle_config).selected_confidence = "0.00".toList ∧
    (match_record true (fun _ => 1) (some "location_id=LOC42 confidence=1".toList) []
      denver_catalog oracle_config).items = [] :=
  ⟨(match_record_parse_failure true (fun _ => 1) (some "location_id=LOC42 confidence=1".toList)
      " , ".toList denver_catalog oracle_config parse_blank_fails).1,
   (match_record_parse_failure true (fun _ => 1) (some "location_id=LOC42 confidence=1".toList)
      " , ".toList denver_catalog oracle_config parse_blank_fails).2.2.1,
   (match_record_parse_failure true (fun _ => 1) (some "location_id=LOC42 confidence=1".toList)
      " , ".toList denver_catalog oracle_config parse_blank_fails).2.2.2.1,
   (match_record_parse_failure true (fun _ => 1) (some "location_id=LOC42 confidence=1".toList)
      [] denver_catalog oracle_config (by decide)).1⟩

/-! ## What the fuzzy strategy offers -/

theorem clamp_eq_min (a : ℚ) : (if a > 1 then 1 else a) = min 1 a := by
  rw [min_def]
  split_ifs <;> linarith

/-- C21: `strategy_fuzzy` calls `add_candidate`, in catalog order, for exactly the records
whose fuzzy score is at least `fuzzy_min_confidence`, each with that score as confidence, the
strategy `fuzzy`, the reason `approximate_text_similarity` and the breakdown of
`score_components` without `require_zip`; the fuzzy score is the smaller of 1 and
0.60 s + 0.25 name_sim + 0.15 city_sim, plus 0.05 when zip_sim exceeds 0.8, where s is the
structured score, name_sim and city_sim the similarity of the street names and cities, and
zip_sim the similarity of the postal codes when both are non-empty and 0 otherwise. -/
theorem strategy_fuzzy_offers (m : Bool) (query : AddressComponents)
    (store : LocationStore) (config : MatcherConfig) (result : MatchResult)
    (location : LocationRecord) :
    strategy_fuzzy m query store config result =
      offer_all config.max_candidates
        ((store.filter
          (fun r => decide (config.fuzzy_min_confidence ≤ fuzzy_score m query r))).map
          (fuzzy_offer m query))
        result ∧
    (fuzzy_offer m query location).location = location ∧
    (fuzzy_offer m query location).strategy = "fuzzy".toList ∧
    (fuzzy_offer m query location).reason = "approximate_text_similarity".toList ∧
    (fuzzy_offer m query location).breakdown =
      score_components m query location.components false ∧
    (fuzzy_offer m query location).confidence = fuzzy_score m query location ∧
    fuzzy_score m query location =
      min 1
        (6 / 10 * (score_components m query location.components false).score +
          25 / 100 * similarity_ratio m query.street_name location.components.street_name +
          15 / 100 * similarity_ratio m query.city location.components.city +
          (if (if query.postal_code ≠ [] ∧ location.components.postal_code ≠ [] then
                similarity_ratio m query.postal_code location.components.postal_code
               else 0) > 8 / 10 then 5 / 100 else 0)) := by
  refine ⟨?_, rfl, rfl, rfl, rfl, rfl, ?_⟩
  · unfold strategy_fuzzy
    apply foldl_offers
    intro r loc
    simp only [fuzzy_offer, decide_eq_true_eq, ge_iff_le]
  · unfold fuzzy_score
    simp only [List.isEmpty_iff, ne_eq]
    rw [clamp_eq_min]
    congr 1
    split_ifs <;> ring

/-! ## Replies that the oracle strategy rejects -/

theorem strategy_components (m : Bool) (query : AddressComponents) (store : LocationStore)
    (config : MatcherConfig) (result : MatchResult) :
    (strategy_canonical m query store config result).record_components =
      result.record_components ∧
    (strategy_structured m query store config result).record_components =
      result.record_components ∧
    (strategy_fuzzy m query store config result).record_components =
      result.record_components := by
  refine ⟨?_, ?_, ?_⟩
  · exact strategy_canonical_preserves
      (fun r => r.record_components = result.record_components) config
      (fun r loc conf s rs bd h => by rw [add_candidate_fields]; exact h) m query store result rfl
  · exact strategy_structured_preserves
      (fun r => r.record_components = result.record_components) config
      (fun r loc conf s rs bd h => by rw [add_candidate_fields]; exact h) m query store result rfl
  · exact strategy_fuzzy_preserves
      (fun r => r.record_components = result.record_components) config
      (fun r loc conf s rs bd h => by rw [add_candidate_fields]; exact h) m query store result rfl

/-- The chain of the four strategies for an address whose parse is known. -/
theorem aggregate_candidates_of_parse (m : Bool) (atof : CStr → ℚ) (reply : Option CStr)
    (raw : CStr) (store : LocationStore) (config : MatcherConfig) (query : AddressComponents)
    (h : (parse_address raw).2 = query) :
    aggregate_candidates m atof reply raw store config =
      strategy_llm m atof reply store config
        (strategy_fuzzy m query store config
          (strategy_structured m query store config
            (strategy_canonical m query store config
              { match_result_init with
                raw_address := copy_field AMS_MAX_LINE_LENGTH raw
                record_components := query }))) := by
  unfold aggregate_candidates
  simp only [h, (strategy_components _ _ _ _ _).1, (strategy_components _ _ _ _ _).2.1]

/-- The result of `match_record` for an address that parses: the result held after the last
strategy, sorted and with its best candidate selected. -/
theorem match_record_of_parse (m : Bool) (atof : CStr → ℚ) (reply : Option CStr) (raw : CStr)
    (store : LocationStore) (config : MatcherConfig) (h : (parse_address raw).1 = 0) :
    match_record m atof reply raw store config =
      select_best (aggregate_candidates m atof reply raw store config) := by
  unfold match_record select_best aggregate_candidates
  simp only [h, ne_eq, not_true_eq_false, if_false]

theorem parse_denver_record :
    parse_address "12 N 1ST ST, DENVER, CO 80202".toList =
      (0, { street_number := "12".toList, street_direction := "N".toList,
            street_name := "FIRST".toList, street_suffix := "ST".toList, unit := [],
            city := "DENVER".toList, state := "CO".toList, postal_code := "80202".toList,
            canonical_key := "12|N|FIRST|ST|DENVER|CO|80202".toList }) := by
  decide!

theorem denver_catalog_eq :
    denver_catalog =
      [{ location_id := "LOC42".toList, street := "12 N 1ST ST".toList,
         city := "DENVER".toList, state := "CO".toList, postal_code := "80202".toList,
         components :=
          { street_number := "12".toList, street_direction := "N".toList,
            street_name := "FIRST".toList, street_suffix := "ST".toList, unit := [],
            city := "DENVER".toList, state := "CO".toList, postal_code := "80202".toList,
            canonical_key := "12|N|FIRST|ST|DENVER|CO|80202".toList } }] := by
  have h : denver_catalog =
      [{ location_id := "LOC42".toList, street := "12 N 1ST ST".toList,
         city := "DENVER".toList, state := "CO".toList, postal_code := "80202".toList,
         components := (parse_address "12 N 1ST ST, DENVER, CO 80202".toList).2 }] := rfl
  rw [h, parse_denver_record]

theorem parse_maine :
    parse_address "123 Maine St, Springfield, IL 62701".toList =
      (0, { street_number := "123".toList, street_direction := "MAINE".toList,
            street_name := [], street_suffix := "ST".toList, unit := [],
            city := "SPRINGFIELD".toList, state := "IL".toList, postal_code := "62701".toList,
            canonical_key := [] }) := by
  decide!

theorem parse_springfield_record :
    parse_address "123 MAIN STREET, SPRINGFIELD, IL 62701".toList =
      (0, { street_number := "123".toList, street_direction := "MAIN".toList,
            street_name := [], street_suffix := "STREET".toList, unit := [],
            city := "SPRINGFIELD".toList, state := "IL".toList, postal_code := "62701".toList,
            canonical_key := [] }) := by
  decide!

theorem springfield_record_eq :
    load_record "LOC42".toList "123 Main Street".toList "Springfield".toList "IL".toList
        "62701".toList =
      { location_id := "LOC42".toList, street := "123 MAIN STREET".toList,
        city := "SPRINGFIELD".toList, state := "IL".toList, postal_code := "62701".toList,
        components :=
          { street_number := "123".toList, street_direction := "MAIN".toList,
            street_name := [], street_suffix := "STREET".toList, unit := [],
            city := "SPRINGFIELD".toList, state := "IL".toList,
            postal_code := "62701".toList, canonical_key := [] } } := by
  have h : load_record "LOC42".toList "123 Main Street".toList "Springfield".toList
      "IL".toList "62701".toList =
      { location_id := "LOC42".toList, street := "123 MAIN STREET".toList,
        city := "SPRINGFIELD".toList, state := "IL".toList, postal_code := "62701".toList,
        components := (parse_address "123 MAIN STREET, SPRINGFIELD, IL 62701".toList).2 } := rfl
  rw [h, parse_springfield_record]

theorem springfield_catalog_eq :
    springfield_catalog =
      [{ location_id := "LOC42".toList, street := "123 MAIN STREET".toList,
         city := "SPRINGFIELD".toList, state := "IL".toList, postal_code := "62701".toList,
         components :=
          { street_number := "123".toList, street_direction := "MAIN".toList,
            street_name := [], street_suffix := "STREET".toList, unit := [],
            city := "SPRINGFIELD".toList, state := "IL".toList,
            postal_code := "62701".toList, canonical_key := [] } }] := by
  have h : springfield_catalog =
      [load_record "LOC42".toList "123 Main Street".toList "Springfield".toList "IL".toList
        "62701".toList] := rfl
  rw [h, springfield_record_eq]

theorem maine_result_eq :
    maine_result =
      strategy_llm true (fun _ => 0) none springfield_catalog oracle_config
        (strategy_fuzzy true (parse_address "123 Maine St, Springfield, IL 62701".toList).2
          springfield_catalog oracle_config
          (strategy_structured true
            (parse_address "123 Maine St, Springfield, IL 62701".toList).2
            springfield_catalog oracle_config
            (strategy_canonical true
              (parse_address "123 Maine St, Springfield, IL 62701".toList).2
              springfield_catalog oracle_config
              { match_result_init with
                raw_address :=
                  copy_field AMS_MAX_LINE_LENGTH "123 Maine St, Springfield, IL 62701".toList
                record_components :=
                  (parse_address "123 Maine St, Springfield, IL 62701".toList).2 }))) :=
  aggregate_candidates_of_parse _ _ _ _ _ _ _ rfl

theorem denver_result_eq :
    denver_result =
      strategy_llm true (fun _ => 0) none denver_catalog oracle_config
        (strategy_fuzzy true (parse_address "12 N 1st St Denver CO 80202".toList).2
          denver_catalog oracle_config
          (strategy_structured true (parse_address "12 N 1st St Denver CO 80202".toList).2
            denver_catalog oracle_config
            (strategy_canonical true (parse_address "12 N 1st St Denver CO 80202".toList).2
              denver_catalog oracle_config
              { match_result_init with
                raw_address :=
                  copy_field AMS_MAX_LINE_LENGTH "12 N 1st St Denver CO 80202".toList
                record_components :=
                  (parse_address "12 N 1st St Denver CO 80202".toList).2 }))) :=
  aggregate_candidates_of_parse _ _ _ _ _ _ _ rfl

/-! ## The Maine Street example -/

/-- The scores of the catalog record built from 123 Main Street, Springfield, IL 62701 for the
query `123 Maine St, Springfield, IL 62701`, and the candidates that `match_record` holds for
them when the oracle strategy is entered. -/
theorem maine_scores :
    (score_components true (parse_address "123 Maine St, Springfield, IL 62701".toList).2
      (load_record "LOC42".toList "123 Main Street".toList "Springfield".toList "IL".toList
        "62701".toList).components false).score = 13 / 20 ∧
    fuzzy_score true (parse_address "123 Maine St, Springfield, IL 62701".toList).2
      (load_record "LOC42".toList "123 Main Street".toList "Springfield".toList "IL".toList
        "62701".toList) = 59 / 100 ∧
    (strategy_fuzzy true (parse_address "123 Maine St, Springfield, IL 62701".toList).2
        springfield_catalog default_config match_result_init).items.map
        (fun c => (c.location.location_id, c.strategy, c.reason, c.confidence)) =
      [("LOC42".toList, "fuzzy".toList, "approximate_text_similarity".toList, 59 / 100)] ∧
    maine_result.items.map (fun c => (c.location.location_id, c.strategy, c.confidence)) =
      [("LOC42".toList, "structured".toList, 13 / 20)] := by
  rw [maine_result_eq, parse_maine, springfield_record_eq, springfield_catalog_eq]
  decide!

theorem default_fuzzy_threshold : default_config.fuzzy_min_confidence = 55 / 100 := by decide!

/-- C27: for the query `123 Maine St, Springfield, IL 62701` and the catalog record built from
123 Main Street, Springfield, IL, 62701, the structured score (0.65) is strictly below 0.9
and the fuzzy score (0.59) is at least the default threshold 0.55; `strategy_fuzzy` under the
default configuration offers the record, and an empty result then holds it with the strategy
`fuzzy` and the confidence 0.59. -/
theorem maine_street_fuzzy :
    (score_components true (parse_address "123 Maine St, Springfield, IL 62701".toList).2
      (load_record "LOC42".toList "123 Main Street".toList "Springfield".toList "IL".toList
        "62701".toList).components false).score < 9 / 10 ∧
    fuzzy_score true (parse_address "123 Maine St, Springfield, IL 62701".toList).2
      (load_record "LOC42".toList "123 Main Street".toList "Springfield".toList "IL".toList
        "62701".toList) ≥ 55 / 100 ∧
    default_config.fuzzy_min_confidence = 55 / 100 ∧
    (strategy_fuzzy true (parse_address "123 Maine St, Springfield, IL 62701".toList).2
        springfield_catalog default_config match_result_init).items.map
        (fun c => (c.location.location_id, c.strategy, c.reason, c.confidence)) =
      [("LOC42".toList, "fuzzy".toList, "approximate_text_similarity".toList, 59 / 100)] := by
  refine ⟨?_, ?_, default_fuzzy_threshold, maine_scores.2.2.1⟩
  · rw [maine_scores.1]; norm_num
  · rw [maine_scores.2.1]; norm_num

/-! ## A reply that the oracle strategy accepts -/

theorem strtok_reply_loc42 :
    strtok_all [' '] (trim_whitespace "location_id=LOC42 confidence=0.82".toList) [] =
      ["location_id=LOC42".toList, "confidence=0.82".toList] := by decide!

theorem parse_reply_loc42 (atof : CStr → ℚ) :
    parse_reply atof
        (strtok_all [' '] (trim_whitespace "location_id=LOC42 confidence=0.82".toList) []) =
      ("LOC42".toList, atof "0.82".toList) := by
  rw [strtok_reply_loc42]
  rfl

/-- The call of `add_candidate` that `strategy_llm` makes for the reply
`location_id=LOC42 confidence=0.82`. -/
theorem strategy_llm_loc42 (m : Bool) (atof : CStr → ℚ) (store : LocationStore)
    (config : MatcherConfig) (result : MatchResult) (location : LocationRecord)
    (henabled : config.llm_enabled = true) (hcommand : config.llm_command ≠ [])
    (hcount : result.items ≠ []) (hmin : config.llm_min_confidence = 70 / 100)
    (hatof : atof "0.82".toList = 82 / 100)
    (hfind : find_location_by_id store "LOC42".toList = some location) :
    strategy_llm m atof (some "location_id=LOC42 confidence=0.82".toList) store config result =
      add_candidate result location (82 / 100) "llm".toList "llm_ranked".toList
        (score_components m result.record_components location.components false)
        config.max_candidates := by
  unfold strategy_llm
  have h1 : ¬ ((!config.llm_enabled || config.llm_command.isEmpty) = true) := by
    simp [henabled, List.isEmpty_iff, hcommand]
  have h2 : ¬ result.items.length = 0 := by
    simpa [List.length_eq_zero] using hcount
  have h3 : ¬ (trim_whitespace "location_id=LOC42 confidence=0.82".toList).isEmpty = true := by
    decide!
  rw [if_neg h1, if_neg h2]
  simp only [parse_reply_loc42, hatof, hmin, hfind]
  rw [if_neg h3, if_neg, if_neg]
  · norm_num
  · intro h
    rcases h with h | h
    · exact absurd h (by decide)
    · norm_num at h

theorem find_location_by_id_some {store : LocationStore} {location_id : CStr}
    {location : LocationRecord} (h : find_location_by_id store location_id = some location) :
    location ∈ store ∧ location.location_id = location_id := by
  unfold find_location_by_id at h
  refine ⟨List.mem_of_find?_eq_some h, ?_⟩
  have := List.find?_some h
  simp only [decide_eq_true_eq] at this
  exact (strcmp_eq_zero _ _).1 this

/-- C25, amended: when the oracle strategy is enabled, the result holds a candidate, the
reply is `location_id=LOC42 confidence=0.82`, the threshold is 0.70 and the catalog holds
LOC42, the strategy makes one call of `add_candidate` for LOC42 with confidence 0.82,
strategy `llm` and reason `llm_ranked`. A stored LOC42 is upgraded in its slot when its
confidence is below 0.82 and the result is unchanged otherwise; an absent LOC42 is appended
when there is room, replaces the lowest candidate when there is none and that confidence is
below 0.82, and is dropped otherwise. -/
theorem strategy_llm_offers_loc42 (m : Bool) (atof : CStr → ℚ) (store : LocationStore)
    (config : MatcherConfig) (result : MatchResult) (location : LocationRecord)
    (henabled : config.llm_enabled = true) (hcommand : config.llm_command ≠ [])
    (hcount : result.items ≠ []) (hmin : config.llm_min_confidence = 70 / 100)
    (hatof : atof "0.82".toList = 82 / 100)
    (hfind : find_location_by_id store "LOC42".toList = some location) :
    location.location_id = "LOC42".toList ∧
    strategy_llm m atof (some "location_id=LOC42 confidence=0.82".toList) store config result =
      add_candidate result location (82 / 100) "llm".toList "llm_ranked".toList
        (score_components m result.record_components location.components false)
        config.max_candidates ∧
    (∀ idx old, find_existing result.items "LOC42".toList = some idx →
      result.items.get? idx = some old →
      (old.confidence < 82 / 100 →
        (strategy_llm m atof (some "location_id=LOC42 confidence=0.82".toList) store config
          result).items =
          result.items.set idx
            { location := old.location, confidence := 82 / 100, strategy := "llm".toList,
              reason := "llm_ranked".toList,
              breakdown :=
                score_components m result.record_components location.components false }) ∧
      (82 / 100 ≤ old.confidence →
        strategy_llm m atof (some "location_id=LOC42 confidence=0.82".toList) store config
          result = result)) ∧
    (find_existing result.items "LOC42".toList = none →
      (result.items.length < config.max_candidates ∧
          result.items.length < MATCHER_MAX_CANDIDATES →
        (strategy_llm m atof (some "location_id=LOC42 confidence=0.82".toList) store config
          result).items =
          result.items ++
            [{ location := location, confidence := 82 / 100, strategy := "llm".toList,
               reason := "llm_ranked".toList,
               breakdown :=
                 score_components m result.record_components location.components false }]) ∧
      (¬ (result.items.length < config.max_candidates ∧
            result.items.length < MATCHER_MAX_CANDIDATES) →
        (∀ idx low, find_lowest result.items 0 (none, 11 / 10) = (some idx, low) →
          (low < 82 / 100 →
            (strategy_llm m atof (some "location_id=LOC42 confidence=0.82".toList) store
              config result).items =
              result.items.set idx
                { location := location, confidence := 82 / 100, strategy := "llm".toList,
                  reason := "llm_ranked".toList,
                  breakdown :=
                    score_components m result.record_components location.components
                      false }) ∧
          (82 / 100 ≤ low →
            strategy_llm m atof (some "location_id=LOC42 confidence=0.82".toList) store config
              result = result)) ∧
        (∀ low, find_lowest result.items 0 (none, 11 / 10) = (none, low) →
          strategy_llm m atof (some "location_id=LOC42 confidence=0.82".toList) store config
            result = result))) := by
  have hid := (find_location_by_id_some hfind).2
  rw [strategy_llm_loc42 m atof store config result location henabled hcommand hcount hmin
    hatof hfind]
  refine ⟨hid, rfl, ?_, ?_⟩
  · intro idx old hf hold
    unfold add_candidate
    simp only [hid, hf, hold]
    constructor
    · intro hlt
      rw [if_pos hlt]
      rfl
    · intro hge
      rw [if_neg (not_lt.2 hge)]
  · intro hf
    unfold add_candidate
    simp only [hid, hf]
    refine ⟨?_, ?_⟩
    · intro hroom
      rw [if_pos hroom]
      rfl
    · intro hroom
      rw [if_neg hroom]
      refine ⟨?_, ?_⟩
      · intro idx low hlow
        simp only [hlow]
        constructor
        · intro hlt
          rw [if_pos hlt]
          rfl
        · intro hge
          rw [if_neg (not_lt.2 hge)]
      · intro low hlow
        simp only [hlow]

theorem maine_result_ne_nil : maine_result.items ≠ [] := by
  intro h
  have := maine_scores.2.2.2
  rw [h] at this
  cases this

theorem oracle_config_fields :
    oracle_config.llm_enabled = true ∧ oracle_config.llm_command = "oracle".toList ∧
    oracle_config.llm_min_confidence = 70 / 100 ∧ oracle_config.max_candidates = 5 := by
  decide!

/-- Witness of `strategy_llm_offers_loc42`: the result held for
`123 Maine St, Springfield, IL 62701`, where LOC42 is stored with the confidence 0.65. -/
theorem strategy_llm_offers_loc42_witness :
    strategy_llm true (fun text => if text = "0.82".toList then 82 / 100 else 0)
        (some "location_id=LOC42 confidence=0.82".toList) springfield_catalog oracle_config
        maine_result =
      add_candidate maine_result
        (load_record "LOC42".toList "123 Main Street".toList "Springfield".toList "IL".toList
          "62701".toList)
        (82 / 100) "llm".toList "llm_ranked".toList
        (score_components true maine_result.record_components
          (load_record "LOC42".toList "123 Main Street".toList "Springfield".toList
            "IL".toList "62701".toList).components false)
        oracle_config.max_candidates :=
  (strategy_llm_offers_loc42 true (fun text => if text = "0.82".toList then 82 / 100 else 0)
    springfield_catalog oracle_config maine_result
    (load_record "LOC42".toList "123 Main Street".toList "Springfield".toList "IL".toList
      "62701".toList)
    oracle_config_fields.1 (by rw [oracle_config_fields.2.1]; decide) maine_result_ne_nil
    oracle_config_fields.2.2.1 (by decide!) rfl).2.1

/-- C25, as stated, fails when LOC42 is already stored with a higher confidence: for the address
`12 N 1st St Denver CO 80202` the result holds LOC42 with the confidence 1 when the oracle
strategy is entered, and after the reply `location_id=LOC42 confidence=0.82` it still holds
that candidate only, with the strategy `fuzzy`. -/
theorem oracle_reply_not_adopted :
    oracle_config.llm_enabled = true ∧ oracle_config.llm_min_confidence = 70 / 100 ∧
    (find_location_by_id denver_catalog "LOC42".toList).isSome = true ∧
    denver_result.items.map (fun c => (c.location.location_id, c.strategy, c.confidence)) =
      [("LOC42".toList, "fuzzy".toList, 1)] ∧
    (strategy_llm true (fun text => if text = "0.82".toList then 82 / 100 else 0)
        (some "location_id=LOC42 confidence=0.82".toList) denver_catalog oracle_config
        denver_result).items.map (fun c => (c.location.location_id, c.strategy, c.confidence)) =
      [("LOC42".toList, "fuzzy".toList, 1)] := by
  rw [denver_result_eq, parse_denver_plain, denver_catalog_eq]
  decide!

/-! ## Bounds of the confidence -/

/-- The score of `score_components` is not negative and stays below 1.1, the value from
which `add_candidate` starts its search for the lowest slot. -/
theorem score_below (m : Bool) (l r : AddressComponents) (z : Bool) :
    0 ≤ (score_components m l r z).score ∧ (score_components m l r z).score < 11 / 10 := by
  have h1 := exact_match_bounds l.street_number r.street_number
  have h2 := similarity_ratio_bounds m l.street_name r.street_name
  have h3 := exact_match_bounds (normalize_direction l.street_direction)
    (normalize_direction r.street_direction)
  have h4 := exact_match_bounds l.street_suffix r.street_suffix
  have h5 := similarity_ratio_bounds m l.city r.city
  have h6 := exact_match_bounds l.state r.state
  have h7 := exact_match_bounds
    (canonicalize_zip (copy_field AMS_MAX_POSTAL_LENGTH l.postal_code))
    (canonicalize_zip (copy_field AMS_MAX_POSTAL_LENGTH r.postal_code))
  rw [score_components_score, zip_signal_eq]
  constructor
  · linarith [h1.1, h2.1, h3.1, h4.1, h5.1, h6.1, h7.1]
  · linarith [h1.2, h2.2, h3.2, h4.2, h5.2, h6.2, h7.2]

theorem fuzzy_score_bounds (m : Bool) (query : AddressComponents) (location : LocationRecord) :
    0 ≤ fuzzy_score m query location ∧ fuzzy_score m query location ≤ 1 := by
  have h1 := score_below m query location.components false
  have h2 := similarity_ratio_bounds m query.street_name location.components.street_name
  have h3 := similarity_ratio_bounds m query.city location.components.city
  unfold fuzzy_score
  simp only
  constructor
  · split_ifs <;> linarith [h1.1, h2.1, h3.1]
  · split_ifs <;> linarith

/-- A candidate of the result of `add_candidate` was there before or carries the confidence
and the strategy of the call. -/
theorem add_candidate_forall (Q : ℚ → CStr → Prop) (result : MatchResult)
    (location : LocationRecord) (confidence : ℚ) (strategy reason : CStr)
    (breakdown : ScoreBreakdown) (max_candidates : Nat)
    (h : ∀ c ∈ result.items, Q c.confidence c.strategy)
    (hq : Q confidence (copy_field AMS_MAX_STRATEGY_LENGTH strategy)) :
    ∀ c ∈ (add_candidate result location confidence strategy reason breakdown
      max_candidates).items, Q c.confidence c.strategy := by
  intro c hc
  rcases add_candidate_items result location confidence strategy reason breakdown
    max_candidates with h1 | ⟨_, _, _, _, _, h1⟩ | ⟨_, _, _, h1⟩ | ⟨_, _, _, _, _, h1⟩
  · rw [h1] at hc; exact h c hc
  · rw [h1] at hc
    rcases List.mem_or_eq_of_mem_set hc with hc | hc
    · exact h c hc
    · rw [hc]; exact hq
  · rw [h1, List.mem_append, List.mem_singleton] at hc
    rcases hc with hc | hc
    · exact h c hc
    · rw [hc]; exact hq
  · rw [h1] at hc
    rcases List.mem_or_eq_of_mem_set hc with hc | hc
    · exact h c hc
    · rw [hc]; exact hq

/-! ## Selection of the best candidate -/

theorem toDigits_length_le (n e : Nat) (he : 0 < e) (h : n < 10 ^ e) :
    (Nat.toDigits 10 n).length ≤ e :=
  Nat.toDigitsCore_length 10 (by decide) (n + 1) n e h he

/-- The length of a rendering with three decimals: a value from 0 up to `10 ^ e - 1` takes at
most `e + 4` characters. -/
theorem format_fixed_length (x : ℚ) (e : Nat) (he : 0 < e) (hx : 0 ≤ x)
    (hb : x * 1000 + 1 < 10 ^ (e + 3)) : (format_fixed 3 x).length ≤ e + 4 := by
  unfold format_fixed
  simp only
  have habs : |x| = x := abs_of_nonneg hx
  rw [habs, if_neg (not_lt.2 hx)]
  have hs : (0 : ℚ) ≤ x * 10 ^ 3 := by positivity
  have hfloor : Rat.floor (x * 10 ^ 3) = ⌊x * 10 ^ 3⌋ := rfl
  have hlow0 : 0 ≤ Rat.floor (x * 10 ^ 3) := by
    rw [hfloor]; exact Int.floor_nonneg.2 hs
  have hlow : ((Rat.floor (x * 10 ^ 3) : ℤ) : ℚ) ≤ x * 10 ^ 3 := by
    rw [hfloor]; exact Int.floor_le _
  generalize hr : (if x * 10 ^ 3 - ↑(Rat.floor (x * 10 ^ 3)) < 1 / 2 then Rat.floor (x * 10 ^ 3)
      else if 1 / 2 < x * 10 ^ 3 - ↑(Rat.floor (x * 10 ^ 3)) then Rat.floor (x * 10 ^ 3) + 1
      else if Rat.floor (x * 10 ^ 3) % 2 = 0 then Rat.floor (x * 10 ^ 3)
      else Rat.floor (x * 10 ^ 3) + 1) = rounded
  have hr0 : 0 ≤ rounded := by
    rw [← hr]; split_ifs <;> omega
  have hr1 : rounded ≤ Rat.floor (x * 10 ^ 3) + 1 := by
    rw [← hr]; split_ifs <;> omega
  have hn : rounded.toNat < 10 ^ (e + 3) := by
    have h1 : ((rounded.toNat : ℤ) : ℚ) < ((10 ^ (e + 3) : ℕ) : ℚ) := by
      rw [Int.toNat_of_nonneg hr0]
      have h2 : (rounded : ℚ) ≤ ((Rat.floor (x * 10 ^ 3) + 1 : ℤ) : ℚ) := by exact_mod_cast hr1
      push_cast at h2 ⊢
      have h3 : x * 10 ^ 3 = x * 1000 := by norm_num
      linarith
    exact_mod_cast h1
  have hq : rounded.toNat / 10 ^ 3 < 10 ^ e := by
    rw [Nat.div_lt_iff_lt_mul (by norm_num)]
    calc rounded.toNat < 10 ^ (e + 3) := hn
      _ = 10 ^ e * 10 ^ 3 := by rw [pow_add]
  have hd1 := toDigits_length_le (rounded.toNat / 10 ^ 3) e he hq
  have hd2 := toDigits_length_le (rounded.toNat % 10 ^ 3) 3 (by norm_num)
    (Nat.mod_lt _ (by norm_num))
  simp only [List.length_append, List.length_replicate, List.length_nil, List.length_cons,
    if_neg (show ¬ (3 = 0) by norm_num)]
  omega

theorem format_fixed_fits (x : ℚ) (hx : 0 ≤ x) (hb : x ≤ 10 ^ 58) :
    copy_field AMS_MAX_DIAGNOSTIC_LENGTH (format_fixed 3 x) = format_fixed 3 x := by
  unfold copy_field
  apply List.take_of_length_le
  have h := format_fixed_length x 59 (by norm_num) hx (by norm_num; linarith)
  have : AMS_MAX_DIAGNOSTIC_LENGTH - 1 = 63 := rfl
  omega

/-- The fields other than `items` are not touched by the strategies. -/
theorem aggregate_candidates_fields (m : Bool) (atof : CStr → ℚ) (reply : Option CStr)
    (raw : CStr) (store : LocationStore) (config : MatcherConfig) :
    (aggregate_candidates m atof reply raw store config).has_best_candidate = false ∧
    (aggregate_candidates m atof reply raw store config).best_index = 0 := by
  unfold aggregate_candidates
  simp only
  apply strategy_llm_preserves (fun r => r.has_best_candidate = false ∧ r.best_index = 0) config
    (fun r loc conf s rs bd h => by rw [add_candidate_fields]; exact h)
  apply strategy_fuzzy_preserves (fun r => r.has_best_candidate = false ∧ r.best_index = 0)
    config (fun r loc conf s rs bd h => by rw [add_candidate_fields]; exact h)
  apply strategy_structured_preserves
    (fun r => r.has_best_candidate = false ∧ r.best_index = 0)
    config (fun r loc conf s rs bd h => by rw [add_candidate_fields]; exact h)
  apply strategy_canonical_preserves
    (fun r => r.has_best_candidate = false ∧ r.best_index = 0)
    config (fun r loc conf s rs bd h => by rw [add_candidate_fields]; exact h)
  exact ⟨rfl, rfl⟩

/-- The selection of `match_record`, read off its result. -/
theorem match_record_selection (m : Bool) (atof : CStr → ℚ) (reply : Option CStr) (raw : CStr)
    (store : LocationStore) (config : MatcherConfig) :
    (∀ best, (match_record m atof reply raw store config).items.head? = some best →
      (match_record m atof reply raw store config).has_best_candidate = true ∧
      (match_record m atof reply raw store config).best_index = 0 ∧
      (match_record m atof reply raw store config).selected_strategy =
        copy_field AMS_MAX_STRATEGY_LENGTH best.strategy ∧
      (match_record m atof reply raw store config).selected_confidence =
        copy_field AMS_MAX_DIAGNOSTIC_LENGTH (format_fixed 3 best.confidence)) ∧
    ((match_record m atof reply raw store config).items = [] →
      (match_record m atof reply raw store config).has_best_candidate = false ∧
      (match_record m atof reply raw store config).selected_strategy = "none".toList ∧
      (match_record m atof reply raw store config).selected_confidence = "0.00".toList) := by
  by_cases hp : (parse_address raw).1 = 0
  · have hf := aggregate_candidates_fields m atof reply raw store config
    have heq : match_record m atof reply raw store config =
        (match (if 1 < (aggregate_candidates m atof reply raw store config).items.length then
            { aggregate_candidates m atof reply raw store config with
              items := qsort_candidates
                (aggregate_candidates m atof reply raw store config).items }
          else aggregate_candidates m atof reply raw store config).items.head? with
        | some best =>
          { (if 1 < (aggregate_candidates m atof reply raw store config).items.length then
              { aggregate_candidates m atof reply raw store config with
                items := qsort_candidates
                  (aggregate_candidates m atof reply raw store config).items }
            else aggregate_candidates m atof reply raw store config) with
            has_best_candidate := true
            best_index := 0
            selected_strategy := copy_field AMS_MAX_STRATEGY_LENGTH best.strategy
            selected_confidence :=
              copy_field AMS_MAX_DIAGNOSTIC_LENGTH (format_fixed 3 best.confidence) }
        | none =>
          { (if 1 < (aggregate_candidates m atof reply raw store config).items.length then
              { aggregate_candidates m atof reply raw store config with
                items := qsort_candidates
                  (aggregate_candidates m atof reply raw store config).items }
            else aggregate_candidates m atof reply raw store config) with
            selected_strategy := copy_field AMS_MAX_STRATEGY_LENGTH "none".toList
            selected_confidence := copy_field AMS_MAX_DIAGNOSTIC_LENGTH (format_fixed 2 0) }) := by
      unfold match_record aggregate_candidates
      simp only [hp, ne_eq, not_true_eq_false, if_false]
    rw [heq]
    generalize aggregate_candidates m atof reply raw store config = agg at hf ⊢
    generalize hs : (if 1 < agg.items.length then
        { agg with items := qsort_candidates agg.items } else agg) = sorted
    have hsf : sorted.has_best_candidate = false := by
      rw [← hs]; split_ifs <;> exact hf.1
    cases hh : sorted.items.head? with
    | none =>
      refine ⟨fun best hb => ?_, fun _ => ⟨hsf, rfl, ?_⟩⟩
      · rw [hh] at hb; cases hb
      · show copy_field AMS_MAX_DIAGNOSTIC_LENGTH (format_fixed 2 0) = _
        rw [format_fixed_zero]; rfl
    | some best =>
      refine ⟨fun b hb => ?_, fun hnil => ?_⟩
      · rw [hh] at hb
        cases hb
        exact ⟨rfl, rfl, rfl, rfl⟩
      · rw [hnil] at hh; cases hh
  · rw [match_record_of_failure m atof reply raw store config hp]
    exact ⟨fun best hb => (by cases hb), fun _ => ⟨rfl, rfl, rfl⟩⟩

theorem eq_singleton_of_map {α β : Type} {f : α → β} {l : List α} {b : β}
    (h : l.map f = [b]) : ∃ a, l = [a] ∧ f a = b := by
  cases l with
  | nil => cases h
  | cons a t =>
    cases t with
    | nil =>
      rw [List.map_cons, List.map_nil] at h
      exact ⟨a, rfl, List.head_eq_of_cons_eq h⟩
    | cons a2 t2 =>
      have := congrArg List.length h
      simp at this

/-- A run of `match_record` in which the oracle answers with the confidence 1.5. -/
theorem denver_oracle_run :
    (match_record true (fun text => if text = "1.5".toList then 3 / 2 else 0)
        (some "location_id=LOC42 confidence=1.5".toList) "12 N 1st St Denver CO 80202".toList
        denver_catalog oracle_config).items.map
        (fun c => (c.location.location_id, c.strategy, c.confidence)) =
      [("LOC42".toList, "llm".toList, 3 / 2)] := by
  rw [match_record_of_parse _ _ _ _ _ _ (by rw [parse_denver_plain]),
    aggregate_candidates_of_parse _ _ _ _ _ _ _ (by rw [parse_denver_plain]), denver_catalog_eq]
  decide!

/-- C24, on the code: with the oracle command configured and the reply
`location_id=LOC42 confidence=1.5`, the result of `match_record` for the address
`12 N 1st St Denver CO 80202` holds LOC42 with the strategy `llm` and the confidence 1.5,
which is above 1. -/
theorem oracle_confidence_above_one :
    ∃ c ∈ (match_record true (fun text => if text = "1.5".toList then 3 / 2 else 0)
        (some "location_id=LOC42 confidence=1.5".toList) "12 N 1st St Denver CO 80202".toList
        denver_catalog oracle_config).items,
      c.location.location_id = "LOC42".toList ∧ c.strategy = "llm".toList ∧
      c.confidence = 3 / 2 ∧ ¬ (c.confidence ≤ 1) := by
  obtain ⟨c, hitems, hc⟩ := eq_singleton_of_map denver_oracle_run
  refine ⟨c, by rw [hitems]; exact List.mem_singleton.2 rfl, ?_⟩
  have h1 := congrArg Prod.fst hc
  have h2 := congrArg (fun p => p.2.1) hc
  have h3 := congrArg (fun p => p.2.2) hc
  simp only at h1 h2 h3
  refine ⟨h1, h2, h3, ?_⟩
  rw [h3]; norm_num

/-! ## The token array through the extraction steps -/

theorem kept_of_good {t : Token} (h : t.Good) : t.Kept := ⟨fun _ => h.1, h.2⟩

theorem tokenize_kept (input : CStr) : ∀ t ∈ tokenize input, t.Kept :=
  fun t ht => kept_of_good (tokenize_good input t ht)

theorem modify_at_kept (f : Token → Token) (hf : ∀ t, t.Kept → (f t).Kept) :
    ∀ (idx : Nat) (toks : List Token), (∀ t ∈ toks, t.Kept) →
      ∀ t ∈ modify_at f idx toks, t.Kept := by
  intro idx toks
  induction toks generalizing idx with
  | nil => intro _ t ht; simp [modify_at] at ht
  | cons a rest ih =>
    intro h t ht
    cases idx with
    | zero =>
      simp only [modify_at] at ht
      rcases List.mem_cons.1 ht with h1 | h1
      · subst h1; exact hf a (h a (List.mem_cons_self _ _))
      · exact h t (List.mem_cons_of_mem _ h1)
    | succ n =>
      simp only [modify_at] at ht
      rcases List.mem_cons.1 ht with h1 | h1
      · subst h1; exact h _ (List.mem_cons_self _ _)
      · exact ih n (fun u hu => h u (List.mem_cons_of_mem _ hu)) t h1

theorem deactivate_kept (idx : Nat) (toks : List Token) (h : ∀ t ∈ toks, t.Kept) :
    ∀ t ∈ deactivate idx toks, t.Kept :=
  modify_at_kept (fun t => { t with active := false })
    (fun _ ht => ⟨fun hf => (by cases hf), ht.2⟩) idx toks h

theorem token_text_isUpper (toks : List Token) (h : ∀ t ∈ toks, t.Kept) (idx : Nat) :
    IsUpper (token_text toks idx) := by
  unfold token_text
  cases hg : toks.get? idx with
  | none => intro c hc; cases hc
  | some t => exact (h t (List.get?_mem hg)).2

theorem postal_step_kept (toks : List Token) (h : ∀ t ∈ toks, t.Kept) :
    ∀ t ∈ (postal_step toks).2, t.Kept := by
  unfold postal_step
  split
  · exact deactivate_kept _ _ h
  · exact h

theorem state_step_kept (toks : List Token) (h : ∀ t ∈ toks, t.Kept) :
    ∀ t ∈ (state_step toks).2, t.Kept := by
  unfold state_step
  split
  · exact deactivate_kept _ _ h
  · exact h

theorem unit_loop_kept :
    ∀ (toks : List Token) (unit : CStr), (∀ t ∈ toks, t.Kept) →
      ∀ t ∈ (unit_loop toks unit).2, t.Kept := by
  intro toks
  induction toks with
  | nil => intro unit _ t ht; simp [unit_loop] at ht
  | cons a rest ih =>
    intro unit h t ht
    have ha := h a (List.mem_cons_self _ _)
    have ha1 : Token.Kept { a with active := false } := ⟨fun hf => (by cases hf), ha.2⟩
    unfold unit_loop at ht
    split at ht
    · exact h t ht
    · simp only at ht
      split at ht
      · simp only [List.mem_singleton] at ht
        rw [ht]; exact ha1
      · rename_i n more
        split at ht
        · rcases List.mem_cons.1 ht with h1 | h1
          · rw [h1]; exact ha1
          · exact h t (List.mem_cons_of_mem _ h1)
        · rcases List.mem_cons.1 ht with h1 | h1
          · rw [h1]; exact ha1
          · exact ih _ (fun u hu => h u (List.mem_cons_of_mem _ hu)) t h1

theorem unit_step_kept (toks : List Token) (h : ∀ t ∈ toks, t.Kept) :
    ∀ t ∈ (unit_step toks).2, t.Kept := by
  unfold unit_step
  split
  · rename_i unit_index _
    intro t ht
    simp only at ht
    rcases List.mem_append.1 ht with h1 | h1
    · exact h t ((List.take_sublist _ _).subset h1)
    · exact unit_loop_kept _ _ (fun u hu => h u ((List.drop_sublist _ _).subset hu)) t h1
  · exact h

theorem extract_house_number_mem {token number rest : CStr} {n : Nat}
    (h : extract_house_number token n = some (number, rest)) :
    (∀ c ∈ number, c ∈ token) ∧ (∀ c ∈ rest, c ∈ token) := by
  unfold extract_house_number at h
  split at h
  · cases h
  · simp only at h
    split at h
    · cases h
    · simp only [Option.some.injEq, Prod.mk.injEq] at h
      obtain ⟨h1, h2⟩ := h
      subst h1 h2
      constructor
      · intro c hc
        exact (List.take_sublist _ _).subset hc
      · intro c hc
        exact (List.drop_sublist _ _).subset ((List.dropWhile_sublist _).subset hc)

theorem number_step_kept (toks : List Token) (h : ∀ t ∈ toks, t.Kept) :
    ∀ t ∈ (number_step toks).2, t.Kept := by
  unfold number_step
  split
  · rename_i idx _
    split
    · rename_i number rest hex
      have hup : IsUpper rest :=
        (token_text_isUpper toks h idx).of_subset (extract_house_number_mem hex).2
      split
      · exact modify_at_kept _ (fun _ _ => ⟨fun hf => (by cases hf), hup⟩) idx toks h
      · rename_i hne
        refine modify_at_kept _ (fun t _ => ⟨fun _ => ?_, ?_⟩) idx toks h
        · show copy_field AMS_MAX_FIELD_LENGTH rest ≠ []
          unfold copy_field AMS_MAX_FIELD_LENGTH
          intro h0
          rcases List.take_eq_nil_iff.1 h0 with h2 | h2
          · omega
          · rw [h2] at hne; exact hne rfl
        · show IsUpper (copy_field AMS_MAX_FIELD_LENGTH rest)
          exact hup.of_subset (fun c hc => (List.take_sublist _ _).subset hc)
    · exact h
  · exact h

theorem direction_step_kept (toks : List Token) (h : ∀ t ∈ toks, t.Kept) :
    ∀ t ∈ (direction_step toks).2, t.Kept := by
  unfold direction_step
  split
  · simp only
    split
    · exact deactivate_kept _ _ h
    · exact h
  · exact h

theorem suffix_step_kept (toks : List Token) (h : ∀ t ∈ toks, t.Kept) :
    ∀ t ∈ (suffix_step toks).2.2, t.Kept := by
  unfold suffix_step
  split
  · exact deactivate_kept _ _ h
  · exact h

/-! ## The directional step -/

theorem scan_left_spec (p : CStr → Bool) :
    ∀ (toks : List Token) (idx : Nat), scan_left p toks = some idx →
      (∃ t, toks.get? idx = some t ∧ t.active = true ∧ p t.text = true) ∧
      ∀ k u, k < idx → toks.get? k = some u → ¬ (u.active = true ∧ p u.text = true) := by
  intro toks
  induction toks with
  | nil => intro idx h; simp [scan_left] at h
  | cons a rest ih =>
    intro idx h
    unfold scan_left at h
    split at h
    · rename_i ha
      cases h
      simp only [Bool.and_eq_true] at ha
      exact ⟨⟨a, rfl, ha.1, ha.2⟩, fun k u hk => absurd hk (Nat.not_lt_zero k)⟩
    · rename_i ha
      split at h
      · rename_i k hk
        cases h
        obtain ⟨hfound, hbefore⟩ := ih k hk
        refine ⟨hfound, ?_⟩
        intro j u hj hu
        cases j with
        | zero =>
          simp only [List.get?_cons_zero, Option.some.injEq] at hu
          subst hu
          simpa [Bool.and_eq_true] using ha
        | succ j => exact hbefore j u (by omega) hu
      · cases h

theorem get?_modify_at (f : Token → Token) :
    ∀ (toks : List Token) (k j : Nat),
      (modify_at f k toks).get? j = if j = k then (toks.get? j).map f else toks.get? j := by
  intro toks
  induction toks with
  | nil => intro k j; simp [modify_at]
  | cons a rest ih =>
    intro k j
    cases k with
    | zero =>
      cases j with
      | zero => simp [modify_at]
      | succ j => simp [modify_at]
    | succ k =>
      cases j with
      | zero => simp [modify_at]
      | succ j =>
        simp only [modify_at, List.get?_cons_succ, ih]
        by_cases hjk : j = k
        · simp [hjk]
        · simp [hjk]

theorem parse_tokens_street (toks : List Token) :
    (parse_tokens toks).street_direction =
      (direction_step
        (number_step (unit_step (state_step (postal_step toks).2).2).2).2).1 ∧
    (parse_tokens toks).street_suffix =
      (suffix_step (direction_step
        (number_step (unit_step (state_step (postal_step toks).2).2).2).2).2).1 ∧
    (parse_tokens toks).street_name =
      uppercase_inplace (copy_field AMS_MAX_FIELD_LENGTH
        (partition_loop
          (suffix_step (direction_step
            (number_step (unit_step (state_step (postal_step toks).2).2).2).2).2).2.1
          (suffix_step (direction_step
            (number_step (unit_step (state_step (postal_step toks).2).2).2).2).2).2.2
          0 [] []).1) := by
  unfold parse_tokens
  exact ⟨(compute_canonical_key_fields _).2.1, (compute_canonical_key_fields _).2.2.2.1,
    (compute_canonical_key_fields _).2.2.1⟩

theorem noLowercase_of_isUpper {s : CStr} (h : IsUpper s) : NoLowercase s := by
  have key : ∀ n : Nat, 97 ≤ n → n ≤ 122 → (Char.ofNat (n - 32)).toNat = n - 32 := by
    intro n h1 h2
    interval_cases n <;> rfl
  intro c hc hlow
  have hup := h c hc
  unfold toupper at hup
  rw [if_pos hlow] at hup
  have := congrArg Char.toNat hup
  rw [key _ hlow.1 hlow.2] at this
  omega

theorem noLowercase_of_zipShape {s : CStr} (h : ZipShape s) : NoLowercase s := by
  intro c hc hlow
  rcases h.1 c hc with hd | hd
  · unfold isdigit at hd
    simp only [Bool.and_eq_true, decide_eq_true_eq] at hd
    omega
  · rw [hd] at hlow
    exact absurd hlow (by decide)

theorem directional_codes_upper : ∀ e ∈ DIRECTIONAL_MAP, ∀ c ∈ e.2, toupper c = c := by decide

theorem normalize_direction_isUpper {token : CStr} (h : IsUpper token) :
    IsUpper (normalize_direction token) := by
  unfold normalize_direction
  cases hf : DIRECTIONAL_MAP.find? (fun m => token = m.1) with
  | none => exact h
  | some m => exact directional_codes_upper m (List.mem_of_find?_eq_some hf)

theorem isUpper_nil : IsUpper [] := fun _ hc => (by cases hc)

theorem isUpper_take {s : CStr} (h : IsUpper s) (n : Nat) : IsUpper (s.take n) :=
  h.of_subset (fun _ hc => (List.take_sublist _ _).subset hc)

theorem state_step_isUpper (toks : List Token) (h : ∀ t ∈ toks, t.Kept) :
    IsUpper (state_step toks).1 := by
  unfold state_step
  split
  · rename_i idx _
    simp only
    rw [normalize_state_of_isUpper (token_text_isUpper toks h idx)]
    exact isUpper_take (isUpper_take (token_text_isUpper toks h idx) _) _
  · exact isUpper_nil

theorem unit_step_isUpper (toks : List Token) : IsUpper (unit_step toks).1 := by
  unfold unit_step
  split
  · exact isUpper_uppercase _
  · exact isUpper_nil

theorem number_step_isUpper (toks : List Token) (h : ∀ t ∈ toks, t.Kept) :
    IsUpper (number_step toks).1 := by
  unfold number_step
  split
  · rename_i idx _
    split
    · rename_i number rest hex
      have hup : IsUpper number :=
        (token_text_isUpper toks h idx).of_subset (extract_house_number_mem hex).1
      split <;> exact hup
    · exact isUpper_nil
  · exact isUpper_nil

theorem direction_step_isUpper (toks : List Token) (h : ∀ t ∈ toks, t.Kept) :
    IsUpper (direction_step toks).1 := by
  unfold direction_step
  split
  · rename_i idx _
    simp only
    split
    · exact isUpper_take (normalize_direction_isUpper (token_text_isUpper toks h idx)) _
    · exact isUpper_nil
  · exact isUpper_nil

theorem suffix_step_isUpper (toks : List Token) (h : ∀ t ∈ toks, t.Kept) :
    IsUpper (suffix_step toks).1 := by
  unfold suffix_step
  split
  · rename_i idx _
    exact isUpper_take (token_text_isUpper toks h idx) _
  · exact isUpper_nil

/-- Every field that `parse_tokens` fills from the token array is upper-cased. -/
theorem parse_tokens_isUpper (toks : List Token) (h : ∀ t ∈ toks, t.Kept) :
    IsUpper (parse_tokens toks).street_number ∧ IsUpper (parse_tokens toks).street_direction ∧
    IsUpper (parse_tokens toks).street_name ∧ IsUpper (parse_tokens toks).street_suffix ∧
    IsUpper (parse_tokens toks).unit ∧ IsUpper (parse_tokens toks).city ∧
    IsUpper (parse_tokens toks).state ∧ ZipShape (parse_tokens toks).postal_code := by
  have h1 := postal_step_kept toks h
  have h2 := state_step_kept _ h1
  have h3 := unit_step_kept _ h2
  have h4 := number_step_kept _ h3
  have h5 := direction_step_kept _ h4
  unfold parse_tokens
  simp only
  rw [(compute_canonical_key_fields _).1, (compute_canonical_key_fields _).2.1,
    (compute_canonical_key_fields _).2.2.1, (compute_canonical_key_fields _).2.2.2.1,
    (compute_canonical_key_fields _).2.2.2.2.1, (compute_canonical_key_fields _).2.2.2.2.2.1,
    (compute_canonical_key_fields _).2.2.2.2.2.2.1,
    (compute_canonical_key_fields _).2.2.2.2.2.2.2]
  exact ⟨number_step_isUpper _ h3, direction_step_isUpper _ h4, isUpper_uppercase _,
    suffix_step_isUpper _ h5, unit_step_isUpper _, isUpper_uppercase _,
    state_step_isUpper _ h1, zipShape_postal_step toks⟩

theorem noLowercase_key (c : AddressComponents)
    (h : ∀ p ∈ canonical_parts c, NoLowercase p) :
    NoLowercase ((List.intercalate ['|'] (canonical_parts c)).take 255) := by
  intro ch hch hlow
  have hmem := (List.take_sublist _ _).subset hch
  simp only [canonical_parts, List.intercalate, List.intersperse, List.flatten,
    List.append_nil, List.mem_append, List.mem_cons, List.mem_singleton, List.not_mem_nil,
    or_false, List.cons_append, List.nil_append] at hmem
  have hbar : ch ≠ '|' := by
    intro hb; rw [hb] at hlow; exact absurd hlow (by decide)
  have hp : ∀ p ∈ canonical_parts c, ch ∉ p := fun p hp hin => h p hp ch hin hlow
  simp only [canonical_parts, List.mem_cons, List.mem_singleton, List.not_mem_nil, or_false,
    forall_eq_or_imp, forall_eq] at hp
  tauto

/-- C28: after a successful parse none of the nine fields of the result (street number,
direction, street name, suffix, unit, city, state, postal code, canonical key) contains a
lowercase ASCII letter, whatever the input. -/
theorem parse_address_uppercase (input : CStr) (h : (parse_address input).1 = 0) :
    NoLowercase (parse_address input).2.street_number ∧
    NoLowercase (parse_address input).2.street_direction ∧
    NoLowercase (parse_address input).2.street_name ∧
    NoLowercase (parse_address input).2.street_suffix ∧
    NoLowercase (parse_address input).2.unit ∧
    NoLowercase (parse_address input).2.city ∧
    NoLowercase (parse_address input).2.state ∧
    NoLowercase (parse_address input).2.postal_code ∧
    NoLowercase (parse_address input).2.canonical_key := by
  have hkey := parse_address_key input h
  have hd : (parse_address input).2 = parse_tokens (tokenize input) := by
    rcases parse_address_eq input with ⟨-, h2⟩ | ⟨-, h2⟩
    · rw [h2] at h; cases h
    · rw [h2]
  obtain ⟨h1, h2, h3, h4, h5, h6, h7, h8⟩ :=
    parse_tokens_isUpper (tokenize input) (tokenize_kept input)
  rw [← hd] at h1 h2 h3 h4 h5 h6 h7 h8
  have n1 := noLowercase_of_isUpper h1
  have n2 := noLowercase_of_isUpper h2
  have n3 := noLowercase_of_isUpper h3
  have n4 := noLowercase_of_isUpper h4
  have n5 := noLowercase_of_isUpper h5
  have n6 := noLowercase_of_isUpper h6
  have n7 := noLowercase_of_isUpper h7
  have n8 := noLowercase_of_zipShape h8
  refine ⟨n1, n2, n3, n4, n5, n6, n7, n8, ?_⟩
  rw [hkey]
  split
  · intro c hc; cases hc
  · apply noLowercase_key
    intro p hp
    simp only [canonical_parts, List.mem_cons, List.mem_singleton, List.not_mem_nil,
      or_false] at hp
    rcases hp with hp | hp | hp | hp | hp | hp | hp <;> rw [hp] <;> assumption

/-- Witness of `parse_address_uppercase`: an input with lowercase letters,
`12 n  1ST st Denver, co, 80202`. -/
theorem parse_address_uppercase_witness :
    NoLowercase (parse_address "12 n  1ST st Denver, co, 80202".toList).2.street_direction ∧
    NoLowercase (parse_address "12 n  1ST st Denver, co, 80202".toList).2.street_suffix ∧
    NoLowercase (parse_address "12 n  1ST st Denver, co, 80202".toList).2.city ∧
    NoLowercase (parse_address "12 n  1ST st Denver, co, 80202".toList).2.state ∧
    NoLowercase (parse_address "12 n  1ST st Denver, co, 80202".toList).2.canonical_key :=
  ⟨(parse_address_uppercase _ (by rw [parse_denver_spaced])).2.1,
   (parse_address_uppercase _ (by rw [parse_denver_spaced])).2.2.2.1,
   (parse_address_uppercase _ (by rw [parse_denver_spaced])).2.2.2.2.2.1,
   (parse_address_uppercase _ (by rw [parse_denver_spaced])).2.2.2.2.2.2.1,
   (parse_address_uppercase _ (by rw [parse_denver_spaced])).2.2.2.2.2.2.2.2⟩

/-! ## The scorer: `require_zip` and the order of the addresses -/

/-- C35: `score_components` ignores `require_zip`: for all components, with or without the
work rows, the breakdown (score and comparisons) returned with `require_zip` set is the one
returned without it. -/
theorem score_components_require_zip (m : Bool) (left right : AddressComponents) :
    score_components m left right true = score_components m left right false ∧
    (score_components m left right true).score = (score_components m left right false).score ∧
    (score_components m left right true).comparisons =
      (score_components m left right false).comparisons := by
  have h : score_components m left right true = score_components m left right false := by
    unfold score_components
    dsimp only
    rw [zip_signal_eq, zip_signal_eq]
  exact ⟨h, by rw [h], by rw [h]⟩

theorem exact_match_comm (x y : CStr) : exact_match x y = exact_match y x := by
  rw [exact_match_eq, exact_match_eq]
  by_cases h : x = y
  · subst h; rfl
  · rw [if_neg (fun hc => h hc.2.2), if_neg (fun hc => h hc.2.2.symm)]

theorem similarity_ratio_comm (m : Bool) (a b : CStr) :
    similarity_ratio m a b = similarity_ratio m b a := by
  have hmax : (if a.length > b.length then a.length else b.length) =
      (if b.length > a.length then b.length else a.length) := by
    split_ifs <;> omega
  have hor : (a.isEmpty = true ∨ b.isEmpty = true) ↔ (b.isEmpty = true ∨ a.isEmpty = true) :=
    or_comm
  have heq : a = b ↔ b = a := eq_comm
  unfold similarity_ratio
  rw [levenshtein_distance_comm m a b]
  simp only [hmax, hor, heq]

/-- C36: the score of `score_components` is symmetric in the two addresses, for either value
of `require_zip` and with or without the work rows of the edit distance. -/
theorem score_components_symm (m : Bool) (left right : AddressComponents) (z : Bool) :
    (score_components m left right z).score = (score_components m right left z).score := by
  rw [score_components_score, score_components_score, zip_signal_eq, zip_signal_eq,
    exact_match_comm left.street_number, similarity_ratio_comm m left.street_name,
    exact_match_comm (normalize_direction left.street_direction),
    exact_match_comm left.street_suffix, similarity_ratio_comm m left.city,
    exact_match_comm left.state,
    exact_match_comm (canonicalize_zip (copy_field AMS_MAX_POSTAL_LENGTH left.postal_code))]

/-! ## The state when no token is a state code -/

/-- A token that is inactive in `a` is inactive in `b`, position by position. -/
theorem forall₂_get? {R : Token → Token → Prop} :
    ∀ {l1 l2 : List Token}, List.Forall₂ R l1 l2 → ∀ (k : Nat) (a : Token),
      l1.get? k = some a → ∃ b, l2.get? k = some b ∧ R a b := by
  intro l1 l2 h
  induction h with
  | nil => intro k a ha; cases ha
  | cons hab _ ih =>
    intro k a ha
    cases k with
    | zero =>
      simp only [List.get?_cons_zero, Option.some.injEq] at ha
      subst ha
      exact ⟨_, rfl, hab⟩
    | succ k => exact ih k a ha

theorem forall₂_refl_inactive (toks : List Token) :
    List.Forall₂ (fun a b : Token => a.active = false → b.active = false) toks toks :=
  List.forall₂_same.2 (fun _ _ h => h)

theorem modify_at_inactive (f : Token → Token) (hf : ∀ t, t.active = false → (f t).active = false) :
    ∀ (idx : Nat) (toks : List Token),
      List.Forall₂ (fun a b : Token => a.active = false → b.active = false) toks
        (modify_at f idx toks) := by
  intro idx toks
  induction toks generalizing idx with
  | nil => cases idx <;> exact List.Forall₂.nil
  | cons a rest ih =>
    cases idx with
    | zero => exact List.Forall₂.cons (hf a) (forall₂_refl_inactive rest)
    | succ n => exact List.Forall₂.cons (fun h => h) (ih n)

theorem unit_loop_inactive :
    ∀ (toks : List Token) (unit : CStr),
      List.Forall₂ (fun a b : Token => a.active = false → b.active = false) toks
        (unit_loop toks unit).2 := by
  intro toks
  induction toks with
  | nil => intro unit; exact List.Forall₂.nil
  | cons a rest ih =>
    intro unit
    unfold unit_loop
    split
    · exact forall₂_refl_inactive _
    · simp only
      split
      · exact List.Forall₂.cons (fun _ => rfl) List.Forall₂.nil
      · rename_i n more
        split
        · exact List.Forall₂.cons (fun _ => rfl) (forall₂_refl_inactive _)
        · exact List.Forall₂.cons (fun _ => rfl) (ih _)

theorem unit_step_inactive (toks : List Token) :
    List.Forall₂ (fun a b : Token => a.active = false → b.active = false) toks
      (unit_step toks).2 := by
  unfold unit_step
  split
  · rename_i unit_index _
    simp only
    have h := List.rel_append (forall₂_refl_inactive (toks.take unit_index))
      (unit_loop_inactive (toks.drop unit_index) [])
    simp only [List.take_append_drop] at h
    exact h
  · exact forall₂_refl_inactive _

theorem number_step_inactive (toks : List Token) :
    List.Forall₂ (fun a b : Token => a.active = false → b.active = false) toks
      (number_step toks).2 := by
  unfold number_step
  split
  · split
    · split
      · exact modify_at_inactive _ (fun _ _ => rfl) _ _
      · exact modify_at_inactive (fun t => { t with text := copy_field AMS_MAX_FIELD_LENGTH _ })
          (fun _ h => h) _ _
    · exact forall₂_refl_inactive _
  · exact forall₂_refl_inactive _

theorem direction_step_inactive (toks : List Token) :
    List.Forall₂ (fun a b : Token => a.active = false → b.active = false) toks
      (direction_step toks).2 := by
  unfold direction_step
  split
  · simp only
    split
    · exact modify_at_inactive _ (fun _ _ => rfl) _ _
    · exact forall₂_refl_inactive _
  · exact forall₂_refl_inactive _

theorem suffix_step_inactive (toks : List Token) :
    List.Forall₂ (fun a b : Token => a.active = false → b.active = false) toks
      (suffix_step toks).2.2 := by
  unfold suffix_step
  split
  · exact modify_at_inactive _ (fun _ _ => rfl) _ _
  · exact forall₂_refl_inactive _

/-- A token that a step has deactivated is inactive in the array that each later step of
`parse_address` reads. -/
theorem stays_inactive (toks : List Token) (k : Nat) (a : Token) (ha : toks.get? k = some a)
    (hoff : a.active = false) :
    (∃ b, (unit_step toks).2.get? k = some b ∧ b.active = false) ∧
    (∃ b, (number_step (unit_step toks).2).2.get? k = some b ∧ b.active = false) ∧
    (∃ b, (direction_step (number_step (unit_step toks).2).2).2.get? k = some b ∧
      b.active = false) ∧
    (∃ b, (suffix_step (direction_step (number_step (unit_step toks).2).2).2).2.2.get? k =
      some b ∧ b.active = false) := by
  obtain ⟨b1, h1, r1⟩ := forall₂_get? (unit_step_inactive toks) k a ha
  obtain ⟨b2, h2, r2⟩ := forall₂_get? (number_step_inactive _) k b1 h1
  obtain ⟨b3, h3, r3⟩ := forall₂_get? (direction_step_inactive _) k b2 h2
  obtain ⟨b4, h4, r4⟩ := forall₂_get? (suffix_step_inactive _) k b3 h3
  exact ⟨⟨b1, h1, r1 hoff⟩, ⟨b2, h2, r2 (r1 hoff)⟩, ⟨b3, h3, r3 (r2 (r1 hoff))⟩,
    ⟨b4, h4, r4 (r3 (r2 (r1 hoff)))⟩⟩

theorem evergreen_tokens :
    (postal_step (tokenize "742 Evergreen Terrace, Springfield".toList)).2 =
      [{ text := "742".toList, active := true }, { text := "EVERGREEN".toList, active := true },
       { text := "TERRACE".toList, active := true },
       { text := "SPRINGFIELD".toList, active := true }] := by
  decide!

/-- C34: when a token is still active after the postal step, `parse_address` succeeds and the
state is not left empty: whether or not a token is a valid state code, the state is the first
two characters of the rightmost active token (the whole token when it is shorter), and that
token is deactivated, so that it is inactive in the array that each later step (unit, house
number, directional, suffix, and the loop that builds street name and city) reads. -/
theorem state_falls_back (input : CStr) (idx : Nat)
    (hidx : scan_right (fun _ => true) (postal_step (tokenize input)).2 = some idx) :
    (parse_address input).1 = 0 ∧
    (parse_address input).2.state =
      (token_text (postal_step (tokenize input)).2 idx).take 2 ∧
    (parse_address input).2.state ≠ [] ∧
    state_step (postal_step (tokenize input)).2 =
      ((token_text (postal_step (tokenize input)).2 idx).take 2,
        deactivate idx (postal_step (tokenize input)).2) ∧
    (∃ b, (state_step (postal_step (tokenize input)).2).2.get? idx = some b ∧
      b.active = false) ∧
    (∃ b, (unit_step (state_step (postal_step (tokenize input)).2).2).2.get? idx = some b ∧
      b.active = false) ∧
    (∃ b, (number_step (unit_step (state_step (postal_step (tokenize input)).2).2).2).2.get? idx
      = some b ∧ b.active = false) ∧
    (∃ b, (direction_step (number_step (unit_step
      (state_step (postal_step (tokenize input)).2).2).2).2).2.get? idx = some b ∧
      b.active = false) ∧
    (∃ b, (suffix_step (direction_step (number_step (unit_step
      (state_step (postal_step (tokenize input)).2).2).2).2).2).2.2.get? idx = some b ∧
      b.active = false) := by
  have hgood := postal_step_good _ (tokenize_good input)
  have hlt := scan_right_lt _ _ _ hidx
  have hstep := (state_step_of_good _ hgood).1 idx hidx
  have htext := token_text_good _ hgood idx hlt
  have hparsed : (parse_address input).1 = 0 := by
    rcases parse_address_eq input with ⟨h1, -⟩ | ⟨-, h2⟩
    · rw [h1] at hlt
      exact absurd hlt (by simp [postal_step, scan_right])
    · rw [h2]
  have hstate : (parse_address input).2.state =
      (token_text (postal_step (tokenize input)).2 idx).take 2 := by
    rw [parse_address_state, hstep]
  have hoff : ∃ b, (state_step (postal_step (tokenize input)).2).2.get? idx = some b ∧
      b.active = false := by
    rw [hstep]
    unfold deactivate
    rw [get?_modify_at, if_pos rfl, List.get?_eq_get hlt]
    exact ⟨_, rfl, rfl⟩
  obtain ⟨b, hb, hboff⟩ := hoff
  have hlater := stays_inactive _ idx b hb hboff
  refine ⟨hparsed, hstate, ?_, hstep, ⟨b, hb, hboff⟩, hlater.1, hlater.2.1, hlater.2.2.1,
    hlater.2.2.2⟩
  rw [hstate]
  intro h0
  rcases List.take_eq_nil_iff.1 h0 with h1 | h1
  · omega
  · exact htext.1 h1

/-- Witness of `state_falls_back`: in 742 Evergreen Terrace, Springfield no token is a state
code; the rightmost active token SPRINGFIELD, at index 3, gives the state SP. -/
theorem state_falls_back_witness :
    (parse_address "742 Evergreen Terrace, Springfield".toList).2.state = "SP".toList := by
  have h := (state_falls_back "742 Evergreen Terrace, Springfield".toList 3
    (by rw [evergreen_tokens]; decide)).2.1
  rw [evergreen_tokens] at h
  exact h

/-! ## The house number -/

theorem collect_tokens_length :
    ∀ (raw : List CStr) (acc : List Token), (∀ t ∈ acc, t.text.length ≤ 127) →
      ∀ t ∈ collect_tokens raw acc, t.text.length ≤ 127 := by
  intro raw
  induction raw with
  | nil => intro acc hacc t ht; unfold collect_tokens at ht; exact hacc t ht
  | cons r rest ih =>
    intro acc hacc t ht
    unfold collect_tokens at ht
    split at ht
    · simp only at ht
      split at ht
      · refine ih _ ?_ t ht
        intro u hu
        rcases List.mem_append.1 hu with h1 | h1
        · exact hacc u h1
        · simp only [List.mem_singleton] at h1
          subst h1
          show (copy_field AMS_MAX_FIELD_LENGTH (trim_whitespace r)).length ≤ 127
          unfold copy_field AMS_MAX_FIELD_LENGTH
          rw [List.length_take]
          omega
      · exact ih _ hacc t ht
    · exact hacc t ht

theorem tokenize_length (input : CStr) : ∀ t ∈ tokenize input, t.text.length ≤ 127 := by
  unfold tokenize
  exact collect_tokens_length _ _ (fun t ht => by cases ht)

/-- A step that only changes the flag `active` keeps every property of the texts. -/
theorem modify_at_text (P : CStr → Prop) (f : Token → Token) (hf : ∀ t, (f t).text = t.text) :
    ∀ (idx : Nat) (toks : List Token), (∀ t ∈ toks, P t.text) →
      ∀ t ∈ modify_at f idx toks, P t.text := by
  intro idx toks
  induction toks generalizing idx with
  | nil => intro _ t ht; cases idx <;> simp [modify_at] at ht
  | cons a rest ih =>
    intro h t ht
    cases idx with
    | zero =>
      simp only [modify_at] at ht
      rcases List.mem_cons.1 ht with h1 | h1
      · subst h1; rw [hf]; exact h a (List.mem_cons_self _ _)
      · exact h t (List.mem_cons_of_mem _ h1)
    | succ n =>
      simp only [modify_at] at ht
      rcases List.mem_cons.1 ht with h1 | h1
      · subst h1; exact h _ (List.mem_cons_self _ _)
      · exact ih n (fun u hu => h u (List.mem_cons_of_mem _ hu)) t h1

theorem unit_loop_text (P : CStr → Prop) :
    ∀ (toks : List Token) (unit : CStr), (∀ t ∈ toks, P t.text) →
      ∀ t ∈ (unit_loop toks unit).2, P t.text := by
  intro toks
  induction toks with
  | nil => intro unit _ t ht; simp [unit_loop] at ht
  | cons a rest ih =>
    intro unit h t ht
    have ha : P a.text := h a (List.mem_cons_self _ _)
    unfold unit_loop at ht
    split at ht
    · exact h t ht
    · simp only at ht
      split at ht
      · simp only [List.mem_singleton] at ht
        rw [ht]; exact ha
      · rename_i n more
        split at ht
        · rcases List.mem_cons.1 ht with h1 | h1
          · rw [h1]; exact ha
          · exact h t (List.mem_cons_of_mem _ h1)
        · rcases List.mem_cons.1 ht with h1 | h1
          · rw [h1]; exact ha
          · exact ih _ (fun u hu => h u (List.mem_cons_of_mem _ hu)) t h1

/-- The postal, state and unit steps keep every property of the token texts. -/
theorem early_steps_text (P : CStr → Prop) (toks : List Token) (h : ∀ t ∈ toks, P t.text) :
    ∀ t ∈ (unit_step (state_step (postal_step toks).2).2).2, P t.text := by
  have h1 : ∀ t ∈ (postal_step toks).2, P t.text := by
    unfold postal_step
    split
    · exact modify_at_text P (fun t => { t with active := false }) (fun _ => rfl) _ _ h
    · exact h
  have h2 : ∀ t ∈ (state_step (postal_step toks).2).2, P t.text := by
    unfold state_step
    split
    · exact modify_at_text P (fun t => { t with active := false }) (fun _ => rfl) _ _ h1
    · exact h1
  unfold unit_step
  split
  · rename_i unit_index _
    intro t ht
    simp only at ht
    rcases List.mem_append.1 ht with h3 | h3
    · exact h2 t ((List.take_sublist _ _).subset h3)
    · exact unit_loop_text P _ _ (fun u hu => h2 u ((List.drop_sublist _ _).subset hu)) t h3
  · exact h2

theorem take_takeWhile_length (p : Char → Bool) :
    ∀ t : CStr, t.take (t.takeWhile p).length = t.takeWhile p := by
  intro t
  induction t with
  | nil => rfl
  | cons a r ih =>
    by_cases ha : p a = true
    · simp [List.takeWhile_cons, ha, ih]
    · simp [List.takeWhile_cons, ha]

theorem drop_takeWhile_length (p : Char → Bool) :
    ∀ t : CStr, t.drop (t.takeWhile p).length = t.dropWhile p := by
  intro t
  induction t with
  | nil => rfl
  | cons a r ih =>
    by_cases ha : p a = true
    · simp [List.takeWhile_cons, List.dropWhile_cons, ha, ih]
    · simp [List.takeWhile_cons, List.dropWhile_cons, ha]

theorem dropWhile_dash_dropWhile (t : CStr) :
    (t.dropWhile (fun c => isdigit c || c = '-')).dropWhile (fun c => c = '-') =
      t.dropWhile (fun c => isdigit c || c = '-') := by
  cases h : t.dropWhile (fun c => isdigit c || c = '-') with
  | nil => rfl
  | cons a r =>
    have hhead := List.head_dropWhile_not (fun c => isdigit c || decide (c = '-')) t
      (by rw [h]; exact List.cons_ne_nil _ _)
    simp only [h, List.head_cons] at hhead
    have hna : ¬ a = '-' := by
      intro ha
      rw [ha] at hhead
      exact absurd hhead (by decide)
    simp [List.dropWhile_cons, hna]

/-- Function `extract_house_number` on a token of at most 127 characters, with the 128 byte
field of the street number: the number is the leading run of digits and dashes, the remainder
is what follows the run. -/
theorem extract_house_number_eq (t : CStr) (hlen : t.length ≤ 127) :
    extract_house_number t AMS_MAX_FIELD_LENGTH =
      if t.takeWhile (fun c => isdigit c || c = '-') = [] then none
      else some (t.takeWhile (fun c => isdigit c || c = '-'),
        t.dropWhile (fun c => isdigit c || c = '-')) := by
  have hrun : (t.takeWhile (fun c => isdigit c || c = '-')).length ≤ t.length :=
    (List.takeWhile_sublist _).length_le
  unfold extract_house_number
  by_cases ht : t = []
  · subst ht; rfl
  · have hte : ¬ t.isEmpty = true := by simpa [List.isEmpty_iff] using ht
    rw [if_neg hte]
    simp only [AMS_MAX_FIELD_LENGTH]
    by_cases hr : t.takeWhile (fun c => isdigit c || c = '-') = []
    · rw [if_pos hr, if_pos (by rw [hr]; rfl)]
    · have hl : ¬ (t.takeWhile (fun c => isdigit c || c = '-')).length = 0 := by
        rw [List.length_eq_zero]; exact hr
      rw [if_neg hr, if_neg hl, if_pos (by omega), take_takeWhile_length,
        drop_takeWhile_length, dropWhile_dash_dropWhile]

theorem scan_left_congr (p q : CStr → Bool) :
    ∀ toks : List Token, (∀ t ∈ toks, p t.text = q t.text) →
      scan_left p toks = scan_left q toks := by
  intro toks
  induction toks with
  | nil => intro _; rfl
  | cons a rest ih =>
    intro h
    unfold scan_left
    rw [ih (fun t ht => h t (List.mem_cons_of_mem _ ht)), h a (List.mem_cons_self _ _)]

/-- The house-number step on tokens of at most 127 characters. -/
theorem number_step_of_length (toks : List Token) (hlen : ∀ t ∈ toks, t.text.length ≤ 127) :
    (∀ idx,
      scan_left (fun t => !(t.takeWhile (fun c => isdigit c || c = '-')).isEmpty) toks =
        some idx →
      (token_text toks idx).takeWhile (fun c => isdigit c || c = '-') ≠ [] ∧
      number_step toks =
        ((token_text toks idx).takeWhile (fun c => isdigit c || c = '-'),
          if (token_text toks idx).dropWhile (fun c => isdigit c || c = '-') = [] then
            modify_at (fun _ => { text := [], active := false }) idx toks
          else
            modify_at
              (fun t =>
                { t with
                  text := (token_text toks idx).dropWhile (fun c => isdigit c || c = '-') })
              idx toks)) ∧
    (scan_left (fun t => !(t.takeWhile (fun c => isdigit c || c = '-')).isEmpty) toks = none →
      number_step toks = ([], toks)) := by
  have hscan : scan_left (fun t => (extract_house_number t AMS_MAX_FIELD_LENGTH).isSome) toks =
      scan_left (fun t => !(t.takeWhile (fun c => isdigit c || c = '-')).isEmpty) toks := by
    apply scan_left_congr
    intro t ht
    rw [extract_house_number_eq _ (hlen t ht)]
    by_cases hr : t.text.takeWhile (fun c => isdigit c || c = '-') = []
    · rw [if_pos hr, hr]; rfl
    · rw [if_neg hr]
      cases hc : t.text.takeWhile (fun c => isdigit c || c = '-') with
      | nil => exact absurd hc hr
      | cons a r => rfl
  constructor
  · intro idx hidx
    obtain ⟨⟨t, hget, -, hp⟩, -⟩ := scan_left_spec _ toks idx hidx
    have htext : token_text toks idx = t.text := by
      unfold token_text; rw [hget]
    have hl : (token_text toks idx).length ≤ 127 := by
      rw [htext]; exact hlen t (List.get?_mem hget)
    have hne : (token_text toks idx).takeWhile (fun c => isdigit c || c = '-') ≠ [] := by
      rw [htext]
      intro h0
      rw [h0] at hp
      exact absurd hp (by decide)
    refine ⟨hne, ?_⟩
    unfold number_step
    rw [hscan, hidx]
    simp only
    rw [extract_house_number_eq _ hl, if_neg hne]
    simp only
    by_cases hrest : (token_text toks idx).dropWhile (fun c => isdigit c || c = '-') = []
    · rw [if_pos hrest, if_pos (by rw [hrest]; rfl), hrest]
    · rw [if_neg hrest, if_neg (by simpa [List.isEmpty_iff] using hrest)]
      have hcut : copy_field AMS_MAX_FIELD_LENGTH
          ((token_text toks idx).dropWhile (fun c => isdigit c || c = '-')) =
          (token_text toks idx).dropWhile (fun c => isdigit c || c = '-') := by
        unfold copy_field AMS_MAX_FIELD_LENGTH
        apply List.take_of_length_le
        have := (List.dropWhile_sublist (fun c => isdigit c || decide (c = '-'))
          (l := token_text toks idx)).length_le
        omega
      rw [hcut]
  · intro hnone
    unfold number_step
    rw [hscan, hnone]

theorem parse_tokens_number (toks : List Token) :
    (parse_tokens toks).street_number =
      (number_step (unit_step (state_step (postal_step toks).2).2).2).1 := by
  unfold parse_tokens
  exact (compute_canonical_key_fields _).1

theorem parse_address_number (input : CStr) :
    (parse_address input).2.street_number =
      (number_step (unit_step (state_step (postal_step (tokenize input)).2).2).2).1 := by
  rcases parse_address_eq input with ⟨h1, h2⟩ | ⟨-, h2⟩
  · rw [h2, h1]
    simp [postal_step, state_step, unit_step, number_step, scan_right, scan_left,
      clear_address_components]
  · rw [h2]
    show (parse_tokens (tokenize input)).street_number = _
    exact parse_tokens_number _

theorem tokens_601a :
    (unit_step (state_step (postal_step (tokenize "601A Main St".toList)).2).2).2 =
      [{ text := "601A".toList, active := true }, { text := "MAIN".toList, active := true },
       { text := "STREET".toList, active := false }] := by
  decide!

/-- C38: with `toks` the token array after the postal, state and unit steps, the street number
is taken from the first active token whose leading run of digits and dashes is not empty: it
is exactly that run; a token with characters after the run stays in the array with the
remainder as its text, a token without is deactivated; when no active token starts with a
digit or a dash the street number is empty and the array is unchanged. The token 601A gives
the number 601 and the remainder A. -/
theorem street_number_spec (input : CStr) (toks : List Token)
    (htoks : toks = (unit_step (state_step (postal_step (tokenize input)).2).2).2) :
    (∀ idx,
      scan_left (fun t => !(t.takeWhile (fun c => isdigit c || c = '-')).isEmpty) toks =
        some idx →
      (parse_address input).2.street_number =
        (token_text toks idx).takeWhile (fun c => isdigit c || c = '-') ∧
      (parse_address input).2.street_number ≠ [] ∧
      (∀ c ∈ (parse_address input).2.street_number, isdigit c = true ∨ c = '-') ∧
      ((token_text toks idx).dropWhile (fun c => isdigit c || c = '-') ≠ [] →
        (number_step toks).2 =
          modify_at
            (fun t =>
              { t with text := (token_text toks idx).dropWhile (fun c => isdigit c || c = '-') })
            idx toks) ∧
      ((token_text toks idx).dropWhile (fun c => isdigit c || c = '-') = [] →
        (number_step toks).2 = modify_at (fun _ => { text := [], active := false }) idx toks)) ∧
    (scan_left (fun t => !(t.takeWhile (fun c => isdigit c || c = '-')).isEmpty) toks = none →
      (parse_address input).2.street_number = [] ∧ (number_step toks).2 = toks) ∧
    extract_house_number "601A".toList AMS_MAX_FIELD_LENGTH =
      some ("601".toList, "A".toList) := by
  have hlen : ∀ t ∈ toks, t.text.length ≤ 127 := by
    rw [htoks]
    exact early_steps_text (fun s => s.length ≤ 127) _ (tokenize_length input)
  have hnum : (parse_address input).2.street_number = (number_step toks).1 := by
    rw [htoks]; exact parse_address_number input
  obtain ⟨hsome, hnone⟩ := number_step_of_length toks hlen
  refine ⟨?_, ?_, by decide⟩
  · intro idx hidx
    obtain ⟨hne, hstep⟩ := hsome idx hidx
    have h1 : (parse_address input).2.street_number =
        (token_text toks idx).takeWhile (fun c => isdigit c || c = '-') := by
      rw [hnum, hstep]
    refine ⟨h1, by rw [h1]; exact hne, ?_, ?_, ?_⟩
    · intro c hc
      rw [h1] at hc
      have := List.mem_takeWhile_imp hc
      simp only [Bool.or_eq_true, decide_eq_true_eq] at this
      exact this
    · intro hrest
      rw [hstep]
      simp only [if_neg hrest]
    · intro hrest
      rw [hstep]
      simp only [if_pos hrest]
  · intro hn
    rw [hnum, hnone hn]
    exact ⟨rfl, rfl⟩

/-- Witness of `street_number_spec`: in `601A Main St` the first token gives the number 601
and stays in the array as A. -/
theorem street_number_spec_witness :
    (parse_address "601A Main St".toList).2.street_number = "601".toList ∧
    (number_step
      (unit_step (state_step (postal_step (tokenize "601A Main St".toList)).2).2).2).2 =
      [{ text := "A".toList, active := true }, { text := "MAIN".toList, active := true },
       { text := "STREET".toList, active := false }] := by
  have h := (street_number_spec "601A Main St".toList _ rfl).1 0
    (by rw [tokens_601a]; decide)
  rw [tokens_601a] at h
  obtain ⟨h1, -, -, h4, -⟩ := h
  have hrest : (token_text
      [{ text := "601A".toList, active := true }, { text := "MAIN".toList, active := true },
       { text := "STREET".toList, active := false }] 0).dropWhile
      (fun c => isdigit c || c = '-') ≠ [] := by decide!
  constructor
  · rw [h1]; decide!
  · rw [tokens_601a, h4 hrest]; decide!

/-! ## The ordinal trim of street tokens -/

theorem drop_two_last (l : CStr) (n : Nat) (h : l.length = n + 2) :
    ∃ x y, l.get? n = some x ∧ l.get? (n + 1) = some y ∧ l.drop n = [x, y] := by
  have h1 : n < l.length := by omega
  have h2 : n + 1 < l.length := by omega
  refine ⟨l[n], l[n + 1], ?_, ?_, ?_⟩
  · rw [List.get?_eq_getElem?, List.getElem?_eq_getElem h1]
  · rw [List.get?_eq_getElem?, List.getElem?_eq_getElem h2]
  · rw [List.drop_eq_getElem_cons h1, List.drop_eq_getElem_cons h2, List.drop_of_length_le (by omega)]

/-- Function `normalize_ordinal_token` in closed form: the last two characters are dropped
exactly when the token has at least three characters, its first character and the character
just before the last two are digits, and the last two are ST, ND, RD or TH. -/
theorem normalize_ordinal_token_eq (token : CStr) :
    normalize_ordinal_token token =
      if 3 ≤ token.length ∧ (token.head?.map isdigit) = some true ∧
          ((token.get? (token.length - 3)).map isdigit) = some true ∧
          token.drop (token.length - 2) ∈
            ["ST".toList, "ND".toList, "RD".toList, "TH".toList] then
        token.take (token.length - 2)
      else token := by
  unfold normalize_ordinal_token
  simp only
  by_cases hlen : token.length < 3
  · rw [if_pos hlen, if_neg (fun h => absurd h.1 (by omega))]
  · rw [if_neg hlen]
    obtain ⟨x, y, hx, hy, hdrop⟩ := drop_two_last token (token.length - 2) (by omega)
    have e1 : token.length - 2 - 1 = token.length - 3 := by omega
    have e2 : token.length - 2 + 1 = token.length - 1 := by omega
    rw [e2] at hy
    simp only [e1, e2, hx, hy, hdrop, Option.some.injEq]
    have hd1 : ((token.head?.map isdigit).getD false = true) ↔
        (token.head?.map isdigit) = some true := by
      cases token.head?.map isdigit with
      | none => simp
      | some b => simp
    have hd2 : (((token.get? (token.length - 3)).map isdigit).getD false = true) ↔
        ((token.get? (token.length - 3)).map isdigit) = some true := by
      cases (token.get? (token.length - 3)).map isdigit with
      | none => simp
      | some b => simp
    have hlast : ((x = 'S' ∧ y = 'T') ∨ (x = 'N' ∧ y = 'D') ∨ (x = 'R' ∧ y = 'D') ∨
        (x = 'T' ∧ y = 'H')) ↔
        [x, y] ∈ ["ST".toList, "ND".toList, "RD".toList, "TH".toList] := by
      simp [String.toList]
    by_cases hc : 3 ≤ token.length ∧ (token.head?.map isdigit) = some true ∧
        ((token.get? (token.length - 3)).map isdigit) = some true ∧
        [x, y] ∈ ["ST".toList, "ND".toList, "RD".toList, "TH".toList]
    · rw [if_pos hc, if_pos ⟨hd1.2 hc.2.1, hd2.2 hc.2.2.1⟩, if_pos (hlast.2 hc.2.2.2)]
    · rw [if_neg hc]
      split_ifs with h1 h2
      · exact absurd ⟨by omega, hd1.1 h1.1, hd2.1 h1.2, hlast.1 h2⟩ hc
      · rfl
      · rfl

/-- The final loop of `parse_address` builds the street buffer from the words of
`street_words`, each passed through `normalize_ordinal_token`. -/
theorem partition_loop_street_words (suffix_index : Option Nat) :
    ∀ (toks : List Token) (idx : Nat) (street_buffer city_buffer : CStr),
      (partition_loop suffix_index toks idx street_buffer city_buffer).1 =
        (street_words suffix_index toks idx).foldl
          (fun buffer word =>
            append_word buffer (normalize_ordinal_token (copy_field AMS_MAX_FIELD_LENGTH word)))
          street_buffer := by
  intro toks
  induction toks with
  | nil => intro idx sb cb; rfl
  | cons t rest ih =>
    intro idx sb cb
    unfold partition_loop street_words
    by_cases h1 : (!t.active) = true
    · rw [if_pos h1, if_pos h1]
      exact ih _ _ _
    · rw [if_neg h1, if_neg h1]
      cases suffix_index with
      | none =>
        simp only [Bool.false_eq_true, if_false, List.foldl_cons]
        exact ih _ _ _
      | some s =>
        by_cases h2 : s < idx
        · simp only [h2, decide_True, if_true]
          exact ih _ _ _
        · simp only [h2, decide_False, Bool.false_eq_true, if_false, List.foldl_cons]
          exact ih _ _ _

theorem parse_address_street_name (input : CStr) :
    (parse_address input).2.street_name =
      uppercase_inplace (copy_field AMS_MAX_FIELD_LENGTH
        (partition_loop
          (suffix_step (direction_step (number_step (unit_step (state_step
            (postal_step (tokenize input)).2).2).2).2).2).2.1
          (suffix_step (direction_step (number_step (unit_step (state_step
            (postal_step (tokenize input)).2).2).2).2).2).2.2
          0 [] []).1) := by
  rcases parse_address_eq input with ⟨h1, h2⟩ | ⟨-, h2⟩
  · rw [h2, h1]
    decide
  · rw [h2]
    show (parse_tokens (tokenize input)).street_name = _
    exact (parse_tokens_street _).2.2

/-- C39, as stated, fails: in "100 N A1ST ST, Miami, FL 33132" the token A1ST goes to the
street name, its last two characters are ST and the digit 1 occurs before them, yet the two
characters are kept: the street name is A1ST, because the token does not begin with a
digit. -/
theorem ordinal_needs_leading_digit :
    (parse_address "100 N A1ST ST, Miami, FL 33132".toList).2.street_name = "A1ST".toList ∧
    normalize_ordinal_token "A1ST".toList = "A1ST".toList ∧
    "A1ST".toList.drop 2 = "ST".toList ∧ isdigit ("A1ST".toList.getD 1 ' ') = true := by
  decide!

/-- C39, amended: the street name is built, in order, from the active tokens that do not lie
behind the suffix index, each passed through `normalize_ordinal_token` and joined by single
spaces; `normalize_ordinal_token` drops the last two characters of a token exactly when the
token has at least three characters, its first character is a digit, the character just
before the last two is a digit and the last two are ST, ND, RD or TH, and returns every other
token unchanged. -/
theorem street_token_ordinal_trim (input token : CStr) :
    (parse_address input).2.street_name =
      uppercase_inplace (copy_field AMS_MAX_FIELD_LENGTH
        ((street_words
          (suffix_step (direction_step (number_step (unit_step (state_step
            (postal_step (tokenize input)).2).2).2).2).2).2.1
          (suffix_step (direction_step (number_step (unit_step (state_step
            (postal_step (tokenize input)).2).2).2).2).2).2.2 0).foldl
          (fun buffer word =>
            append_word buffer (normalize_ordinal_token (copy_field AMS_MAX_FIELD_LENGTH word)))
          [])) ∧
    normalize_ordinal_token token =
      (if 3 ≤ token.length ∧ (token.head?.map isdigit) = some true ∧
          ((token.get? (token.length - 3)).map isdigit) = some true ∧
          token.drop (token.length - 2) ∈
            ["ST".toList, "ND".toList, "RD".toList, "TH".toList] then
        token.take (token.length - 2)
      else token) ∧
    normalize_ordinal_token "21ST".toList = "21".toList ∧
    normalize_ordinal_token "1AST".toList = "1AST".toList := by
  refine ⟨?_, normalize_ordinal_token_eq token, by decide, by decide⟩
  rw [parse_address_street_name, partition_loop_street_words]

/-! ## The JSON escaping -/

theorem escape_char_length (c : Char) : (escape_char c).length ≤ 2 := by
  unfold escape_char
  split_ifs <;> simp

theorem json_escape_round (dest_size : Nat) (out word : CStr) (x : CStr)
    (h1 : out.length + 1 < dest_size) (hw : word.length = 2) :
    (if out.length + 2 ≥ dest_size then out else x) =
      if out.length + 1 < dest_size ∧ out.length + word.length < dest_size then x else out := by
  rw [hw]
  by_cases h2 : out.length + 2 ≥ dest_size
  · rw [if_pos h2, if_neg (fun h => absurd h.2 (by omega))]
  · rw [if_neg h2, if_pos ⟨h1, by omega⟩]

/-- One round of the loop of `json_escape`: the escaping of the byte is appended when it
fits before the terminator, otherwise the loop ends. -/
theorem json_escape_loop_cons (dest_size : Nat) (c : Char) (rest out : CStr) :
    json_escape_loop dest_size (c :: rest) out =
      if out.length + 1 < dest_size ∧ out.length + (escape_char c).length < dest_size then
        json_escape_loop dest_size rest (out ++ escape_char c)
      else out := by
  rw [json_escape_loop]
  by_cases h1 : out.length + 1 < dest_size
  · rw [if_neg (not_not.2 h1)]
    by_cases hq : c = DOUBLE_QUOTE ∨ c = BACKSLASH
    · have he : escape_char c = [BACKSLASH, c] := by unfold escape_char; rw [if_pos hq]
      rw [if_pos hq, he]
      exact json_escape_round _ _ _ _ h1 rfl
    · have e0 : escape_char c = if c = LINE_FEED then [BACKSLASH, 'n']
          else if c = CARRIAGE_RETURN then [BACKSLASH, 'r']
          else if c = HORIZONTAL_TAB then [BACKSLASH, 't']
          else if c.toNat < 0x20 then []
          else [c] := by unfold escape_char; rw [if_neg hq]
      rw [if_neg hq, e0]
      by_cases hn : c = LINE_FEED
      · rw [if_pos hn, if_pos hn]
        exact json_escape_round _ _ _ _ h1 rfl
      · rw [if_neg hn, if_neg hn]
        by_cases hr : c = CARRIAGE_RETURN
        · rw [if_pos hr, if_pos hr]
          exact json_escape_round _ _ _ _ h1 rfl
        · rw [if_neg hr, if_neg hr]
          by_cases ht : c = HORIZONTAL_TAB
          · rw [if_pos ht, if_pos ht]
            exact json_escape_round _ _ _ _ h1 rfl
          · rw [if_neg ht, if_neg ht]
            by_cases hl : c.toNat < 0x20
            · rw [if_pos hl, if_pos hl, List.append_nil,
                if_pos ⟨h1, by rw [List.length_nil]; omega⟩]
            · rw [if_neg hl, if_neg hl, if_pos ⟨h1, by rw [List.length_singleton]; exact h1⟩]
  · rw [if_pos h1, if_neg (fun h => h1 h.1)]

theorem json_escape_loop_spec (dest_size : Nat) :
    ∀ (src out : CStr), out.length < dest_size →
      (json_escape_loop dest_size src out).length < dest_size ∧
      ∃ k, k ≤ src.length ∧
        json_escape_loop dest_size src out = out ++ reference_escape (src.take k) := by
  intro src
  induction src with
  | nil =>
    intro out h
    exact ⟨h, 0, le_refl _, by simp [json_escape_loop, reference_escape]⟩
  | cons c rest ih =>
    intro out h
    rw [json_escape_loop_cons]
    split_ifs with hc
    · obtain ⟨h1, k, hk, h2⟩ := ih (out ++ escape_char c) (by rw [List.length_append]; exact hc.2)
      refine ⟨h1, k + 1, by simpa using hk, ?_⟩
      rw [h2, List.take_succ_cons, reference_escape, List.append_assoc]
    · exact ⟨h, 0, Nat.zero_le _, by simp [reference_escape]⟩

theorem json_escape_loop_complete (dest_size : Nat) :
    ∀ (src out : CStr), out.length + 2 * src.length + 1 ≤ dest_size →
      json_escape_loop dest_size src out = out ++ reference_escape src := by
  intro src
  induction src with
  | nil => intro out _; simp [json_escape_loop, reference_escape]
  | cons c rest ih =>
    intro out h
    have hl := escape_char_length c
    simp only [List.length_cons] at h
    rw [json_escape_loop_cons, if_pos ⟨by omega, by omega⟩,
      ih _ (by rw [List.length_append]; omega), reference_escape, List.append_assoc]

theorem reference_escape_append (a b : CStr) :
    reference_escape (a ++ b) = reference_escape a ++ reference_escape b := by
  induction a with
  | nil => rfl
  | cons c rest ih => simp [reference_escape, ih]

/-- C40: for every source string and every destination size of at least 1, `json_escape`
leaves fewer than `dest_size` characters in `dest`; they are the reference escaping of the
first `k` bytes of the source for some `k`, hence a prefix of the reference escaping of the
source that never ends inside a two-character escape; and they are the whole reference
escaping when `dest_size` is at least twice the length of the source plus one. -/
theorem json_escape_spec (dest src : CStr) (dest_size : Nat) (h : 1 ≤ dest_size) :
    (json_escape dest dest_size src).length < dest_size ∧
    (∃ k, k ≤ src.length ∧
      json_escape dest dest_size src = reference_escape (src.take k)) ∧
    json_escape dest dest_size src <+: reference_escape src ∧
    (2 * src.length + 1 ≤ dest_size →
      json_escape dest dest_size src = reference_escape src) := by
  have hne : dest_size ≠ 0 := by omega
  have hj : json_escape dest dest_size src = json_escape_loop dest_size src [] := by
    unfold json_escape
    rw [if_neg hne]
  obtain ⟨h1, k, hk, h2⟩ := json_escape_loop_spec dest_size src [] (by simpa using h)
  rw [hj]
  refine ⟨h1, ⟨k, hk, by simpa using h2⟩, ?_, ?_⟩
  · rw [h2, List.nil_append]
    refine ⟨reference_escape (src.drop k), ?_⟩
    rw [← reference_escape_append, List.take_append_drop]
  · intro hs
    simpa using json_escape_loop_complete dest_size src [] (by simpa using hs)

/-- Witness of `json_escape_spec`: of the five bytes a, double quote, b, line feed, c a
destination of five bytes receives a, backslash, double quote, b, and the escape of the line
feed is left out as a whole. -/
theorem json_escape_spec_witness :
    (json_escape [] 5 ['a', DOUBLE_QUOTE, 'b', LINE_FEED, 'c']).length < 5 ∧
    json_escape [] 5 ['a', DOUBLE_QUOTE, 'b', LINE_FEED, 'c'] =
      ['a', BACKSLASH, DOUBLE_QUOTE, 'b'] ∧
    reference_escape ['a', DOUBLE_QUOTE, 'b', LINE_FEED, 'c'] =
      ['a', BACKSLASH, DOUBLE_QUOTE, 'b', BACKSLASH, 'n', 'c'] :=
  ⟨(json_escape_spec [] ['a', DOUBLE_QUOTE, 'b', LINE_FEED, 'c'] 5 (by decide)).1,
    by decide, by decide⟩

/-! ## The ways through `add_candidate` -/

/-- The last loop of `add_candidate`: the value found is at most the value held and at most
every confidence of the list; either nothing is strictly below the value held, or the loop
ends on the first slot that holds the lowest confidence. -/
theorem find_lowest_spec :
    ∀ (items : List MatchCandidate) (idx : Nat) (acc : Option Nat × ℚ),
      (find_lowest items idx acc).2 ≤ acc.2 ∧
      (∀ c ∈ items, (find_lowest items idx acc).2 ≤ c.confidence) ∧
      ((find_lowest items idx acc = acc ∧ ∀ c ∈ items, acc.2 ≤ c.confidence) ∨
       (∃ k low, items.get? k = some low ∧
          find_lowest items idx acc = (some (idx + k), low.confidence) ∧
          low.confidence < acc.2 ∧
          ∀ j c, j < k → items.get? j = some c → low.confidence < c.confidence)) := by
  intro items
  induction items with
  | nil =>
    intro idx acc
    exact ⟨le_refl _, fun c hc => absurd hc (List.not_mem_nil c),
      Or.inl ⟨rfl, fun c hc => absurd hc (List.not_mem_nil c)⟩⟩
  | cons a rest ih =>
    intro idx acc
    unfold find_lowest
    by_cases hlt : a.confidence < acc.2
    · rw [if_pos hlt]
      obtain ⟨h1, h2, h3⟩ := ih (idx + 1) (some idx, a.confidence)
      refine ⟨le_trans h1 (le_of_lt hlt), ?_, Or.inr ?_⟩
      · intro c hc
        rcases List.mem_cons.1 hc with rfl | hc
        · exact h1
        · exact h2 c hc
      · rcases h3 with ⟨heq, hall⟩ | ⟨k, low, hget, heq, hlow, hfirst⟩
        · refine ⟨0, a, rfl, by rw [heq]; rfl, hlt, ?_⟩
          intro j c hj
          exact absurd hj (Nat.not_lt_zero j)
        · refine ⟨k + 1, low, by simpa using hget, ?_, lt_trans hlow hlt, ?_⟩
          · rw [heq]
            congr 2
            omega
          · intro j c hj hc
            cases j with
            | zero =>
              have : c = a := by simpa using hc.symm
              rw [this]; exact hlow
            | succ j => exact hfirst j c (by omega) (by simpa using hc)
    · rw [if_neg hlt]
      obtain ⟨h1, h2, h3⟩ := ih (idx + 1) acc
      refine ⟨h1, ?_, ?_⟩
      · intro c hc
        rcases List.mem_cons.1 hc with rfl | hc
        · exact le_trans h1 (not_lt.1 hlt)
        · exact h2 c hc
      · rcases h3 with ⟨heq, hall⟩ | ⟨k, low, hget, heq, hlow, hfirst⟩
        · refine Or.inl ⟨heq, ?_⟩
          intro c hc
          rcases List.mem_cons.1 hc with rfl | hc
          · exact not_lt.1 hlt
          · exact hall c hc
        · refine Or.inr ⟨k + 1, low, by simpa using hget, ?_, hlow, ?_⟩
          · rw [heq]
            congr 2
            omega
          · intro j c hj hc
            cases j with
            | zero =>
              have : c = a := by simpa using hc.symm
              rw [this]; exact lt_of_lt_of_le hlow (not_lt.1 hlt)
            | succ j => exact hfirst j c (by omega) (by simpa using hc)

/-- The three ways through `add_candidate`: the id is stored, the id is new and there is
room, the id is new and there is no room. -/
theorem add_candidate_cases (result : MatchResult) (location : LocationRecord) (confidence : ℚ)
    (strategy reason : CStr) (breakdown : ScoreBreakdown) (max_candidates : Nat) :
    (∃ idx old, result.items.get? idx = some old ∧
      old.location.location_id = location.location_id ∧
      (∀ j c, j < idx → result.items.get? j = some c →
        c.location.location_id ≠ location.location_id) ∧
      (add_candidate result location confidence strategy reason breakdown max_candidates).items =
        if old.confidence < confidence then
          result.items.set idx
            { location := old.location, confidence := confidence,
              strategy := copy_field AMS_MAX_STRATEGY_LENGTH strategy,
              reason := copy_field AMS_MAX_REASON_LENGTH reason, breakdown := breakdown }
        else result.items) ∨
    ((∀ c ∈ result.items, c.location.location_id ≠ location.location_id) ∧
      result.items.length < max_candidates ∧ result.items.length < MATCHER_MAX_CANDIDATES ∧
      (add_candidate result location confidence strategy reason breakdown max_candidates).items =
        result.items ++
          [{ location := location, confidence := confidence,
             strategy := copy_field AMS_MAX_STRATEGY_LENGTH strategy,
             reason := copy_field AMS_MAX_REASON_LENGTH reason, breakdown := breakdown }]) ∨
    ((∀ c ∈ result.items, c.location.location_id ≠ location.location_id) ∧
      ¬ (result.items.length < max_candidates ∧
        result.items.length < MATCHER_MAX_CANDIDATES) ∧
      ((∃ idx, (find_lowest result.items 0 (none, 11 / 10)).1 = some idx ∧
          (find_lowest result.items 0 (none, 11 / 10)).2 < confidence ∧
          (add_candidate result location confidence strategy reason breakdown
            max_candidates).items =
            result.items.set idx
              { location := location, confidence := confidence,
                strategy := copy_field AMS_MAX_STRATEGY_LENGTH strategy,
                reason := copy_field AMS_MAX_REASON_LENGTH reason, breakdown := breakdown }) ∨
       (((find_lowest result.items 0 (none, 11 / 10)).1 = none ∨
          confidence ≤ (find_lowest result.items 0 (none, 11 / 10)).2) ∧
          (add_candidate result location confidence strategy reason breakdown
            max_candidates).items = result.items))) := by
  unfold add_candidate
  simp only
  cases hf : find_existing result.items location.location_id with
  | some idx =>
    obtain ⟨old, hold, hid, hfirst⟩ := find_existing_some hf
    simp only [hold]
    left
    refine ⟨idx, old, hold, hid, hfirst, ?_⟩
    by_cases hgt : old.confidence < confidence
    · rw [if_pos hgt, if_pos hgt]; rfl
    · rw [if_neg hgt, if_neg hgt]
  | none =>
    have hnone := find_existing_none hf
    simp only
    right
    by_cases hroom : result.items.length < max_candidates ∧
        result.items.length < MATCHER_MAX_CANDIDATES
    · rw [if_pos hroom]
      left
      exact ⟨hnone, hroom.1, hroom.2, rfl⟩
    · rw [if_neg hroom]
      right
      refine ⟨hnone, hroom, ?_⟩
      rcases hlow : find_lowest result.items 0 (none, 11 / 10) with ⟨lowest_index, lowest⟩
      cases lowest_index with
      | none => exact Or.inr ⟨Or.inl rfl, rfl⟩
      | some k =>
        simp only
        by_cases hgt : lowest < confidence
        · rw [if_pos hgt]
          exact Or.inl ⟨k, rfl, hgt, rfl⟩
        · rw [if_neg hgt]
          exact Or.inr ⟨Or.inr (not_lt.1 hgt), rfl⟩

theorem eq_of_same_id {items : List MatchCandidate}
    (hnd : (items.map (fun c => c.location.location_id)).Nodup) {a b : MatchCandidate}
    (ha : a ∈ items) (hb : b ∈ items) (h : a.location.location_id = b.location.location_id) :
    a = b :=
  List.inj_on_of_nodup_map hnd ha hb h

/-- Membership in a list of candidates with distinct ids after one slot is overwritten. -/
theorem mem_set_of_nodup :
    ∀ (items : List MatchCandidate) (idx : Nat) (old new : MatchCandidate),
      (items.map (fun c => c.location.location_id)).Nodup →
      items.get? idx = some old →
      ∀ c, c ∈ items.set idx new ↔
        c = new ∨ (c ∈ items ∧ c.location.location_id ≠ old.location.location_id) := by
  intro items
  induction items with
  | nil => intro idx old new _ h; simp at h
  | cons a rest ih =>
    intro idx old new hnd hget c
    rw [List.map_cons, List.nodup_cons] at hnd
    cases idx with
    | zero =>
      have ha : a = old := by simpa using hget
      subst ha
      rw [List.set_cons_zero, List.mem_cons, List.mem_cons]
      constructor
      · rintro (h | h)
        · exact Or.inl h
        · refine Or.inr ⟨Or.inr h, ?_⟩
          intro hid
          exact hnd.1 (List.mem_map.2 ⟨c, h, hid⟩)
      · rintro (h | ⟨h | h, hne⟩)
        · exact Or.inl h
        · rw [h] at hne; exact absurd rfl hne
        · exact Or.inr h
    | succ idx =>
      have hget' : rest.get? idx = some old := by simpa using hget
      have hold : old ∈ rest := List.get?_mem hget'
      rw [List.set_cons_succ, List.mem_cons, ih idx old new hnd.2 hget' c, List.mem_cons]
      constructor
      · rintro (h | h | ⟨h, hne⟩)
        · refine Or.inr ⟨Or.inl h, ?_⟩
          intro hid
          rw [h] at hid
          exact hnd.1 (List.mem_map.2 ⟨old, hold, hid.symm⟩)
        · exact Or.inl h
        · exact Or.inr ⟨Or.inr h, hne⟩
      · rintro (h | ⟨h | h, hne⟩)
        · exact Or.inr (Or.inl h)
        · exact Or.inl h
        · exact Or.inr (Or.inr ⟨h, hne⟩)

/-! ## The aggregator keeps the best candidates -/

/-- One call of `add_candidate` with a confidence below 1.1 keeps the invariant
`KeepsBest`. -/
theorem keeps_best_step (r : MatchResult) (o : Offer) (max_candidates : Nat)
    (seen : List Offer)
    (hinv : KeepsBest (min max_candidates MATCHER_MAX_CANDIDATES) seen r.items)
    (ho : o.confidence < 11 / 10) :
    KeepsBest (min max_candidates MATCHER_MAX_CANDIDATES) (seen ++ [o])
      (add_candidate r o.location o.confidence o.strategy o.reason o.breakdown
        max_candidates).items := by
  obtain ⟨hnd, hle, h1, h2, h3, h4⟩ := hinv
  have hnd' := add_candidate_nodup r o.location o.confidence o.strategy o.reason o.breakdown
    max_candidates hnd
  have hsplit : ∀ o', o' ∈ seen ++ [o] → o' ∈ seen ∨ o' = o := fun o' h => by simpa using h
  have hlast : o ∈ seen ++ [o] := by simp
  have hlift : ∀ c ∈ r.items, ∃ o' ∈ seen ++ [o],
      o'.location.location_id = c.location.location_id ∧ o'.confidence = c.confidence := by
    intro c hc
    obtain ⟨o', ho', e1, e2⟩ := h2 c hc
    exact ⟨o', List.mem_append_left _ ho', e1, e2⟩
  rcases add_candidate_cases r o.location o.confidence o.strategy o.reason o.breakdown
    max_candidates with ⟨idx, old, hget, hid, -, heq⟩ | ⟨hnew, hr1, hr2, heq⟩ |
    ⟨hnew, hroom, hc⟩
  · have hold : old ∈ r.items := List.get?_mem hget
    by_cases hgt : old.confidence < o.confidence
    · rw [if_pos hgt] at heq
      rw [heq] at hnd' ⊢
      have hmem := mem_set_of_nodup r.items idx old
        { location := old.location, confidence := o.confidence,
          strategy := copy_field AMS_MAX_STRATEGY_LENGTH o.strategy,
          reason := copy_field AMS_MAX_REASON_LENGTH o.reason, breakdown := o.breakdown }
        hnd hget
      have hnewmem := (hmem _).2 (Or.inl rfl)
      refine ⟨hnd', ?_, ?_, ?_, ?_, ?_⟩
      · intro c hcm
        rcases (hmem c).1 hcm with rfl | ⟨hc, -⟩
        · exact ho
        · exact hle c hc
      · intro c hcm o' ho' hid'
        rcases (hmem c).1 hcm with rfl | ⟨hc, hne⟩
        · rcases hsplit o' ho' with ho' | rfl
          · exact le_trans (h1 old hold o' ho' hid') (le_of_lt hgt)
          · exact le_refl _
        · rcases hsplit o' ho' with ho' | rfl
          · exact h1 c hc o' ho' hid'
          · exact absurd (hid'.symm.trans hid.symm) hne
      · intro c hcm
        rcases (hmem c).1 hcm with rfl | ⟨hc, -⟩
        · exact ⟨o, hlast, hid.symm, rfl⟩
        · exact hlift c hc
      · intro o' ho' habs c hcm
        rcases hsplit o' ho' with ho' | rfl
        · have habs0 : ∀ c0 ∈ r.items,
              c0.location.location_id ≠ o'.location.location_id := by
            intro c0 hc0 e
            by_cases hq : c0.location.location_id = old.location.location_id
            · exact habs _ hnewmem (hq.symm.trans e)
            · exact habs c0 ((hmem c0).2 (Or.inr ⟨hc0, hq⟩)) e
          rcases (hmem c).1 hcm with rfl | ⟨hc, -⟩
          · exact le_trans (h3 o' ho' habs0 old hold) (le_of_lt hgt)
          · exact h3 o' ho' habs0 c hc
        · exact (habs _ hnewmem hid).elim
      · intro hlen o' ho'
        rw [List.length_set] at hlen
        rcases hsplit o' ho' with ho' | rfl
        · obtain ⟨c0, hc0, e⟩ := h4 hlen o' ho'
          by_cases hq : c0.location.location_id = old.location.location_id
          · exact ⟨_, hnewmem, hq.symm.trans e⟩
          · exact ⟨c0, (hmem c0).2 (Or.inr ⟨hc0, hq⟩), e⟩
        · exact ⟨_, hnewmem, hid⟩
    · rw [if_neg hgt] at heq
      rw [heq]
      refine ⟨hnd, hle, ?_, hlift, ?_, ?_⟩
      · intro c hc o' ho' hid'
        rcases hsplit o' ho' with ho' | rfl
        · exact h1 c hc o' ho' hid'
        · have : c = old := eq_of_same_id hnd hc hold (hid'.symm.trans hid.symm)
          rw [this]
          exact not_lt.1 hgt
      · intro o' ho' habs c hc
        rcases hsplit o' ho' with ho' | rfl
        · exact h3 o' ho' habs c hc
        · exact absurd hid (habs old hold)
      · intro hlen o' ho'
        rcases hsplit o' ho' with ho' | rfl
        · exact h4 hlen o' ho'
        · exact ⟨old, hold, hid⟩
  · have hroom : r.items.length < min max_candidates MATCHER_MAX_CANDIDATES := lt_min hr1 hr2
    have heq' : (add_candidate r o.location o.confidence o.strategy o.reason o.breakdown
        max_candidates).items = r.items ++ [candidate_of o] := heq
    have hmem : ∀ c, c ∈ r.items ++ [candidate_of o] → c ∈ r.items ∨ c = candidate_of o :=
      fun c h => by simpa using h
    have hnewmem : candidate_of o ∈ r.items ++ [candidate_of o] := by simp
    rw [heq'] at hnd' ⊢
    refine ⟨hnd', ?_, ?_, ?_, ?_, ?_⟩
    · intro c hcm
      rcases hmem c hcm with hc | rfl
      · exact hle c hc
      · exact ho
    · intro c hcm o' ho' hid'
      rcases hmem c hcm with hc | rfl
      · rcases hsplit o' ho' with ho' | rfl
        · exact h1 c hc o' ho' hid'
        · exact absurd hid'.symm (hnew c hc)
      · rcases hsplit o' ho' with ho' | rfl
        · obtain ⟨c0, hc0, e⟩ := h4 hroom o' ho'
          exact absurd (e.trans hid') (hnew c0 hc0)
        · exact le_refl _
    · intro c hcm
      rcases hmem c hcm with hc | rfl
      · exact hlift c hc
      · exact ⟨o, hlast, rfl, rfl⟩
    · intro o' ho' habs c hc
      rcases hsplit o' ho' with ho' | rfl
      · obtain ⟨c0, hc0, e⟩ := h4 hroom o' ho'
        exact absurd e (habs c0 (List.mem_append_left _ hc0))
      · exact (habs _ hnewmem rfl).elim
    · intro _ o' ho'
      rcases hsplit o' ho' with ho' | rfl
      · obtain ⟨c0, hc0, e⟩ := h4 hroom o' ho'
        exact ⟨c0, List.mem_append_left _ hc0, e⟩
      · exact ⟨_, hnewmem, rfl⟩
  · have hnoroom : ¬ r.items.length < min max_candidates MATCHER_MAX_CANDIDATES :=
      fun h => hroom (lt_min_iff.1 h)
    obtain ⟨-, hmin, hcase⟩ := find_lowest_spec r.items 0 (none, 11 / 10)
    rcases hc with ⟨k, hk1, hk2, heq⟩ | ⟨hdrop, heq⟩
    · rcases hcase with ⟨e, -⟩ | ⟨k', low, hget, e, -, -⟩
      · rw [e] at hk1; simp at hk1
      · rw [e] at hk1 hk2 hmin
        have hk : k' = k := by simpa using hk1
        subst hk
        simp only at hk2 hmin
        have hlowmem : low ∈ r.items := List.get?_mem hget
        rw [heq] at hnd' ⊢
        have hmem := mem_set_of_nodup r.items k' low
          { location := o.location, confidence := o.confidence,
            strategy := copy_field AMS_MAX_STRATEGY_LENGTH o.strategy,
            reason := copy_field AMS_MAX_REASON_LENGTH o.reason, breakdown := o.breakdown }
          hnd hget
        have hnewmem := (hmem _).2 (Or.inl rfl)
        refine ⟨hnd', ?_, ?_, ?_, ?_, ?_⟩
        · intro c hcm
          rcases (hmem c).1 hcm with rfl | ⟨hc, -⟩
          · exact ho
          · exact hle c hc
        · intro c hcm o' ho' hid'
          rcases (hmem c).1 hcm with rfl | ⟨hc, hne⟩
          · rcases hsplit o' ho' with ho' | rfl
            · have habs0 : ∀ c0 ∈ r.items,
                  c0.location.location_id ≠ o'.location.location_id := by
                intro c0 hc0 e0
                exact hnew c0 hc0 (e0.trans hid')
              exact le_trans (h3 o' ho' habs0 low hlowmem) (le_of_lt hk2)
            · exact le_refl _
          · rcases hsplit o' ho' with ho' | rfl
            · exact h1 c hc o' ho' hid'
            · exact absurd hid'.symm (hnew c hc)
        · intro c hcm
          rcases (hmem c).1 hcm with rfl | ⟨hc, -⟩
          · exact ⟨o, hlast, rfl, rfl⟩
          · exact hlift c hc
        · intro o' ho' habs c hcm
          rcases hsplit o' ho' with ho' | rfl
          · have hbound : o'.confidence ≤ low.confidence := by
              by_cases hex : ∃ c0 ∈ r.items,
                  c0.location.location_id = o'.location.location_id
              · obtain ⟨c0, hc0, e0⟩ := hex
                have hq : c0.location.location_id = low.location.location_id := by
                  by_contra hq
                  exact habs c0 ((hmem c0).2 (Or.inr ⟨hc0, hq⟩)) e0
                have : c0 = low := eq_of_same_id hnd hc0 hlowmem hq
                rw [← this]
                exact h1 c0 hc0 o' ho' e0.symm
              · have habs0 : ∀ c0 ∈ r.items,
                    c0.location.location_id ≠ o'.location.location_id :=
                  fun c0 hc0 e0 => hex ⟨c0, hc0, e0⟩
                exact h3 o' ho' habs0 low hlowmem
            rcases (hmem c).1 hcm with rfl | ⟨hc, -⟩
            · exact le_trans hbound (le_of_lt hk2)
            · exact le_trans hbound (hmin c hc)
          · exact (habs _ hnewmem rfl).elim
        · intro hlen
          rw [List.length_set] at hlen
          exact absurd hlen hnoroom
    · rw [heq]
      have hall : ∀ c ∈ r.items, o.confidence ≤ c.confidence := by
        intro c hc
        rcases hdrop with hnone | hle2
        · rcases hcase with ⟨-, hall⟩ | ⟨k', low, -, e, -, -⟩
          · exact le_trans (le_of_lt ho) (hall c hc)
          · rw [e] at hnone; simp at hnone
        · exact le_trans hle2 (hmin c hc)
      refine ⟨hnd, hle, ?_, hlift, ?_, ?_⟩
      · intro c hc o' ho' hid'
        rcases hsplit o' ho' with ho' | rfl
        · exact h1 c hc o' ho' hid'
        · exact absurd hid'.symm (hnew c hc)
      · intro o' ho' habs c hc
        rcases hsplit o' ho' with ho' | rfl
        · exact h3 o' ho' habs c hc
        · exact hall c hc
      · intro hlen
        exact absurd hlen hnoroom

/-- A sequence of calls of `add_candidate` with confidences below 1.1 keeps the invariant
`KeepsBest`. -/
theorem keeps_best_offers (max_candidates : Nat) :
    ∀ (offers seen : List Offer) (r : MatchResult),
      KeepsBest (min max_candidates MATCHER_MAX_CANDIDATES) seen r.items →
      (∀ o ∈ offers, o.confidence < 11 / 10) →
      KeepsBest (min max_candidates MATCHER_MAX_CANDIDATES) (seen ++ offers)
        (offer_all max_candidates offers r).items := by
  intro offers
  induction offers with
  | nil =>
    intro seen r h _
    rw [List.append_nil]
    exact h
  | cons o rest ih =>
    intro seen r h hconf
    have hstep := keeps_best_step r o max_candidates seen h (hconf o (List.mem_cons_self _ _))
    have := ih (seen ++ [o]) _ hstep (fun o' ho' => hconf o' (List.mem_cons_of_mem _ ho'))
    rw [List.append_assoc] at this
    exact this

theorem add_candidate_length_ge (result : MatchResult) (location : LocationRecord)
    (confidence : ℚ) (strategy reason : CStr) (breakdown : ScoreBreakdown)
    (max_candidates : Nat) :
    result.items.length ≤
      (add_candidate result location confidence strategy reason breakdown
        max_candidates).items.length := by
  rcases add_candidate_items result location confidence strategy reason breakdown
    max_candidates with h1 | ⟨_, _, _, _, _, h1⟩ | ⟨_, _, _, h1⟩ | ⟨_, _, _, _, _, h1⟩
  · rw [h1]
  · rw [h1, List.length_set]
  · rw [h1, List.length_append]; omega
  · rw [h1, List.length_set]

theorem offer_all_length_ge (max_candidates : Nat) :
    ∀ (offers : List Offer) (r : MatchResult),
      r.items.length ≤ (offer_all max_candidates offers r).items.length := by
  intro offers
  induction offers with
  | nil => intro r; exact le_refl _
  | cons o rest ih =>
    intro r
    exact le_trans (add_candidate_length_ge r _ _ _ _ _ max_candidates) (ih _)

/-- C31: after any sequence of `add_candidate` calls from the empty result, with a capacity
`min max_candidates 16` of at least 1 and confidences in [0, 1]: every stored candidate
carries a confidence that was offered for its id and that no offer for its id exceeds; every
offer whose id is not stored has a confidence that no stored candidate is below; every stored
confidence lies in [0, 1]; and when at least one call was made the result is not empty, so
that the lowest stored confidence exists. -/
theorem aggregator_keeps_best (max_candidates : Nat) (offers : List Offer)
    (hcap : 1 ≤ min max_candidates MATCHER_MAX_CANDIDATES)
    (hconf : ∀ o ∈ offers, 0 ≤ o.confidence ∧ o.confidence ≤ 1) :
    (∀ c ∈ (offer_all max_candidates offers match_result_init).items,
      (∃ o ∈ offers, o.location.location_id = c.location.location_id ∧
        o.confidence = c.confidence) ∧
      (∀ o ∈ offers, o.location.location_id = c.location.location_id →
        o.confidence ≤ c.confidence) ∧
      0 ≤ c.confidence ∧ c.confidence ≤ 1) ∧
    (∀ o ∈ offers,
      (∀ c ∈ (offer_all max_candidates offers match_result_init).items,
        c.location.location_id ≠ o.location.location_id) →
      ∀ c ∈ (offer_all max_candidates offers match_result_init).items,
        o.confidence ≤ c.confidence) ∧
    (offers ≠ [] → (offer_all max_candidates offers match_result_init).items ≠ []) := by
  have hinit : KeepsBest (min max_candidates MATCHER_MAX_CANDIDATES) []
      match_result_init.items := by
    refine ⟨List.nodup_nil, ?_, ?_, ?_, ?_, ?_⟩
    · intro c hc; exact absurd hc (List.not_mem_nil c)
    · intro c hc; exact absurd hc (List.not_mem_nil c)
    · intro c hc; exact absurd hc (List.not_mem_nil c)
    · intro o ho; exact absurd ho (List.not_mem_nil o)
    · intro _ o ho; exact absurd ho (List.not_mem_nil o)
  have hkeep := keeps_best_offers max_candidates offers [] match_result_init hinit
    (fun o ho => lt_of_le_of_lt (hconf o ho).2 (by norm_num))
  rw [List.nil_append] at hkeep
  obtain ⟨-, -, h1, h2, h3, -⟩ := hkeep
  refine ⟨?_, h3, ?_⟩
  · intro c hc
    obtain ⟨o, ho, -, e⟩ := h2 c hc
    refine ⟨h2 c hc, h1 c hc, ?_, ?_⟩
    · rw [← e]
      exact (hconf o ho).1
    · rw [← e]
      exact (hconf o ho).2
  · intro hne
    cases offers with
    | nil => exact absurd rfl hne
    | cons o rest =>
      have hfirst : (add_candidate match_result_init o.location o.confidence o.strategy
          o.reason o.breakdown max_candidates).items.length = 1 := by
        rcases add_candidate_cases match_result_init o.location o.confidence o.strategy
          o.reason o.breakdown max_candidates with ⟨idx, old, hget, -, -, -⟩ |
          ⟨-, -, -, heq⟩ | ⟨-, hroom, -⟩
        · simp [match_result_init] at hget
        · rw [heq]; rfl
        · exfalso
          apply hroom
          have h0 : match_result_init.items.length = 0 := rfl
          rw [h0]
          exact lt_min_iff.1 (lt_of_lt_of_le Nat.zero_lt_one hcap)
      have hlen := offer_all_length_ge max_candidates rest
        (add_candidate match_result_init o.location o.confidence o.strategy
          o.reason o.breakdown max_candidates)
      rw [hfirst] at hlen
      intro hnil
      have hcons : offer_all max_candidates (o :: rest) match_result_init =
          offer_all max_candidates rest
            (add_candidate match_result_init o.location o.confidence o.strategy
              o.reason o.breakdown max_candidates) := rfl
      rw [hcons] at hnil
      rw [hnil] at hlen
      simp at hlen

/-- Witness of `aggregator_keeps_best`: with the capacity 2 the four calls of `ranked_offers`
leave LOC1 with 0.9 and LOC2 with 0.7; LOC3, offered with 0.6, is not stored, and no stored
confidence is below 0.6. -/
theorem aggregator_keeps_best_witness :
    (offer_all 2 ranked_offers match_result_init).items.map
        (fun c => (c.location.location_id, c.confidence)) =
      [("LOC1".toList, 9 / 10), ("LOC2".toList, 7 / 10)] ∧
    ∀ c ∈ (offer_all 2 ranked_offers match_result_init).items, (6 / 10 : ℚ) ≤ c.confidence :=
  ⟨by decide!,
    (aggregator_keeps_best 2 ranked_offers (by decide) (by decide!)).2.1
      (bare_offer "LOC3".toList (6 / 10) "fuzzy".toList)
      (by simp [ranked_offers]) (by decide!)⟩

/-! ## Abbreviations that follow one another -/

/-- C33, on the code: the output of `expand_address_text` for "1 ST ST X" is
" 1 STREET ST X ", which still holds the needle " ST " of the table `EXPANSIONS` at offset 9.
After a replacement the search resumes behind the replacement, whose last character is the
space that the next occurrence starts with, so the second of two consecutive abbreviations
is never found.  The same happens with " AVE " and " N ". -/
theorem expansion_misses_adjacent_needle :
    expand_address_text "1 ST ST X".toList = " 1 STREET ST X ".toList ∧
    (" ST ".toList, " STREET ".toList) ∈ EXPANSIONS ∧
    strstr " 1 STREET ST X ".toList " ST ".toList = some 9 ∧
    expand_address_text "5 Oak Ave Ave".toList = " 5 OAK AVENUE AVE ".toList ∧
    expand_address_text "9 N N Main".toList = " 9 NORTH N MAIN ".toList := by
  decide!

/-! ## The order of the catalog -/

theorem offer_all_append (max_candidates : Nat) (a b : List Offer) (r : MatchResult) :
    offer_all max_candidates (a ++ b) r =
      offer_all max_candidates b (offer_all max_candidates a r) := by
  unfold offer_all
  rw [List.foldl_append]

theorem strategy_canonical_eq (m : Bool) (query : AddressComponents) (store : LocationStore)
    (config : MatcherConfig) (result : MatchResult) :
    strategy_canonical m query store config result =
      offer_all config.max_candidates
        ((store.filter (admits_canonical query)).map (canonical_offer m query)) result := by
  unfold strategy_canonical
  by_cases hq : query.canonical_key = []
  · have hnone : store.filter (admits_canonical query) = [] := by
      rw [List.filter_eq_nil_iff]
      intro loc _
      simp [admits_canonical, hq]
    rw [if_pos (by rw [hq]; rfl), hnone]
    rfl
  · rw [if_neg (by simpa [List.isEmpty_iff] using hq)]
    apply foldl_offers
    intro r loc
    have hadm : admits_canonical query loc = true ↔
        loc.components.canonical_key = query.canonical_key := by
      simp [admits_canonical, hq]
    simp only [canonical_offer]
    by_cases hk : loc.components.canonical_key = query.canonical_key
    · have h1 : ¬ loc.components.canonical_key.isEmpty = true := by
        rw [hk]; simpa [List.isEmpty_iff] using hq
      have h2 : ¬ strcmp query.canonical_key loc.components.canonical_key ≠ 0 := by
        rw [hk]; exact not_not.2 (strcmp_self _)
      rw [if_neg h1, if_neg h2, if_pos (hadm.2 hk)]
    · rw [if_neg (fun h => hk (hadm.1 h))]
      by_cases h1 : loc.components.canonical_key.isEmpty = true
      · rw [if_pos h1]
      · rw [if_neg h1, if_pos]
        intro h0
        exact hk ((strcmp_eq_zero _ _).1 h0).symm

theorem strategy_structured_eq (m : Bool) (query : AddressComponents) (store : LocationStore)
    (config : MatcherConfig) (result : MatchResult) :
    strategy_structured m query store config result =
      offer_all config.max_candidates
        ((store.filter (admits_structured m query config)).map (structured_offer m query))
        result := by
  unfold strategy_structured
  apply foldl_offers
  intro r loc
  simp only [structured_offer, admits_structured, decide_eq_true_eq, ge_iff_le]

theorem strategy_fuzzy_eq (m : Bool) (query : AddressComponents) (store : LocationStore)
    (config : MatcherConfig) (result : MatchResult) :
    strategy_fuzzy m query store config result =
      offer_all config.max_candidates
        ((store.filter (admits_fuzzy m query config)).map (fuzzy_offer m query)) result := by
  unfold strategy_fuzzy
  apply foldl_offers
  intro r loc
  simp only [fuzzy_offer, admits_fuzzy, decide_eq_true_eq, ge_iff_le]

/-- The oracle strategy leaves the result as it is when it is disabled or when its command
gives no line. -/
theorem strategy_llm_quiet (m : Bool) (atof : CStr → ℚ) (reply : Option CStr)
    (store : LocationStore) (config : MatcherConfig) (result : MatchResult)
    (h : config.llm_enabled = false ∨ reply = none) :
    strategy_llm m atof reply store config result = result := by
  unfold strategy_llm
  rcases h with h | h
  · rw [if_pos (by rw [h]; rfl)]
  · rw [h]
    split_ifs <;> rfl

/-- When the oracle strategy stores nothing, the result held after the last strategy is the
result of the calls of `strategy_offers`, in order, on the empty result. -/
theorem aggregate_candidates_offers (m : Bool) (atof : CStr → ℚ) (reply : Option CStr)
    (raw : CStr) (store : LocationStore) (config : MatcherConfig)
    (h : config.llm_enabled = false ∨ reply = none) :
    aggregate_candidates m atof reply raw store config =
      offer_all config.max_candidates
        (strategy_offers m (parse_address raw).2 config store)
        { match_result_init with
          raw_address := copy_field AMS_MAX_LINE_LENGTH raw
          record_components := (parse_address raw).2 } := by
  rw [aggregate_candidates_of_parse m atof reply raw store config _ rfl,
    strategy_llm_quiet _ _ _ _ _ _ h, strategy_fuzzy_eq, strategy_structured_eq,
    strategy_canonical_eq, ← offer_all_append, ← offer_all_append, ← List.append_assoc]
  rfl

theorem foldl_merge_filter (location_id : CStr) :
    ∀ (offers : List Offer) (slot : Option MatchCandidate),
      offers.foldl (merge_step location_id) slot =
        (offers.filter (fun o => decide (o.location.location_id = location_id))).foldl
          (merge_step location_id) slot := by
  intro offers
  induction offers with
  | nil => intro slot; rfl
  | cons o rest ih =>
    intro slot
    by_cases hq : o.location.location_id = location_id
    · rw [List.filter_cons_of_pos (by simpa using hq), List.foldl_cons, List.foldl_cons, ih]
    · rw [List.filter_cons_of_neg (by simpa using hq), List.foldl_cons, ih]
      have : merge_step location_id slot o = slot := by
        unfold merge_step
        rw [if_neg hq]
      rw [this]

theorem filter_map_offers (p : LocationRecord → Bool) (f : LocationRecord → Offer)
    (hf : ∀ l, (f l).location = l) (location_id : CStr) (store : LocationStore) :
    ((store.filter p).map f).filter (fun o => decide (o.location.location_id = location_id)) =
      ((store.filter (fun l => decide (l.location_id = location_id))).filter p).map f := by
  rw [List.filter_map, List.filter_filter, List.filter_filter]
  congr 1
  apply List.filter_congr
  intro l _
  simp only [Function.comp, hf]
  exact Bool.and_comm _ _

theorem strategy_offers_filter (m : Bool) (query : AddressComponents) (config : MatcherConfig)
    (store : LocationStore) (location_id : CStr) :
    (strategy_offers m query config store).filter
        (fun o => decide (o.location.location_id = location_id)) =
      strategy_offers m query config
        (store.filter (fun l => decide (l.location_id = location_id))) := by
  unfold strategy_offers
  rw [List.filter_append, List.filter_append,
    filter_map_offers _ _ (fun _ => rfl), filter_map_offers _ _ (fun _ => rfl),
    filter_map_offers _ _ (fun _ => rfl)]

theorem offer_all_fields (max_candidates : Nat) :
    ∀ (offers : List Offer) (r : MatchResult),
      offer_all max_candidates offers r =
        { r with items := (offer_all max_candidates offers r).items } := by
  intro offers
  induction offers with
  | nil => intro r; rfl
  | cons o rest ih =>
    intro r
    have hcons : offer_all max_candidates (o :: rest) r =
        offer_all max_candidates rest
          (add_candidate r o.location o.confidence o.strategy o.reason o.breakdown
            max_candidates) := rfl
    rw [hcons, ih, add_candidate_fields]

theorem aggregate_candidates_nodup (m : Bool) (atof : CStr → ℚ) (reply : Option CStr)
    (raw : CStr) (store : LocationStore) (config : MatcherConfig) :
    ((aggregate_candidates m atof reply raw store config).items.map
      (fun c => c.location.location_id)).Nodup :=
  aggregate_candidates_preserves
    (fun r => (r.items.map (fun c => c.location.location_id)).Nodup) config
    (fun r loc conf s rs bd h => add_candidate_nodup r loc conf s rs bd config.max_candidates h)
    m atof reply raw store
    (fun r hr => by show (r.items.map _).Nodup; rw [hr]; exact List.nodup_nil)

theorem strcmp_le_antisymm (a b : CStr) (h1 : strcmp a b ≤ 0) (h2 : strcmp b a ≤ 0) : a = b := by
  rw [strcmp_antisymm a b] at h2
  exact (strcmp_eq_zero a b).1 (by omega)

/-- Two lists of candidates with distinct ids that hold the same candidates are sorted into
the same list. -/
theorem qsort_candidates_of_perm (a b : List MatchCandidate) (hperm : a.Perm b)
    (ha : (a.map (fun c => c.location.location_id)).Nodup) :
    qsort_candidates a = qsort_candidates b := by
  have hb : (b.map (fun c => c.location.location_id)).Nodup :=
    ((hperm.map _).nodup_iff).1 ha
  have hsorted : ∀ l : List MatchCandidate, (l.map (fun c => c.location.location_id)).Nodup →
      (qsort_candidates l).Pairwise (fun x y => compare_candidates x y ≤ 0 ∧
        (x.location.location_id = y.location.location_id → x = y)) := by
    intro l hl
    have hq : ((qsort_candidates l).map (fun c => c.location.location_id)).Nodup :=
      (((qsort_candidates_perm l).map _).nodup_iff).2 hl
    have hq' : (qsort_candidates l).Pairwise
        (fun x y => x.location.location_id ≠ y.location.location_id) := by
      unfold List.Nodup at hq
      rwa [List.pairwise_map] at hq
    exact ((qsort_candidates_sorted l).and hq').imp
      (fun h => ⟨h.1, fun e => absurd e h.2⟩)
  haveI : IsAntisymm MatchCandidate (fun x y => compare_candidates x y ≤ 0 ∧
      (x.location.location_id = y.location.location_id → x = y)) :=
    ⟨fun x y hxy hyx => by
      have h1 := (compare_candidates_le x y).1 hxy.1
      have h2 := (compare_candidates_le y x).1 hyx.1
      apply hxy.2
      rcases h1 with h1 | ⟨e1, s1⟩
      · rcases h2 with h2 | ⟨e2, -⟩
        · exact absurd h1 (not_lt.2 (le_of_lt h2))
        · rw [e2] at h1; exact absurd h1 (lt_irrefl _)
      · rcases h2 with h2 | ⟨-, s2⟩
        · rw [e1] at h2; exact absurd h2 (lt_irrefl _)
        · exact strcmp_le_antisymm _ _ s1 s2⟩
  exact List.eq_of_perm_of_sorted
    (((qsort_candidates_perm a).trans hperm).trans (qsort_candidates_perm b).symm)
    (hsorted a ha) (hsorted b hb)

theorem select_best_congr (r₁ r₂ : MatchResult)
    (hf : { r₁ with items := [] } = { r₂ with items := [] })
    (hitems : (if 1 < r₁.items.length then qsort_candidates r₁.items else r₁.items) =
      (if 1 < r₂.items.length then qsort_candidates r₂.items else r₂.items)) :
    select_best r₁ = select_best r₂ := by
  obtain ⟨i1, b1, x1, s1, c1, rc1, ra1⟩ := r₁
  obtain ⟨i2, b2, x2, s2, c2, rc2, ra2⟩ := r₂
  simp only [MatchResult.mk.injEq, true_and] at hf
  obtain ⟨rfl, rfl, rfl, rfl, rfl, rfl⟩ := hf
  simp only at hitems
  unfold select_best
  simp only
  by_cases h1 : 1 < i1.length <;> by_cases h2 : 1 < i2.length
  · rw [if_pos h1, if_pos h2] at hitems
    rw [if_pos h1, if_pos h2]
    simp only [hitems]
  · rw [if_pos h1, if_neg h2] at hitems
    rw [if_pos h1, if_neg h2]
    simp only [hitems]
  · rw [if_neg h1, if_pos h2] at hitems
    rw [if_neg h1, if_pos h2]
    simp only [hitems]
  · rw [if_neg h1, if_neg h2] at hitems
    rw [if_neg h1, if_neg h2]
    simp only [hitems]

theorem eq_of_perm_of_short {α : Type} (a b : List α) (hperm : a.Perm b)
    (h : ¬ 1 < a.length) : a = b := by
  cases a with
  | nil => exact hperm.nil_eq
  | cons x t =>
    cases t with
    | nil => exact List.singleton_perm.1 hperm
    | cons y t => simp at h

/-- C37, as stated, fails: with `AMS_MAX_CANDIDATES=1` and a catalog of two records with
distinct ids and the same address, the candidate kept for `12 N 1st St Denver CO 80202` is
the record that comes first in the catalog: LOC1 for the catalog, LOC2 for the reversed
catalog.  Both records reach the confidence 1, and a full aggregator replaces a slot only by
a strictly greater confidence. -/
theorem ranked_list_depends_on_order :
    twin_catalog.reverse.Perm twin_catalog ∧
    (twin_catalog.map (fun l => l.location_id)).Nodup ∧
    single_config.llm_enabled = false ∧ single_config.max_candidates = 1 ∧
    (match_record true (fun _ => 0) none "12 N 1st St Denver CO 80202".toList
        twin_catalog single_config).items.map
        (fun c => (c.location.location_id, c.strategy, c.confidence)) =
      [("LOC1".toList, "fuzzy".toList, 1)] ∧
    (match_record true (fun _ => 0) none "12 N 1st St Denver CO 80202".toList
        twin_catalog.reverse single_config).items.map
        (fun c => (c.location.location_id, c.strategy, c.confidence)) =
      [("LOC2".toList, "fuzzy".toList, 1)] := by
  have hcat : twin_catalog =
      [{ location_id := "LOC1".toList, street := "12 N 1ST ST".toList,
         city := "DENVER".toList, state := "CO".toList, postal_code := "80202".toList,
         components :=
          { street_number := "12".toList, street_direction := "N".toList,
            street_name := "FIRST".toList, street_suffix := "ST".toList, unit := [],
            city := "DENVER".toList, state := "CO".toList, postal_code := "80202".toList,
            canonical_key := "12|N|FIRST|ST|DENVER|CO|80202".toList } },
       { location_id := "LOC2".toList, street := "12 N 1ST ST".toList,
         city := "DENVER".toList, state := "CO".toList, postal_code := "80202".toList,
         components :=
          { street_number := "12".toList, street_direction := "N".toList,
            street_name := "FIRST".toList, street_suffix := "ST".toList, unit := [],
            city := "DENVER".toList, state := "CO".toList, postal_code := "80202".toList,
            canonical_key := "12|N|FIRST|ST|DENVER|CO|80202".toList } }] := by
    have h : twin_catalog =
        [{ location_id := "LOC1".toList, street := "12 N 1ST ST".toList,
           city := "DENVER".toList, state := "CO".toList, postal_code := "80202".toList,
           components := (parse_address "12 N 1ST ST, DENVER, CO 80202".toList).2 },
         { location_id := "LOC2".toList, street := "12 N 1ST ST".toList,
           city := "DENVER".toList, state := "CO".toList, postal_code := "80202".toList,
           components := (parse_address "12 N 1ST ST, DENVER, CO 80202".toList).2 }] := rfl
    rw [h, parse_denver_record]
  refine ⟨List.reverse_perm _, ?_, by decide!, by decide!, ?_, ?_⟩
  · rw [hcat]; decide
  · rw [match_record_of_parse _ _ _ _ _ _ (by rw [parse_denver_plain]),
      aggregate_candidates_of_parse _ _ _ _ _ _ _ (by rw [parse_denver_plain]), hcat]
    decide!
  · rw [match_record_of_parse _ _ _ _ _ _ (by rw [parse_denver_plain]),
      aggregate_candidates_of_parse _ _ _ _ _ _ _ (by rw [parse_denver_plain]), hcat]
    decide!

/-! ## The score in double arithmetic -/

theorem similarity_ratio_double_self (m : Bool) (x : CStr) :
    similarity_ratio_double m x x = if x ≠ [] then 1 else 0 := by
  unfold similarity_ratio_double
  by_cases h : x = []
  · rw [if_neg (not_not.2 h), if_pos (Or.inl (by rw [h]; rfl))]
  · rw [if_pos h, if_neg (by simp [List.isEmpty_iff, h]), if_pos rfl]

/-- The score of `score_components_double` as the running sum of its seven products. -/
theorem score_components_double_score (m : Bool) (l r : AddressComponents) (z : Bool) :
    (score_components_double m l r z).score =
      double_add (double_add (double_add (double_add (double_add (double_add (double_add 0
        (double_mul (weight_at_double 0) (exact_match l.street_number r.street_number)))
        (double_mul (weight_at_double 1)
          (similarity_ratio_double m l.street_name r.street_name)))
        (double_mul (weight_at_double 2)
          (exact_match (normalize_direction l.street_direction)
            (normalize_direction r.street_direction))))
        (double_mul (weight_at_double 3) (exact_match l.street_suffix r.street_suffix)))
        (double_mul (weight_at_double 4) (similarity_ratio_double m l.city r.city)))
        (double_mul (weight_at_double 5) (exact_match l.state r.state)))
        (double_mul (weight_at_double 6)
          (if z = true ∧
              ¬ (canonicalize_zip
                (copy_field AMS_MAX_POSTAL_LENGTH l.postal_code)).isEmpty = true ∧
              (canonicalize_zip (copy_field AMS_MAX_POSTAL_LENGTH r.postal_code)).isEmpty = true
            then 0
            else exact_match
              (canonicalize_zip (copy_field AMS_MAX_POSTAL_LENGTH l.postal_code))
              (canonicalize_zip (copy_field AMS_MAX_POSTAL_LENGTH r.postal_code)))) := by
  unfold score_components_double
  simp only

theorem weights_running_sum :
    double_add (double_add (double_add (double_add (double_add (double_add (double_add 0
      (double_mul (weight_at_double 0) 1)) (double_mul (weight_at_double 1) 1))
      (double_mul (weight_at_double 2) 1)) (double_mul (weight_at_double 3) 1))
      (double_mul (weight_at_double 4) 1)) (double_mul (weight_at_double 5) 1))
      (double_mul (weight_at_double 6) 1) = 1 + 1 / 2 ^ 52 := by
  decide!

/-- The score in double arithmetic of a record against itself when all seven scored fields
are present: one unit in the last place above 1. -/
theorem score_components_double_self (m : Bool) (c : AddressComponents) (z : Bool)
    (hnumber : c.street_number ≠ []) (hname : c.street_name ≠ [])
    (hdirection : c.street_direction ≠ []) (hsuffix : c.street_suffix ≠ [])
    (hcity : c.city ≠ []) (hstate : c.state ≠ [])
    (hzip : canonicalize_zip (copy_field AMS_MAX_POSTAL_LENGTH c.postal_code) ≠ []) :
    (score_components_double m c c z).score = 1 + 1 / 2 ^ 52 := by
  have hdir : normalize_direction c.street_direction ≠ [] :=
    fun h => hdirection ((normalize_direction_eq_nil _).1 h)
  rw [score_components_double_score, zip_signal_eq, exact_match_self, exact_match_self,
    exact_match_self, exact_match_self, exact_match_self, similarity_ratio_double_self,
    similarity_ratio_double_self, if_pos hnumber, if_pos hname, if_pos hdir, if_pos hsuffix,
    if_pos hcity, if_pos hstate, if_pos hzip]
  exact weights_running_sum

/-- C12, on the code: in the double arithmetic of `score_components` the score of a record
against itself with `require_zip` set is 1 + 2^-52, that is 1.0000000000000002 and not 1,
whenever all seven scored fields are present (the six text fields non-empty, the postal code
with a non-empty canonical form). -/
theorem score_self_above_one (m : Bool) (c : AddressComponents)
    (hnumber : c.street_number ≠ []) (hname : c.street_name ≠ [])
    (hdirection : c.street_direction ≠ []) (hsuffix : c.street_suffix ≠ [])
    (hcity : c.city ≠ []) (hstate : c.state ≠ [])
    (hzip : canonicalize_zip (copy_field AMS_MAX_POSTAL_LENGTH c.postal_code) ≠ []) :
    (score_components_double m c c true).score = 1 + 1 / 2 ^ 52 ∧
    (score_components_double m c c true).score ≠ 1 := by
  have h := score_components_double_self m c true hnumber hname hdirection hsuffix hcity
    hstate hzip
  refine ⟨h, ?_⟩
  rw [h]
  norm_num

/-- Witness of `score_self_above_one`: the record that `parse_address` gives for
`12 N 1st St Denver CO 80202` has all seven scored fields. -/
theorem score_self_above_one_witness :
    (parse_address "12 N 1st St Denver CO 80202".toList).1 = 0 ∧
    (score_components_double true (parse_address "12 N 1st St Denver CO 80202".toList).2
      (parse_address "12 N 1st St Denver CO 80202".toList).2 true).score = 1 + 1 / 2 ^ 52 :=
  ⟨by rw [parse_denver_plain],
    (score_self_above_one true (parse_address "12 N 1st St Denver CO 80202".toList).2
      (by rw [parse_denver_plain]; decide) (by rw [parse_denver_plain]; decide)
      (by rw [parse_denver_plain]; decide) (by rw [parse_denver_plain]; decide)
      (by rw [parse_denver_plain]; decide) (by rw [parse_denver_plain]; decide)
      (by rw [parse_denver_plain]; decide)).1⟩

/-- C13, on the code: the seven entries of `WEIGHTS`, as the doubles that are stored, have
the exact sum 1 - 2^-56, and their sum in double arithmetic, in the order of
`score_components`, is 1 + 2^-52; for the record of `12 N 1ST ST, DENVER, CO 80202` against
itself `score_components` returns that sum for both values of `require_zip`, a score
above 1. -/
theorem score_exceeds_one :
    WEIGHTS_double.length = 7 ∧ WEIGHTS_double.sum = 1 - 1 / 2 ^ 56 ∧
    WEIGHTS_double.foldl double_add 0 = 1 + 1 / 2 ^ 52 ∧
    (score_components_double true (parse_address "12 N 1ST ST, DENVER, CO 80202".toList).2
      (parse_address "12 N 1ST ST, DENVER, CO 80202".toList).2 true).score = 1 + 1 / 2 ^ 52 ∧
    (score_components_double true (parse_address "12 N 1ST ST, DENVER, CO 80202".toList).2
      (parse_address "12 N 1ST ST, DENVER, CO 80202".toList).2 false).score = 1 + 1 / 2 ^ 52 ∧
    ¬ ((score_components_double true (parse_address "12 N 1ST ST, DENVER, CO 80202".toList).2
      (parse_address "12 N 1ST ST, DENVER, CO 80202".toList).2 false).score ≤ 1) := by
  have hself : ∀ z, (score_components_double true
      (parse_address "12 N 1ST ST, DENVER, CO 80202".toList).2
      (parse_address "12 N 1ST ST, DENVER, CO 80202".toList).2 z).score = 1 + 1 / 2 ^ 52 := by
    intro z
    exact score_components_double_self true _ z
      (by rw [parse_denver_record]; decide) (by rw [parse_denver_record]; decide)
      (by rw [parse_denver_record]; decide) (by rw [parse_denver_record]; decide)
      (by rw [parse_denver_record]; decide) (by rw [parse_denver_record]; decide)
      (by rw [parse_denver_record]; decide)
  refine ⟨rfl, by decide!, by decide!, hself true, hself false, ?_⟩
  rw [hself false]
  norm_num

/-! ## Order of the candidates when the oracle stores nothing -/

theorem twin_catalog_eq :
    twin_catalog =
      [{ location_id := "LOC1".toList, street := "12 N 1ST ST".toList,
         city := "DENVER".toList, state := "CO".toList, postal_code := "80202".toList,
         components :=
          { street_number := "12".toList, street_direction := "N".toList,
            street_name := "FIRST".toList, street_suffix := "ST".toList, unit := [],
            city := "DENVER".toList, state := "CO".toList, postal_code := "80202".toList,
            canonical_key := "12|N|FIRST|ST|DENVER|CO|80202".toList } },
       { location_id := "LOC2".toList, street := "12 N 1ST ST".toList,
         city := "DENVER".toList, state := "CO".toList, postal_code := "80202".toList,
         components :=
          { street_number := "12".toList, street_direction := "N".toList,
            street_name := "FIRST".toList, street_suffix := "ST".toList, unit := [],
            city := "DENVER".toList, state := "CO".toList, postal_code := "80202".toList,
            canonical_key := "12|N|FIRST|ST|DENVER|CO|80202".toList } }] := by
  have h : twin_catalog =
      [{ location_id := "LOC1".toList, street := "12 N 1ST ST".toList,
         city := "DENVER".toList, state := "CO".toList, postal_code := "80202".toList,
         components := (parse_address "12 N 1ST ST, DENVER, CO 80202".toList).2 },
       { location_id := "LOC2".toList, street := "12 N 1ST ST".toList,
         city := "DENVER".toList, state := "CO".toList, postal_code := "80202".toList,
         components := (parse_address "12 N 1ST ST, DENVER, CO 80202".toList).2 }] := rfl
  rw [h, parse_denver_record]

/-- C17, on the code: when the oracle strategy stores nothing, because it is disabled or
because its command gives no line, and the address parses, the result held after the last
strategy is the one that the calls of the three catalog strategies leave, and the candidates
of `match_record` are a permutation of it; the confidence never increases from index 0
upward, and two neighbours of equal confidence stand in ascending order of location id. -/
theorem match_record_ranked (m : Bool) (atof : CStr → ℚ) (reply : Option CStr) (raw : CStr)
    (store : LocationStore) (config : MatcherConfig)
    (hquiet : config.llm_enabled = false ∨ reply = none) :
    aggregate_candidates m atof reply raw store config =
      offer_all config.max_candidates
        (strategy_offers m (parse_address raw).2 config store)
        { match_result_init with
          raw_address := copy_field AMS_MAX_LINE_LENGTH raw
          record_components := (parse_address raw).2 } ∧
    ((parse_address raw).1 = 0 →
      (match_record m atof reply raw store config).items.Perm
        (aggregate_candidates m atof reply raw store config).items) ∧
    (match_record m atof reply raw store config).items.Pairwise
      (fun a b => b.confidence ≤ a.confidence) ∧
    (match_record m atof reply raw store config).items.Chain'
      (fun a b => a.confidence = b.confidence →
        strcmp a.location.location_id b.location.location_id < 0) := by
  have hsorted : (match_record m atof reply raw store config).items.Pairwise
      (fun a b => compare_candidates a b ≤ 0) := by
    by_cases hp : (parse_address raw).1 = 0
    · rw [(match_record_items m atof reply raw store config).2 hp]
      split
      · exact qsort_candidates_sorted _
      · rename_i hlen
        exact pairwise_of_length_le_one _ _ hlen
    · rw [(match_record_items m atof reply raw store config).1 hp]
      exact List.Pairwise.nil
  refine ⟨aggregate_candidates_offers m atof reply raw store config hquiet, ?_,
    ranked_of_sorted _ hsorted (match_record_nodup m atof reply raw store config)⟩
  intro hp
  rw [(match_record_items m atof reply raw store config).2 hp]
  split
  · exact qsort_candidates_perm _
  · exact List.Perm.refl _

/-- Witness of `match_record_ranked`: the catalog holds LOC2 before LOC1, both at the address
of the query and both stored with the confidence 1; the result holds LOC1 before LOC2. -/
theorem match_record_ranked_witness :
    twin_catalog.reverse.map (fun l => l.location_id) = ["LOC2".toList, "LOC1".toList] ∧
    (match_record true (fun _ => 0) none "12 N 1st St Denver CO 80202".toList
        twin_catalog.reverse default_config).items.map
        (fun c => (c.location.location_id, c.confidence)) =
      [("LOC1".toList, 1), ("LOC2".toList, 1)] ∧
    (match_record true (fun _ => 0) none "12 N 1st St Denver CO 80202".toList
        twin_catalog.reverse default_config).items.Pairwise
      (fun a b => b.confidence ≤ a.confidence) := by
  have h := match_record_ranked true (fun _ => 0) none "12 N 1st St Denver CO 80202".toList
    twin_catalog.reverse default_config (Or.inr rfl)
  have hids : twin_catalog.reverse.map (fun l => l.location_id) =
      ["LOC2".toList, "LOC1".toList] := by
    rw [twin_catalog_eq]
    decide!
  have hrun : (match_record true (fun _ => 0) none "12 N 1st St Denver CO 80202".toList
      twin_catalog.reverse default_config).items.map
      (fun c => (c.location.location_id, c.confidence)) =
      [("LOC1".toList, 1), ("LOC2".toList, 1)] := by
    rw [match_record_of_parse _ _ _ _ _ _ (by rw [parse_denver_plain]),
      aggregate_candidates_of_parse _ _ _ _ _ _ _ (by rw [parse_denver_plain]),
      twin_catalog_eq]
    decide!
  exact ⟨hids, hrun, h.2.2.1⟩

/-! ## The selection -/

/-- Every call of the three catalog strategies carries a confidence that is not negative and
below 1.1, and a strategy name of at most 31 characters. -/
theorem strategy_offers_below (m : Bool) (query : AddressComponents) (config : MatcherConfig)
    (store : LocationStore) :
    ∀ o ∈ strategy_offers m query config store,
      0 ≤ o.confidence ∧ o.confidence < 11 / 10 ∧ o.strategy.length ≤ 31 := by
  intro o ho
  unfold strategy_offers at ho
  have h31 : ("canonical".toList.length ≤ 31 ∧ "structured".toList.length ≤ 31) ∧
      "fuzzy".toList.length ≤ 31 := by decide
  rcases List.mem_append.1 ho with ho | ho
  · rcases List.mem_append.1 ho with ho | ho
    · obtain ⟨l, -, rfl⟩ := List.mem_map.1 ho
      have hb := score_below m query l.components true
      refine ⟨?_, ?_, h31.1.1⟩
      · unfold canonical_offer
        simp only
        split_ifs
        · norm_num
        · exact hb.1
      · unfold canonical_offer
        simp only
        split_ifs
        · norm_num
        · exact hb.2
    · obtain ⟨l, -, rfl⟩ := List.mem_map.1 ho
      have hb := score_below m query l.components false
      exact ⟨hb.1, hb.2, h31.1.2⟩
  · obtain ⟨l, -, rfl⟩ := List.mem_map.1 ho
    have hb := fuzzy_score_bounds m query l
    exact ⟨hb.1, lt_of_le_of_lt hb.2 (by norm_num), h31.2⟩

/-- A property of confidence and strategy that every call establishes holds of every
candidate stored after the calls. -/
theorem offer_all_forall (Q : ℚ → CStr → Prop) (max_candidates : Nat) :
    ∀ (offers : List Offer) (r : MatchResult),
      (∀ o ∈ offers, Q o.confidence (copy_field AMS_MAX_STRATEGY_LENGTH o.strategy)) →
      (∀ c ∈ r.items, Q c.confidence c.strategy) →
      ∀ c ∈ (offer_all max_candidates offers r).items, Q c.confidence c.strategy := by
  intro offers
  induction offers with
  | nil => intro r _ h; exact h
  | cons o rest ih =>
    intro r hoff h
    exact ih _ (fun o' ho' => hoff o' (List.mem_cons_of_mem _ ho'))
      (add_candidate_forall Q r o.location o.confidence o.strategy o.reason o.breakdown
        max_candidates h (hoff o (List.mem_cons_self _ _)))

/-- Every result that the catalog strategies pass to `add_candidate`, that is the result held
after any number of their calls, holds confidences between 0 and 1.1 only, the latter
excluded. -/
theorem strategy_states_below (m : Bool) (query : AddressComponents) (config : MatcherConfig)
    (store : LocationStore) (k : Nat) (r : MatchResult) (hr : r.items = []) :
    ∀ c ∈ (offer_all config.max_candidates
        ((strategy_offers m query config store).take k) r).items,
      0 ≤ c.confidence ∧ c.confidence < 11 / 10 ∧ c.strategy.length ≤ 31 := by
  apply offer_all_forall (fun x s => 0 ≤ x ∧ x < 11 / 10 ∧ s.length ≤ 31)
  · intro o ho
    have h := strategy_offers_below m query config store o (List.mem_of_mem_take ho)
    refine ⟨h.1, h.2.1, ?_⟩
    unfold copy_field
    rw [List.length_take]
    exact le_trans (min_le_left _ _) (by decide)
  · intro c hc
    rw [hr] at hc
    exact absurd hc (List.not_mem_nil c)

/-- What holds of the selection when the oracle strategy stores nothing: in a result with a
candidate `has_best_candidate` is 1, `best_index` is 0, `selected_strategy` is the strategy of
`items[0]`, `selected_confidence` is the confidence of `items[0]` rendered with three
decimals, and `items[0]` has the maximum confidence; in a result without candidate
`has_best_candidate` is 0, `selected_strategy` is `none` and `selected_confidence` is
`0.00`. -/
theorem match_record_best_quiet (m : Bool) (atof : CStr → ℚ) (reply : Option CStr)
    (raw : CStr) (store : LocationStore) (config : MatcherConfig)
    (hquiet : config.llm_enabled = false ∨ reply = none) :
    (∀ best, (match_record m atof reply raw store config).items.head? = some best →
      (match_record m atof reply raw store config).has_best_candidate = true ∧
      (match_record m atof reply raw store config).best_index = 0 ∧
      (match_record m atof reply raw store config).selected_strategy = best.strategy ∧
      (match_record m atof reply raw store config).selected_confidence =
        format_fixed 3 best.confidence ∧
      (∀ c ∈ (match_record m atof reply raw store config).items,
        c.confidence ≤ best.confidence)) ∧
    ((match_record m atof reply raw store config).items = [] →
      (match_record m atof reply raw store config).has_best_candidate = false ∧
      (match_record m atof reply raw store config).selected_strategy = "none".toList ∧
      (match_record m atof reply raw store config).selected_confidence = "0.00".toList) := by
  refine ⟨?_, (match_record_selection m atof reply raw store config).2⟩
  intro best hbest
  obtain ⟨h1, h2, h3, h4⟩ := (match_record_selection m atof reply raw store config).1 best hbest
  have hmem : best ∈ (match_record m atof reply raw store config).items :=
    List.mem_of_mem_head? hbest
  have hp : (parse_address raw).1 = 0 := by
    by_contra hp
    rw [(match_record_items m atof reply raw store config).1 hp] at hmem
    exact absurd hmem (List.not_mem_nil best)
  have hagg : ∀ c ∈ (aggregate_candidates m atof reply raw store config).items,
      0 ≤ c.confidence ∧ c.confidence < 11 / 10 ∧ c.strategy.length ≤ 31 := by
    rw [aggregate_candidates_offers m atof reply raw store config hquiet]
    have h := strategy_states_below m (parse_address raw).2 config store
      (strategy_offers m (parse_address raw).2 config store).length
      { match_result_init with
        raw_address := copy_field AMS_MAX_LINE_LENGTH raw
        record_components := (parse_address raw).2 } rfl
    rw [List.take_length] at h
    exact h
  have hsub : ∀ c ∈ (match_record m atof reply raw store config).items,
      c ∈ (aggregate_candidates m atof reply raw store config).items := by
    intro c hc
    rw [(match_record_items m atof reply raw store config).2 hp] at hc
    split at hc
    · exact (qsort_candidates_perm _).subset hc
    · exact hc
  obtain ⟨hb0, hb1, hlen⟩ := hagg best (hsub best hmem)
  have hsorted : (match_record m atof reply raw store config).items.Pairwise
      (fun a b => compare_candidates a b ≤ 0) := by
    rw [(match_record_items m atof reply raw store config).2 hp]
    split
    · exact qsort_candidates_sorted _
    · rename_i hl
      exact pairwise_of_length_le_one _ _ hl
  refine ⟨h1, h2, ?_, ?_, ?_⟩
  · rw [h3]
    unfold copy_field
    apply List.take_of_length_le
    have : AMS_MAX_STRATEGY_LENGTH - 1 = 31 := rfl
    omega
  · rw [h4, format_fixed_fits _ hb0 (le_trans (le_of_lt hb1) (by norm_num))]
  · intro c hc
    cases hitems : (match_record m atof reply raw store config).items with
    | nil => rw [hitems] at hc; cases hc
    | cons a rest =>
      rw [hitems] at hbest hc hsorted
      cases hbest
      rcases List.mem_cons.1 hc with hc | hc
      · rw [hc]
      · have := (List.pairwise_cons.1 hsorted).1 c hc
        rcases (compare_candidates_le _ _).1 this with h | ⟨h, _⟩
        · exact le_of_lt h
        · exact le_of_eq h.symm

/-- C23, on the code: the oracle answers with the confidence 1e60, which `atof` reads as the
double nearest to it; `items[0]` then holds that confidence, its rendering with three
decimals has 64 characters, and `selected_confidence`, a field of 64 bytes, holds the first
63 of them only, so that it is not the rendering of the confidence of `items[0]`. -/
theorem selected_confidence_cut :
    round_double (10 ^ 60) = 999999999999999949387135297074018866963645011013410073083904 ∧
    (match_record true (fun text => if text = "1e60".toList then round_double (10 ^ 60) else 0)
        (some "location_id=LOC42 confidence=1e60".toList) "12 N 1st St Denver CO 80202".toList
        denver_catalog oracle_config).items.map (fun c => (c.strategy, c.confidence)) =
      [("llm".toList, round_double (10 ^ 60))] ∧
    (format_fixed 3 (round_double (10 ^ 60))).length = 64 ∧
    (match_record true (fun text => if text = "1e60".toList then round_double (10 ^ 60) else 0)
        (some "location_id=LOC42 confidence=1e60".toList) "12 N 1st St Denver CO 80202".toList
        denver_catalog oracle_config).selected_confidence =
      (format_fixed 3 (round_double (10 ^ 60))).take 63 ∧
    (match_record true (fun text => if text = "1e60".toList then round_double (10 ^ 60) else 0)
        (some "location_id=LOC42 confidence=1e60".toList) "12 N 1st St Denver CO 80202".toList
        denver_catalog oracle_config).selected_confidence ≠
      format_fixed 3 (round_double (10 ^ 60)) := by
  rw [match_record_of_parse _ _ _ _ _ _ (by rw [parse_denver_plain]),
    aggregate_candidates_of_parse _ _ _ _ _ _ _ (by rw [parse_denver_plain]), denver_catalog_eq]
  decide!

/-! ## A call for a new location when the aggregator is full -/

/-- C32: the aggregator is full and the id of the call is not stored.  Every result that
`match_record` passes to `add_candidate` holds only confidences below 1.1, the value from
which the search for the lowest slot starts: these are the results held after any number of
calls of the catalog strategies, the call of the oracle strategy being the last of all (third
part).  For every such result that holds a candidate, let `low` be the first slot with the
lowest stored confidence: a call with a confidence above it overwrites exactly that slot with
the incoming location, confidence, strategy, reason and breakdown, and leaves the count and
every other slot as they are; every other call leaves the result as it is.  A full result
without candidate, which needs the capacity 0, is left as it is. -/
theorem add_candidate_full (result : MatchResult) (location : LocationRecord) (confidence : ℚ)
    (strategy reason : CStr) (breakdown : ScoreBreakdown) (max_candidates : Nat)
    (hfull : result.items.length = min max_candidates MATCHER_MAX_CANDIDATES)
    (hnew : ∀ c ∈ result.items, c.location.location_id ≠ location.location_id)
    (hbelow : ∀ c ∈ result.items, c.confidence < 11 / 10) :
    (result.items ≠ [] →
      ∃ idx low, result.items.get? idx = some low ∧
        (∀ c ∈ result.items, low.confidence ≤ c.confidence) ∧
        (∀ j c, j < idx → result.items.get? j = some c → low.confidence < c.confidence) ∧
        (low.confidence < confidence →
          add_candidate result location confidence strategy reason breakdown max_candidates =
            { result with
              items := result.items.set idx
                { location := location, confidence := confidence,
                  strategy := copy_field AMS_MAX_STRATEGY_LENGTH strategy,
                  reason := copy_field AMS_MAX_REASON_LENGTH reason,
                  breakdown := breakdown } } ∧
          (add_candidate result location confidence strategy reason breakdown
            max_candidates).items.length = result.items.length ∧
          ∀ j, j ≠ idx →
            (add_candidate result location confidence strategy reason breakdown
              max_candidates).items.get? j = result.items.get? j) ∧
        (confidence ≤ low.confidence →
          add_candidate result location confidence strategy reason breakdown max_candidates =
            result)) ∧
    (result.items = [] →
      add_candidate result location confidence strategy reason breakdown max_candidates =
        result) ∧
    (∀ (m : Bool) (raw : CStr) (store : LocationStore) (config : MatcherConfig) (k : Nat),
      ∀ c ∈ (offer_all config.max_candidates
          ((strategy_offers m (parse_address raw).2 config store).take k)
          { match_result_init with
            raw_address := copy_field AMS_MAX_LINE_LENGTH raw
            record_components := (parse_address raw).2 }).items,
        c.confidence < 11 / 10) := by
  have hspec := find_lowest_spec result.items 0 (none, 11 / 10)
  obtain ⟨-, hmin, hcase⟩ := hspec
  have hfields := add_candidate_fields result location confidence strategy reason breakdown
    max_candidates
  have hc : (∃ idx, (find_lowest result.items 0 (none, 11 / 10)).1 = some idx ∧
          (find_lowest result.items 0 (none, 11 / 10)).2 < confidence ∧
          (add_candidate result location confidence strategy reason breakdown
            max_candidates).items =
            result.items.set idx
              { location := location, confidence := confidence,
                strategy := copy_field AMS_MAX_STRATEGY_LENGTH strategy,
                reason := copy_field AMS_MAX_REASON_LENGTH reason, breakdown := breakdown }) ∨
       (((find_lowest result.items 0 (none, 11 / 10)).1 = none ∨
          confidence ≤ (find_lowest result.items 0 (none, 11 / 10)).2) ∧
          (add_candidate result location confidence strategy reason breakdown
            max_candidates).items = result.items) := by
    rcases add_candidate_cases result location confidence strategy reason breakdown
      max_candidates with ⟨idx, old, hget, hid, -, -⟩ | ⟨-, h1, h2, -⟩ | ⟨-, -, h⟩
    · exact absurd hid (hnew old (List.get?_mem hget))
    · exact absurd hfull (ne_of_lt (lt_min h1 h2))
    · exact h
  refine ⟨?_, ?_, ?_⟩
  · intro hne
    obtain ⟨c0, hc0⟩ := List.exists_mem_of_ne_nil _ hne
    rcases hcase with ⟨-, hall⟩ | ⟨k, low, hget, heq, -, hfirst⟩
    · exact absurd (hbelow c0 hc0) (not_lt.2 (hall c0 hc0))
    · rw [heq] at hc hmin
      simp only [Nat.zero_add] at hc
      refine ⟨k, low, hget, hmin, hfirst, ?_, ?_⟩
      · intro hgt
        rcases hc with ⟨idx, hidx, -, hitems⟩ | ⟨hno, -⟩
        · have hk : k = idx := by simpa using hidx
          subst hk
          refine ⟨?_, ?_, ?_⟩
          · rw [hfields, hitems]
          · rw [hitems, List.length_set]
          · intro j hj
            rw [hitems]
            exact getElem?_set_other _ _ _ _ hj
        · rcases hno with hno | hno
          · simp at hno
          · exact absurd hgt (not_lt.2 hno)
      · intro hle
        rcases hc with ⟨idx, -, hlt, -⟩ | ⟨-, hitems⟩
        · exact absurd hlt (not_lt.2 hle)
        · rw [hfields, hitems]
  · intro hnil
    rcases hc with ⟨idx, -, -, hitems⟩ | ⟨-, hitems⟩
    · have hsame : (add_candidate result location confidence strategy reason breakdown
          max_candidates).items = result.items := by
        rw [hitems, hnil]
        rfl
      rw [hfields, hsame]
    · rw [hfields, hitems]
  · intro m raw store config k c hc
    exact (strategy_states_below m (parse_address raw).2 config store k _ rfl c hc).2.1

/-- Witness of `add_candidate_full`: the result holds LOC1 and LOC2, both with 0.5, and the
capacity is 2; a call for LOC3 with 0.75 overwrites the slot of LOC1, the first of the two. -/
theorem add_candidate_full_witness :
    (∃ idx low, tied_result.items.get? idx = some low ∧
      (∀ c ∈ tied_result.items, low.confidence ≤ c.confidence) ∧
      (∀ j c, j < idx → tied_result.items.get? j = some c → low.confidence < c.confidence) ∧
      (low.confidence < 3 / 4 →
        add_candidate tied_result (bare_location "LOC3".toList) (3 / 4) "fuzzy".toList []
            { score := 0, comparisons := [] } 2 =
          { tied_result with
            items := tied_result.items.set idx
              { location := bare_location "LOC3".toList, confidence := 3 / 4,
                strategy := copy_field AMS_MAX_STRATEGY_LENGTH "fuzzy".toList,
                reason := copy_field AMS_MAX_REASON_LENGTH [],
                breakdown := { score := 0, comparisons := [] } } } ∧
        (add_candidate tied_result (bare_location "LOC3".toList) (3 / 4) "fuzzy".toList []
          { score := 0, comparisons := [] } 2).items.length = tied_result.items.length ∧
        ∀ j, j ≠ idx →
          (add_candidate tied_result (bare_location "LOC3".toList) (3 / 4) "fuzzy".toList []
            { score := 0, comparisons := [] } 2).items.get? j = tied_result.items.get? j) ∧
      (3 / 4 ≤ low.confidence →
        add_candidate tied_result (bare_location "LOC3".toList) (3 / 4) "fuzzy".toList []
          { score := 0, comparisons := [] } 2 = tied_result)) ∧
    (add_candidate tied_result (bare_location "LOC3".toList) (3 / 4) "fuzzy".toList []
      { score := 0, comparisons := [] } 2).items =
      [candidate_of (bare_offer "LOC3".toList (3 / 4) "fuzzy".toList),
       candidate_of (bare_offer "LOC2".toList (1 / 2) "fuzzy".toList)] :=
  ⟨(add_candidate_full tied_result (bare_location "LOC3".toList) (3 / 4) "fuzzy".toList []
      { score := 0, comparisons := [] } 2 (by decide) (by decide) (by decide!)).1 (by decide),
    by decide!⟩

/-! ## The slot of one id under a sequence of calls -/

theorem merge_step_ne (location_id : CStr) (slot : Option MatchCandidate) (o : Offer)
    (h : o.location.location_id ≠ location_id) : merge_step location_id slot o = slot := by
  unfold merge_step
  rw [if_neg h]

theorem merge_step_none (o : Offer) :
    merge_step o.location.location_id none o = some (candidate_of o) := by
  unfold merge_step
  rw [if_pos rfl]

theorem merge_step_some (o : Offer) (c : MatchCandidate) :
    merge_step o.location.location_id (some c) o =
      if o.confidence > c.confidence then some { candidate_of o with location := c.location }
      else some c := by
  unfold merge_step
  rw [if_pos rfl]

/-- The fold of `merge_step` gives no candidate exactly when it starts from none and no call
is for the id. -/
theorem foldl_merge_none (location_id : CStr) :
    ∀ (seen : List Offer) (slot : Option MatchCandidate),
      seen.foldl (merge_step location_id) slot = none ↔
        slot = none ∧ ∀ o ∈ seen, o.location.location_id ≠ location_id := by
  intro seen
  induction seen with
  | nil => intro slot; simp
  | cons o rest ih =>
    intro slot
    rw [List.foldl_cons, ih]
    by_cases hq : o.location.location_id = location_id
    · constructor
      · rintro ⟨h, -⟩
        subst hq
        cases slot with
        | none => rw [merge_step_none] at h; cases h
        | some c =>
          rw [merge_step_some] at h
          split_ifs at h
      · rintro ⟨-, h⟩
        exact absurd hq (h o (List.mem_cons_self _ _))
    · rw [merge_step_ne _ _ _ hq]
      constructor
      · rintro ⟨h1, h2⟩
        refine ⟨h1, ?_⟩
        intro o' ho'
        rcases List.mem_cons.1 ho' with rfl | ho'
        · exact hq
        · exact h2 o' ho'
      · rintro ⟨h1, h2⟩
        exact ⟨h1, fun o' ho' => h2 o' (List.mem_cons_of_mem _ ho')⟩

/-- The candidate that the fold of `merge_step` gives carries the confidence of a call for the
id and the location of a call for the id. -/
theorem foldl_merge_some (location_id : CStr) (all : List Offer) :
    ∀ (seen : List Offer) (slot : Option MatchCandidate),
      (∀ o ∈ seen, o ∈ all) →
      (∀ d, slot = some d →
        (∃ o ∈ all, o.location.location_id = location_id ∧ d.confidence = o.confidence) ∧
        (∃ o ∈ all, o.location.location_id = location_id ∧ d.location = o.location)) →
      ∀ d, seen.foldl (merge_step location_id) slot = some d →
        (∃ o ∈ all, o.location.location_id = location_id ∧ d.confidence = o.confidence) ∧
        (∃ o ∈ all, o.location.location_id = location_id ∧ d.location = o.location) := by
  intro seen
  induction seen with
  | nil =>
    intro slot _ hs d hd
    exact hs d hd
  | cons o rest ih =>
    intro slot hsub hs d hd
    rw [List.foldl_cons] at hd
    refine ih (merge_step location_id slot o)
      (fun o' ho' => hsub o' (List.mem_cons_of_mem _ ho')) ?_ d hd
    intro e he
    have ho : o ∈ all := hsub o (List.mem_cons_self _ _)
    by_cases hq : o.location.location_id = location_id
    · subst hq
      cases slot with
      | none =>
        rw [merge_step_none] at he
        cases he
        exact ⟨⟨o, ho, rfl, rfl⟩, ⟨o, ho, rfl, rfl⟩⟩
      | some c =>
        rw [merge_step_some] at he
        split_ifs at he
        · have hloc := (hs c rfl).2
          cases he
          exact ⟨⟨o, ho, rfl, rfl⟩, hloc⟩
        · have hboth := hs c rfl
          cases he
          exact hboth
    · rw [merge_step_ne _ _ _ hq] at he
      exact hs e he

theorem foldl_merge_mem (location_id : CStr) (seen : List Offer) (d : MatchCandidate)
    (h : seen.foldl (merge_step location_id) none = some d) :
    (∃ o ∈ seen, o.location.location_id = location_id ∧ d.confidence = o.confidence) ∧
    (∃ o ∈ seen, o.location.location_id = location_id ∧ d.location = o.location) :=
  foldl_merge_some location_id seen seen none (fun _ ho => ho)
    (fun d hd => by cases hd) d h

theorem foldl_snoc_merge (location_id : CStr) (seen : List Offer) (o : Offer) :
    (seen ++ [o]).foldl (merge_step location_id) none =
      merge_step location_id (seen.foldl (merge_step location_id) none) o := by
  rw [List.foldl_append]
  rfl

/-- One call of `add_candidate` keeps the link between the stored candidates and the fold of
`merge_step`: when every stored candidate is the fold of the calls seen so far for its id,
and every call seen for the id of the new call names the same record, the same holds after
the call. -/
theorem slot_fold_step (r : MatchResult) (o : Offer) (max_candidates : Nat)
    (seen : List Offer)
    (hinv : KeepsBest (min max_candidates MATCHER_MAX_CANDIDATES) seen r.items)
    (hslot : ∀ c ∈ r.items,
      seen.foldl (merge_step c.location.location_id) none = some c)
    (hloc : ∀ o' ∈ seen, o'.location.location_id = o.location.location_id →
      o'.location = o.location) :
    ∀ c ∈ (add_candidate r o.location o.confidence o.strategy o.reason o.breakdown
        max_candidates).items,
      (seen ++ [o]).foldl (merge_step c.location.location_id) none = some c := by
  obtain ⟨hnd, hle, h1, h2, h3, h4⟩ := hinv
  have hkeep : ∀ c ∈ r.items, c.location.location_id ≠ o.location.location_id →
      (seen ++ [o]).foldl (merge_step c.location.location_id) none = some c := by
    intro c hc hne
    rw [foldl_snoc_merge, merge_step_ne _ _ _ (Ne.symm hne)]
    exact hslot c hc
  rcases add_candidate_cases r o.location o.confidence o.strategy o.reason o.breakdown
    max_candidates with ⟨idx, old, hold, hid, -, hitems⟩ | ⟨habs, hlen1, hlen2, hitems⟩ |
    ⟨habs, -, ⟨idx, hlow, hlt, hitems⟩ | ⟨-, hitems⟩⟩
  · have holdmem : old ∈ r.items := List.get?_mem hold
    have hfold : (seen ++ [o]).foldl (merge_step o.location.location_id) none =
        if o.confidence > old.confidence then
          some { candidate_of o with location := old.location }
        else some old := by
      rw [foldl_snoc_merge, ← hid, hslot old holdmem, hid, merge_step_some]
    by_cases hlt : old.confidence < o.confidence
    · rw [if_pos hlt] at hitems
      intro c hc
      rw [hitems, mem_set_of_nodup r.items idx old _ hnd hold] at hc
      rcases hc with rfl | ⟨hc, hne⟩
      · show (seen ++ [o]).foldl (merge_step old.location.location_id) none = _
        rw [hid, hfold, if_pos hlt]
        rfl
      · exact hkeep c hc (fun e => hne (e.trans hid.symm))
    · rw [if_neg hlt] at hitems
      intro c hc
      rw [hitems] at hc
      by_cases hq : c.location.location_id = o.location.location_id
      · have hco : c = old := eq_of_same_id hnd hc holdmem (hq.trans hid.symm)
        subst hco
        rw [hq, hfold, if_neg hlt]
      · exact hkeep c hc hq
  · intro c hc
    rw [hitems] at hc
    rcases List.mem_append.1 hc with hc | hc
    · exact hkeep c hc (habs c hc)
    · rw [List.mem_singleton] at hc
      subst hc
      show (seen ++ [o]).foldl (merge_step o.location.location_id) none = _
      have hnone : seen.foldl (merge_step o.location.location_id) none = none := by
        rw [foldl_merge_none]
        refine ⟨rfl, ?_⟩
        intro o' ho' hq
        obtain ⟨c, hc, hcid⟩ := h4 (lt_min hlen1 hlen2) o' ho'
        exact habs c hc (hcid.trans hq)
      rw [foldl_snoc_merge, hnone, merge_step_none]
      rfl
  · obtain ⟨-, -, hspec⟩ := find_lowest_spec r.items 0 (none, 11 / 10)
    rcases hspec with ⟨hsame, -⟩ | ⟨k, low, hk, hfind, -, -⟩
    · rw [hsame] at hlow
      cases hlow
    · rw [hfind] at hlow hlt
      simp only [Option.some.injEq, zero_add] at hlow
      subst hlow
      have hlowmem : low ∈ r.items := List.get?_mem hk
      intro c hc
      rw [hitems, mem_set_of_nodup r.items k low _ hnd hk] at hc
      rcases hc with rfl | ⟨hc, -⟩
      · show (seen ++ [o]).foldl (merge_step o.location.location_id) none = _
        rw [foldl_snoc_merge]
        cases hs : seen.foldl (merge_step o.location.location_id) none with
        | none =>
          rw [merge_step_none]
          rfl
        | some d =>
          obtain ⟨⟨o1, ho1, hid1, hconf1⟩, ⟨o2, ho2, hid2, hloc2⟩⟩ :=
            foldl_merge_mem _ _ _ hs
          have hdloc : d.location = o.location := hloc2.trans (hloc o2 ho2 hid2)
          have hdlow : d.confidence ≤ low.confidence := by
            rw [hconf1]
            exact h3 o1 ho1 (fun c hc => by rw [hid1]; exact habs c hc) low hlowmem
          rw [merge_step_some, if_pos (lt_of_le_of_lt hdlow hlt), hdloc]
          rfl
      · exact hkeep c hc (habs c hc)
  · intro c hc
    rw [hitems] at hc
    exact hkeep c hc (habs c hc)

/-- After any sequence of calls in which the calls for one id name one record, every stored
candidate is the fold of `merge_step` over the calls for its id, and the invariant
`KeepsBest` holds. -/
theorem keeps_slots (max_candidates : Nat) :
    ∀ (offers seen : List Offer) (r : MatchResult),
      KeepsBest (min max_candidates MATCHER_MAX_CANDIDATES) seen r.items →
      (∀ c ∈ r.items, seen.foldl (merge_step c.location.location_id) none = some c) →
      (∀ o ∈ offers, o.confidence < 11 / 10) →
      (∀ o ∈ seen ++ offers, ∀ o' ∈ seen ++ offers,
        o.location.location_id = o'.location.location_id → o.location = o'.location) →
      KeepsBest (min max_candidates MATCHER_MAX_CANDIDATES) (seen ++ offers)
        (offer_all max_candidates offers r).items ∧
      ∀ c ∈ (offer_all max_candidates offers r).items,
        (seen ++ offers).foldl (merge_step c.location.location_id) none = some c := by
  intro offers
  induction offers with
  | nil =>
    intro seen r h hslot _ _
    rw [List.append_nil]
    exact ⟨h, hslot⟩
  | cons o rest ih =>
    intro seen r h hslot hconf hloc
    have hstep := keeps_best_step r o max_candidates seen h (hconf o (List.mem_cons_self _ _))
    have hslot2 := slot_fold_step r o max_candidates seen h hslot
      (fun o' ho' hq => hloc o' (List.mem_append_left _ ho') o
        (List.mem_append_right _ (List.mem_cons_self _ _)) hq)
    have := ih (seen ++ [o]) _ hstep hslot2
      (fun o' ho' => hconf o' (List.mem_cons_of_mem _ ho'))
      (by rw [List.append_assoc]; exact hloc)
    rw [List.append_assoc] at this
    exact this

/-! ## The calls for the records of a catalog -/

/-- Every call of the catalog strategies names a record of the catalog that at least one
strategy admits. -/
theorem strategy_offers_locations (m : Bool) (query : AddressComponents)
    (config : MatcherConfig) (store : LocationStore) :
    ∀ o ∈ strategy_offers m query config store,
      o.location ∈ store ∧ admitted m query config o.location = true := by
  intro o ho
  unfold strategy_offers at ho
  have key : ∀ (p : LocationRecord → Bool) (f : LocationRecord → Offer),
      (∀ l, (f l).location = l) → (∀ l, p l = true → admitted m query config l = true) →
      o ∈ (store.filter p).map f →
      o.location ∈ store ∧ admitted m query config o.location = true := by
    intro p f hf hp hmem
    obtain ⟨l, hl, rfl⟩ := List.mem_map.1 hmem
    obtain ⟨hl1, hl2⟩ := List.mem_filter.1 hl
    rw [hf]
    exact ⟨hl1, hp l hl2⟩
  rcases List.mem_append.1 ho with ho | ho
  · rcases List.mem_append.1 ho with ho | ho
    · exact key _ _ (fun _ => rfl) (fun l h => by simp [admitted, h]) ho
    · exact key _ _ (fun _ => rfl) (fun l h => by simp [admitted, h]) ho
  · exact key _ _ (fun _ => rfl) (fun l h => by simp [admitted, h]) ho

/-- Every admitted record of the catalog is named by a call. -/
theorem admitted_offered (m : Bool) (query : AddressComponents) (config : MatcherConfig)
    (store : LocationStore) (a : LocationRecord) (ha : a ∈ store)
    (hadm : admitted m query config a = true) :
    ∃ o ∈ strategy_offers m query config store, o.location = a := by
  unfold admitted at hadm
  unfold strategy_offers
  rw [Bool.or_eq_true, Bool.or_eq_true] at hadm
  rcases hadm with (h | h) | h
  · exact ⟨canonical_offer m query a,
      List.mem_append_left _ (List.mem_append_left _
        (List.mem_map.2 ⟨a, List.mem_filter.2 ⟨ha, h⟩, rfl⟩)), rfl⟩
  · exact ⟨structured_offer m query a,
      List.mem_append_left _ (List.mem_append_right _
        (List.mem_map.2 ⟨a, List.mem_filter.2 ⟨ha, h⟩, rfl⟩)), rfl⟩
  · exact ⟨fuzzy_offer m query a,
      List.mem_append_right _ (List.mem_map.2 ⟨a, List.mem_filter.2 ⟨ha, h⟩, rfl⟩), rfl⟩

/-- In a catalog with distinct ids a record is known by its id. -/
theorem eq_of_location_id {store : LocationStore}
    (hnd : (store.map (fun l => l.location_id)).Nodup) {a b : LocationRecord}
    (ha : a ∈ store) (hb : b ∈ store) (h : a.location_id = b.location_id) : a = b :=
  List.inj_on_of_nodup_map hnd ha hb h

theorem filter_id_singleton :
    ∀ (store : LocationStore), (store.map (fun l => l.location_id)).Nodup →
      ∀ a ∈ store, store.filter (fun l => decide (l.location_id = a.location_id)) = [a] := by
  intro store
  induction store with
  | nil => intro _ a ha; exact absurd ha (List.not_mem_nil a)
  | cons b rest ih =>
    intro hnd a ha
    have hnd' := hnd
    rw [List.map_cons, List.nodup_cons] at hnd'
    by_cases hq : b.location_id = a.location_id
    · have hab : b = a :=
        eq_of_location_id hnd (List.mem_cons_self _ _) ha hq
      subst hab
      have hnone : rest.filter (fun l => decide (l.location_id = b.location_id)) = [] := by
        rw [List.filter_eq_nil_iff]
        intro l hl hid
        have hid' : l.location_id = b.location_id := by simpa using hid
        exact hnd'.1 (List.mem_map.2 ⟨l, hl, hid'⟩)
      rw [List.filter_cons_of_pos (by simp), hnone]
    · rw [List.filter_cons_of_neg (by simpa using hq)]
      rcases List.mem_cons.1 ha with rfl | ha
      · exact absurd rfl hq
      · exact ih hnd'.2 a ha

/-- In a catalog with distinct ids, the fold of `merge_step` over all the calls, for the id
of a record of the catalog, is the fold over the calls for this record alone. -/
theorem fold_record_slot (m : Bool) (query : AddressComponents) (config : MatcherConfig)
    (store : LocationStore) (hnd : (store.map (fun l => l.location_id)).Nodup)
    (a : LocationRecord) (ha : a ∈ store) :
    (strategy_offers m query config store).foldl (merge_step a.location_id) none =
      record_slot m query config a := by
  unfold record_slot
  rw [foldl_merge_filter, strategy_offers_filter, filter_id_singleton store hnd a ha]

/-- The best confidence of a record whose slot holds a candidate. -/
theorem best_confidence_of_slot (m : Bool) (query : AddressComponents)
    (config : MatcherConfig) (a : LocationRecord) (c : MatchCandidate)
    (h : record_slot m query config a = some c) :
    best_confidence m query config a = c.confidence := by
  unfold best_confidence
  rw [h]

/-! ## The candidates kept for a catalog -/

/-- The state of the aggregator after the calls of the catalog strategies for a catalog with
distinct ids: the invariant `KeepsBest` holds, every stored candidate is the fold of
`merge_step` over the calls for its id, and the capacity is respected. -/
theorem catalog_state (m : Bool) (query : AddressComponents) (config : MatcherConfig)
    (store : LocationStore) (hnd : (store.map (fun l => l.location_id)).Nodup)
    (r : MatchResult) (hr : r.items = []) :
    KeepsBest (min config.max_candidates MATCHER_MAX_CANDIDATES)
      (strategy_offers m query config store)
      (offer_all config.max_candidates (strategy_offers m query config store) r).items ∧
    (∀ c ∈ (offer_all config.max_candidates (strategy_offers m query config store) r).items,
      (strategy_offers m query config store).foldl (merge_step c.location.location_id) none =
        some c) ∧
    (offer_all config.max_candidates (strategy_offers m query config store) r).items.length ≤
      min config.max_candidates MATCHER_MAX_CANDIDATES := by
  have hinit : KeepsBest (min config.max_candidates MATCHER_MAX_CANDIDATES) [] r.items := by
    rw [hr]
    exact ⟨List.nodup_nil, fun c hc => absurd hc (List.not_mem_nil c),
      fun c hc => absurd hc (List.not_mem_nil c), fun c hc => absurd hc (List.not_mem_nil c),
      fun o ho => absurd ho (List.not_mem_nil o), fun _ o ho => absurd ho (List.not_mem_nil o)⟩
  have hboth := keeps_slots config.max_candidates (strategy_offers m query config store) [] r
    hinit (fun c hc => by rw [hr] at hc; exact absurd hc (List.not_mem_nil c))
    (fun o ho => (strategy_offers_below m query config store o ho).2.1)
    (fun o ho o' ho' hq => by
      rw [List.nil_append] at ho ho'
      exact eq_of_location_id hnd (strategy_offers_locations m query config store o ho).1
        (strategy_offers_locations m query config store o' ho').1 hq)
  rw [List.nil_append] at hboth
  refine ⟨hboth.1, hboth.2, ?_⟩
  exact offer_all_preserves
    (fun r => r.items.length ≤ min config.max_candidates MATCHER_MAX_CANDIDATES)
    config.max_candidates
    (fun r loc conf s rs bd h =>
      add_candidate_length_le r loc conf s rs bd config.max_candidates h)
    _ r (by show r.items.length ≤ _; rw [hr]; exact Nat.zero_le _)

/-- A list of distinct ids that all occur in another list is not longer than it. -/
theorem length_le_of_ids (ids other : List CStr) (hnd : ids.Nodup)
    (hsub : ∀ x ∈ ids, x ∈ other) : ids.length ≤ other.length :=
  (List.subperm_of_subset hnd hsub).length_le

/-- A stored candidate belongs to an admitted record of the catalog, and it is the candidate
that the calls for this record leave. -/
theorem stored_record (m : Bool) (query : AddressComponents) (config : MatcherConfig)
    (store : LocationStore) (hnd : (store.map (fun l => l.location_id)).Nodup)
    (c : MatchCandidate)
    (hc : (strategy_offers m query config store).foldl
      (merge_step c.location.location_id) none = some c) :
    c.location ∈ store ∧ admitted m query config c.location = true ∧
      record_slot m query config c.location = some c := by
  obtain ⟨-, o, ho, -, hloc⟩ := foldl_merge_mem _ _ _ hc
  have hmem := strategy_offers_locations m query config store o ho
  rw [← hloc] at hmem
  exact ⟨hmem.1, hmem.2, by rw [← fold_record_slot m query config store hnd _ hmem.1]; exact hc⟩

/-- The candidates kept for a catalog with distinct ids and no tie at the capacity boundary:
a candidate is stored exactly when it is what the calls for an admitted record leave, and at
most `capacity` admitted records have a best confidence at least that of this record. -/
theorem kept_iff (m : Bool) (query : AddressComponents) (config : MatcherConfig)
    (store : LocationStore) (hnd : (store.map (fun l => l.location_id)).Nodup)
    (hclear : BoundaryClear (min config.max_candidates MATCHER_MAX_CANDIDATES) m query config
      store)
    (r : MatchResult) (hr : r.items = []) (c : MatchCandidate) :
    c ∈ (offer_all config.max_candidates (strategy_offers m query config store) r).items ↔
      ∃ a ∈ store, admitted m query config a = true ∧
        (store.filter (fun b => admitted m query config b &&
          decide (best_confidence m query config a ≤
            best_confidence m query config b))).length ≤
          min config.max_candidates MATCHER_MAX_CANDIDATES ∧
        record_slot m query config a = some c := by
  obtain ⟨⟨hndF, -, -, -, h3, h4⟩, hslot, hlen⟩ := catalog_state m query config store hnd r hr
  have hsubnd : ∀ p : LocationRecord → Bool,
      ((store.filter p).map (fun l => l.location_id)).Nodup :=
    fun p => List.Nodup.sublist ((List.filter_sublist store).map _) hnd
  constructor
  · intro hc
    obtain ⟨ha, hadm, hrec⟩ := stored_record m query config store hnd c (hslot c hc)
    refine ⟨c.location, ha, hadm, ?_, hrec⟩
    have hbest := best_confidence_of_slot m query config _ c hrec
    rcases hclear c.location ha hadm with h | h
    · exact h
    · exfalso
      have hcount := length_le_of_ids
        (c.location.location_id ::
          (store.filter (fun b => admitted m query config b &&
            decide (best_confidence m query config c.location <
              best_confidence m query config b))).map (fun l => l.location_id))
        ((offer_all config.max_candidates (strategy_offers m query config store) r).items.map
          (fun c => c.location.location_id))
        (by
          rw [List.nodup_cons]
          refine ⟨?_, hsubnd _⟩
          intro hmem
          obtain ⟨b, hb, hid⟩ := List.mem_map.1 hmem
          obtain ⟨hb1, hb2⟩ := List.mem_filter.1 hb
          have hba : b = c.location := eq_of_location_id hnd hb1 ha hid
          subst hba
          simp at hb2)
        (by
          intro x hx
          rcases List.mem_cons.1 hx with rfl | hx
          · exact List.mem_map.2 ⟨c, hc, rfl⟩
          · obtain ⟨b, hb, rfl⟩ := List.mem_map.1 hx
            obtain ⟨hb1, hb2⟩ := List.mem_filter.1 hb
            rw [Bool.and_eq_true, decide_eq_true_eq] at hb2
            by_contra hno
            have habs : ∀ c' ∈ (offer_all config.max_candidates
                (strategy_offers m query config store) r).items,
                c'.location.location_id ≠ b.location_id :=
              fun c' hc' e => hno (List.mem_map.2 ⟨c', hc', e⟩)
            obtain ⟨o, ho, hob⟩ := admitted_offered m query config store b hb1 hb2.1
            cases hs : (strategy_offers m query config store).foldl
                (merge_step b.location_id) none with
            | none =>
              rw [foldl_merge_none] at hs
              exact hs.2 o ho (by rw [hob])
            | some d =>
              obtain ⟨⟨o1, ho1, hid1, hconf1⟩, -⟩ := foldl_merge_mem _ _ _ hs
              rw [fold_record_slot m query config store hnd b hb1] at hs
              have hbestb := best_confidence_of_slot m query config b d hs
              have hle := h3 o1 ho1 (fun c' hc' => by rw [hid1]; exact habs c' hc') c hc
              rw [← hconf1, ← hbestb, ← hbest] at hle
              exact absurd hb2.2 (not_lt.2 hle))
      rw [List.length_cons, List.length_map, List.length_map] at hcount
      omega
  · rintro ⟨a, ha, hadm, hcount, hrec⟩
    have hbest := best_confidence_of_slot m query config a c hrec
    have hfold := fold_record_slot m query config store hnd a ha
    rw [hrec] at hfold
    obtain ⟨⟨o1, ho1, hid1, hconf1⟩, -⟩ := foldl_merge_mem _ _ _ hfold
    have hstored : ∃ c' ∈ (offer_all config.max_candidates
        (strategy_offers m query config store) r).items,
        c'.location.location_id = a.location_id := by
      by_contra hno
      have habs : ∀ c' ∈ (offer_all config.max_candidates
          (strategy_offers m query config store) r).items,
          c'.location.location_id ≠ a.location_id :=
        fun c' hc' e => hno ⟨c', hc', e⟩
      have hlow := h3 o1 ho1 (fun c' hc' => by rw [hid1]; exact habs c' hc')
      have hlen2 := length_le_of_ids
        (a.location_id ::
          (offer_all config.max_candidates (strategy_offers m query config store)
            r).items.map (fun c => c.location.location_id))
        ((store.filter (fun b => admitted m query config b &&
          decide (best_confidence m query config a ≤
            best_confidence m query config b))).map (fun l => l.location_id))
        (by
          rw [List.nodup_cons]
          refine ⟨?_, hndF⟩
          intro hmem
          obtain ⟨c', hc', hid⟩ := List.mem_map.1 hmem
          exact habs c' hc' hid)
        (by
          intro x hx
          rcases List.mem_cons.1 hx with rfl | hx
          · exact List.mem_map.2 ⟨a, List.mem_filter.2 ⟨ha, by simp [hadm]⟩, rfl⟩
          · obtain ⟨c', hc', rfl⟩ := List.mem_map.1 hx
            obtain ⟨hb, hbadm, hbrec⟩ :=
              stored_record m query config store hnd c' (hslot c' hc')
            have hb2 := best_confidence_of_slot m query config _ c' hbrec
            refine List.mem_map.2 ⟨c'.location, List.mem_filter.2 ⟨hb, ?_⟩, rfl⟩
            rw [Bool.and_eq_true, decide_eq_true_eq]
            refine ⟨hbadm, ?_⟩
            rw [hb2, hbest, hconf1]
            exact hlow c' hc')
      rw [List.length_cons, List.length_map, List.length_map] at hlen2
      obtain ⟨c', hc', hid⟩ := h4 (by omega) o1 ho1
      exact habs c' hc' (hid.trans hid1)
    obtain ⟨c', hc', hid⟩ := hstored
    have hfold2 := hslot c' hc'
    rw [hid, hfold] at hfold2
    cases hfold2
    exact hc'

/-- The hypothesis `BoundaryClear` does not depend on the order of the catalog. -/
theorem boundary_clear_of_perm (capacity : Nat) (m : Bool) (query : AddressComponents)
    (config : MatcherConfig) (store₁ store₂ : LocationStore) (hperm : store₁.Perm store₂)
    (h : BoundaryClear capacity m query config store₁) :
    BoundaryClear capacity m query config store₂ := by
  intro a ha hadm
  have := h a (hperm.mem_iff.2 ha) hadm
  rw [(hperm.filter _).length_eq, (hperm.filter _).length_eq] at this
  exact this

/-- With distinct ids and no tie at the capacity boundary, two orders of the catalog leave
the same candidates in the aggregator. -/
theorem offer_all_perm (m : Bool) (query : AddressComponents) (config : MatcherConfig)
    (store₁ store₂ : LocationStore) (hperm : store₁.Perm store₂)
    (hnd : (store₁.map (fun l => l.location_id)).Nodup)
    (hclear : BoundaryClear (min config.max_candidates MATCHER_MAX_CANDIDATES) m query config
      store₁)
    (r : MatchResult) (hr : r.items = []) :
    (offer_all config.max_candidates (strategy_offers m query config store₁) r).items.Perm
      (offer_all config.max_candidates (strategy_offers m query config store₂) r).items := by
  have hnd2 : (store₂.map (fun l => l.location_id)).Nodup := ((hperm.map _).nodup_iff).1 hnd
  have hclear2 := boundary_clear_of_perm _ m query config store₁ store₂ hperm hclear
  have hF1 := (catalog_state m query config store₁ hnd r hr).1.1
  have hF2 := (catalog_state m query config store₂ hnd2 r hr).1.1
  rw [List.perm_ext_iff_of_nodup (List.Nodup.of_map _ hF1) (List.Nodup.of_map _ hF2)]
  intro c
  rw [kept_iff m query config store₁ hnd hclear r hr c,
    kept_iff m query config store₂ hnd2 hclear2 r hr c]
  constructor
  · rintro ⟨a, ha, hadm, hcount, hrec⟩
    exact ⟨a, hperm.mem_iff.1 ha, hadm, by rw [← (hperm.filter _).length_eq]; exact hcount,
      hrec⟩
  · rintro ⟨a, ha, hadm, hcount, hrec⟩
    exact ⟨a, hperm.mem_iff.2 ha, hadm, by rw [(hperm.filter _).length_eq]; exact hcount,
      hrec⟩

/-! ## Every order of the catalog -/

theorem parse_elm_record :
    parse_address "12 N ELM ST, DENVER, CO 80202".toList =
      (0, { street_number := "12".toList, street_direction := "N".toList,
            street_name := "ELM".toList, street_suffix := "ST".toList, unit := [],
            city := "DENVER".toList, state := "CO".toList, postal_code := "80202".toList,
            canonical_key := "12|N|ELM|ST|DENVER|CO|80202".toList }) := by
  decide!

theorem elm_catalog_eq :
    elm_catalog =
      [{ location_id := "LOC1".toList, street := "12 N 1ST ST".toList,
         city := "DENVER".toList, state := "CO".toList, postal_code := "80202".toList,
         components :=
          { street_number := "12".toList, street_direction := "N".toList,
            street_name := "FIRST".toList, street_suffix := "ST".toList, unit := [],
            city := "DENVER".toList, state := "CO".toList, postal_code := "80202".toList,
            canonical_key := "12|N|FIRST|ST|DENVER|CO|80202".toList } },
       { location_id := "LOC2".toList, street := "12 N ELM ST".toList,
         city := "DENVER".toList, state := "CO".toList, postal_code := "80202".toList,
         components :=
          { street_number := "12".toList, street_direction := "N".toList,
            street_name := "ELM".toList, street_suffix := "ST".toList, unit := [],
            city := "DENVER".toList, state := "CO".toList, postal_code := "80202".toList,
            canonical_key := "12|N|ELM|ST|DENVER|CO|80202".toList } }] := by
  have h : elm_catalog =
      [{ location_id := "LOC1".toList, street := "12 N 1ST ST".toList,
         city := "DENVER".toList, state := "CO".toList, postal_code := "80202".toList,
         components := (parse_address "12 N 1ST ST, DENVER, CO 80202".toList).2 },
       { location_id := "LOC2".toList, street := "12 N ELM ST".toList,
         city := "DENVER".toList, state := "CO".toList, postal_code := "80202".toList,
         components := (parse_address "12 N ELM ST, DENVER, CO 80202".toList).2 }] := rfl
  rw [h, parse_denver_record, parse_elm_record]

/-- C37, amended: when the oracle strategy stores nothing, because it is disabled or because
its command gives no line, the location ids of the catalog are pairwise distinct, and no tie
lies at the capacity boundary (`BoundaryClear` for the capacity `min max_candidates 16`:
every admitted record has at most that many admitted records with a best confidence at least
its own, itself included, or at least that many with a strictly greater best confidence),
every permutation of the catalog gives the same result of `match_record`: the same
candidates in the same order, and the same selection. -/
theorem match_record_catalog_order (m : Bool) (atof : CStr → ℚ) (reply : Option CStr)
    (raw : CStr) (store₁ store₂ : LocationStore) (config : MatcherConfig)
    (hquiet : config.llm_enabled = false ∨ reply = none) (hperm : store₁.Perm store₂)
    (hids : (store₁.map (fun l => l.location_id)).Nodup)
    (hclear : BoundaryClear (min config.max_candidates MATCHER_MAX_CANDIDATES) m
      (parse_address raw).2 config store₁) :
    match_record m atof reply raw store₁ config =
      match_record m atof reply raw store₂ config := by
  by_cases hp : (parse_address raw).1 = 0
  · have hitems : (aggregate_candidates m atof reply raw store₁ config).items.Perm
        (aggregate_candidates m atof reply raw store₂ config).items := by
      rw [aggregate_candidates_offers m atof reply raw store₁ config hquiet,
        aggregate_candidates_offers m atof reply raw store₂ config hquiet]
      exact offer_all_perm m (parse_address raw).2 config store₁ store₂ hperm hids hclear _ rfl
    have hnd1 := aggregate_candidates_nodup m atof reply raw store₁ config
    rw [match_record_of_parse _ _ _ _ _ _ hp, match_record_of_parse _ _ _ _ _ _ hp]
    apply select_best_congr
    · rw [aggregate_candidates_offers m atof reply raw store₁ config hquiet,
        aggregate_candidates_offers m atof reply raw store₂ config hquiet,
        offer_all_fields, offer_all_fields config.max_candidates
          (strategy_offers m (parse_address raw).2 config store₂)]
    · by_cases hlen : 1 < (aggregate_candidates m atof reply raw store₁ config).items.length
      · rw [if_pos hlen, if_pos (by rw [← hitems.length_eq]; exact hlen)]
        exact qsort_candidates_of_perm _ _ hitems hnd1
      · rw [if_neg hlen, if_neg (by rw [← hitems.length_eq]; exact hlen)]
        exact eq_of_perm_of_short _ _ hitems hlen
  · rw [match_record_of_failure _ _ _ _ _ _ hp, match_record_of_failure _ _ _ _ _ _ hp]

/-- Witness of `match_record_catalog_order` at a binding capacity: with `AMS_MAX_CANDIDATES=1`
both records of `elm_catalog` are admitted for `12 N 1st St Denver CO 80202`, LOC2 with a
best confidence below that of LOC1, and both orders of the catalog give the same result, the
single candidate LOC1 of the fuzzy strategy. -/
theorem match_record_catalog_order_witness :
    single_config.max_candidates = 1 ∧
    elm_catalog.map
        (fun l => (l.location_id,
          admitted true (parse_address "12 N 1st St Denver CO 80202".toList).2 single_config l)) =
      [("LOC1".toList, true), ("LOC2".toList, true)] ∧
    elm_catalog.Pairwise
      (fun a b =>
        best_confidence true (parse_address "12 N 1st St Denver CO 80202".toList).2
            single_config b <
          best_confidence true (parse_address "12 N 1st St Denver CO 80202".toList).2
            single_config a) ∧
    (match_record true (fun _ => 0) none "12 N 1st St Denver CO 80202".toList
        elm_catalog single_config).items.map
        (fun c => (c.location.location_id, c.strategy)) =
      [("LOC1".toList, "fuzzy".toList)] ∧
    match_record true (fun _ => 0) none "12 N 1st St Denver CO 80202".toList
        elm_catalog single_config =
      match_record true (fun _ => 0) none "12 N 1st St Denver CO 80202".toList
        elm_catalog.reverse single_config := by
  refine ⟨by decide!, ?_, ?_, ?_, ?_⟩
  · rw [parse_denver_plain, elm_catalog_eq]
    decide!
  · rw [parse_denver_plain, elm_catalog_eq]
    decide!
  · rw [match_record_of_parse _ _ _ _ _ _ (by rw [parse_denver_plain]),
      aggregate_candidates_of_parse _ _ _ _ _ _ _ (by rw [parse_denver_plain]), elm_catalog_eq]
    decide!
  · exact match_record_catalog_order true (fun _ => 0) none
      "12 N 1st St Denver CO 80202".toList elm_catalog elm_catalog.reverse single_config
      (Or.inr rfl) (List.reverse_perm _).symm
      (by rw [elm_catalog_eq]; decide)
      (by
        rw [parse_denver_plain, elm_catalog_eq]
        unfold BoundaryClear
        decide!)

end AMS
